import Mathlib

/-! # Foreign-key joins: a verification development for `parse_fkjoin.c`

A shallow embedding of the foreign-key-join analyzer of
`src/backend/parser/parse_fkjoin.c` and theorems about it.

Conventions of the embedding.

* C functions that can raise an error (`ereport(ERROR, ...)`, `elog(ERROR, ...)`)
  return `Except Fault α`.  `Fault.ereport` carries the reported error,
  `Fault.undefined_behaviour` stands for an access the C code performs without a
  check and that is out of bounds or fails an `Assert`/`castNode` (`list_nth` past
  the end, array index out of range, `NULL` dereference), and
  `Fault.out_of_fuel` is the embedding's own answer when the recursion budget of
  a recursive function is exhausted.
* Recursive functions that follow views, subqueries and CTEs take a `fuel`
  argument and recurse structurally on it.
* Output parameters (`List **`, `bool *`) become components of the returned value.
* C `int`, `Index` and `AttrNumber` values are `Int`; `Oid` is `Nat`.
-/

namespace FkJoin

/-! ## Errors -/

/-- The SQLSTATE classes used by `parse_fkjoin.c`; `INTERNAL_ERROR` is the code of `elog(ERROR, ...)`. -/
inductive SqlState where
  | UNDEFINED_TABLE
  | INVALID_FOREIGN_KEY
  | AMBIGUOUS_COLUMN
  | UNDEFINED_COLUMN
  | UNDEFINED_OBJECT
  | FEATURE_NOT_SUPPORTED
  | INTERNAL_ERROR
  deriving DecidableEq, Repr

/-- An argument substituted into an error message format. -/
inductive ErrArg where
  | str (s : String)
  | num (n : Int)
  deriving DecidableEq, Repr

/-- The data of one `ereport(ERROR, ...)`: code, message format with its arguments,
optional detail, and the argument of `parser_errposition` when there is one. -/
structure ErrorData where
  sqlerrcode : SqlState
  message : String
  args : List ErrArg := []
  detail : Option String := none
  cursorpos : Option Int := none
  deriving DecidableEq, Repr

/-- Ways in which an embedded function can fail to return. -/
inductive Fault where
  | ereport (e : ErrorData)
  | undefined_behaviour
  | out_of_fuel
  deriving DecidableEq, Repr

/-- The `elog(ERROR, fmt, ...)` of the source: an internal error without position. -/
def elog_error {α : Type} (fmt : String) (args : List ErrArg) : Except Fault α :=
  .error (.ereport { sqlerrcode := .INTERNAL_ERROR, message := fmt, args := args })

/-! ## Data model -/

abbrev Oid := Nat

def InvalidOid : Oid := 0

/-- Modelled from the spec: the declaration of `RTEId` is not part of the sources at hand;
it is an identity token of a range-table entry compared structurally by `equal()`. -/
abbrev RTEId := Nat

inductive ForeignKeyDirection where
  | FKDIR_FROM
  | FKDIR_TO
  deriving DecidableEq, Repr

inductive JoinType where
  | JOIN_INNER
  | JOIN_LEFT
  | JOIN_FULL
  | JOIN_RIGHT
  | JOIN_SEMI
  | JOIN_ANTI
  deriving DecidableEq, Repr

inductive CmdType where
  | CMD_UNKNOWN
  | CMD_SELECT
  | CMD_UPDATE
  | CMD_INSERT
  | CMD_DELETE
  | CMD_MERGE
  | CMD_UTILITY
  deriving DecidableEq, Repr

inductive RTEKind where
  | RTE_RELATION
  | RTE_SUBQUERY
  | RTE_JOIN
  | RTE_FUNCTION
  | RTE_TABLEFUNC
  | RTE_VALUES
  | RTE_CTE
  | RTE_NAMEDTUPLESTORE
  | RTE_RESULT
  | RTE_GROUP
  deriving DecidableEq, Repr

inductive RelKind where
  | RELKIND_RELATION
  | RELKIND_INDEX
  | RELKIND_SEQUENCE
  | RELKIND_TOASTVALUE
  | RELKIND_VIEW
  | RELKIND_MATVIEW
  | RELKIND_COMPOSITE_TYPE
  | RELKIND_FOREIGN_TABLE
  | RELKIND_PARTITIONED_TABLE
  | RELKIND_PARTITIONED_INDEX
  deriving DecidableEq, Repr

/-- The fields of a `Var` node. -/
structure Var where
  varno : Int
  varattno : Int
  vartype : Oid := 0
  vartypmod : Int := -1
  varcollid : Oid := 0
  varlevelsup : Nat := 0
  location : Int := -1
  deriving DecidableEq, Repr

inductive BoolExprType where
  | AND_EXPR
  | OR_EXPR
  | NOT_EXPR
  deriving DecidableEq, Repr

/-- Expression nodes, as far as the analyzer distinguishes them: a `Var`, the two raw
nodes built for the ON clause (`A_Expr` of kind `AEXPR_OP`, `BoolExpr`), and `Other`
for every other node tag. -/
inductive Node where
  | Var (v : Var)
  | A_Expr (name : String) (lexpr rexpr : Node) (location : Int)
  | BoolExpr (boolop : BoolExprType) (args : List Node) (location : Int)
  | Other

/-- The `exprLocation` of the nodes the analyzer asks it for. -/
def exprLocation : Node → Int
  | .Var v => v.location
  | .A_Expr _ _ _ loc => loc
  | .BoolExpr _ _ loc => loc
  | .Other => -1

structure TargetEntry where
  expr : Node
  resname : Option String := none
  ressortgroupref : Nat := 0

structure SortGroupClause where
  tleSortGroupRef : Nat
  deriving DecidableEq, Repr

/-- The raw `ForeignKeyClause` the grammar attaches to a join. -/
structure ForeignKeyClause where
  fkdir : ForeignKeyDirection
  refAlias : String
  refCols : List String
  localCols : List String
  location : Int
  deriving DecidableEq, Repr

/-- The resolved `ForeignKeyJoinNode` stamped by the validator. -/
structure ForeignKeyJoinNode where
  fkdir : ForeignKeyDirection
  referencingVarno : Int
  referencingAttnums : List Int
  referencedVarno : Int
  referencedAttnums : List Int
  constraint : Oid
  deriving DecidableEq, Repr

/-- What `JoinExpr.fkJoin` points to when it is not `NULL`. -/
inductive FkJoinField where
  | clause (c : ForeignKeyClause)
  | node (n : ForeignKeyJoinNode)
  deriving DecidableEq, Repr

/-- Join-tree nodes: `RangeTblRef`, `JoinExpr`, and `Other` for any other node tag. -/
inductive JoinTree where
  | RangeTblRef (rtindex : Int)
  | JoinExpr (jointype : JoinType) (larg rarg : JoinTree) (fkJoin : Option FkJoinField)
      (quals : Option Node)
  | Other

/-- The join node handed to the validator. -/
structure JoinExpr where
  jointype : JoinType
  larg : JoinTree
  rarg : JoinTree
  fkJoin : Option FkJoinField
  quals : Option Node := none

structure FromExpr where
  fromlist : List JoinTree
  quals : Option Node := none

/-- The members of `Query` that hold no range-table entry and no CTE. -/
structure QueryFields where
  commandType : CmdType := .CMD_SELECT
  jointree : Option FromExpr := none
  targetList : List TargetEntry := []
  havingQual : Option Node := none
  limitOffset : Option Node := none
  limitCount : Option Node := none
  groupClause : List SortGroupClause := []
  distinctClause : List SortGroupClause := []
  groupingSets : List Node := []
  setOperations : Option Node := none
  hasTargetSRFs : Bool := false

/-- The members of `RangeTblEntry` that hold no query. -/
structure RteFields where
  rtekind : RTEKind
  relid : Oid := InvalidOid
  rteid : RTEId
  aliasname : Option String := none
  joinaliasvars : List Node := []
  groupexprs : List Node := []
  ctename : String := ""
  ctelevelsup : Nat := 0

mutual
/-- A `Query`: its scalar members, its range table and its CTE list. -/
inductive Query where
  | mk (fields : QueryFields) (rtable : List RangeTblEntry) (cteList : List CommonTableExpr)
/-- A `RangeTblEntry`: its scalar members and the `subquery` pointer. -/
inductive RangeTblEntry where
  | mk (fields : RteFields) (subquery : Option Query)
/-- A `CommonTableExpr`; `ctequery` is `none` when the node it points to is not a `Query`. -/
inductive CommonTableExpr where
  | mk (ctename : String) (cterecursive : Bool) (ctequery : Option Query)
end

def Query.fields : Query → QueryFields
  | .mk f _ _ => f

def Query.rtable : Query → List RangeTblEntry
  | .mk _ rt _ => rt

def Query.cteList : Query → List CommonTableExpr
  | .mk _ _ c => c

def RangeTblEntry.fields : RangeTblEntry → RteFields
  | .mk f _ => f

def RangeTblEntry.subquery : RangeTblEntry → Option Query
  | .mk _ q => q

def RangeTblEntry.rtekind (r : RangeTblEntry) : RTEKind := r.fields.rtekind

def RangeTblEntry.relid (r : RangeTblEntry) : Oid := r.fields.relid

def RangeTblEntry.rteid (r : RangeTblEntry) : RTEId := r.fields.rteid

def CommonTableExpr.ctename : CommonTableExpr → String
  | .mk n _ _ => n

def CommonTableExpr.cterecursive : CommonTableExpr → Bool
  | .mk _ r _ => r

def CommonTableExpr.ctequery : CommonTableExpr → Option Query
  | .mk _ _ q => q

/-- The enclosing-query chain `QueryStack`, innermost query first (`NULL` is `[]`). -/
abbrev QueryStack := List Query

/-! ## Catalog -/

/-- A `pg_index` row; `indnatts` is the length of `indkey`. -/
structure IndexInfo where
  indisunique : Bool
  indkey : List Int
  deriving DecidableEq, Repr

def IndexInfo.indnatts (i : IndexInfo) : Nat := i.indkey.length

/-- What `table_open` gives access to: `rd_rel` members, the view rule's query, the
index list, and the `attnotnull` flags of the tuple descriptor. -/
structure RelInfo where
  relname : String := ""
  relkind : RelKind
  relrowsecurity : Bool := false
  viewQuery : Option Query := none
  indexlist : List IndexInfo := []
  attnotnull : List Bool := []

inductive ConType where
  | CONSTRAINT_CHECK
  | CONSTRAINT_FOREIGN
  | CONSTRAINT_NOTNULL
  | CONSTRAINT_PRIMARY
  | CONSTRAINT_UNIQUE
  deriving DecidableEq, Repr

/-- A `pg_constraint` row; `conkey`/`confkey` are `none` when the attribute is null. -/
structure ConstraintRow where
  oid : Oid
  conrelid : Oid
  contype : ConType
  confrelid : Oid
  conkey : Option (List Int)
  confkey : Option (List Int)
  deriving DecidableEq, Repr

/-- The catalog state seen by one analysis: relations by OID and `pg_constraint` in
scan order. -/
structure Catalog where
  relations : Oid → Option RelInfo
  constraints : List ConstraintRow

/-! ## Parse state and namespace -/

structure ParseNamespaceColumn where
  p_varno : Int
  p_varattno : Int
  p_vartype : Oid := 0
  p_vartypmod : Int := -1
  p_varcollid : Oid := 0
  deriving DecidableEq, Repr

/-- A `ParseNamespaceItem`; `aliasname` and `colnames` are the members of `p_names`. -/
structure ParseNamespaceItem where
  aliasname : String
  colnames : List String
  p_rtindex : Int
  p_nscolumns : List ParseNamespaceColumn
  p_rel_visible : Bool := true
  deriving DecidableEq, Repr

/-- The `ParseState` members the analyzer reads: the range table and, for `GetCTEForRTE`,
the CTE namespaces of this parse state and of its ancestors (this level first).  The two
host services applied to the generated ON clause, `transformExpr` in `EXPR_KIND_JOIN_ON`
context and `coerce_to_boolean`, are carried along as functions. -/
structure ParseState where
  p_rtable : List RangeTblEntry
  p_ctenamespaces : List (List CommonTableExpr) := [[]]
  transformExpr : Node → Except ErrorData Node := fun n => .ok n
  coerce_to_boolean : Node → Except ErrorData Node := fun n => .ok n

/-! ## List and catalog access -/

/-- The `list_nth(list, n)` of the host: out of range is an assertion failure. -/
def list_nth {α : Type} (l : List α) (n : Int) : Except Fault α :=
  if n < 0 then .error .undefined_behaviour
  else match l[n.toNat]? with
    | some a => .ok a
    | none => .error .undefined_behaviour

/-- The macro `rt_fetch(rangetable_index, rangetable)`: `list_nth(rangetable, index - 1)`. -/
def rt_fetch (rangetable_index : Int) (rangetable : List RangeTblEntry) :
    Except Fault RangeTblEntry :=
  list_nth rangetable (rangetable_index - 1)

/-- The host's `table_open(relid, AccessShareLock)`: an unknown OID is an error. -/
def table_open (cat : Catalog) (relid : Oid) : Except Fault RelInfo :=
  match cat.relations relid with
  | some rel => .ok rel
  | none => elog_error "could not open relation with OID %u" [.num relid]

/-- The host's `get_view_query(rel)`: the query of the view's `_RETURN` rule. -/
def get_view_query (rel : RelInfo) : Except Fault Query :=
  match rel.viewQuery with
  | some q => .ok q
  | none => elog_error "failed to find _RETURN rule for view" []

/-- The host's `get_rel_name(relid)`, used in messages only. -/
def get_rel_name (cat : Catalog) (relid : Oid) : String :=
  match cat.relations relid with
  | some rel => rel.relname
  | none => ""

/-! ## Catalog probe: `find_foreign_key` -/

/-- The inner `forboth` loop of `find_foreign_key`: `match` becomes true when some position
`j` of the two supplied lists has `referencing_attnums[j] = ck` and
`referenced_attnums[j] = cfk`. -/
def fk_pair_listed : List Int → List Int → Int → Int → Bool
  | a :: as, b :: bs, ck, cfk =>
      (decide (a = ck) && decide (b = cfk)) || fk_pair_listed as bs ck cfk
  | _, _, _, _ => false

/-- The loop `for (i = 0; i < nkeys && found; i++)` of `find_foreign_key` over the
constraint's `(conkey[i], confkey[i])`. -/
def fk_all_pairs_listed (referencing_attnums referenced_attnums : List Int) :
    List Int → List Int → Bool
  | ck :: cks, cfk :: cfks =>
      fk_pair_listed referencing_attnums referenced_attnums ck cfk &&
        fk_all_pairs_listed referencing_attnums referenced_attnums cks cfks
  | _, _ => true

/-- The test the body of the scan loop of `find_foreign_key` applies to one
`pg_constraint` row: not skipped by any `continue`, and `found` still true after the
pair loop. -/
def fk_row_matches (referenced_relid : Oid) (referencing_attnums referenced_attnums : List Int)
    (con : ConstraintRow) : Bool :=
  if con.contype ≠ .CONSTRAINT_FOREIGN ∨ con.confrelid ≠ referenced_relid then false
  else match con.conkey, con.confkey with
    | some conkey, some confkey =>
        if conkey.length ≠ confkey.length ∨ conkey.length ≠ referencing_attnums.length then false
        else fk_all_pairs_listed referencing_attnums referenced_attnums conkey confkey
    | _, _ => false

/-- The `while` loop of `find_foreign_key` over the rows the index scan returns. -/
def find_foreign_key_scan (referenced_relid : Oid)
    (referencing_attnums referenced_attnums : List Int) : List ConstraintRow → Oid
  | [] => InvalidOid
  | con :: rest =>
      if fk_row_matches referenced_relid referencing_attnums referenced_attnums con then con.oid
      else find_foreign_key_scan referenced_relid referencing_attnums referenced_attnums rest

/-- The function `find_foreign_key`: the index scan on `conrelid = referencing_relid`
yields the rows of `pg_constraint` with that `conrelid`, in catalog order. -/
def find_foreign_key (cat : Catalog) (referencing_relid referenced_relid : Oid)
    (referencing_attnums referenced_attnums : List Int) : Oid :=
  find_foreign_key_scan referenced_relid referencing_attnums referenced_attnums
    (cat.constraints.filter (fun con => decide (con.conrelid = referencing_relid)))

/-- The function `column_list_to_string`: the names separated by a comma and a blank. -/
def column_list_to_string : List String → String
  | [] => ""
  | [name] => name
  | name :: rest => name ++ ", " ++ column_list_to_string rest

/-! ## Catalog probe: uniqueness and NOT NULL -/

/-- A `Bitmapset` of non-negative members, kept as the list of members added. -/
abbrev Bitmapset := List Nat

/-- The host's `bms_add_member`: a negative member is an error. -/
def bms_add_member (a : Bitmapset) (x : Int) : Except Fault Bitmapset :=
  if x < 0 then elog_error "negative bitmapset member not allowed" []
  else .ok (a ++ [x.toNat])

/-- The host's `bms_is_subset(a, b)`: every member of `a` is a member of `b`. -/
def bms_is_subset (a b : Bitmapset) : Bool :=
  a.all (fun x => decide (x ∈ b))

/-- The host's `bms_is_empty`. -/
def bms_is_empty (a : Bitmapset) : Bool := a.isEmpty

/-- The `for (j ...)` loop of `check_unique_index_covers_columns`: the positive entries of
`indkey` (expression columns, entry 0, are skipped). -/
def index_cols_of (indkey : List Int) : Bitmapset :=
  (indkey.filter (fun attnum => decide (attnum > 0))).map Int.toNat

/-- The `foreach` over the index list in `check_unique_index_covers_columns`. -/
def check_unique_index_covers_columns_scan (columns : Bitmapset) : List IndexInfo → Bool
  | [] => false
  | indexForm :: rest =>
      if !indexForm.indisunique then check_unique_index_covers_columns_scan columns rest
      else if bms_is_subset columns (index_cols_of indexForm.indkey) then true
      else check_unique_index_covers_columns_scan columns rest

/-- The function `check_unique_index_covers_columns`. -/
def check_unique_index_covers_columns (rel : RelInfo) (columns : Bitmapset) : Bool :=
  check_unique_index_covers_columns_scan columns rel.indexlist

/-- The `foreach` over the index list in `is_referencing_cols_unique`: a unique index with
as many attributes as columns requested, each requested column being one of its entries. -/
def is_referencing_cols_unique_scan (referencing_base_attnums : List Int) :
    List IndexInfo → Bool
  | [] => false
  | indexForm :: rest =>
      if !indexForm.indisunique then is_referencing_cols_unique_scan referencing_base_attnums rest
      else if referencing_base_attnums.length ≠ indexForm.indnatts then
        is_referencing_cols_unique_scan referencing_base_attnums rest
      else if referencing_base_attnums.all (fun attnum => decide (attnum ∈ indexForm.indkey)) then
        true
      else is_referencing_cols_unique_scan referencing_base_attnums rest

/-- The function `is_referencing_cols_unique`. -/
def is_referencing_cols_unique (cat : Catalog) (referencing_relid : Oid)
    (referencing_base_attnums : List Int) : Except Fault Bool := do
  let rel ← table_open cat referencing_relid
  pure (is_referencing_cols_unique_scan referencing_base_attnums rel.indexlist)

/-- The `foreach` of `is_referencing_cols_not_null` over the attribute numbers, reading
`TupleDescAttr(tupdesc, attnum - 1)->attnotnull` and stopping at the first nullable column. -/
def is_referencing_cols_not_null_scan (attnotnull : List Bool) : List Int → Except Fault Bool
  | [] => .ok true
  | attnum :: rest => do
      let notnull ← list_nth attnotnull (attnum - 1)
      if !notnull then pure false
      else is_referencing_cols_not_null_scan attnotnull rest

/-- The function `is_referencing_cols_not_null`. -/
def is_referencing_cols_not_null (cat : Catalog) (referencing_relid : Oid)
    (referencing_base_attnums : List Int) : Except Fault Bool := do
  let rel ← table_open cat referencing_relid
  is_referencing_cols_not_null_scan rel.attnotnull referencing_base_attnums

/-! ## Property tracker -/

/-- The function `update_uniqueness_preservation`; `NIL` is the empty list, `list_copy`
gives a list with the same members in the same order, and `list_concat` appends. -/
def update_uniqueness_preservation (referencing_uniqueness_preservation
    referenced_uniqueness_preservation : List RTEId) (fk_cols_unique : Bool) : List RTEId :=
  let result : List RTEId := []
  let result :=
    if referencing_uniqueness_preservation ≠ [] then referencing_uniqueness_preservation
    else result
  let result :=
    if fk_cols_unique = true ∧ referenced_uniqueness_preservation ≠ [] then
      result ++ referenced_uniqueness_preservation
    else result
  result

/-- The scan `for (i = 0; i < list_length(fds); i += 2)` looking for the pair `(id, id)`
at positions `i`, `i + 1`, with `break` at the first hit; reading position `i + 1` past
the end of a list of odd length is an out-of-bounds `list_nth`. -/
def fds_has_self_dep (id : RTEId) : List RTEId → Except Fault Bool
  | [] => .ok false
  | [_] => .error .undefined_behaviour
  | det :: dep :: rest =>
      if det = id ∧ dep = id then .ok true else fds_has_self_dep id rest

/-- The inner loop of step 5 of `update_functional_dependencies`: append to `result` every
pair of `referencing_fds` whose determinant equals `referencing_det`. -/
def fds_append_with_det (referencing_det : RTEId) :
    List RTEId → List RTEId → Except Fault (List RTEId)
  | [], result => .ok result
  | [_], _ => .error .undefined_behaviour
  | source_det :: source_dep :: rest, result =>
      if source_det = referencing_det then
        fds_append_with_det referencing_det rest (result ++ [source_det, source_dep])
      else fds_append_with_det referencing_det rest result

/-- The outer loop of step 5 of `update_functional_dependencies`; `all_fds` is the whole of
`referencing_fds`, the third argument the part not yet visited. -/
def fds_carry_forward (referencing_id : RTEId) (all_fds : List RTEId) :
    List RTEId → List RTEId → Except Fault (List RTEId)
  | [], result => .ok result
  | [_], _ => .error .undefined_behaviour
  | referencing_det :: referencing_dep :: rest, result =>
      if referencing_dep = referencing_id then do
        let result ← fds_append_with_det referencing_det all_fds result
        fds_carry_forward referencing_id all_fds rest result
      else fds_carry_forward referencing_id all_fds rest result

/-- The inner loop of step 6 of `update_functional_dependencies`: append `(referencing_det,
dep)` for every pair `(referenced_id, dep)` of `referenced_fds`. -/
def fds_append_transitive (referencing_det referenced_id : RTEId) :
    List RTEId → List RTEId → Except Fault (List RTEId)
  | [], result => .ok result
  | [_], _ => .error .undefined_behaviour
  | referenced_det :: referenced_dep :: rest, result =>
      if referenced_det = referenced_id then
        fds_append_transitive referencing_det referenced_id rest
          (result ++ [referencing_det, referenced_dep])
      else fds_append_transitive referencing_det referenced_id rest result

/-- The outer loop of step 6 of `update_functional_dependencies`. -/
def fds_transitive (referencing_id referenced_id : RTEId) (referenced_fds : List RTEId) :
    List RTEId → List RTEId → Except Fault (List RTEId)
  | [], result => .ok result
  | [_], _ => .error .undefined_behaviour
  | referencing_det :: referencing_dep :: rest, result =>
      if referencing_dep = referencing_id then do
        let result ← fds_append_transitive referencing_det referenced_id referenced_fds result
        fds_transitive referencing_id referenced_id referenced_fds rest result
      else fds_transitive referencing_id referenced_id referenced_fds rest result

/-- The function `update_functional_dependencies`; the lists are flat, determinant and
dependent alternating. -/
def update_functional_dependencies (referencing_fds : List RTEId) (referencing_id : RTEId)
    (referenced_fds : List RTEId) (referenced_id : RTEId) (fk_cols_not_null : Bool)
    (join_type : JoinType) (fk_dir : ForeignKeyDirection) : Except Fault (List RTEId) := do
  let result : List RTEId := []
  let referencing_preserved_due_to_outer_join : Bool :=
    decide ((fk_dir = .FKDIR_FROM ∧ join_type = .JOIN_LEFT) ∨
      (fk_dir = .FKDIR_TO ∧ join_type = .JOIN_RIGHT) ∨ join_type = .JOIN_FULL)
  let result := if referencing_preserved_due_to_outer_join then result ++ referencing_fds
    else result
  let result :=
    if (fk_dir = .FKDIR_TO ∧ join_type = .JOIN_LEFT) ∨
      (fk_dir = .FKDIR_FROM ∧ join_type = .JOIN_RIGHT) ∨ join_type = .JOIN_FULL
    then result ++ referenced_fds else result
  if !fk_cols_not_null then pure result
  else do
    let referenced_has_self_dep ← fds_has_self_dep referenced_id referenced_fds
    if !referenced_has_self_dep then pure result
    else do
      let result ←
        if !referencing_preserved_due_to_outer_join then
          fds_carry_forward referencing_id referencing_fds referencing_fds result
        else pure result
      fds_transitive referencing_id referenced_id referenced_fds referencing_fds result

/-! ## CTE lookup -/

/-- The search of a CTE list by name (`strcmp(cte->ctename, rte->ctename) == 0`). -/
def cte_by_name (ctename : String) : List CommonTableExpr → Option CommonTableExpr
  | [] => none
  | cte :: rest => if cte.ctename = ctename then some cte else cte_by_name ctename rest

/-- Modelled from the spec: `GetCTEForRTE` lives in the host's `parse_relation.c`, which is
not part of the sources at hand.  It walks `rte->ctelevelsup + rtelevelsup` parse states
up (an error when there are not that many) and searches that level's CTE namespace by
name. -/
def GetCTEForRTE (pstate : ParseState) (rte : RangeTblEntry) (rtelevelsup : Int) :
    Except Fault CommonTableExpr :=
  let levelsup : Int := (rte.fields.ctelevelsup : Int) + rtelevelsup
  match pstate.p_ctenamespaces.drop levelsup.toNat with
  | [] => elog_error "bad levelsup for CTE \"%s\"" [.str rte.fields.ctename]
  | ns :: _ =>
      match cte_by_name rte.fields.ctename ns with
      | some cte => .ok cte
      | none => elog_error "could not find CTE \"%s\"" [.str rte.fields.ctename]

/-- The loop of `find_cte_for_rte` over the query stack, `levelsup` counting down; when
the stack is exhausted the lookup continues in the parse state. -/
def find_cte_for_rte_walk (pstate : ParseState) (rte : RangeTblEntry) :
    Nat → QueryStack → Except Fault CommonTableExpr
  | levelsup, [] => GetCTEForRTE pstate rte ((levelsup : Int) - (rte.fields.ctelevelsup : Int))
  | 0, qs :: _ =>
      match cte_by_name rte.fields.ctename qs.cteList with
      | some cte => .ok cte
      | none => elog_error "could not find CTE \"%s\"" [.str rte.fields.ctename]
  | levelsup + 1, _ :: parent => find_cte_for_rte_walk pstate rte levelsup parent

/-- The function `find_cte_for_rte`. -/
def find_cte_for_rte (pstate : ParseState) (query_stack : QueryStack) (rte : RangeTblEntry) :
    Except Fault CommonTableExpr :=
  find_cte_for_rte_walk pstate rte rte.fields.ctelevelsup query_stack

/-! ## Drill-down resolver -/

/-- The error raised for an unsupported relation kind or RTE kind in the drill-down. -/
def err_relation_not_supported (detail : Option String) (location : Int) : Fault :=
  .ereport { sqlerrcode := .FEATURE_NOT_SUPPORTED,
             message := "foreign key joins involving this type of relation are not supported",
             detail := detail, cursorpos := some location }

/-- The error "all key columns must belong to the same table" at a given position. -/
def err_not_same_table (position : Int) : Fault :=
  .ereport { sqlerrcode := .UNDEFINED_TABLE,
             message := "all key columns must belong to the same table",
             cursorpos := some position }

/-- The error of the `RTE_JOIN` case for a join alias column that is not a `Var`. -/
def err_join_alias_not_var (location : Int) : Fault :=
  .ereport { sqlerrcode := .FEATURE_NOT_SUPPORTED,
             message := "foreign key joins require direct column references, found expression",
             cursorpos := some location }

/-- The error of the `RTE_GROUP` case for a grouping column that is not a `Var`. -/
def err_group_not_var (attno : Int) (location : Int) : Fault :=
  .ereport { sqlerrcode := .FEATURE_NOT_SUPPORTED,
             message := "GROUP BY column %d is not a simple column reference",
             args := [.num attno], cursorpos := some location }

/-- The error of the `RTE_GROUP` case when no column was requested. -/
def err_group_no_columns (location : Int) : Fault :=
  .ereport { sqlerrcode := .FEATURE_NOT_SUPPORTED,
             message := "no valid columns found in GROUP BY for foreign key join",
             cursorpos := some location }

/-- The error of `drill_down_to_base_rel_query` for a target entry that is not a `Var`. -/
def err_target_not_var (resname : Option String) (location : Int) : Fault :=
  .ereport { sqlerrcode := .FEATURE_NOT_SUPPORTED,
             message := "target entry \"%s\" is an expression, not a direct column reference",
             args := [.str (resname.getD "")], cursorpos := some location }

/-- The error of `drill_down_to_base_rel_query` for a query with set operations. -/
def err_set_operations (location : Int) : Fault :=
  .ereport { sqlerrcode := .FEATURE_NOT_SUPPORTED,
             message := "foreign key joins involving set operations are not supported",
             cursorpos := some location }

/-- The error of `drill_down_to_base_rel_query` for a query that is not a plain SELECT. -/
def err_query_not_supported (location : Int) : Fault :=
  .ereport { sqlerrcode := .FEATURE_NOT_SUPPORTED,
             message := "foreign key joins not supported for these relations",
             cursorpos := some location }

/-- The `foreach(lc, attnums)` of the `RTE_JOIN` case of `drill_down_to_base_rel`, with
the loop variables `next_rtindex` and `next_attnums` as accumulators. -/
def drill_join_alias_vars (joinaliasvars : List Node) (location : Int) :
    List Int → Int → List Int → Except Fault (Int × List Int)
  | [], next_rtindex, next_attnums => .ok (next_rtindex, next_attnums)
  | attno :: rest, next_rtindex, next_attnums => do
      let node ← list_nth joinaliasvars (attno - 1)
      match node with
      | .Var var =>
          if next_rtindex = 0 then
            drill_join_alias_vars joinaliasvars location rest var.varno
              (next_attnums ++ [var.varattno])
          else if next_rtindex ≠ var.varno then .error (err_not_same_table location)
          else
            drill_join_alias_vars joinaliasvars location rest next_rtindex
              (next_attnums ++ [var.varattno])
      | _ =>
          .error (err_join_alias_not_var location)

/-- The `foreach(lc, attnums)` of the `RTE_GROUP` case of `drill_down_to_base_rel`. -/
def drill_group_exprs (groupexprs : List Node) (location : Int) :
    List Int → Int → List Int → Except Fault (Int × List Int)
  | [], next_rtindex, next_attnums => .ok (next_rtindex, next_attnums)
  | attno :: rest, next_rtindex, next_attnums =>
      let var : Option Var :=
        if attno > 0 ∧ attno ≤ (groupexprs.length : Int) then
          match groupexprs[(attno - 1).toNat]? with
          | some (.Var v) => some v
          | _ => none
        else none
      match var with
      | none =>
          .error (err_group_not_var attno location)
      | some var =>
          if next_rtindex = 0 then
            drill_group_exprs groupexprs location rest var.varno (next_attnums ++ [var.varattno])
          else if next_rtindex ≠ var.varno then .error (err_not_same_table location)
          else
            drill_group_exprs groupexprs location rest next_rtindex
              (next_attnums ++ [var.varattno])

/-- The `foreach(lc, attnums)` of `drill_down_to_base_rel_query` over the target list. -/
def drill_target_list (targetList : List TargetEntry) (location : Int) :
    List Int → Int → List Int → Except Fault (Int × List Int)
  | [], next_rtindex, next_attnums => .ok (next_rtindex, next_attnums)
  | attno :: rest, next_rtindex, next_attnums => do
      let matching_tle ← list_nth targetList (attno - 1)
      match matching_tle.expr with
      | .Var var =>
          if next_rtindex = 0 then
            drill_target_list targetList location rest var.varno (next_attnums ++ [var.varattno])
          else if next_rtindex ≠ var.varno then
            .error (err_not_same_table (exprLocation matching_tle.expr))
          else
            drill_target_list targetList location rest next_rtindex
              (next_attnums ++ [var.varattno])
      | _ =>
          .error (err_target_not_var matching_tle.resname location)

/-- The body of `drill_down_to_base_rel_query`, the call back into
`drill_down_to_base_rel` being the argument `drill`. -/
def drill_down_to_base_rel_query_body
    (drill : RangeTblEntry → List Int → Int → QueryStack →
      Except Fault (RangeTblEntry × List Int))
    (query : Query) (attnums : List Int) (location : Int) (query_stack : QueryStack) :
    Except Fault (RangeTblEntry × List Int) := do
  let new_stack : QueryStack := query :: query_stack
  if query.fields.setOperations.isSome then
    throw (err_set_operations location)
  if query.fields.commandType ≠ .CMD_SELECT ∨ query.fields.distinctClause ≠ [] ∨
      ¬ query.fields.groupingSets.isEmpty ∨ query.fields.hasTargetSRFs = true then
    throw (err_query_not_supported location)
  let (next_rtindex, next_attnums) ← drill_target_list query.fields.targetList location attnums 0 []
  if next_rtindex = 0 then throw .undefined_behaviour
  let next_rte ← rt_fetch next_rtindex query.rtable
  drill next_rte next_attnums location new_stack

/-- The body of `drill_down_to_base_rel`, the recursive calls being the argument `drill`;
it returns the base entry together with the output parameter `*base_attnums`. -/
def drill_down_to_base_rel_body (cat : Catalog) (pstate : ParseState)
    (drill : RangeTblEntry → List Int → Int → QueryStack →
      Except Fault (RangeTblEntry × List Int))
    (rte : RangeTblEntry) (attnums : List Int) (location : Int) (query_stack : QueryStack) :
    Except Fault (RangeTblEntry × List Int) :=
  match rte.rtekind with
  | .RTE_RELATION => do
      let rel ← table_open cat rte.relid
      match rel.relkind with
      | .RELKIND_VIEW => do
          let view_query ← get_view_query rel
          drill_down_to_base_rel_query_body drill
            view_query attnums location query_stack
      | .RELKIND_RELATION => .ok (rte, attnums)
      | .RELKIND_PARTITIONED_TABLE => .ok (rte, attnums)
      | _ => .error (err_relation_not_supported (some "relkind not supported") location)
  | .RTE_SUBQUERY =>
      match rte.subquery with
      | some subquery =>
          drill_down_to_base_rel_query_body drill
            subquery attnums location query_stack
      | none => .error .undefined_behaviour
  | .RTE_CTE => do
      let cte ← find_cte_for_rte pstate query_stack rte
      if cte.cterecursive then .error (err_relation_not_supported none location)
      else
        match cte.ctequery with
        | some ctequery =>
            drill_down_to_base_rel_query_body drill
              ctequery attnums location query_stack
        | none => .error .undefined_behaviour
  | .RTE_JOIN => do
      let (next_rtindex, next_attnums) ←
        drill_join_alias_vars rte.fields.joinaliasvars location attnums 0 []
      if next_rtindex = 0 then throw .undefined_behaviour
      let rtable := match query_stack with
        | qs :: _ => qs.rtable
        | [] => pstate.p_rtable
      let next_rte ← rt_fetch next_rtindex rtable
      drill next_rte next_attnums location query_stack
  | .RTE_GROUP => do
      let (next_rtindex, next_attnums) ←
        drill_group_exprs rte.fields.groupexprs location attnums 0 []
      if next_rtindex = 0 then
        throw (err_group_no_columns location)
      let rtable := match query_stack with
        | qs :: _ => qs.rtable
        | [] => pstate.p_rtable
      let next_rte ← rt_fetch next_rtindex rtable
      drill next_rte next_attnums location query_stack
  | _ => .error (err_relation_not_supported none location)

/-- The function `drill_down_to_base_rel`: its body, with `fuel` bounding the depth of the
recursion. -/
def drill_down_to_base_rel (cat : Catalog) (pstate : ParseState) :
    Nat → RangeTblEntry → List Int → Int → QueryStack → Except Fault (RangeTblEntry × List Int)
  | 0 => fun _ _ _ _ => .error .out_of_fuel
  | fuel + 1 => drill_down_to_base_rel_body cat pstate (drill_down_to_base_rel cat pstate fuel)

/-- The function `drill_down_to_base_rel_query`. -/
def drill_down_to_base_rel_query (cat : Catalog) (pstate : ParseState) (fuel : Nat)
    (query : Query) (attnums : List Int) (location : Int) (query_stack : QueryStack) :
    Except Fault (RangeTblEntry × List Int) :=
  drill_down_to_base_rel_query_body (drill_down_to_base_rel cat pstate fuel)
    query attnums location query_stack

/-! ## GROUP BY uniqueness test -/

/-- The first `foreach` of `check_group_by_preserves_uniqueness`, over the grouping
clauses, with the loop variables `group_varno` and `group_cols` as accumulators; `none`
is the early `return false` for mixed relations.  The target entry read for a clause is
`list_nth(targetList, tleSortGroupRef - 1)`; entries that are not a `Var` are passed
over. -/
def group_by_collect (targetList : List TargetEntry) :
    List SortGroupClause → Int → Bitmapset → Except Fault (Option (Int × Bitmapset))
  | [], group_varno, group_cols => .ok (some (group_varno, group_cols))
  | sgc :: rest, group_varno, group_cols => do
      let tle ← list_nth targetList ((sgc.tleSortGroupRef : Int) - 1)
      match tle.expr with
      | .Var v =>
          if group_varno = 0 then do
            let group_cols ← bms_add_member group_cols v.varattno
            group_by_collect targetList rest v.varno group_cols
          else if group_varno ≠ v.varno then pure none
          else do
            let group_cols ← bms_add_member group_cols v.varattno
            group_by_collect targetList rest group_varno group_cols
      | _ => group_by_collect targetList rest group_varno group_cols

/-- The `foreach` over `groupexprs` in the `RTE_GROUP` branch of
`check_group_by_preserves_uniqueness`, accumulating `underlying_varno` and
`underlying_cols`; `none` is the early `return false` (mixed relations, or an expression
that is not a `Var`). -/
def group_exprs_collect :
    List Node → Int → Bitmapset → Except Fault (Option (Int × Bitmapset))
  | [], underlying_varno, underlying_cols => .ok (some (underlying_varno, underlying_cols))
  | expr :: rest, underlying_varno, underlying_cols =>
      match expr with
      | .Var v =>
          if underlying_varno = 0 then do
            let underlying_cols ← bms_add_member underlying_cols v.varattno
            group_exprs_collect rest v.varno underlying_cols
          else if underlying_varno ≠ v.varno then pure none
          else do
            let underlying_cols ← bms_add_member underlying_cols v.varattno
            group_exprs_collect rest underlying_varno underlying_cols
      | _ => pure none

/-- The part of `check_group_by_preserves_uniqueness` that settles on the base entry and
the column set to test: `none` stands for each `return false` on the way. -/
def group_by_base (query : Query) :
    Except Fault (Option (RangeTblEntry × Bitmapset)) := do
  if query.fields.groupClause = [] then pure none
  else do
    let collected ← group_by_collect query.fields.targetList query.fields.groupClause 0 []
    match collected with
    | none => pure none
    | some (group_varno, group_cols) =>
        if bms_is_empty group_cols ∨ group_varno = 0 then pure none
        else do
          let base_rte ← rt_fetch group_varno query.rtable
          if base_rte.rtekind = .RTE_GROUP then
            if base_rte.fields.groupexprs.length > 0 then do
              let underlying ← group_exprs_collect base_rte.fields.groupexprs 0 []
              match underlying with
              | none => pure none
              | some (underlying_varno, underlying_cols) =>
                  if underlying_varno ≠ 0 then do
                    let underlying_rte ← rt_fetch underlying_varno query.rtable
                    if underlying_rte.rtekind = .RTE_RELATION ∧
                        underlying_rte.relid ≠ InvalidOid then
                      pure (some (underlying_rte, underlying_cols))
                    else pure none
                  else pure none
            else pure none
          else if base_rte.rtekind ≠ .RTE_RELATION ∨ base_rte.relid = InvalidOid then pure none
          else pure (some (base_rte, group_cols))

/-- The function `check_group_by_preserves_uniqueness`; the second component of the result
is the output parameter `*uniqueness_preservation`. -/
def check_group_by_preserves_uniqueness (cat : Catalog) (query : Query)
    (uniqueness_preservation : List RTEId) : Except Fault (Bool × List RTEId) := do
  let base ← group_by_base query
  match base with
  | none => pure (false, uniqueness_preservation)
  | some (base_rte, group_cols) => do
      let rel ← table_open cat base_rte.relid
      let result := check_unique_index_covers_columns rel group_cols
      if result then pure (true, [base_rte.rteid])
      else pure (false, uniqueness_preservation)

/-! ## Join-tree analyzer -/

/-- The three output parameters of `analyze_join_tree`. -/
structure AnalyzeOut where
  uniqueness_preservation : List RTEId := []
  functional_dependencies : List RTEId := []
  found : Bool := false
  deriving DecidableEq, Repr

/-- The error of `analyze_join_tree` for a range-table entry of an unsupported kind. -/
def err_rte_kind_not_supported (location : Int) : Fault :=
  .ereport { sqlerrcode := .FEATURE_NOT_SUPPORTED,
             message := "foreign key joins involving this RTE kind are not supported",
             cursorpos := some location }

/-- The error of `analyze_join_tree` for a join-tree node of an unsupported tag. -/
def err_node_not_supported (location : Int) : Fault :=
  .ereport { sqlerrcode := .FEATURE_NOT_SUPPORTED,
             message := "unsupported node type in foreign key join traversal",
             cursorpos := some location }

/-- The filter test of the base-table leaf: no row-level security and, when there is an
enclosing query, no WHERE, OFFSET, LIMIT or HAVING on it.  The enclosing query's
`jointree` is dereferenced without a check. -/
def leaf_is_unfiltered (rel : RelInfo) (query : Option Query) : Except Fault Bool :=
  match query with
  | none => .ok (!rel.relrowsecurity)
  | some q =>
      if rel.relrowsecurity then .ok false
      else
        match q.fields.jointree with
        | none => .error .undefined_behaviour
        | some jointree =>
            .ok (jointree.quals.isNone && q.fields.limitOffset.isNone &&
              q.fields.limitCount.isNone && q.fields.havingQual.isNone)

/-- Lines 522 to 547 of `analyze_join_tree`, after the descent into an inner query: when
the query has a GROUP BY clause, the GROUP BY test either replaces the uniqueness set or
the set is cleared. -/
def after_inner_query (cat : Catalog) (inner_query : Query) (out : AnalyzeOut) :
    Except Fault AnalyzeOut :=
  if inner_query.fields.groupClause ≠ [] then do
    let (preserved, u) ← check_group_by_preserves_uniqueness cat inner_query
      out.uniqueness_preservation
    if preserved then pure { out with uniqueness_preservation := u }
    else pure { out with uniqueness_preservation := [] }
  else pure out

/-- The body of `analyze_join_tree`, its recursive calls being the argument `analyze` and
its calls of `drill_down_to_base_rel` the argument `drill`.  The argument `out` holds the
values the three output parameters have on entry, the result the values they have on
return. -/
def analyze_join_tree_body (cat : Catalog) (pstate : ParseState)
    (analyze : JoinTree → Option Query → RTEId → AnalyzeOut → Int → QueryStack →
      Except Fault AnalyzeOut)
    (drill : RangeTblEntry → List Int → Int → QueryStack →
      Except Fault (RangeTblEntry × List Int))
    (n : JoinTree) (query : Option Query) (rte_id : RTEId) (out : AnalyzeOut) (location : Int)
    (query_stack : QueryStack) : Except Fault AnalyzeOut :=
  match n with
  | .JoinExpr jointype larg rarg fkJoin _ =>
      match fkJoin with
      | some (.node fkjn) => do
          let rtable := match query with
            | some q => q.rtable
            | none => pstate.p_rtable
          let referencing_arg := if fkjn.fkdir = .FKDIR_FROM then larg else rarg
          let referenced_arg := if fkjn.fkdir = .FKDIR_FROM then rarg else larg
          let referencing_rte ← rt_fetch fkjn.referencingVarno rtable
          let referenced_rte ← rt_fetch fkjn.referencedVarno rtable
          let ing ← analyze referencing_arg query rte_id {}
            location query_stack
          if ing.found = true ∨ referencing_rte.rteid = rte_id then
            pure { uniqueness_preservation := ing.uniqueness_preservation,
                   functional_dependencies := ing.functional_dependencies,
                   found := true }
          else do
            let ed ← analyze referenced_arg query rte_id {}
              location query_stack
            if ed.found = true ∨ referenced_rte.rteid = rte_id then
              pure { uniqueness_preservation := ed.uniqueness_preservation,
                     functional_dependencies := ed.functional_dependencies,
                     found := true }
            else do
              let (base_referencing_rte, referencing_base_attnums) ←
                drill referencing_rte
                  fkjn.referencingAttnums location query_stack
              let (base_referenced_rte, _) ←
                drill referenced_rte
                  fkjn.referencedAttnums location query_stack
              let referencing_relid := base_referencing_rte.relid
              let referencing_id := base_referencing_rte.rteid
              let referenced_id := base_referenced_rte.rteid
              let fk_cols_unique ←
                is_referencing_cols_unique cat referencing_relid referencing_base_attnums
              let fk_cols_not_null ←
                is_referencing_cols_not_null cat referencing_relid referencing_base_attnums
              let u := update_uniqueness_preservation ing.uniqueness_preservation
                ed.uniqueness_preservation fk_cols_unique
              let fds ← update_functional_dependencies ing.functional_dependencies
                referencing_id ed.functional_dependencies referenced_id fk_cols_not_null
                jointype fkjn.fkdir
              pure { uniqueness_preservation := u, functional_dependencies := fds,
                     found := out.found }
      | _ => .error .undefined_behaviour
  | .RangeTblRef rtindex => do
      let rtable := match query with
        | some q => q.rtable
        | none => pstate.p_rtable
      let rte ← rt_fetch rtindex rtable
      let (inner_query, out) ←
        (match rte.rtekind with
        | .RTE_RELATION => do
            let rel ← table_open cat rte.relid
            if rel.relkind = .RELKIND_VIEW then do
              let view_query ← get_view_query rel
              pure (some view_query, out)
            else if rel.relkind = .RELKIND_RELATION ∨
                rel.relkind = .RELKIND_PARTITIONED_TABLE then do
              let unfiltered ← leaf_is_unfiltered rel query
              if unfiltered then
                pure (none, { out with uniqueness_preservation := [rte.rteid],
                                       functional_dependencies := [rte.rteid, rte.rteid] })
              else pure (none, { out with uniqueness_preservation := [rte.rteid] })
            else pure (none, out)
        | .RTE_SUBQUERY => pure (rte.subquery, out)
        | .RTE_CTE => do
            let cte ← find_cte_for_rte pstate query_stack rte
            if !cte.cterecursive then pure (cte.ctequery, out) else pure (none, out)
        | _ => throw (err_rte_kind_not_supported location) :
          Except Fault (Option Query × AnalyzeOut))
      match inner_query with
      | none => pure out
      | some inner_query =>
          match inner_query.fields.jointree with
          | none => pure out
          | some jointree =>
              match jointree.fromlist with
              | [item] => do
                  let out ← analyze item (some inner_query) rte_id
                    out location (inner_query :: query_stack)
                  after_inner_query cat inner_query out
              | _ => pure out
  | .Other => .error (err_node_not_supported location)

/-- The function `analyze_join_tree`: its body, with `fuel` bounding the depth of the
recursion (its own and that of the drill-downs it starts). -/
def analyze_join_tree (cat : Catalog) (pstate : ParseState) :
    Nat → JoinTree → Option Query → RTEId → AnalyzeOut → Int → QueryStack →
      Except Fault AnalyzeOut
  | 0 => fun _ _ _ _ _ _ => .error .out_of_fuel
  | fuel + 1 =>
      analyze_join_tree_body cat pstate (analyze_join_tree cat pstate fuel)
        (drill_down_to_base_rel cat pstate fuel)

/-! ## ON-clause builder -/

/-- The host's `makeVar(varno, varattno, vartype, vartypmod, varcollid, 0)` applied to the
members of a namespace column. -/
def makeVar (col : ParseNamespaceColumn) : Var :=
  { varno := col.p_varno, varattno := col.p_varattno, vartype := col.p_vartype,
    vartypmod := col.p_vartypmod, varcollid := col.p_varcollid, varlevelsup := 0,
    location := -1 }

/-- The host's `makeSimpleA_Expr(AEXPR_OP, "=", lexpr, rexpr, -1)`. -/
def makeEquality (l_var r_var : Var) : Node :=
  .A_Expr "=" (.Var l_var) (.Var r_var) (-1)

/-- The `forboth` loop of `build_fk_join_on_clause`: the list `andargs`, one equality per
position, the columns being `l_nscols[l_attnum - 1]` and `r_nscols[r_attnum - 1]`. -/
def fk_join_andargs (l_nscols r_nscols : List ParseNamespaceColumn) :
    List Int → List Int → Except Fault (List Node)
  | l_attnum :: ls, r_attnum :: rs => do
      let l_col ← list_nth l_nscols (l_attnum - 1)
      let r_col ← list_nth r_nscols (r_attnum - 1)
      let rest ← fk_join_andargs l_nscols r_nscols ls rs
      pure (makeEquality (makeVar l_col) (makeVar r_col) :: rest)
  | _, _ => .ok []

/-- The tree `build_fk_join_on_clause` hands to `transformExpr`: the single equality when
`andargs` has one member, otherwise `makeBoolExpr(AND_EXPR, andargs, -1)`. -/
def fk_join_raw_clause (l_nscols : List ParseNamespaceColumn) (l_attnums : List Int)
    (r_nscols : List ParseNamespaceColumn) (r_attnums : List Int) : Except Fault Node := do
  if l_attnums.length ≠ r_attnums.length then throw .undefined_behaviour
  let andargs ← fk_join_andargs l_nscols r_nscols l_attnums r_attnums
  match andargs with
  | [e] => pure e
  | _ => pure (.BoolExpr .AND_EXPR andargs (-1))

/-- An error raised by a host service, as a fault of the analyzer. -/
def liftHost {α : Type} : Except ErrorData α → Except Fault α
  | .ok a => .ok a
  | .error e => .error (.ereport e)

/-- The function `build_fk_join_on_clause`. -/
def build_fk_join_on_clause (pstate : ParseState) (l_nscols : List ParseNamespaceColumn)
    (l_attnums : List Int) (r_nscols : List ParseNamespaceColumn) (r_attnums : List Int) :
    Except Fault Node := do
  let result ← fk_join_raw_clause l_nscols l_attnums r_nscols r_attnums
  let result ← liftHost (pstate.transformExpr result)
  liftHost (pstate.coerce_to_boolean result)

/-! ## Top-level validator -/

/-- The first loop of `transformAndValidateForeignKeyJoin`: the first relation-visible
namespace item whose alias name is `refAlias`. -/
def find_other_rel (refAlias : String) : List ParseNamespaceItem → Option ParseNamespaceItem
  | [] => none
  | nsi :: rest =>
      if !nsi.p_rel_visible then find_other_rel refAlias rest
      else if nsi.aliasname = refAlias then some nsi
      else find_other_rel refAlias rest

/-- The error for an alias that names no visible relation of the left-hand side. -/
def err_table_ref_not_found (refAlias : String) (location : Int) : Fault :=
  .ereport { sqlerrcode := .UNDEFINED_TABLE, message := "table reference \"%s\" not found",
             args := [.str refAlias], cursorpos := some location }

/-- The error for column lists of different lengths (message as spelled in the source). -/
def err_arity (location : Int) : Fault :=
  .ereport { sqlerrcode := .INVALID_FOREIGN_KEY,
             message := "number of referencing and referenced columns for foriegn key disagree",
             cursorpos := some location }

/-- The error for a column name found twice; `side` is "referencing" or "referenced". -/
def err_ambiguous_column (side ref_colname : String) (location : Int) : Fault :=
  .ereport { sqlerrcode := .AMBIGUOUS_COLUMN,
             message := "common column name \"%s\" appears more than once in " ++ side ++ " table",
             args := [.str ref_colname], cursorpos := some location }

/-- The error for a column name not found; `side` is "referencing" or "referenced". -/
def err_undefined_column (side ref_colname : String) (location : Int) : Fault :=
  .ereport { sqlerrcode := .UNDEFINED_COLUMN,
             message := "column \"%s\" does not exist in " ++ side ++ " table",
             args := [.str ref_colname], cursorpos := some location }

/-- The error for a missing foreign key constraint. -/
def err_no_foreign_key (referencing_name referencing_cols referenced_name
    referenced_cols : String) (location : Int) : Fault :=
  .ereport { sqlerrcode := .UNDEFINED_OBJECT,
             message := "there is no foreign key constraint on table \"%s\" (%s) referencing table \"%s\" (%s)",
             args := [.str referencing_name, .str referencing_cols, .str referenced_name,
                      .str referenced_cols],
             cursorpos := some location }

/-- The error when the referenced side does not preserve uniqueness of keys. -/
def err_not_unique (location : Int) : Fault :=
  .ereport { sqlerrcode := .INVALID_FOREIGN_KEY, message := "foreign key join violation",
             detail := some "referenced relation does not preserve uniqueness of keys",
             cursorpos := some location }

/-- The error when the referenced side does not preserve all rows. -/
def err_not_all_rows (location : Int) : Fault :=
  .ereport { sqlerrcode := .INVALID_FOREIGN_KEY, message := "foreign key join violation",
             detail := some "referenced relation does not preserve all rows",
             cursorpos := some location }

/-- The inner `foreach(col, colnames)` of the column-resolution loops, with the loop
variables `ndx` and `col_index` as accumulators; a second match is an error. -/
def scan_colnames (side ref_colname : String) (location : Int) :
    List String → Int → Int → Except Fault Int
  | [], _, col_index => .ok col_index
  | colname :: rest, ndx, col_index =>
      if colname = ref_colname then
        if col_index ≥ 0 then .error (err_ambiguous_column side ref_colname location)
        else scan_colnames side ref_colname location rest (ndx + 1) ndx
      else scan_colnames side ref_colname location rest (ndx + 1) col_index

/-- The outer `foreach(lc, cols)` of the column-resolution loops: the 1-based positions of
the names in `colnames`. -/
def resolve_cols (side : String) (colnames : List String) (location : Int) :
    List String → Except Fault (List Int)
  | [] => .ok []
  | ref_colname :: rest => do
      let col_index ← scan_colnames side ref_colname location colnames 0 (-1)
      if col_index < 0 then throw (err_undefined_column side ref_colname location)
      let attnums ← resolve_cols side colnames location rest
      pure ((col_index + 1) :: attnums)

/-- The name of a range-table entry in the "no foreign key" message. -/
def rte_display_name (cat : Catalog) (rte : RangeTblEntry) : String :=
  match rte.fields.aliasname with
  | some aliasname => aliasname
  | none => if rte.relid = InvalidOid then "<unnamed derived table>" else get_rel_name cat rte.relid

/-- The orientation chosen at lines 143 to 160 of the source: which namespace item, which
column-name list and which join child play the referencing and the referenced role. -/
structure OrientedSides where
  referencing_rel : ParseNamespaceItem
  referenced_rel : ParseNamespaceItem
  referencing_cols : List String
  referenced_cols : List String
  referencing_arg : JoinTree
  referenced_arg : JoinTree

/-- The `if (fkjn->fkdir == FKDIR_FROM) ... else ...` block of
`transformAndValidateForeignKeyJoin`. -/
def orient_sides (fkjn : ForeignKeyClause) (join : JoinExpr)
    (other_rel r_nsitem : ParseNamespaceItem) : OrientedSides :=
  if fkjn.fkdir = .FKDIR_FROM then
    { referencing_rel := other_rel, referenced_rel := r_nsitem,
      referencing_cols := fkjn.refCols, referenced_cols := fkjn.localCols,
      referencing_arg := join.larg, referenced_arg := join.rarg }
  else
    { referenced_rel := other_rel, referencing_rel := r_nsitem,
      referenced_cols := fkjn.refCols, referencing_cols := fkjn.localCols,
      referenced_arg := join.larg, referencing_arg := join.rarg }

/-- The local variables of `transformAndValidateForeignKeyJoin` that are set between the
orientation and the catalog lookup (lines 162 to 244 of the source). -/
structure ResolvedSides where
  referencing_rte : RangeTblEntry
  referenced_rte : RangeTblEntry
  referencing_attnums : List Int
  referenced_attnums : List Int
  base_referencing_rte : RangeTblEntry
  referencing_base_attnums : List Int
  base_referenced_rte : RangeTblEntry
  referenced_base_attnums : List Int

/-- Lines 162 to 244 of `transformAndValidateForeignKeyJoin`: the two `rt_fetch` calls, the
two column-resolution loops, the two drill-downs and the `Assert` on the base relation
OIDs. -/
def resolve_sides (cat : Catalog) (pstate : ParseState) (fuel : Nat) (fkjn : ForeignKeyClause)
    (o : OrientedSides) : Except Fault ResolvedSides := do
  let referencing_rte ← rt_fetch o.referencing_rel.p_rtindex pstate.p_rtable
  let referenced_rte ← rt_fetch o.referenced_rel.p_rtindex pstate.p_rtable
  let referencing_attnums ←
    resolve_cols "referencing" o.referencing_rel.colnames fkjn.location o.referencing_cols
  let referenced_attnums ←
    resolve_cols "referenced" o.referenced_rel.colnames fkjn.location o.referenced_cols
  let (base_referencing_rte, referencing_base_attnums) ←
    drill_down_to_base_rel cat pstate fuel referencing_rte referencing_attnums fkjn.location []
  let (base_referenced_rte, referenced_base_attnums) ←
    drill_down_to_base_rel cat pstate fuel referenced_rte referenced_attnums fkjn.location []
  if base_referencing_rte.relid = InvalidOid ∨ base_referenced_rte.relid = InvalidOid then
    throw .undefined_behaviour
  pure { referencing_rte := referencing_rte, referenced_rte := referenced_rte,
         referencing_attnums := referencing_attnums, referenced_attnums := referenced_attnums,
         base_referencing_rte := base_referencing_rte,
         referencing_base_attnums := referencing_base_attnums,
         base_referenced_rte := base_referenced_rte,
         referenced_base_attnums := referenced_base_attnums }

/-- The call of `find_foreign_key` at line 246 with the arguments the validator passes. -/
def lookup_foreign_key (cat : Catalog) (r : ResolvedSides) : Oid :=
  find_foreign_key cat r.base_referencing_rte.relid r.base_referenced_rte.relid
    r.referencing_base_attnums r.referenced_base_attnums

/-- The node stamped at lines 311 to 317. -/
def stamp_node (fkjn : ForeignKeyClause) (o : OrientedSides) (r : ResolvedSides) (fkoid : Oid) :
    ForeignKeyJoinNode :=
  { fkdir := fkjn.fkdir,
    referencingVarno := o.referencing_rel.p_rtindex,
    referencingAttnums := r.referencing_attnums,
    referencedVarno := o.referenced_rel.p_rtindex,
    referencedAttnums := r.referenced_attnums,
    constraint := fkoid }

/-- Lines 266 to 319 of `transformAndValidateForeignKeyJoin`: the uniqueness check, the scan
for the self-pair of `referenced_id` (the identity of the drilled-down referenced entry),
the construction of the ON clause and the stamping of the join. -/
def enforce_and_rewrite (pstate : ParseState) (join : JoinExpr) (fkjn : ForeignKeyClause)
    (o : OrientedSides) (r : ResolvedSides) (fkoid : Oid) (referenced : AnalyzeOut) :
    Except Fault JoinExpr := do
  let referenced_id := r.base_referenced_rte.rteid
  if referenced_id ∉ referenced.uniqueness_preservation then
    throw (err_not_unique fkjn.location)
  let found_fd ← fds_has_self_dep referenced_id referenced.functional_dependencies
  if !found_fd then throw (err_not_all_rows fkjn.location)
  let quals ← build_fk_join_on_clause pstate o.referencing_rel.p_nscolumns r.referencing_attnums
    o.referenced_rel.p_nscolumns r.referenced_attnums
  pure { join with quals := some quals, fkJoin := some (.node (stamp_node fkjn o r fkoid)) }

/-- The part of `transformAndValidateForeignKeyJoin` after the sides have been oriented
(lines 162 to 319). -/
def validate_oriented (cat : Catalog) (pstate : ParseState) (fuel : Nat) (join : JoinExpr)
    (fkjn : ForeignKeyClause) (o : OrientedSides) : Except Fault JoinExpr := do
  let r ← resolve_sides cat pstate fuel fkjn o
  let fkoid := lookup_foreign_key cat r
  if fkoid = InvalidOid then
    throw (err_no_foreign_key (rte_display_name cat r.referencing_rte)
      (column_list_to_string o.referencing_cols) (rte_display_name cat r.referenced_rte)
      (column_list_to_string o.referenced_cols) fkjn.location)
  let _referencing ← analyze_join_tree cat pstate fuel o.referencing_arg none
    r.referencing_rte.rteid {} fkjn.location []
  let referenced ← analyze_join_tree cat pstate fuel o.referenced_arg none
    r.referenced_rte.rteid {} fkjn.location []
  enforce_and_rewrite pstate join fkjn o r fkoid referenced

/-- The function `transformAndValidateForeignKeyJoin`; the result is the join node with
`quals` and `fkJoin` assigned. -/
def transformAndValidateForeignKeyJoin (cat : Catalog) (pstate : ParseState) (fuel : Nat)
    (join : JoinExpr) (r_nsitem : ParseNamespaceItem) (l_namespace : List ParseNamespaceItem) :
    Except Fault JoinExpr :=
  match join.fkJoin with
  | some (.clause fkjn) =>
      match find_other_rel fkjn.refAlias l_namespace with
      | none => .error (err_table_ref_not_found fkjn.refAlias fkjn.location)
      | some other_rel =>
          if fkjn.refCols.length ≠ fkjn.localCols.length then .error (err_arity fkjn.location)
          else validate_oriented cat pstate fuel join fkjn (orient_sides fkjn join other_rel r_nsitem)
  | _ => .error .undefined_behaviour

/-! ## Example data: `t1(c1 PK, c2)`, `t2(c3 PK REFERENCES t1(c1), c4)` -/

namespace Demo

/-- The table `t1(c1 PRIMARY KEY, c2)`, OID 1. -/
def t1_rel : RelInfo :=
  { relname := "t1", relkind := .RELKIND_RELATION,
    indexlist := [{ indisunique := true, indkey := [1] }], attnotnull := [true, false] }

/-- The table `t2(c3 PRIMARY KEY REFERENCES t1(c1), c4)`, OID 2. -/
def t2_rel : RelInfo :=
  { relname := "t2", relkind := .RELKIND_RELATION,
    indexlist := [{ indisunique := true, indkey := [1] }], attnotnull := [true, false] }

/-- The constraint `t2_c3_fkey`, OID 100: `t2(c3)` references `t1(c1)`. -/
def t2_c3_fkey : ConstraintRow :=
  { oid := 100, conrelid := 2, contype := .CONSTRAINT_FOREIGN, confrelid := 1,
    conkey := some [1], confkey := some [1] }

/-- The range-table entry of `t1` with identity 11. -/
def rte_t1 : RangeTblEntry := .mk { rtekind := .RTE_RELATION, relid := 1, rteid := 11 } none

/-- The range-table entry of `t2` with identity 12. -/
def rte_t2 : RangeTblEntry := .mk { rtekind := .RTE_RELATION, relid := 2, rteid := 12 } none

/-- The namespace columns of a two-column relation at range-table index `i`. -/
def nscols2 (i : Int) : List ParseNamespaceColumn :=
  [{ p_varno := i, p_varattno := 1 }, { p_varno := i, p_varattno := 2 }]

/-- The namespace item of `t1` at range-table index `i`. -/
def ns_t1 (i : Int) : ParseNamespaceItem :=
  { aliasname := "t1", colnames := ["c1", "c2"], p_rtindex := i, p_nscolumns := nscols2 i }

/-- The namespace item of `t2` at range-table index `i`. -/
def ns_t2 (i : Int) : ParseNamespaceItem :=
  { aliasname := "t2", colnames := ["c3", "c4"], p_rtindex := i, p_nscolumns := nscols2 i }

/-- The equality `t2.c3 = t1.c1` for `t2` at index `i2` and `t1` at index `i1`. -/
def eq_c3_c1 (i2 i1 : Int) : Node :=
  makeEquality { varno := i2, varattno := 1 } { varno := i1, varattno := 1 }

end Demo

namespace Demo

/-- The table `t3(a, b)` with one unique index on `(a, b)`, OID 4. -/
def t3_rel : RelInfo :=
  { relname := "t3", relkind := .RELKIND_RELATION,
    indexlist := [{ indisunique := true, indkey := [1, 2] }], attnotnull := [true, true] }

/-- The query `SELECT * FROM inner` over a two-column entry `inner`, with the given WHERE
clause: target entry `i` is the bare reference to column `i` of the single from-item. -/
def select_star (quals : Option Node) (inner : RangeTblEntry) : Query :=
  .mk { jointree := some { fromlist := [.RangeTblRef 1], quals := quals },
        targetList := [{ expr := .Var { varno := 1, varattno := 1 } },
                       { expr := .Var { varno := 1, varattno := 2 } }] }
    [inner] []

/-- The entry of `t1` inside a derived relation, with identity `id`. -/
def rte_t1_as (id : RTEId) : RangeTblEntry :=
  .mk { rtekind := .RTE_RELATION, relid := 1, rteid := id } none

/-- The view `v1`, OID 3, defined as `SELECT * FROM t1`; its `t1` entry has identity 21. -/
def v1_rel : RelInfo :=
  { relname := "v1", relkind := .RELKIND_VIEW, viewQuery := some (select_star none (rte_t1_as 21)) }

/-- The catalog: `t1`, `t2`, the view `v1`, `t3`, and the constraint `t2_c3_fkey`. -/
def cat : Catalog :=
  { relations := fun oid =>
      if oid = 1 then some t1_rel else if oid = 2 then some t2_rel
      else if oid = 3 then some v1_rel else if oid = 4 then some t3_rel else none,
    constraints := [t2_c3_fkey] }

/-- A subquery entry with identity `id`, alias `aliasname` and query `q`. -/
def rte_sub (id : RTEId) (aliasname : String) (q : Query) : RangeTblEntry :=
  .mk { rtekind := .RTE_SUBQUERY, rteid := id, aliasname := some aliasname } (some q)

/-- The namespace item of a derived relation exposing the columns `c1`, `c2`. -/
def ns_derived (aliasname : String) (i : Int) : ParseNamespaceItem :=
  { aliasname := aliasname, colnames := ["c1", "c2"], p_rtindex := i, p_nscolumns := nscols2 i }

/-- The join `left JOIN t2 KEY (c3) -> aliasname (c1)`, the left relation at index 1 and
`t2` at index 2. -/
def join_to (aliasname : String) : JoinExpr :=
  { jointype := .JOIN_INNER, larg := .RangeTblRef 1, rarg := .RangeTblRef 2,
    fkJoin := some (.clause { fkdir := .FKDIR_TO, refAlias := aliasname, refCols := ["c1"],
                              localCols := ["c3"], location := 7 }) }

/-- The join node `join_to aliasname` after a successful validation. -/
def join_to_resolved (aliasname : String) : JoinExpr :=
  { join_to aliasname with
    quals := some (eq_c3_c1 2 1),
    fkJoin := some (.node { fkdir := .FKDIR_TO, referencingVarno := 2,
                            referencingAttnums := [1], referencedVarno := 1,
                            referencedAttnums := [1], constraint := 100 }) }

/-- The parse state of `FROM left JOIN t2 ...`: the range table `[left, t2]`. -/
def pstate_of (left : RangeTblEntry) : ParseState := { p_rtable := [left, rte_t2] }

/-- The entry `(SELECT * FROM t1) AS s`, identity 13, its `t1` entry having identity 31. -/
def rte_s : RangeTblEntry := rte_sub 13 "s" (select_star none (rte_t1_as 31))

/-- The entry `(SELECT * FROM t1 WHERE c2 > 0) AS t1f`, identity 14, its `t1` entry having
identity 41. -/
def rte_t1f : RangeTblEntry := rte_sub 14 "t1f" (select_star (some .Other) (rte_t1_as 41))

end Demo

/-! ## Statement-side predicates -/

/-- The condition under which a `pg_constraint` row answers a foreign-key lookup, phrased on
pairs: the row is a FOREIGN KEY constraint on `referencing_relid` targeting
`referenced_relid`, its `conkey` and `confkey` are present and of one length, that length is
the number of supplied referencing attributes, and every pair `(conkey[i], confkey[i])`
occurs among the supplied pairs `(referencing_attnums[j], referenced_attnums[j])`. -/
def FkConstraintAnswers (con : ConstraintRow) (referencing_relid referenced_relid : Oid)
    (referencing_attnums referenced_attnums : List Int) : Prop :=
  con.contype = .CONSTRAINT_FOREIGN ∧ con.conrelid = referencing_relid ∧
  con.confrelid = referenced_relid ∧
  ∃ conkey confkey, con.conkey = some conkey ∧ con.confkey = some confkey ∧
    conkey.length = confkey.length ∧ conkey.length = referencing_attnums.length ∧
    ∀ p ∈ conkey.zip confkey, p ∈ referencing_attnums.zip referenced_attnums

/-- The condition of the specification: the row is a FOREIGN KEY constraint on
`referencing_relid` targeting `referenced_relid` whose set of pairs
`(conkey[i], confkey[i])` equals the set of supplied pairs. -/
def FkPairSetEquals (con : ConstraintRow) (referencing_relid referenced_relid : Oid)
    (referencing_attnums referenced_attnums : List Int) : Prop :=
  con.contype = .CONSTRAINT_FOREIGN ∧ con.conrelid = referencing_relid ∧
  con.confrelid = referenced_relid ∧
  ∃ conkey confkey, con.conkey = some conkey ∧ con.confkey = some confkey ∧
    conkey.length = confkey.length ∧
    ∀ p, p ∈ conkey.zip confkey ↔ p ∈ referencing_attnums.zip referenced_attnums

/-- The 1-based position of the first occurrence of `name` in `colnames`. -/
def column_position (colnames : List String) (name : String) : Int :=
  (colnames.indexOf name : Int) + 1

/-- The relation kinds the analyzer treats as base tables: ordinary and partitioned. -/
def IsBaseTableKind (relkind : RelKind) : Prop :=
  relkind = .RELKIND_RELATION ∨ relkind = .RELKIND_PARTITIONED_TABLE

namespace Demo

/-- The mirror join `t2 JOIN t1 KEY (c1) <- t2 (c3)`: `t2` at index 1, `t1` at index 2. -/
def join_from_t2 : JoinExpr :=
  { jointype := .JOIN_INNER, larg := .RangeTblRef 1, rarg := .RangeTblRef 2,
    fkJoin := some (.clause { fkdir := .FKDIR_FROM, refAlias := "t2", refCols := ["c3"],
                              localCols := ["c1"], location := 7 }) }

/-- The join node `join_from_t2` after a successful validation. -/
def join_from_t2_resolved : JoinExpr :=
  { join_from_t2 with
    quals := some (eq_c3_c1 1 2),
    fkJoin := some (.node { fkdir := .FKDIR_FROM, referencingVarno := 1,
                            referencingAttnums := [1], referencedVarno := 2,
                            referencedAttnums := [1], constraint := 100 }) }

/-- The parse state of `FROM t2 JOIN t1 ...`: the range table `[t2, t1]`. -/
def pstate_mirror : ParseState := { p_rtable := [rte_t2, rte_t1] }

end Demo

/-- The range-table entry `rte` is a subquery with query `q`, or a view whose defining query
is `q`. -/
def RteWrapsQuery (cat : Catalog) (rte : RangeTblEntry) (q : Query) : Prop :=
  (rte.rtekind = .RTE_SUBQUERY ∧ rte.subquery = some q) ∨
  (rte.rtekind = .RTE_RELATION ∧
    ∃ rel, cat.relations rte.relid = some rel ∧ rel.relkind = .RELKIND_VIEW ∧
      rel.viewQuery = some q)

/-- The from-list of `q` is the single item `item`. -/
def SingleFromItem (q : Query) (item : JoinTree) : Prop :=
  ∃ jointree, q.fields.jointree = some jointree ∧ jointree.fromlist = [item]

/-- The query carries a WHERE clause, a HAVING clause, a LIMIT or an OFFSET. -/
def QueryFiltered (q : Query) : Prop :=
  (∃ jointree, q.fields.jointree = some jointree ∧ jointree.quals.isSome = true) ∨
  q.fields.havingQual.isSome = true ∨ q.fields.limitCount.isSome = true ∨
  q.fields.limitOffset.isSome = true

namespace Demo

/-- The entry of the view `v1` inside a derived relation, with identity `id`. -/
def rte_v1_as (id : RTEId) : RangeTblEntry :=
  .mk { rtekind := .RTE_RELATION, relid := 3, rteid := id } none

/-- The query `SELECT * FROM (SELECT * FROM t1) AS s WHERE c2 > 0`: the entry of `s` has
identity 51 and its `t1` entry identity 52. -/
def nested_filtered_query : Query :=
  select_star (some .Other) (rte_sub 51 "s" (select_star none (rte_t1_as 52)))

/-- The entry `(SELECT * FROM (SELECT * FROM t1) AS s WHERE c2 > 0) AS o`, identity 15. -/
def rte_nested : RangeTblEntry := rte_sub 15 "o" nested_filtered_query

/-- The entry `(SELECT * FROM v1 WHERE c2 > 0) AS t1f`, identity 14: the entry `rte_t1f`
with its `t1` entry replaced by an entry of the view `v1`, identity 42. -/
def rte_t1f_over_v1 : RangeTblEntry :=
  rte_sub 14 "t1f" (select_star (some .Other) (rte_v1_as 42))

end Demo

/-! ## Statement-side predicates for the GROUP BY test -/

/-- The column reference a node is, when it is a `Var`. -/
def Node.asVar : Node → Option FkJoin.Var
  | .Var v => some v
  | _ => none

/-- The target entries designated by the grouping clauses of `query`, clause by clause:
`tles[i]` is `list_nth(targetList, tleSortGroupRef - 1)` for clause `i`. -/
def GroupingEntries (query : Query) (tles : List TargetEntry) : Prop :=
  List.Forall₂
    (fun sgc tle =>
      list_nth query.fields.targetList ((sgc.tleSortGroupRef : Int) - 1) = .ok tle)
    query.fields.groupClause tles

/-- The bare column references among the expressions of `tles`, in order. -/
def grouped_vars (tles : List TargetEntry) : List Var :=
  tles.filterMap (fun tle => tle.expr.asVar)

/-- The attribute numbers of a list of column references, as bitmapset members. -/
def var_columns (vars : List Var) : Bitmapset :=
  vars.map (fun v => v.varattno.toNat)

/-- The column references `vars` all have range-table index `k` and a non-negative
attribute number, and there is at least one. -/
def VarsOfOneRelation (vars : List Var) (k : Int) : Prop :=
  vars ≠ [] ∧ k ≠ 0 ∧ ∀ v ∈ vars, v.varno = k ∧ 0 ≤ v.varattno

/-- The entry `base` and column set `cols` that the grouped column references `vars` of
`query` lead to: `vars` all name one range-table entry, which is either an `RTE_RELATION`
entry with a valid `relid` (then it is `base`, and `cols` are the columns of `vars`), or an
`RTE_GROUP` entry whose `groupexprs` are all column references to one `RTE_RELATION` entry
with a valid `relid` (then that one is `base`, and `cols` are the columns of the
`groupexprs`). -/
def GroupedBase (query : Query) (vars : List Var) (base : RangeTblEntry)
    (cols : Bitmapset) : Prop :=
  ∃ k rte, VarsOfOneRelation vars k ∧ rt_fetch k query.rtable = .ok rte ∧
    ((rte.rtekind = .RTE_RELATION ∧ rte.relid ≠ InvalidOid ∧ base = rte ∧
        cols = var_columns vars) ∨
     (rte.rtekind = .RTE_GROUP ∧
        ∃ gvars k2, rte.fields.groupexprs = gvars.map Node.Var ∧
          VarsOfOneRelation gvars k2 ∧ rt_fetch k2 query.rtable = .ok base ∧
          base.rtekind = .RTE_RELATION ∧ base.relid ≠ InvalidOid ∧
          cols = var_columns gvars))

/-- The test of `check_unique_index_covers_columns`, as a statement: some unique index of
`rel` has every member of `cols` among its columns. -/
def UniqueIndexContains (rel : RelInfo) (cols : Bitmapset) : Prop :=
  ∃ index ∈ rel.indexlist, index.indisunique = true ∧
    ∀ c ∈ cols, c ∈ index_cols_of index.indkey

/-- The test of claim C6, following the words of the specification: some unique index of
`rel` has a column set that is a subset of `cols`. -/
def UniqueIndexWithin_spec (rel : RelInfo) (cols : Bitmapset) : Prop :=
  ∃ index ∈ rel.indexlist, index.indisunique = true ∧
    ∀ c ∈ index_cols_of index.indkey, c ∈ cols

/-- The condition of claim C6, following the words of the specification: every grouping
expression is a bare column reference, all of them refer to the same inner relation, that
relation is a base table, and some unique index on that table has a key-column set that
is a subset of the set of grouped columns. -/
def GroupByPreservesUniqueness_spec (cat : Catalog) (query : Query) : Prop :=
  ∃ tles base cols rel, GroupingEntries query tles ∧
    (∀ tle ∈ tles, ∃ v, tle.expr = .Var v) ∧
    GroupedBase query (grouped_vars tles) base cols ∧
    cat.relations base.relid = some rel ∧ IsBaseTableKind rel.relkind ∧
    UniqueIndexWithin_spec rel cols

namespace Demo

/-- The entry of `t3` inside a derived relation, with identity `id`. -/
def rte_t3_as (id : RTEId) : RangeTblEntry :=
  .mk { rtekind := .RTE_RELATION, relid := 4, rteid := id } none

/-- The `RTE_GROUP` entry of a query grouped by `exprs`, with identity `id`. -/
def rte_group (id : RTEId) (exprs : List Node) : RangeTblEntry :=
  .mk { rtekind := .RTE_GROUP, rteid := id, groupexprs := exprs } none

/-- The query `SELECT col, max(..) FROM inner GROUP BY col`, where `col` is column number
`col` of `inner`: the range table is `[inner, group]`, the first target entry refers to the
first column of the `RTE_GROUP` entry (identity `gid`), whose expression is the grouped
column of `inner`. -/
def group_by_query (inner : RangeTblEntry) (gid : RTEId) (col : Int) : Query :=
  .mk { jointree := some { fromlist := [.RangeTblRef 1] },
        targetList := [{ expr := .Var { varno := 2, varattno := 1 }, ressortgroupref := 1 },
                       { expr := .Other }],
        groupClause := [{ tleSortGroupRef := 1 }] }
    [inner, rte_group gid [.Var { varno := 1, varattno := col }]] []

/-- A query grouped by the first column of `inner` and by an expression that is not a
column reference, with the target entries referring to `inner` directly. -/
def group_by_mixed_query (inner : RangeTblEntry) : Query :=
  .mk { jointree := some { fromlist := [.RangeTblRef 1] },
        targetList := [{ expr := .Var { varno := 1, varattno := 1 }, ressortgroupref := 1 },
                       { expr := .Other, ressortgroupref := 2 }],
        groupClause := [{ tleSortGroupRef := 1 }, { tleSortGroupRef := 2 }] }
    [inner] []

/-- The entry `(SELECT c1, max(c2) FROM t1 GROUP BY c1) AS g`, identity 18: its `t1` entry
has identity 81 and its `RTE_GROUP` entry identity 82. -/
def rte_g1 : RangeTblEntry := rte_sub 18 "g" (group_by_query (rte_t1_as 81) 82 1)

/-- The entry `(SELECT c2 AS c1, max(c1) FROM t1 GROUP BY c2) AS g`, identity 19. -/
def rte_g2 : RangeTblEntry := rte_sub 19 "g" (group_by_query (rte_t1_as 91) 92 2)

/-- The entry `(SELECT a, max(b) FROM t3 GROUP BY a) AS g`, identity 36, its `t3` entry
having identity 81. -/
def rte_g3 : RangeTblEntry := rte_sub 36 "g" (group_by_query (rte_t3_as 81) 82 1)

end Demo

/-! ## Statement-side definitions for the direction mirror -/

/-- The TO-directed mirror of a clause: the two column lists exchanged, `refAlias` naming
the relation that was on the right. -/
def mirror_clause (fkjn : ForeignKeyClause) (refAlias : String) : ForeignKeyClause :=
  { fkdir := .FKDIR_TO, refAlias := refAlias, refCols := fkjn.localCols,
    localCols := fkjn.refCols, location := fkjn.location }

/-- The TO-directed mirror of a join carrying the clause `fkjn`: the children exchanged and
the clause mirrored. -/
def mirror_join (join : JoinExpr) (fkjn : ForeignKeyClause) (refAlias : String) : JoinExpr :=
  { join with larg := join.rarg, rarg := join.larg,
              fkJoin := some (.clause (mirror_clause fkjn refAlias)) }

/-- The field `fkJoin` with the direction of a resolved node set to `dir`. -/
def with_direction (dir : ForeignKeyDirection) : Option FkJoinField → Option FkJoinField
  | some (.node n) => some (.node { n with fkdir := dir })
  | other => other

/-- The join `mirrored` with the predicate of the validated join `j` and with the resolved
node of `j` turned to the direction TO. -/
def mirror_result (mirrored : JoinExpr) (j : JoinExpr) : JoinExpr :=
  { mirrored with quals := j.quals, fkJoin := with_direction .FKDIR_TO j.fkJoin }

namespace Demo

/-- The entry `(SELECT c2, c1 FROM t1) AS p`, identity 20, its `t1` entry having identity
201: the visible column `c1` is at position 2 and is column 1 of `t1`. -/
def rte_p : RangeTblEntry :=
  rte_sub 20 "p"
    (.mk { jointree := some { fromlist := [.RangeTblRef 1] },
           targetList := [{ expr := .Var { varno := 1, varattno := 2 } },
                          { expr := .Var { varno := 1, varattno := 1 } }] }
      [rte_t1_as 201] [])

/-- The namespace item of `p` at range-table index `i`: the columns `c2`, `c1`. -/
def ns_p (i : Int) : ParseNamespaceItem :=
  { aliasname := "p", colnames := ["c2", "c1"], p_rtindex := i, p_nscolumns := nscols2 i }

end Demo

namespace Demo

/-- The join node of `p JOIN t2 KEY (c3) -> p (c1)` after a successful validation: the
referenced attribute is stamped as position 2, the position of `c1` in `p`. -/
def join_to_p_resolved : JoinExpr :=
  { join_to "p" with
    quals := some (makeEquality { varno := 2, varattno := 1 } { varno := 1, varattno := 2 }),
    fkJoin := some (.node { fkdir := .FKDIR_TO, referencingVarno := 2,
                            referencingAttnums := [1], referencedVarno := 1,
                            referencedAttnums := [2], constraint := 100 }) }

end Demo

namespace Demo

/-- The join `t1 JOIN t2 KEY (c3) -> refAlias (c1, c2)`: two referenced columns named for
one referencing column. -/
def join_arity (refAlias : String) : JoinExpr :=
  { jointype := .JOIN_INNER, larg := .RangeTblRef 1, rarg := .RangeTblRef 2,
    fkJoin := some (.clause { fkdir := .FKDIR_TO, refAlias := refAlias,
                              refCols := ["c1", "c2"], localCols := ["c3"], location := 7 }) }

/-- The namespace item of `t1` at index `i`, not visible as a relation. -/
def ns_t1_hidden (i : Int) : ParseNamespaceItem :=
  { ns_t1 i with p_rel_visible := false }

end Demo

/-- The attribute numbers `attnums` are the positions of the names `cols` among `colnames`,
name by name and in the same order: the name occurs at the 0-based index `k` exactly when
its attribute number is `k + 1`. -/
def ResolvedPositions (colnames cols : List String) (attnums : List Int) : Prop :=
  List.Forall₂ (fun name a => ∀ k : Nat, colnames[k]? = some name ↔ a = (k : Int) + 1)
    cols attnums

namespace Demo

/-- The join `left JOIN t2 KEY (localCols) -> refAlias (refCols)`. -/
def join_key (refAlias : String) (refCols localCols : List String) : JoinExpr :=
  { jointype := .JOIN_INNER, larg := .RangeTblRef 1, rarg := .RangeTblRef 2,
    fkJoin := some (.clause { fkdir := .FKDIR_TO, refAlias := refAlias, refCols := refCols,
                              localCols := localCols, location := 7 }) }

/-- A namespace item named `t1` at index `i` that shows the column name `c1` twice. -/
def ns_t1_twice (i : Int) : ParseNamespaceItem :=
  { aliasname := "t1", colnames := ["c1", "c1"], p_rtindex := i, p_nscolumns := nscols2 i }

end Demo

/-! ## The validator as a procedure on the join node

The validator returns nothing: it assigns `join->quals` and `join->fkJoin` in place.  Here
the join node is a piece of state, so that the node can be inspected after an error. -/

/-- Procedures that may raise an error and that read and assign the join node: after an
error the node is as the assignments executed before it have left it. -/
abbrev JoinProc := ExceptT Fault (StateM JoinExpr)

/-- A step that computes a value, or raises an error, without touching the join node. -/
def JoinProc.ofExcept {α : Type} (x : Except Fault α) : JoinProc α :=
  ExceptT.mk (pure x)

/-- The function `transformAndValidateForeignKeyJoin`, statement by statement, with its two
assignments to the join node: `join->quals = build_fk_join_on_clause(...)` at line 309 and
`join->fkJoin = (Node *) fkjn_node` at line 319. -/
def transformAndValidateForeignKeyJoin_inplace (cat : Catalog) (pstate : ParseState)
    (fuel : Nat) (r_nsitem : ParseNamespaceItem) (l_namespace : List ParseNamespaceItem) :
    JoinProc Unit := do
  let join ← get
  match join.fkJoin with
  | some (.clause fkjn) =>
      match find_other_rel fkjn.refAlias l_namespace with
      | none => throw (err_table_ref_not_found fkjn.refAlias fkjn.location)
      | some other_rel =>
          if fkjn.refCols.length ≠ fkjn.localCols.length then
            throw (err_arity fkjn.location)
          else do
            let o := orient_sides fkjn join other_rel r_nsitem
            let r ← JoinProc.ofExcept (resolve_sides cat pstate fuel fkjn o)
            let fkoid := lookup_foreign_key cat r
            if fkoid = InvalidOid then
              throw (err_no_foreign_key (rte_display_name cat r.referencing_rte)
                (column_list_to_string o.referencing_cols)
                (rte_display_name cat r.referenced_rte)
                (column_list_to_string o.referenced_cols) fkjn.location)
            else do
              let _referencing ← JoinProc.ofExcept
                (analyze_join_tree cat pstate fuel o.referencing_arg none
                  r.referencing_rte.rteid {} fkjn.location [])
              let referenced ← JoinProc.ofExcept
                (analyze_join_tree cat pstate fuel o.referenced_arg none
                  r.referenced_rte.rteid {} fkjn.location [])
              let referenced_id := r.base_referenced_rte.rteid
              if referenced_id ∉ referenced.uniqueness_preservation then
                throw (err_not_unique fkjn.location)
              else do
                let found_fd ← JoinProc.ofExcept
                  (fds_has_self_dep referenced_id referenced.functional_dependencies)
                if !found_fd then throw (err_not_all_rows fkjn.location)
                else do
                  let quals ← JoinProc.ofExcept
                    (build_fk_join_on_clause pstate o.referencing_rel.p_nscolumns
                      r.referencing_attnums o.referenced_rel.p_nscolumns r.referenced_attnums)
                  modify (fun node => { node with quals := some quals })
                  let fkjn_node := stamp_node fkjn o r fkoid
                  modify (fun node => { node with fkJoin := some (.node fkjn_node) })
  | _ => throw .undefined_behaviour

/-- Running the procedure on a join node: the outcome and the node afterwards. -/
def run_inplace (cat : Catalog) (pstate : ParseState) (fuel : Nat) (join : JoinExpr)
    (r_nsitem : ParseNamespaceItem) (l_namespace : List ParseNamespaceItem) :
    Except Fault Unit × JoinExpr :=
  ((transformAndValidateForeignKeyJoin_inplace cat pstate fuel r_nsitem
    l_namespace).run.run join)

namespace Demo

/-- An error of the host's expression transformer. -/
def host_error : ErrorData :=
  { sqlerrcode := .INTERNAL_ERROR, message := "operator does not exist" }

/-- The parse state of `FROM t1 JOIN t2 ...` with a host whose `coerce_to_boolean` fails. -/
def pstate_failing_host : ParseState :=
  { p_rtable := [rte_t1, rte_t2], coerce_to_boolean := fun _ => .error host_error }

end Demo

/-! ## Statement-side predicates for error positions -/

/-- Every error with which `x` can end satisfies `P`. -/
def Errs {α : Type} (P : Fault → Prop) (x : Except Fault α) : Prop :=
  ∀ f, x = .error f → P f

/-- The fault is not a reported error, or it is an internal error (`elog`), which carries
no position. -/
def InternalOrSilent (f : Fault) : Prop :=
  ∀ e, f = .ereport e → e.sqlerrcode = .INTERNAL_ERROR ∧ e.cursorpos = none

namespace Demo

/-- The query `SELECT a.c1, b.c2 FROM t1 a, t1 b`: the two target entries refer to
different range-table entries; their expressions are at positions 21 and 27 of the query
text. -/
def two_tables_query : Query :=
  .mk { jointree := some { fromlist := [.RangeTblRef 1, .RangeTblRef 2] },
        targetList := [{ expr := .Var { varno := 1, varattno := 1, location := 21 } },
                       { expr := .Var { varno := 2, varattno := 2, location := 27 } }] }
    [rte_t1_as 221, rte_t1_as 222] []

/-- The entry `(SELECT a.c1, b.c2 FROM t1 a, t1 b) AS s`, identity 22: the two target
entries refer to different range-table entries; their expressions are at positions 21 and
27 of the query text. -/
def rte_two_tables : RangeTblEntry :=
  rte_sub 22 "s" two_tables_query

end Demo

/-- The condition of claim C16, following the words of the specification: some unique index
on `relid` has, as the set of its columns, exactly the set of the given attribute
numbers. -/
def ColsUnique_spec (cat : Catalog) (relid : Oid) (attnums : List Int) : Prop :=
  ∃ rel, cat.relations relid = some rel ∧
    ∃ index ∈ rel.indexlist, index.indisunique = true ∧
      ∀ a : Int, a ∈ index.indkey ↔ a ∈ attnums

/-- The test `is_referencing_cols_unique` makes of one index: it is unique, it has as many
columns as attribute numbers were given, and every given attribute number is one of its
columns. -/
def IndexMatchesCols (index : IndexInfo) (attnums : List Int) : Prop :=
  index.indisunique = true ∧ attnums.length = index.indnatts ∧
    ∀ a ∈ attnums, a ∈ index.indkey

/-! ## Statement-side definitions for the drill-down loops -/

/-- What the `RTE_JOIN` case of `drill_down_to_base_rel` makes of one requested attribute:
the column reference `joinaliasvars[attno - 1]` is, together with the error to raise if it
names another relation than the attributes before it; or the error for an expression. -/
def look_join_alias (joinaliasvars : List Node) (location : Int) (attno : Int) :
    Except Fault (Var × Fault) := do
  let node ← list_nth joinaliasvars (attno - 1)
  match node with
  | .Var var => .ok (var, err_not_same_table location)
  | _ => .error (err_join_alias_not_var location)

/-- What the `RTE_GROUP` case of `drill_down_to_base_rel` makes of one requested attribute:
the column reference `groupexprs[attno - 1]` is, when `attno` is within `1..|groupexprs|`
and the expression is a `Var`; the error for a column that is not a simple reference
otherwise. -/
def look_group_expr (groupexprs : List Node) (location : Int) (attno : Int) :
    Except Fault (Var × Fault) :=
  if attno > 0 ∧ attno ≤ (groupexprs.length : Int) then
    match groupexprs[(attno - 1).toNat]? with
    | some (.Var v) => .ok (v, err_not_same_table location)
    | _ => .error (err_group_not_var attno location)
  else .error (err_group_not_var attno location)

/-- What `drill_down_to_base_rel_query` makes of one requested attribute: the column
reference the target entry `targetList[attno - 1]` is, together with the error to raise if
it names another relation (at the position of that expression); or the error for an
expression. -/
def look_target_entry (targetList : List TargetEntry) (location : Int) (attno : Int) :
    Except Fault (Var × Fault) := do
  let matching_tle ← list_nth targetList (attno - 1)
  match matching_tle.expr with
  | .Var var => .ok (var, err_not_same_table (exprLocation matching_tle.expr))
  | _ => .error (err_target_not_var matching_tle.resname location)

/-- The common shape of the three `foreach(lc, attnums)` loops of the drill-down, over a
lookup of one attribute: `next_rtindex` is set by the first column reference and compared
with every later one, `next_attnums` collects the inner attribute numbers. -/
def drill_loop (look : Int → Except Fault (Var × Fault)) :
    List Int → Int → List Int → Except Fault (Int × List Int)
  | [], next_rtindex, next_attnums => .ok (next_rtindex, next_attnums)
  | attno :: rest, next_rtindex, next_attnums =>
      match look attno with
      | .error f => .error f
      | .ok (var, mismatch) =>
          if next_rtindex = 0 then
            drill_loop look rest var.varno (next_attnums ++ [var.varattno])
          else if next_rtindex ≠ var.varno then .error mismatch
          else drill_loop look rest next_rtindex (next_attnums ++ [var.varattno])

/-- The requested attributes `attnums` map, one by one and in order, to the column
references `vars`. -/
def MapsToVars (look : Int → Except Fault (Var × Fault)) (attnums : List Int)
    (vars : List Var) : Prop :=
  List.Forall₂ (fun attno v => ∃ mismatch, look attno = .ok (v, mismatch)) attnums vars

/-- The range table the `RTE_JOIN` and `RTE_GROUP` cases of `drill_down_to_base_rel` fetch
the inner entry from: that of the innermost query of the stack, or that of the parse
state when the stack is empty. -/
def stack_rtable (pstate : ParseState) (query_stack : QueryStack) : List RangeTblEntry :=
  match query_stack with
  | qs :: _ => qs.rtable
  | [] => pstate.p_rtable

/-- The computation ends with a reported error of class `code`. -/
def FailsWith {α : Type} (code : SqlState) (x : Except Fault α) : Prop :=
  ∃ e, x = .error (.ereport e) ∧ e.sqlerrcode = code

/-- The query passes the checks `drill_down_to_base_rel_query` makes before it looks at
the target list: no set operations, a SELECT, no DISTINCT, no grouping sets, no
set-returning functions in the target list. -/
def QueryDrillable (query : Query) : Prop :=
  query.fields.setOperations.isSome = false ∧ query.fields.commandType = .CMD_SELECT ∧
  query.fields.distinctClause = [] ∧ query.fields.groupingSets.isEmpty = true ∧
  query.fields.hasTargetSRFs = false

namespace Demo

/-- A join entry whose first alias column is the column `c1` of the entry at index 1 and
whose second alias column is an expression (a merged column of `JOIN ... USING`). -/
def rte_join_expr : RangeTblEntry :=
  .mk { rtekind := .RTE_JOIN, rteid := 23,
        joinaliasvars := [.Var { varno := 1, varattno := 1 }, .Other] } none

/-- The `RTE_GROUP` entry of a query grouped by the column `c1` of the entry at index 1
and by an expression. -/
def rte_group_expr : RangeTblEntry :=
  rte_group 24 [.Var { varno := 1, varattno := 1 }, .Other]

/-- The query `SELECT c1, c2 + 1 AS x FROM t1`. -/
def select_expr_query : Query :=
  .mk { jointree := some { fromlist := [.RangeTblRef 1] },
        targetList := [{ expr := .Var { varno := 1, varattno := 1 } },
                       { expr := .Other, resname := some "x" }] }
    [rte_t1_as 251] []

end Demo

namespace Demo

/-- A join entry whose two alias columns are `c1` of the entry at index 1 and `c2` of the
entry at index 2. -/
def rte_join_two : RangeTblEntry :=
  .mk { rtekind := .RTE_JOIN, rteid := 26,
        joinaliasvars := [.Var { varno := 1, varattno := 1 },
                          .Var { varno := 2, varattno := 2 }] } none

/-- A join entry whose three alias columns are `c1`, `c2` of the entry at index 1 and `c4`
of the entry at index 2. -/
def rte_join_one : RangeTblEntry :=
  .mk { rtekind := .RTE_JOIN, rteid := 27,
        joinaliasvars := [.Var { varno := 1, varattno := 1 },
                          .Var { varno := 1, varattno := 2 },
                          .Var { varno := 2, varattno := 2 }] } none

end Demo

/-- Two queries show the drill-down the same range table and the same CTE list. -/
def QueryAgree (q1 q2 : Query) : Prop :=
  q1.rtable = q2.rtable ∧ q1.cteList = q2.cteList

/-- Two query stacks of one depth whose queries agree level by level. -/
def StackAgree (s1 s2 : QueryStack) : Prop := List.Forall₂ QueryAgree s1 s2

/-- The query `query` with its `groupClause` replaced. -/
def Query.withGroupClause (query : Query) (groupClause : List SortGroupClause) : Query :=
  .mk { query.fields with groupClause := groupClause } query.rtable query.cteList

/-- The query `query` with its target list replaced. -/
def Query.withTargetList (query : Query) (targetList : List TargetEntry) : Query :=
  .mk { query.fields with targetList := targetList } query.rtable query.cteList


namespace Demo

/-- The query `SELECT DISTINCT * FROM t1`. -/
def select_distinct_query : Query :=
  .mk { jointree := some { fromlist := [.RangeTblRef 1] },
        targetList := [{ expr := .Var { varno := 1, varattno := 1 }, ressortgroupref := 1 },
                       { expr := .Var { varno := 1, varattno := 2 }, ressortgroupref := 2 }],
        distinctClause := [{ tleSortGroupRef := 1 }, { tleSortGroupRef := 2 }] }
    [rte_t1_as 281] []

end Demo

namespace Demo

/-- The CTE `r` of `WITH RECURSIVE r AS (SELECT * FROM t1 UNION ALL ...)`, its body being
kept as `SELECT * FROM t1`. -/
def cte_r : CommonTableExpr := .mk "r" true (some (select_star none (rte_t1_as 301)))

/-- The range-table entry of a reference to the CTE `r`, identity 30. -/
def rte_cte_r : RangeTblEntry :=
  .mk { rtekind := .RTE_CTE, rteid := 30, ctename := "r", aliasname := some "r" } none

/-- The parse state of `WITH RECURSIVE r AS (...) ... FROM r JOIN t2 ...`. -/
def pstate_cte_r : ParseState :=
  { p_rtable := [rte_cte_r, rte_t2], p_ctenamespaces := [[cte_r]] }

end Demo

/-- The base-table leaf is unfiltered: the table has no row-level security and the
enclosing query, when there is one, has none of WHERE, HAVING, LIMIT and OFFSET. -/
def LeafUnfiltered (rel : RelInfo) (query : Option Query) : Prop :=
  rel.relrowsecurity = false ∧ ∀ q, query = some q → ¬ QueryFiltered q

/-- The range table `analyze_join_tree` fetches entries from: that of the enclosing query
when there is one, that of the parse state otherwise. -/
def enclosing_rtable (pstate : ParseState) (query : Option Query) : List RangeTblEntry :=
  match query with
  | some q => q.rtable
  | none => pstate.p_rtable

namespace Demo

/-- The resolved join tree of `t1 JOIN t2 KEY (c3) -> t1 (c1)`: `t1` at index 1 is the
referenced side, `t2` at index 2 the referencing side. -/
def join_tree_t1_t2 : JoinTree :=
  .JoinExpr .JOIN_INNER (.RangeTblRef 1) (.RangeTblRef 2)
    (some (.node { fkdir := .FKDIR_TO, referencingVarno := 2, referencingAttnums := [1],
                   referencedVarno := 1, referencedAttnums := [1], constraint := 100 }))
    none

end Demo

/-! ## Statement-side definitions for the functional dependencies -/

/-- The pairs `(det, dep)` of a flat FD list, read two members at a time as the loops of
`update_functional_dependencies` read it. -/
def fd_pairs : List RTEId → List (RTEId × RTEId)
  | det :: dep :: rest => (det, dep) :: fd_pairs rest
  | _ => []

/-- The flat FD list of a list of pairs: determinant and dependent alternating. -/
def fd_flat : List (RTEId × RTEId) → List RTEId
  | [] => []
  | (det, dep) :: rest => det :: dep :: fd_flat rest

/-- The join keeps every row of the referencing side: the condition of step 1 of
`update_functional_dependencies`. -/
def ReferencingPreserved (fk_dir : ForeignKeyDirection) (join_type : JoinType) : Prop :=
  (fk_dir = .FKDIR_FROM ∧ join_type = .JOIN_LEFT) ∨
  (fk_dir = .FKDIR_TO ∧ join_type = .JOIN_RIGHT) ∨ join_type = .JOIN_FULL

/-- The join keeps every row of the referenced side: the condition of step 2 of
`update_functional_dependencies`. -/
def ReferencedPreserved (fk_dir : ForeignKeyDirection) (join_type : JoinType) : Prop :=
  (fk_dir = .FKDIR_TO ∧ join_type = .JOIN_LEFT) ∨
  (fk_dir = .FKDIR_FROM ∧ join_type = .JOIN_RIGHT) ∨ join_type = .JOIN_FULL

instance (fk_dir : ForeignKeyDirection) (join_type : JoinType) :
    Decidable (ReferencingPreserved fk_dir join_type) := by
  unfold ReferencingPreserved
  infer_instance

instance (fk_dir : ForeignKeyDirection) (join_type : JoinType) :
    Decidable (ReferencedPreserved fk_dir join_type) := by
  unfold ReferencedPreserved
  infer_instance

/-- The pairs contributed by the two outer-join rules (steps 1 and 2): `FD_ing` when the
referencing side is preserved, followed by `FD_ed` when the referenced side is. -/
def outer_join_pairs (FD_ing FD_ed : List (RTEId × RTEId)) (join_type : JoinType)
    (fk_dir : ForeignKeyDirection) : List (RTEId × RTEId) :=
  (if ReferencingPreserved fk_dir join_type then FD_ing else []) ++
  (if ReferencedPreserved fk_dir join_type then FD_ed else [])

/-- The pairs the carry-forward step (step 5) adds: for every pair `(det, referencing_id)`
of `FD_ing`, in order, the pairs of `FD_ing` with determinant `det`. -/
def carried_pairs (FD_ing : List (RTEId × RTEId)) (referencing_id : RTEId) :
    List (RTEId × RTEId) :=
  (FD_ing.filter (fun p => p.2 = referencing_id)).flatMap
    (fun p => FD_ing.filter (fun q => q.1 = p.1))

/-- The pairs the transitive step (step 6) adds: `(X, Z)` for every pair
`(X, referencing_id)` of `FD_ing` and every pair `(referenced_id, Z)` of `FD_ed`. -/
def transitive_pairs (FD_ing : List (RTEId × RTEId)) (referencing_id : RTEId)
    (FD_ed : List (RTEId × RTEId)) (referenced_id : RTEId) : List (RTEId × RTEId) :=
  (FD_ing.filter (fun p => p.2 = referencing_id)).flatMap
    (fun p => (FD_ed.filter (fun q => q.1 = referenced_id)).map (fun q => (p.1, q.2)))

/-- The six steps of the combine rule for functional dependencies, on lists of pairs. -/
def combined_pairs (FD_ing : List (RTEId × RTEId)) (referencing_id : RTEId)
    (FD_ed : List (RTEId × RTEId)) (referenced_id : RTEId) (fk_cols_not_null : Bool)
    (join_type : JoinType) (fk_dir : ForeignKeyDirection) : List (RTEId × RTEId) :=
  outer_join_pairs FD_ing FD_ed join_type fk_dir ++
    (if fk_cols_not_null = true ∧ (referenced_id, referenced_id) ∈ FD_ed then
      (if ReferencingPreserved fk_dir join_type then []
        else carried_pairs FD_ing referencing_id) ++
      transitive_pairs FD_ing referencing_id FD_ed referenced_id
    else [])

/-- Every result the computation can return satisfies `P`. -/
def Oks {α : Type} (P : α → Prop) (x : Except Fault α) : Prop :=
  ∀ a, x = .ok a → P a

/-- Every determinant of the FD set has its self-pair in the set. -/
def SelfPaired (ps : List (RTEId × RTEId)) : Prop :=
  ∀ p ∈ ps, (p.1, p.1) ∈ ps

/-- The flat list is the list of an FD set in which every determinant has its self-pair. -/
def FdSelfPaired (fds : List RTEId) : Prop :=
  ∃ ps, fds = fd_flat ps ∧ SelfPaired ps

/-- The variant of `update_functional_dependencies` that the open question on the
carry-forward step compares with: the same six steps, step 5 being run whether or not
step 1 has added `FD_ing`. -/
def update_functional_dependencies_always_carry (referencing_fds : List RTEId)
    (referencing_id : RTEId) (referenced_fds : List RTEId) (referenced_id : RTEId)
    (fk_cols_not_null : Bool) (join_type : JoinType) (fk_dir : ForeignKeyDirection) :
    Except Fault (List RTEId) := do
  let result : List RTEId := []
  let result :=
    if (fk_dir = .FKDIR_FROM ∧ join_type = .JOIN_LEFT) ∨
      (fk_dir = .FKDIR_TO ∧ join_type = .JOIN_RIGHT) ∨ join_type = .JOIN_FULL
    then result ++ referencing_fds else result
  let result :=
    if (fk_dir = .FKDIR_TO ∧ join_type = .JOIN_LEFT) ∨
      (fk_dir = .FKDIR_FROM ∧ join_type = .JOIN_RIGHT) ∨ join_type = .JOIN_FULL
    then result ++ referenced_fds else result
  if !fk_cols_not_null then pure result
  else do
    let referenced_has_self_dep ← fds_has_self_dep referenced_id referenced_fds
    if !referenced_has_self_dep then pure result
    else do
      let result ← fds_carry_forward referencing_id referencing_fds referencing_fds result
      fds_transitive referencing_id referenced_id referenced_fds referencing_fds result

/-- The leaf entry `rte` leads the analyzer to the inner query `q`: it is a subquery with
query `q`, a view defined by `q`, or a reference to a non-recursive CTE whose query is
`q`. -/
def LeafInnerQuery (cat : Catalog) (pstate : ParseState) (query_stack : QueryStack)
    (rte : RangeTblEntry) (q : Query) : Prop :=
  RteWrapsQuery cat rte q ∨
  (rte.rtekind = .RTE_CTE ∧
    ∃ cte, find_cte_for_rte pstate query_stack rte = .ok cte ∧ cte.cterecursive = false ∧
      cte.ctequery = some q)

namespace Demo

/-- The entry of `t2` inside a derived relation, with identity `id`. -/
def rte_t2_as (id : RTEId) : RangeTblEntry :=
  .mk { rtekind := .RTE_RELATION, relid := 2, rteid := id } none

/-- The resolved join tree of `t2 JOIN t1 KEY (c1) <- t2 (c3)` inside a query: `t2` at
index 1 is the referencing side, `t1` at index 2 the referenced side. -/
def join_tree_t2_t1 : JoinTree :=
  .JoinExpr .JOIN_INNER (.RangeTblRef 1) (.RangeTblRef 2)
    (some (.node { fkdir := .FKDIR_FROM, referencingVarno := 1, referencingAttnums := [1],
                   referencedVarno := 2, referencedAttnums := [1], constraint := 100 }))
    none

/-- The query `SELECT t1.c1 FROM t2 JOIN t1 KEY (c1) <- t2 (c3) GROUP BY t1.c1`: the range
table holds `t2` (identity 311), `t1` (identity 312), the join entry and the `RTE_GROUP`
entry, whose expression is `t1.c1`. -/
def group_over_join_query : Query :=
  .mk { jointree := some { fromlist := [join_tree_t2_t1] },
        targetList := [{ expr := .Var { varno := 4, varattno := 1 }, ressortgroupref := 1 }],
        groupClause := [{ tleSortGroupRef := 1 }] }
    [rte_t2_as 311, rte_t1_as 312,
     .mk { rtekind := .RTE_JOIN, rteid := 313,
           joinaliasvars := [.Var { varno := 1, varattno := 1 },
                             .Var { varno := 1, varattno := 2 },
                             .Var { varno := 2, varattno := 1 },
                             .Var { varno := 2, varattno := 2 }] } none,
     rte_group 314 [.Var { varno := 2, varattno := 1 }]]
    []

/-- The entry `(SELECT t1.c1 FROM t2 JOIN t1 KEY (c1) <- t2 (c3) GROUP BY t1.c1) AS g`,
identity 31. -/
def rte_gj : RangeTblEntry := rte_sub 31 "g" group_over_join_query

end Demo

namespace Demo

/-- The query `SELECT max(c2), c1 FROM t1 GROUP BY c1`: the grouped column is the second
target entry and carries the sort/group reference 1 of the single grouping clause; the
`t1` entry has identity 401. -/
def max_first_query : Query :=
  .mk { jointree := some { fromlist := [.RangeTblRef 1] },
        targetList := [{ expr := .Other, resname := some "max" },
                       { expr := .Var { varno := 2, varattno := 1 }, resname := some "c1",
                         ressortgroupref := 1 }],
        groupClause := [{ tleSortGroupRef := 1 }] }
    [rte_t1_as 401, rte_group 402 [.Var { varno := 1, varattno := 1 }]] []

/-- The entry `(SELECT max(c2), c1 FROM t1 GROUP BY c1) AS g`, identity 40. -/
def rte_gm : RangeTblEntry := rte_sub 40 "g" max_first_query

/-- The namespace item of `g` at range-table index `i`: the columns `max`, `c1`. -/
def ns_gm (i : Int) : ParseNamespaceItem :=
  { aliasname := "g", colnames := ["max", "c1"], p_rtindex := i, p_nscolumns := nscols2 i }

end Demo

/-! ## Statement-side definitions for the steps of the drill-down -/

/-- One step of the drill-down, from the entry `rte` under the stack `query_stack` to the
entry it continues on: into the range table of the inner query of a view, subquery or
non-recursive CTE, which is pushed on the stack, or, from a join or GROUP entry, along one
of its column references to an entry of the current range table. -/
def DrillStep (cat : Catalog) (pstate : ParseState) (rte : RangeTblEntry)
    (query_stack : QueryStack) (next_rte : RangeTblEntry) (next_stack : QueryStack) : Prop :=
  (∃ q, LeafInnerQuery cat pstate query_stack rte q ∧ next_rte ∈ q.rtable ∧
    next_stack = q :: query_stack) ∨
  (next_stack = query_stack ∧
    ∃ v, ((rte.rtekind = .RTE_JOIN ∧ Node.Var v ∈ rte.fields.joinaliasvars) ∨
        (rte.rtekind = .RTE_GROUP ∧ Node.Var v ∈ rte.fields.groupexprs)) ∧
      rt_fetch v.varno (stack_rtable pstate query_stack) = .ok next_rte)

/-- What one loop of the drill-down has established when it ends with the index `k`: each
requested attribute maps to a column reference, `k` is not 0 and is the index of one of
them, and every reference with an index other than 0 has the index `k`. -/
def StepVars (look : Int → Except Fault (Var × Fault)) (attnums : List Int)
    (vars : List Var) (k : Int) : Prop :=
  MapsToVars look attnums vars ∧ k ≠ 0 ∧ (∃ v ∈ vars, v.varno = k) ∧
  ∀ v ∈ vars, v.varno ≠ 0 → v.varno = k

/-- Every column reference held by a join or GROUP entry of the range table points to an
entry with a strictly smaller index in it: the entry at position `j` of the list has the
index `j + 1`. -/
def RtableOrdered (rtable : List RangeTblEntry) : Prop :=
  ∀ (j : Nat) (rte : RangeTblEntry), rtable[j]? = some rte →
    (rte.rtekind = .RTE_JOIN →
      ∀ v, Node.Var v ∈ rte.fields.joinaliasvars → v.varno < (j : Int) + 1) ∧
    (rte.rtekind = .RTE_GROUP →
      ∀ v, Node.Var v ∈ rte.fields.groupexprs → v.varno < (j : Int) + 1)

/-- The views, subqueries and CTEs of the range table under the stack `query_stack` are
nested at most `depth` deep, and every range table on the way is ordered. -/
def NestedWithin (cat : Catalog) (pstate : ParseState) : Nat → QueryStack → Prop
  | 0, query_stack =>
      RtableOrdered (stack_rtable pstate query_stack) ∧
      ∀ rte ∈ stack_rtable pstate query_stack, ∀ q,
        ¬ LeafInnerQuery cat pstate query_stack rte q
  | depth + 1, query_stack =>
      RtableOrdered (stack_rtable pstate query_stack) ∧
      ∀ rte ∈ stack_rtable pstate query_stack, ∀ q,
        LeafInnerQuery cat pstate query_stack rte q →
          NestedWithin cat pstate depth (q :: query_stack)

/-- With `fuel` or more levels of recursion `drill_down_to_base_rel` on the entry `rte`
ends, for every requested attribute list, with one and the same result or error, which is
not the exhaustion of the recursion bound. -/
def DrillTerminates (cat : Catalog) (pstate : ParseState) (fuel : Nat)
    (rte : RangeTblEntry) (query_stack : QueryStack) : Prop :=
  ∀ (attnums : List Int) (location : Int), ∃ result,
    result ≠ .error .out_of_fuel ∧
    ∀ n, fuel ≤ n →
      drill_down_to_base_rel cat pstate n rte attnums location query_stack = result

/-! ## Statement-side definitions for the members of the property sets -/

namespace Demo

/-- The materialized view `mv(c1, c2)`, OID 5, with a unique index on `c1`. -/
def mv_rel : RelInfo :=
  { relname := "mv", relkind := .RELKIND_MATVIEW,
    indexlist := [{ indisunique := true, indkey := [1] }], attnotnull := [false, false] }

/-- The catalog `cat` with the materialized view `mv` added. -/
def cat_mv : Catalog :=
  { relations := fun oid => if oid = 5 then some mv_rel else cat.relations oid,
    constraints := cat.constraints }

/-- The entry of `mv` inside a derived relation, with identity `id`. -/
def rte_mv_as (id : RTEId) : RangeTblEntry :=
  .mk { rtekind := .RTE_RELATION, relid := 5, rteid := id } none

/-- The entry `(SELECT c1, max(c2) FROM mv GROUP BY c1) AS g`, identity 33, its `mv` entry
having identity 331 and its GROUP entry identity 332. -/
def rte_gmv : RangeTblEntry := rte_sub 33 "g" (group_by_query (rte_mv_as 331) 332 1)

end Demo

/-! ## Statement-side definitions for the origin of errors -/

/-- A reported error carries the position `location` of the clause, or it is an internal
error (`elog`), which carries no position. -/
def AtClausePosition (location : Int) (f : Fault) : Prop :=
  ∀ e, f = .ereport e →
    e.cursorpos = some location ∨ (e.sqlerrcode = .INTERNAL_ERROR ∧ e.cursorpos = none)

section Basics

variable {ε α β : Type}

@[simp] theorem ok_bind (a : α) (f : α → Except ε β) : (Except.ok a >>= f) = f a := rfl

@[simp] theorem error_bind (e : ε) (f : α → Except ε β) :
    ((Except.error e : Except ε α) >>= f) = Except.error e := rfl

@[simp] theorem pure_eq_ok (a : α) : (pure a : Except ε α) = Except.ok a := rfl

@[simp] theorem throw_eq_error (e : ε) : (throw e : Except ε α) = Except.error e := rfl

theorem bind_eq_ok {x : Except ε α} {f : α → Except ε β} {b : β} :
    (x >>= f) = Except.ok b ↔ ∃ a, x = Except.ok a ∧ f a = Except.ok b := by
  cases x with
  | error e => simp
  | ok a => simp

end Basics

theorem list_nth_in_range {α : Type} (l : List α) (a : Int) (h1 : 1 ≤ a)
    (h2 : a ≤ (l.length : Int)) :
    ∃ c, list_nth l (a - 1) = .ok c ∧ l[(a - 1).toNat]? = some c := by
  have hlt : (a - 1).toNat < l.length := by omega
  have hnn : ¬ (a - 1 < 0) := by omega
  unfold list_nth
  rw [if_neg hnn]
  cases h : l[(a - 1).toNat]? with
  | none =>
      rw [List.getElem?_eq_none_iff] at h
      omega
  | some c => exact ⟨c, rfl, rfl⟩

theorem fk_join_andargs_spec (l_nscols r_nscols : List ParseNamespaceColumn) :
    ∀ (l_attnums r_attnums : List Int), l_attnums.length = r_attnums.length →
      (∀ a ∈ l_attnums, 1 ≤ a ∧ a ≤ (l_nscols.length : Int)) →
      (∀ b ∈ r_attnums, 1 ≤ b ∧ b ≤ (r_nscols.length : Int)) →
      ∃ andargs, fk_join_andargs l_nscols r_nscols l_attnums r_attnums = .ok andargs ∧
        andargs.length = l_attnums.length ∧
        ∀ (i : Nat) (a b : Int), l_attnums[i]? = some a → r_attnums[i]? = some b →
          ∃ l_col r_col, l_nscols[(a - 1).toNat]? = some l_col ∧
            r_nscols[(b - 1).toNat]? = some r_col ∧
            andargs[i]? = some (makeEquality (makeVar l_col) (makeVar r_col)) := by
  intro l_attnums
  induction l_attnums with
  | nil =>
      intro r_attnums hlen _ _
      cases r_attnums with
      | nil => exact ⟨[], rfl, rfl, by intro i a b h; simp at h⟩
      | cons b bs => simp at hlen
  | cons a as ih =>
      intro r_attnums hlen hl hr
      cases r_attnums with
      | nil => simp at hlen
      | cons b bs =>
          have hlen2 : as.length = bs.length := by simpa using hlen
          obtain ⟨rest, hrest, hrl, hri⟩ := ih bs hlen2
            (fun x hx => hl x (List.mem_cons_of_mem _ hx))
            (fun x hx => hr x (List.mem_cons_of_mem _ hx))
          obtain ⟨l_col, hlc, hlg⟩ := list_nth_in_range l_nscols a (hl a (List.mem_cons_self _ _)).1
            (hl a (List.mem_cons_self _ _)).2
          obtain ⟨r_col, hrc, hrg⟩ := list_nth_in_range r_nscols b (hr b (List.mem_cons_self _ _)).1
            (hr b (List.mem_cons_self _ _)).2
          refine ⟨makeEquality (makeVar l_col) (makeVar r_col) :: rest, ?_, by simp [hrl], ?_⟩
          · simp [fk_join_andargs, hlc, hrc, hrest]
          · intro i x y hx hy
            cases i with
            | zero =>
                simp at hx hy
                subst hx; subst hy
                exact ⟨l_col, r_col, hlg, hrg, by simp⟩
            | succ j =>
                simp at hx hy
                obtain ⟨lc, rc, h1, h2, h3⟩ := hri j x y hx hy
                exact ⟨lc, rc, h1, h2, by simpa using h3⟩

theorem validate_inv {cat : Catalog} {pstate : ParseState} {fuel : Nat} {join : JoinExpr}
    {r_nsitem : ParseNamespaceItem} {l_namespace : List ParseNamespaceItem} {j : JoinExpr}
    (h : transformAndValidateForeignKeyJoin cat pstate fuel join r_nsitem l_namespace = .ok j) :
    ∃ fkjn other_rel, join.fkJoin = some (.clause fkjn) ∧
      find_other_rel fkjn.refAlias l_namespace = some other_rel ∧
      fkjn.refCols.length = fkjn.localCols.length ∧
      validate_oriented cat pstate fuel join fkjn (orient_sides fkjn join other_rel r_nsitem)
        = .ok j := by
  unfold transformAndValidateForeignKeyJoin at h
  split at h
  · rename_i fkjn hfk
    split at h
    · simp at h
    · rename_i other_rel hother
      split at h
      · simp at h
      · rename_i hlen
        exact ⟨fkjn, other_rel, hfk, hother, not_not.mp hlen, h⟩
  · simp at h

theorem validate_oriented_inv {cat : Catalog} {pstate : ParseState} {fuel : Nat}
    {join : JoinExpr} {fkjn : ForeignKeyClause} {o : OrientedSides} {j : JoinExpr}
    (h : validate_oriented cat pstate fuel join fkjn o = .ok j) :
    ∃ r ing ed, resolve_sides cat pstate fuel fkjn o = .ok r ∧
      lookup_foreign_key cat r ≠ InvalidOid ∧
      analyze_join_tree cat pstate fuel o.referencing_arg none r.referencing_rte.rteid {}
        fkjn.location [] = .ok ing ∧
      analyze_join_tree cat pstate fuel o.referenced_arg none r.referenced_rte.rteid {}
        fkjn.location [] = .ok ed ∧
      enforce_and_rewrite pstate join fkjn o r (lookup_foreign_key cat r) ed = .ok j := by
  unfold validate_oriented at h
  cases hr : resolve_sides cat pstate fuel fkjn o with
  | error e => simp [hr] at h
  | ok r =>
      simp only [hr, ok_bind] at h
      by_cases hfk : lookup_foreign_key cat r = InvalidOid
      · simp [hfk] at h
      · simp only [hfk, if_false] at h
        cases hing : analyze_join_tree cat pstate fuel o.referencing_arg none
            r.referencing_rte.rteid {} fkjn.location [] with
        | error e => simp [hing] at h
        | ok ing =>
            cases hed : analyze_join_tree cat pstate fuel o.referenced_arg none
                r.referenced_rte.rteid {} fkjn.location [] with
            | error e => simp [hing, hed] at h
            | ok ed =>
                simp [hing, hed] at h
                exact ⟨r, ing, ed, rfl, hfk, hing, hed, h⟩

theorem validate_oriented_eq {cat : Catalog} {pstate : ParseState} {fuel : Nat}
    {join : JoinExpr} {fkjn : ForeignKeyClause} {o : OrientedSides} {r : ResolvedSides}
    {ing ed : AnalyzeOut}
    (hr : resolve_sides cat pstate fuel fkjn o = .ok r)
    (hfk : lookup_foreign_key cat r ≠ InvalidOid)
    (hing : analyze_join_tree cat pstate fuel o.referencing_arg none r.referencing_rte.rteid {}
        fkjn.location [] = .ok ing)
    (hed : analyze_join_tree cat pstate fuel o.referenced_arg none r.referenced_rte.rteid {}
        fkjn.location [] = .ok ed) :
    validate_oriented cat pstate fuel join fkjn o =
      enforce_and_rewrite pstate join fkjn o r (lookup_foreign_key cat r) ed := by
  unfold validate_oriented
  simp [hr, hfk, hing, hed]

theorem validate_eq {cat : Catalog} {pstate : ParseState} {fuel : Nat} {join : JoinExpr}
    {r_nsitem : ParseNamespaceItem} {l_namespace : List ParseNamespaceItem}
    {fkjn : ForeignKeyClause} {other_rel : ParseNamespaceItem}
    (hfk : join.fkJoin = some (.clause fkjn))
    (hother : find_other_rel fkjn.refAlias l_namespace = some other_rel)
    (hlen : fkjn.refCols.length = fkjn.localCols.length) :
    transformAndValidateForeignKeyJoin cat pstate fuel join r_nsitem l_namespace =
      validate_oriented cat pstate fuel join fkjn (orient_sides fkjn join other_rel r_nsitem) := by
  unfold transformAndValidateForeignKeyJoin
  simp [hfk, hother, hlen]

theorem enforce_and_rewrite_inv {pstate : ParseState} {join : JoinExpr}
    {fkjn : ForeignKeyClause} {o : OrientedSides} {r : ResolvedSides} {fkoid : Oid}
    {ed : AnalyzeOut} {j : JoinExpr}
    (h : enforce_and_rewrite pstate join fkjn o r fkoid ed = .ok j) :
    r.base_referenced_rte.rteid ∈ ed.uniqueness_preservation ∧
    fds_has_self_dep r.base_referenced_rte.rteid ed.functional_dependencies = .ok true ∧
    ∃ quals, build_fk_join_on_clause pstate o.referencing_rel.p_nscolumns r.referencing_attnums
        o.referenced_rel.p_nscolumns r.referenced_attnums = .ok quals ∧
      j = { join with quals := some quals, fkJoin := some (.node (stamp_node fkjn o r fkoid)) } := by
  unfold enforce_and_rewrite at h
  by_cases hu : r.base_referenced_rte.rteid ∈ ed.uniqueness_preservation
  · simp only [hu, not_true_eq_false, if_false] at h
    cases hfd : fds_has_self_dep r.base_referenced_rte.rteid ed.functional_dependencies with
    | error e => simp [hfd] at h
    | ok b =>
        cases b with
        | false => simp [hfd] at h
        | true =>
            simp [hfd] at h
            cases hq : build_fk_join_on_clause pstate o.referencing_rel.p_nscolumns
                r.referencing_attnums o.referenced_rel.p_nscolumns r.referenced_attnums with
            | error e => simp [hq] at h
            | ok quals =>
                simp [hq] at h
                exact ⟨hu, rfl, quals, rfl, h.symm⟩
  · simp [hu] at h

theorem enforce_not_unique {pstate : ParseState} {join : JoinExpr}
    {fkjn : ForeignKeyClause} {o : OrientedSides} {r : ResolvedSides} {fkoid : Oid}
    {ed : AnalyzeOut} (hu : r.base_referenced_rte.rteid ∉ ed.uniqueness_preservation) :
    enforce_and_rewrite pstate join fkjn o r fkoid ed = .error (err_not_unique fkjn.location) := by
  unfold enforce_and_rewrite
  simp [hu]

theorem enforce_not_all_rows {pstate : ParseState} {join : JoinExpr}
    {fkjn : ForeignKeyClause} {o : OrientedSides} {r : ResolvedSides} {fkoid : Oid}
    {ed : AnalyzeOut} (hu : r.base_referenced_rte.rteid ∈ ed.uniqueness_preservation)
    (hfd : fds_has_self_dep r.base_referenced_rte.rteid ed.functional_dependencies = .ok false) :
    enforce_and_rewrite pstate join fkjn o r fkoid ed = .error (err_not_all_rows fkjn.location) := by
  unfold enforce_and_rewrite
  simp [hu, hfd]

/-- The scan for a self-pair answers `true` exactly when the flat list holds `id` at some
even position `2 * k` and at the position after it, every earlier pair being complete. -/
theorem fds_has_self_dep_true {id : RTEId} :
    ∀ {fds : List RTEId}, fds_has_self_dep id fds = .ok true →
      ∃ k, fds[2 * k]? = some id ∧ fds[2 * k + 1]? = some id
  | [], h => by simp [fds_has_self_dep] at h
  | [_], h => by simp [fds_has_self_dep] at h
  | det :: dep :: rest, h => by
      unfold fds_has_self_dep at h
      by_cases hd : det = id ∧ dep = id
      · exact ⟨0, by simp [hd.1], by simp [hd.2]⟩
      · simp only [hd, if_false] at h
        obtain ⟨k, h1, h2⟩ := fds_has_self_dep_true h
        refine ⟨k + 1, ?_, ?_⟩
        · have : 2 * (k + 1) = (2 * k) + 1 + 1 := by ring
          rw [this]; simpa using h1
        · have : 2 * (k + 1) + 1 = (2 * k + 1) + 1 + 1 := by ring
          rw [this]; simpa using h2

/-- Claim C1, as stated, fails: for `(SELECT * FROM t1) AS s JOIN t2 KEY (c3) -> s (c1)` the
validator succeeds, the referenced entry named in the join has identity 13, and the sets
computed for the referenced child are `[31]` and `[31, 31]`, which hold the identity of the
drilled-down `t1` entry and not 13. -/
theorem referenced_original_id_counterexample :
    transformAndValidateForeignKeyJoin Demo.cat (Demo.pstate_of Demo.rte_s) 4
        (Demo.join_to "s") (Demo.ns_t2 2) [Demo.ns_derived "s" 1]
      = .ok (Demo.join_to_resolved "s") ∧
    (rt_fetch 1 (Demo.pstate_of Demo.rte_s).p_rtable).map RangeTblEntry.rteid = .ok 13 ∧
    analyze_join_tree Demo.cat (Demo.pstate_of Demo.rte_s) 4 (.RangeTblRef 1) none 13 {} 7 []
      = .ok { uniqueness_preservation := [31], functional_dependencies := [31, 31],
              found := false } ∧
    (13 : RTEId) ∉ ([31] : List RTEId) ∧
    fds_has_self_dep 13 [31, 31] = .ok false := by
  refine ⟨rfl, rfl, rfl, by decide, rfl⟩

/-- Claim C1 (amended). The validator succeeds only if the UniquenessSet computed for the
referenced child contains `R` and the FDSet computed for it holds the pair `(R, R)` at an
even position, where `R` is the identity of the base entry the referenced relation drills
down to (not the identity of the entry named in the join, which is only the target handed
to the analyzer).  When the validator reaches the checks, a missing `R` in the
UniquenessSet makes it fail with INVALID_FOREIGN_KEY "does not preserve uniqueness of
keys", and otherwise a missing self-pair makes it fail with INVALID_FOREIGN_KEY "does not
preserve all rows": uniqueness is tested first. -/
theorem validator_enforces_referenced_guarantees (cat : Catalog) (pstate : ParseState)
    (fuel : Nat) (join : JoinExpr) (r_nsitem : ParseNamespaceItem)
    (l_namespace : List ParseNamespaceItem) :
    (∀ j, transformAndValidateForeignKeyJoin cat pstate fuel join r_nsitem l_namespace = .ok j →
      ∃ fkjn other_rel r ed,
        join.fkJoin = some (.clause fkjn) ∧
        find_other_rel fkjn.refAlias l_namespace = some other_rel ∧
        resolve_sides cat pstate fuel fkjn (orient_sides fkjn join other_rel r_nsitem) = .ok r ∧
        analyze_join_tree cat pstate fuel (orient_sides fkjn join other_rel r_nsitem).referenced_arg
          none r.referenced_rte.rteid {} fkjn.location [] = .ok ed ∧
        r.base_referenced_rte.rteid ∈ ed.uniqueness_preservation ∧
        ∃ k, ed.functional_dependencies[2 * k]? = some r.base_referenced_rte.rteid ∧
          ed.functional_dependencies[2 * k + 1]? = some r.base_referenced_rte.rteid) ∧
    (∀ fkjn other_rel r ing ed,
        join.fkJoin = some (.clause fkjn) →
        find_other_rel fkjn.refAlias l_namespace = some other_rel →
        fkjn.refCols.length = fkjn.localCols.length →
        resolve_sides cat pstate fuel fkjn (orient_sides fkjn join other_rel r_nsitem) = .ok r →
        lookup_foreign_key cat r ≠ InvalidOid →
        analyze_join_tree cat pstate fuel (orient_sides fkjn join other_rel r_nsitem).referencing_arg
          none r.referencing_rte.rteid {} fkjn.location [] = .ok ing →
        analyze_join_tree cat pstate fuel (orient_sides fkjn join other_rel r_nsitem).referenced_arg
          none r.referenced_rte.rteid {} fkjn.location [] = .ok ed →
        (r.base_referenced_rte.rteid ∉ ed.uniqueness_preservation →
          transformAndValidateForeignKeyJoin cat pstate fuel join r_nsitem l_namespace
            = .error (err_not_unique fkjn.location)) ∧
        (r.base_referenced_rte.rteid ∈ ed.uniqueness_preservation →
          fds_has_self_dep r.base_referenced_rte.rteid ed.functional_dependencies = .ok false →
          transformAndValidateForeignKeyJoin cat pstate fuel join r_nsitem l_namespace
            = .error (err_not_all_rows fkjn.location))) := by
  constructor
  · intro j h
    obtain ⟨fkjn, other_rel, hfk, hother, _, hv⟩ := validate_inv h
    obtain ⟨r, ing, ed, hr, _, _, hed, he⟩ := validate_oriented_inv hv
    obtain ⟨hu, hfd, _⟩ := enforce_and_rewrite_inv he
    exact ⟨fkjn, other_rel, r, ed, hfk, hother, hr, hed, hu, fds_has_self_dep_true hfd⟩
  · intro fkjn other_rel r ing ed hfk hother hlen hr hne hing hed
    rw [validate_eq hfk hother hlen, validate_oriented_eq hr hne hing hed]
    exact ⟨fun hu => enforce_not_unique hu, fun hu hfd => enforce_not_all_rows hu hfd⟩

/-- The amended claim C1 at `(SELECT * FROM t1) AS s JOIN t2 KEY (c3) -> s (c1)`, which is
accepted, and at `(SELECT * FROM t1 WHERE c2 > 0) AS t1f JOIN t2 KEY (c3) -> t1f (c1)`, which
reaches the checks and fails the second one. -/
theorem validator_enforces_referenced_guarantees_witness :
    (∃ fkjn other_rel r ed,
        (Demo.join_to "s").fkJoin = some (.clause fkjn) ∧
        find_other_rel fkjn.refAlias [Demo.ns_derived "s" 1] = some other_rel ∧
        resolve_sides Demo.cat (Demo.pstate_of Demo.rte_s) 4 fkjn
          (orient_sides fkjn (Demo.join_to "s") other_rel (Demo.ns_t2 2)) = .ok r ∧
        analyze_join_tree Demo.cat (Demo.pstate_of Demo.rte_s) 4
          (orient_sides fkjn (Demo.join_to "s") other_rel (Demo.ns_t2 2)).referenced_arg
          none r.referenced_rte.rteid {} fkjn.location [] = .ok ed ∧
        r.base_referenced_rte.rteid ∈ ed.uniqueness_preservation ∧
        ∃ k, ed.functional_dependencies[2 * k]? = some r.base_referenced_rte.rteid ∧
          ed.functional_dependencies[2 * k + 1]? = some r.base_referenced_rte.rteid) ∧
    transformAndValidateForeignKeyJoin Demo.cat (Demo.pstate_of Demo.rte_t1f) 4
        (Demo.join_to "t1f") (Demo.ns_t2 2) [Demo.ns_derived "t1f" 1]
      = .error (err_not_all_rows 7) :=
  ⟨(validator_enforces_referenced_guarantees Demo.cat (Demo.pstate_of Demo.rte_s) 4
      (Demo.join_to "s") (Demo.ns_t2 2) [Demo.ns_derived "s" 1]).1 (Demo.join_to_resolved "s") rfl,
   ((validator_enforces_referenced_guarantees Demo.cat (Demo.pstate_of Demo.rte_t1f) 4
      (Demo.join_to "t1f") (Demo.ns_t2 2) [Demo.ns_derived "t1f" 1]).2
      { fkdir := .FKDIR_TO, refAlias := "t1f", refCols := ["c1"], localCols := ["c3"],
        location := 7 }
      (Demo.ns_derived "t1f" 1)
      { referencing_rte := Demo.rte_t2, referenced_rte := Demo.rte_t1f,
        referencing_attnums := [1], referenced_attnums := [1],
        base_referencing_rte := Demo.rte_t2, referencing_base_attnums := [1],
        base_referenced_rte := Demo.rte_t1_as 41, referenced_base_attnums := [1] }
      { uniqueness_preservation := [12], functional_dependencies := [12, 12] }
      { uniqueness_preservation := [41], functional_dependencies := [] }
      rfl rfl rfl rfl (by decide) rfl rfl).2 (by decide) rfl⟩

/-! ## The foreign-key lookup -/

theorem fk_pair_listed_iff (ck cfk : Int) :
    ∀ (as bs : List Int), fk_pair_listed as bs ck cfk = true ↔ (ck, cfk) ∈ as.zip bs
  | [], _ => by simp [fk_pair_listed]
  | _ :: _, [] => by simp [fk_pair_listed]
  | a :: as, b :: bs => by
      simp only [fk_pair_listed, Bool.or_eq_true, Bool.and_eq_true, decide_eq_true_eq,
        List.zip_cons_cons, List.mem_cons, Prod.mk.injEq, fk_pair_listed_iff ck cfk as bs]
      constructor
      · rintro (⟨h1, h2⟩ | h)
        · exact Or.inl ⟨h1.symm, h2.symm⟩
        · exact Or.inr h
      · rintro (⟨h1, h2⟩ | h)
        · exact Or.inl ⟨h1.symm, h2.symm⟩
        · exact Or.inr h

theorem fk_all_pairs_listed_iff (as bs : List Int) :
    ∀ (cks cfks : List Int), fk_all_pairs_listed as bs cks cfks = true ↔
      ∀ p ∈ cks.zip cfks, p ∈ as.zip bs
  | [], _ => by simp [fk_all_pairs_listed]
  | _ :: _, [] => by simp [fk_all_pairs_listed]
  | ck :: cks, cfk :: cfks => by
      simp only [fk_all_pairs_listed, Bool.and_eq_true, fk_pair_listed_iff,
        fk_all_pairs_listed_iff as bs cks cfks, List.zip_cons_cons, List.mem_cons,
        forall_eq_or_imp]

theorem fk_row_matches_iff (referencing_relid referenced_relid : Oid) (as bs : List Int)
    (con : ConstraintRow) :
    (con.conrelid = referencing_relid ∧ fk_row_matches referenced_relid as bs con = true) ↔
      FkConstraintAnswers con referencing_relid referenced_relid as bs := by
  unfold fk_row_matches FkConstraintAnswers
  cases hck : con.conkey with
  | none => by_cases h1 : con.contype = .CONSTRAINT_FOREIGN <;>
      by_cases h2 : con.confrelid = referenced_relid <;> simp [h1, h2]
  | some ck =>
      cases hcfk : con.confkey with
      | none => by_cases h1 : con.contype = .CONSTRAINT_FOREIGN <;>
          by_cases h2 : con.confrelid = referenced_relid <;> simp [h1, h2]
      | some cfk =>
          by_cases h1 : con.contype = .CONSTRAINT_FOREIGN <;>
          by_cases h2 : con.confrelid = referenced_relid <;>
          by_cases h3 : ck.length = cfk.length <;>
          by_cases h4 : ck.length = as.length <;>
          simp [h1, h2, h3, h4, fk_all_pairs_listed_iff]

theorem find_foreign_key_scan_eq (referenced_relid : Oid) (as bs : List Int) :
    ∀ (rows : List ConstraintRow),
      find_foreign_key_scan referenced_relid as bs rows =
        ((rows.find? (fk_row_matches referenced_relid as bs)).map (fun con => con.oid)).getD
          InvalidOid
  | [] => rfl
  | con :: rest => by
      unfold find_foreign_key_scan
      by_cases h : fk_row_matches referenced_relid as bs con = true
      · simp [h]
      · simp [h, find_foreign_key_scan_eq referenced_relid as bs rest]

theorem find_foreign_key_eq (cat : Catalog) (referencing_relid referenced_relid : Oid)
    (as bs : List Int) :
    find_foreign_key cat referencing_relid referenced_relid as bs =
      ((cat.constraints.find? (fun con => decide (con.conrelid = referencing_relid) &&
          fk_row_matches referenced_relid as bs con)).map (fun con => con.oid)).getD
        InvalidOid := by
  unfold find_foreign_key
  rw [find_foreign_key_scan_eq, List.find?_filter]
  congr 3
  funext a
  simp

theorem validate_oriented_no_fk {cat : Catalog} {pstate : ParseState} {fuel : Nat}
    {join : JoinExpr} {fkjn : ForeignKeyClause} {o : OrientedSides} {r : ResolvedSides}
    (hr : resolve_sides cat pstate fuel fkjn o = .ok r)
    (hfk : lookup_foreign_key cat r = InvalidOid) :
    validate_oriented cat pstate fuel join fkjn o =
      .error (err_no_foreign_key (rte_display_name cat r.referencing_rte)
        (column_list_to_string o.referencing_cols) (rte_display_name cat r.referenced_rte)
        (column_list_to_string o.referenced_cols) fkjn.location) := by
  unfold validate_oriented
  simp [hr, hfk]

theorem pair_sets_equal_of_answers {ck cfk as bs : List Int}
    (hlen : ck.length = cfk.length) (hn : ck.length = as.length)
    (hnd : (ck.zip cfk).Nodup) (hsub : ∀ p ∈ ck.zip cfk, p ∈ as.zip bs) :
    ∀ p, p ∈ ck.zip cfk ↔ p ∈ as.zip bs := by
  have hl : (as.zip bs).length ≤ (ck.zip cfk).length := by
    simp [List.length_zip]; omega
  have hsp : (ck.zip cfk).Subperm (as.zip bs) := List.subperm_of_subset hnd hsub
  have hperm : (ck.zip cfk).Perm (as.zip bs) := hsp.perm_of_length_le hl
  intro p
  exact hperm.mem_iff

theorem answers_of_pair_sets_equal {ck cfk as bs : List Int}
    (hlen : ck.length = cfk.length) (hab : as.length = bs.length)
    (hnd : (ck.zip cfk).Nodup) (hnd2 : (as.zip bs).Nodup)
    (heq : ∀ p, p ∈ ck.zip cfk ↔ p ∈ as.zip bs) :
    ck.length = as.length := by
  have hperm : (ck.zip cfk).Perm (as.zip bs) := (List.perm_ext_iff_of_nodup hnd hnd2).mpr heq
  have := hperm.length_eq
  simp [List.length_zip] at this
  omega


theorem find_foreign_key_found {cat : Catalog} {referencing_relid referenced_relid : Oid}
    {as bs : List Int}
    (h : find_foreign_key cat referencing_relid referenced_relid as bs ≠ InvalidOid) :
    ∃ con ∈ cat.constraints,
      FkConstraintAnswers con referencing_relid referenced_relid as bs ∧
      find_foreign_key cat referencing_relid referenced_relid as bs = con.oid := by
  rw [find_foreign_key_eq] at h ⊢
  cases hf : cat.constraints.find? (fun con => decide (con.conrelid = referencing_relid) &&
      fk_row_matches referenced_relid as bs con) with
  | none => simp [hf] at h
  | some con =>
      have hp := List.find?_some hf
      have hm := List.mem_of_find?_eq_some hf
      simp only [Bool.and_eq_true, decide_eq_true_eq] at hp
      exact ⟨con, hm, (fk_row_matches_iff _ _ _ _ _).mp hp, by simp⟩

theorem find_foreign_key_of_answer {cat : Catalog} {referencing_relid referenced_relid : Oid}
    {as bs : List Int}
    (h : ∃ con ∈ cat.constraints,
      FkConstraintAnswers con referencing_relid referenced_relid as bs) :
    ∃ con ∈ cat.constraints,
      FkConstraintAnswers con referencing_relid referenced_relid as bs ∧
      find_foreign_key cat referencing_relid referenced_relid as bs = con.oid := by
  obtain ⟨c, hc, hans⟩ := h
  rw [find_foreign_key_eq]
  cases hf : cat.constraints.find? (fun con => decide (con.conrelid = referencing_relid) &&
      fk_row_matches referenced_relid as bs con) with
  | none =>
      have := List.find?_eq_none.mp hf c hc
      have hp := (fk_row_matches_iff _ _ _ _ _).mpr hans
      simp [hp.1, hp.2] at this
  | some con =>
      have hp := List.find?_some hf
      have hm := List.mem_of_find?_eq_some hf
      simp only [Bool.and_eq_true, decide_eq_true_eq] at hp
      exact ⟨con, hm, (fk_row_matches_iff _ _ _ _ _).mp hp, by simp⟩

theorem find_foreign_key_none {cat : Catalog} {referencing_relid referenced_relid : Oid}
    {as bs : List Int}
    (h : ∀ con ∈ cat.constraints,
      ¬ FkConstraintAnswers con referencing_relid referenced_relid as bs) :
    find_foreign_key cat referencing_relid referenced_relid as bs = InvalidOid := by
  by_contra hne
  obtain ⟨con, hm, hans, _⟩ := find_foreign_key_found hne
  exact h con hm hans

/-- Claim C2, as stated, fails: the catalog holds the FOREIGN KEY constraint `t2_c3_fkey`
from `t2` to `t1` whose pair set `{(1, 1)}` equals the set of the supplied pairs
`(1, 1), (1, 1)`, yet `find_foreign_key` returns `InvalidOid`, because the constraint has
one key column and two pairs were supplied. -/
theorem find_foreign_key_pair_set_counterexample :
    Demo.t2_c3_fkey ∈ Demo.cat.constraints ∧
    FkPairSetEquals Demo.t2_c3_fkey 2 1 [1, 1] [1, 1] ∧
    find_foreign_key Demo.cat 2 1 [1, 1] [1, 1] = InvalidOid := by
  refine ⟨by simp [Demo.cat], ⟨rfl, rfl, rfl, [1], [1], rfl, rfl, rfl, ?_⟩, rfl⟩
  intro p
  simp

/-- Claim C2 (amended). `find_foreign_key` returns the identifier of the first row of
`pg_constraint`, in scan order, that is a FOREIGN KEY constraint with
`conrelid = referencing_relid` and `confrelid = referenced_relid`, whose `conkey` and
`confkey` are present and of one length equal to the number of supplied pairs, and each of
whose pairs `(conkey[i], confkey[i])` occurs among the supplied pairs (components not
exchanged); it returns `InvalidOid` when there is no such row.  When the supplied pairs are
pairwise distinct and so are the pairs of a row, this condition is equality of the two pair
sets.  Validation succeeds only if such a row, with a valid identifier, exists for the
drilled-down base relations and columns, and fails with UNDEFINED_OBJECT when the sides
resolve and there is none. -/
theorem find_foreign_key_answers (cat : Catalog) (referencing_relid referenced_relid : Oid)
    (as bs : List Int) :
    find_foreign_key cat referencing_relid referenced_relid as bs =
      ((cat.constraints.find? (fun con => decide (con.conrelid = referencing_relid) &&
          fk_row_matches referenced_relid as bs con)).map (fun con => con.oid)).getD
        InvalidOid ∧
    (∀ con, (con.conrelid = referencing_relid ∧
        fk_row_matches referenced_relid as bs con = true) ↔
      FkConstraintAnswers con referencing_relid referenced_relid as bs) ∧
    ((∃ con ∈ cat.constraints,
        FkConstraintAnswers con referencing_relid referenced_relid as bs) →
      ∃ con ∈ cat.constraints,
        FkConstraintAnswers con referencing_relid referenced_relid as bs ∧
        find_foreign_key cat referencing_relid referenced_relid as bs = con.oid) ∧
    ((∀ con ∈ cat.constraints,
        ¬ FkConstraintAnswers con referencing_relid referenced_relid as bs) →
      find_foreign_key cat referencing_relid referenced_relid as bs = InvalidOid) ∧
    (∀ con conkey confkey, con.conkey = some conkey → con.confkey = some confkey →
      as.length = bs.length → (conkey.zip confkey).Nodup → (as.zip bs).Nodup →
      (FkConstraintAnswers con referencing_relid referenced_relid as bs ↔
        FkPairSetEquals con referencing_relid referenced_relid as bs)) ∧
    (∀ pstate fuel join r_nsitem l_namespace j,
      transformAndValidateForeignKeyJoin cat pstate fuel join r_nsitem l_namespace = .ok j →
      ∃ fkjn other_rel r con,
        join.fkJoin = some (.clause fkjn) ∧
        find_other_rel fkjn.refAlias l_namespace = some other_rel ∧
        resolve_sides cat pstate fuel fkjn (orient_sides fkjn join other_rel r_nsitem) = .ok r ∧
        con ∈ cat.constraints ∧
        FkConstraintAnswers con r.base_referencing_rte.relid r.base_referenced_rte.relid
          r.referencing_base_attnums r.referenced_base_attnums ∧
        lookup_foreign_key cat r = con.oid ∧ con.oid ≠ InvalidOid) ∧
    (∀ pstate fuel join r_nsitem l_namespace fkjn other_rel r,
      join.fkJoin = some (.clause fkjn) →
      find_other_rel fkjn.refAlias l_namespace = some other_rel →
      fkjn.refCols.length = fkjn.localCols.length →
      resolve_sides cat pstate fuel fkjn (orient_sides fkjn join other_rel r_nsitem) = .ok r →
      (∀ con ∈ cat.constraints,
        ¬ FkConstraintAnswers con r.base_referencing_rte.relid r.base_referenced_rte.relid
          r.referencing_base_attnums r.referenced_base_attnums) →
      ∃ e, transformAndValidateForeignKeyJoin cat pstate fuel join r_nsitem l_namespace =
          .error (.ereport e) ∧ e.sqlerrcode = .UNDEFINED_OBJECT) := by
  refine ⟨find_foreign_key_eq _ _ _ _ _, fun con => fk_row_matches_iff _ _ _ _ con,
    find_foreign_key_of_answer, find_foreign_key_none, ?_, ?_, ?_⟩
  · intro con ck cfk hck hcfk hab hnd hnd2
    unfold FkConstraintAnswers FkPairSetEquals
    constructor
    · rintro ⟨h1, h2, h3, ck', cfk', hck', hcfk', hlen, hn, hsub⟩
      rw [hck] at hck'; rw [hcfk] at hcfk'
      cases hck'; cases hcfk'
      exact ⟨h1, h2, h3, ck, cfk, hck, hcfk, hlen,
        pair_sets_equal_of_answers hlen hn hnd hsub⟩
    · rintro ⟨h1, h2, h3, ck', cfk', hck', hcfk', hlen, heq⟩
      rw [hck] at hck'; rw [hcfk] at hcfk'
      cases hck'; cases hcfk'
      exact ⟨h1, h2, h3, ck, cfk, hck, hcfk, hlen,
        answers_of_pair_sets_equal hlen hab hnd hnd2 heq, fun p hp => (heq p).mp hp⟩
  · intro pstate fuel join r_nsitem l_namespace j h
    obtain ⟨fkjn, other_rel, hfk, hother, _, hv⟩ := validate_inv h
    obtain ⟨r, ing, ed, hr, hne, _, _, _⟩ := validate_oriented_inv hv
    obtain ⟨con, hm, hans, heq⟩ := find_foreign_key_found hne
    refine ⟨fkjn, other_rel, r, con, hfk, hother, hr, hm, hans, heq, ?_⟩
    intro h0
    exact hne (heq.trans h0)
  · intro pstate fuel join r_nsitem l_namespace fkjn other_rel r hfk hother hlen hr hnone
    rw [validate_eq hfk hother hlen,
      validate_oriented_no_fk hr (find_foreign_key_none hnone)]
    exact ⟨_, rfl, rfl⟩

/-- The amended claim C2 at the catalog of `t1` and `t2`: the lookup for `t2(c3)` referencing
`t1(c1)` is answered by `t2_c3_fkey`, and the lookup in the opposite direction by no row. -/
theorem find_foreign_key_answers_witness :
    (∃ con ∈ Demo.cat.constraints, FkConstraintAnswers con 2 1 [1] [1] ∧
      find_foreign_key Demo.cat 2 1 [1] [1] = con.oid) ∧
    find_foreign_key Demo.cat 1 2 [1] [1] = InvalidOid :=
  ⟨(find_foreign_key_answers Demo.cat 2 1 [1] [1]).2.2.1
      ⟨Demo.t2_c3_fkey, by simp [Demo.cat],
        ⟨rfl, rfl, rfl, [1], [1], rfl, rfl, rfl, rfl, by simp⟩⟩,
   (find_foreign_key_answers Demo.cat 1 2 [1] [1]).2.2.2.1
      (by
        intro con hcon
        simp [Demo.cat] at hcon
        subst hcon
        rintro ⟨_, h, _⟩
        exact absurd h (by decide))⟩

/-! ## Column resolution -/

theorem scan_colnames_absent (side ref_colname : String) (location : Int) :
    ∀ (colnames : List String) (ndx col_index : Int), ref_colname ∉ colnames →
      scan_colnames side ref_colname location colnames ndx col_index = .ok col_index
  | [], _, _, _ => rfl
  | colname :: rest, ndx, col_index, h => by
      have h1 : colname ≠ ref_colname := fun e => h (by simp [e])
      have h2 : ref_colname ∉ rest := fun e => h (List.mem_cons_of_mem _ e)
      simp [scan_colnames, h1, scan_colnames_absent side ref_colname location rest _ _ h2]

theorem scan_colnames_unique (side ref_colname : String) (location : Int) :
    ∀ (colnames : List String) (ndx col_index : Int), colnames.count ref_colname = 1 →
      col_index < 0 → 0 ≤ ndx →
      scan_colnames side ref_colname location colnames ndx col_index =
        .ok (ndx + (colnames.indexOf ref_colname : Int))
  | [], _, _, h, _, _ => by simp at h
  | colname :: rest, ndx, col_index, h, hneg, hnd => by
      by_cases hc : colname = ref_colname
      · subst hc
        have h0 : rest.count colname = 0 := by simpa using h
        have habs : colname ∉ rest := List.count_eq_zero.mp h0
        have hnot : ¬ (col_index ≥ 0) := by omega
        simp [scan_colnames, hnot, scan_colnames_absent side colname location rest _ _ habs]
      · have h1 : rest.count ref_colname = 1 := by
          rw [List.count_cons_of_ne (Ne.symm hc)] at h
          exact h
        have hne : ¬ ((colname == ref_colname) = true) := by simpa using hc
        simp only [scan_colnames, hc, if_false]
        rw [scan_colnames_unique side ref_colname location rest (ndx + 1) col_index h1 hneg
          (by omega)]
        simp [List.indexOf_cons, hne]
        ring

theorem resolve_cols_unique (side : String) (colnames : List String) (location : Int) :
    ∀ (cols : List String), (∀ name ∈ cols, colnames.count name = 1) →
      resolve_cols side colnames location cols = .ok (cols.map (column_position colnames))
  | [], _ => rfl
  | name :: rest, h => by
      have h1 := h name (List.mem_cons_self _ _)
      have hrest := resolve_cols_unique side colnames location rest
        (fun n hn => h n (List.mem_cons_of_mem _ hn))
      have hnn : ¬ ((0 : Int) + (colnames.indexOf name : Int) < 0) := by omega
      simp [resolve_cols, scan_colnames_unique side name location colnames 0 (-1) h1
        (by decide) (by decide), hnn, hrest, column_position]

theorem column_position_in_range {colnames : List String} {name : String}
    (h : colnames.count name = 1) :
    1 ≤ column_position colnames name ∧
      column_position colnames name ≤ (colnames.length : Int) := by
  have hm : name ∈ colnames := List.count_pos_iff.mp (by omega)
  have := List.indexOf_lt_length.mpr hm
  unfold column_position
  omega

/-! ## Base-table leaves -/

theorem drill_down_to_base_rel_succ (cat : Catalog) (pstate : ParseState) (fuel : Nat) :
    drill_down_to_base_rel cat pstate (fuel + 1) =
      drill_down_to_base_rel_body cat pstate (drill_down_to_base_rel cat pstate fuel) := rfl

theorem analyze_join_tree_succ (cat : Catalog) (pstate : ParseState) (fuel : Nat) :
    analyze_join_tree cat pstate (fuel + 1) =
      analyze_join_tree_body cat pstate (analyze_join_tree cat pstate fuel)
        (drill_down_to_base_rel cat pstate fuel) := rfl

theorem drill_down_base_table {cat : Catalog} {pstate : ParseState} {fuel : Nat}
    {rte : RangeTblEntry} {rel : RelInfo} (attnums : List Int) (location : Int)
    (query_stack : QueryStack)
    (hkind : rte.rtekind = .RTE_RELATION) (hrel : cat.relations rte.relid = some rel)
    (hbase : IsBaseTableKind rel.relkind) :
    drill_down_to_base_rel cat pstate (fuel + 1) rte attnums location query_stack =
      .ok (rte, attnums) := by
  rw [drill_down_to_base_rel_succ]
  unfold drill_down_to_base_rel_body
  rcases hbase with hb | hb <;> simp [hkind, table_open, hrel, hb]

theorem analyze_base_table_leaf {cat : Catalog} {pstate : ParseState} {fuel : Nat}
    {rtindex : Int} {query : Option Query} {rte : RangeTblEntry} {rel : RelInfo}
    {unfiltered : Bool} (rte_id : RTEId) (out : AnalyzeOut) (location : Int)
    (query_stack : QueryStack)
    (hfetch : rt_fetch rtindex (match query with
        | some q => q.rtable
        | none => pstate.p_rtable) = .ok rte)
    (hkind : rte.rtekind = .RTE_RELATION) (hrel : cat.relations rte.relid = some rel)
    (hbase : IsBaseTableKind rel.relkind)
    (hfilter : leaf_is_unfiltered rel query = .ok unfiltered) :
    analyze_join_tree cat pstate (fuel + 1) (.RangeTblRef rtindex) query rte_id out location
        query_stack =
      .ok (if unfiltered then
            { out with uniqueness_preservation := [rte.rteid],
                       functional_dependencies := [rte.rteid, rte.rteid] }
          else { out with uniqueness_preservation := [rte.rteid] }) := by
  rw [analyze_join_tree_succ]
  unfold analyze_join_tree_body
  have hnv : rel.relkind ≠ .RELKIND_VIEW := by
    rcases hbase with hb | hb <;> simp [hb]
  have hb' : rel.relkind = .RELKIND_RELATION ∨ rel.relkind = .RELKIND_PARTITIONED_TABLE := hbase
  cases unfiltered <;> simp [hfetch, hkind, table_open, hrel, hnv, hb', hfilter]

theorem fk_join_raw_clause_ok (l_nscols r_nscols : List ParseNamespaceColumn)
    (l_attnums r_attnums : List Int) (hlen : l_attnums.length = r_attnums.length)
    (hl : ∀ a ∈ l_attnums, 1 ≤ a ∧ a ≤ (l_nscols.length : Int))
    (hr : ∀ b ∈ r_attnums, 1 ≤ b ∧ b ≤ (r_nscols.length : Int)) :
    ∃ raw, fk_join_raw_clause l_nscols l_attnums r_nscols r_attnums = .ok raw := by
  obtain ⟨andargs, hok, _, _⟩ :=
    fk_join_andargs_spec l_nscols r_nscols l_attnums r_attnums hlen hl hr
  unfold fk_join_raw_clause
  simp only [hlen, ne_eq, not_true_eq_false, if_false, hok]
  match andargs with
  | [] => exact ⟨_, rfl⟩
  | [e] => exact ⟨_, rfl⟩
  | _ :: _ :: _ => exact ⟨_, rfl⟩

theorem orient_sides_cols_length {fkjn : ForeignKeyClause} {join : JoinExpr}
    {other_rel r_nsitem : ParseNamespaceItem}
    (hlen : fkjn.refCols.length = fkjn.localCols.length) :
    (orient_sides fkjn join other_rel r_nsitem).referencing_cols.length =
      (orient_sides fkjn join other_rel r_nsitem).referenced_cols.length := by
  unfold orient_sides
  split <;> simp [hlen]

theorem orient_sides_plain_args {fkjn : ForeignKeyClause} {join : JoinExpr}
    {other_rel r_nsitem : ParseNamespaceItem}
    (hlarg : join.larg = .RangeTblRef other_rel.p_rtindex)
    (hrarg : join.rarg = .RangeTblRef r_nsitem.p_rtindex) :
    (orient_sides fkjn join other_rel r_nsitem).referencing_arg =
        .RangeTblRef (orient_sides fkjn join other_rel r_nsitem).referencing_rel.p_rtindex ∧
    (orient_sides fkjn join other_rel r_nsitem).referenced_arg =
        .RangeTblRef (orient_sides fkjn join other_rel r_nsitem).referenced_rel.p_rtindex := by
  unfold orient_sides
  split <;> simp [hlarg, hrarg]

/-- Claim C3. If both children of the join are plain references to ordinary (or
partitioned) base tables, the referenced table has no row-level security, every named
column occurs exactly once among its relation's visible columns, and the catalog holds a
FOREIGN KEY constraint from the referencing table to the referenced table whose pairs are
the named column pairs in some order, then the validator succeeds, whatever the direction
marker: it stamps a constraint whose pair set is the set of named pairs and sets the ON
predicate to what the host's expression transformer makes of the generated equalities.
Assumed of the environment: relation and constraint identifiers are valid, the pairs of a
constraint row are pairwise distinct, each namespace item has one namespace column per
column name, and the host accepts the generated clause. -/
theorem plain_base_table_join_accepted (cat : Catalog) (pstate : ParseState) (fuel : Nat)
    (join : JoinExpr) (r_nsitem : ParseNamespaceItem) (l_namespace : List ParseNamespaceItem)
    (fkjn : ForeignKeyClause) (other_rel : ParseNamespaceItem) (o : OrientedSides)
    (ing_rte ed_rte : RangeTblEntry) (ing_rel ed_rel : RelInfo) (con : ConstraintRow)
    (conkey confkey : List Int)
    (hfk : join.fkJoin = some (.clause fkjn))
    (hother : find_other_rel fkjn.refAlias l_namespace = some other_rel)
    (hlen : fkjn.refCols.length = fkjn.localCols.length)
    (hlarg : join.larg = .RangeTblRef other_rel.p_rtindex)
    (hrarg : join.rarg = .RangeTblRef r_nsitem.p_rtindex)
    (ho : o = orient_sides fkjn join other_rel r_nsitem)
    (hing : rt_fetch o.referencing_rel.p_rtindex pstate.p_rtable = .ok ing_rte)
    (hed : rt_fetch o.referenced_rel.p_rtindex pstate.p_rtable = .ok ed_rte)
    (hingk : ing_rte.rtekind = .RTE_RELATION) (hedk : ed_rte.rtekind = .RTE_RELATION)
    (hingr : cat.relations ing_rte.relid = some ing_rel)
    (hedr : cat.relations ed_rte.relid = some ed_rel)
    (hingb : IsBaseTableKind ing_rel.relkind) (hedb : IsBaseTableKind ed_rel.relkind)
    (hingv : ing_rte.relid ≠ InvalidOid) (hedv : ed_rte.relid ≠ InvalidOid)
    (hrls : ed_rel.relrowsecurity = false)
    (hingu : ∀ name ∈ o.referencing_cols, o.referencing_rel.colnames.count name = 1)
    (hedu : ∀ name ∈ o.referenced_cols, o.referenced_rel.colnames.count name = 1)
    (hingn : o.referencing_rel.p_nscolumns.length = o.referencing_rel.colnames.length)
    (hedn : o.referenced_rel.p_nscolumns.length = o.referenced_rel.colnames.length)
    (hcon : con ∈ cat.constraints) (hcont : con.contype = .CONSTRAINT_FOREIGN)
    (hconrel : con.conrelid = ing_rte.relid) (hconfrel : con.confrelid = ed_rte.relid)
    (hconkey : con.conkey = some conkey) (hconfkey : con.confkey = some confkey)
    (hkeylen : conkey.length = confkey.length)
    (hperm : (conkey.zip confkey).Perm
      ((o.referencing_cols.map (column_position o.referencing_rel.colnames)).zip
        (o.referenced_cols.map (column_position o.referenced_rel.colnames))))
    (hoids : ∀ c ∈ cat.constraints, c.oid ≠ InvalidOid)
    (hnodup : ∀ c ∈ cat.constraints, ∀ k fk, c.conkey = some k → c.confkey = some fk →
      (k.zip fk).Nodup)
    (hhost : ∀ raw,
      fk_join_raw_clause o.referencing_rel.p_nscolumns
        (o.referencing_cols.map (column_position o.referencing_rel.colnames))
        o.referenced_rel.p_nscolumns
        (o.referenced_cols.map (column_position o.referenced_rel.colnames)) = .ok raw →
      ∃ quals, (liftHost (pstate.transformExpr raw) >>=
        fun e => liftHost (pstate.coerce_to_boolean e)) = .ok quals) :
    ∃ stamped raw quals,
      stamped ∈ cat.constraints ∧
      FkPairSetEquals stamped ing_rte.relid ed_rte.relid
        (o.referencing_cols.map (column_position o.referencing_rel.colnames))
        (o.referenced_cols.map (column_position o.referenced_rel.colnames)) ∧
      fk_join_raw_clause o.referencing_rel.p_nscolumns
        (o.referencing_cols.map (column_position o.referencing_rel.colnames))
        o.referenced_rel.p_nscolumns
        (o.referenced_cols.map (column_position o.referenced_rel.colnames)) = .ok raw ∧
      (liftHost (pstate.transformExpr raw) >>=
        fun e => liftHost (pstate.coerce_to_boolean e)) = .ok quals ∧
      transformAndValidateForeignKeyJoin cat pstate (fuel + 1) join r_nsitem l_namespace =
        .ok { join with
              quals := some quals,
              fkJoin := some (.node
                { fkdir := fkjn.fkdir,
                  referencingVarno := o.referencing_rel.p_rtindex,
                  referencingAttnums :=
                    o.referencing_cols.map (column_position o.referencing_rel.colnames),
                  referencedVarno := o.referenced_rel.p_rtindex,
                  referencedAttnums :=
                    o.referenced_cols.map (column_position o.referenced_rel.colnames),
                  constraint := stamped.oid }) } := by
  have hcl : o.referencing_cols.length = o.referenced_cols.length := by
    rw [ho]; exact orient_sides_cols_length hlen
  obtain ⟨harg1, harg2⟩ := @orient_sides_plain_args fkjn join other_rel r_nsitem hlarg hrarg
  rw [← ho] at harg1 harg2
  -- the sides resolve
  have hres : resolve_sides cat pstate (fuel + 1) fkjn o = .ok
      { referencing_rte := ing_rte, referenced_rte := ed_rte,
        referencing_attnums := o.referencing_cols.map (column_position o.referencing_rel.colnames),
        referenced_attnums := o.referenced_cols.map (column_position o.referenced_rel.colnames),
        base_referencing_rte := ing_rte,
        referencing_base_attnums :=
          o.referencing_cols.map (column_position o.referencing_rel.colnames),
        base_referenced_rte := ed_rte,
        referenced_base_attnums :=
          o.referenced_cols.map (column_position o.referenced_rel.colnames) } := by
    unfold resolve_sides
    have h1 : ¬ (ing_rte.relid = InvalidOid) := hingv
    have h2 : ¬ (ed_rte.relid = InvalidOid) := hedv
    simp [hing, hed, resolve_cols_unique _ _ _ _ hingu, resolve_cols_unique _ _ _ _ hedu,
      drill_down_base_table _ _ _ hingk hingr hingb,
      drill_down_base_table _ _ _ hedk hedr hedb, h1, h2]
  -- the lookup is answered
  have hzl := hperm.length_eq
  simp only [List.length_zip, List.length_map] at hzl
  have hans : FkConstraintAnswers con ing_rte.relid ed_rte.relid
      (o.referencing_cols.map (column_position o.referencing_rel.colnames))
      (o.referenced_cols.map (column_position o.referenced_rel.colnames)) :=
    ⟨hcont, hconrel, hconfrel, conkey, confkey, hconkey, hconfkey, hkeylen,
      by simp only [List.length_map]; omega, fun p hp => hperm.subset hp⟩
  obtain ⟨stamped, hsm, hsans, hseq⟩ := find_foreign_key_of_answer ⟨con, hcon, hans⟩
  have hsoid : stamped.oid ≠ InvalidOid := hoids stamped hsm
  have hset : FkPairSetEquals stamped ing_rte.relid ed_rte.relid
      (o.referencing_cols.map (column_position o.referencing_rel.colnames))
      (o.referenced_cols.map (column_position o.referenced_rel.colnames)) := by
    obtain ⟨h1, h2, h3, k, fk, hk, hfk', hl1, hl2, hsub⟩ := hsans
    exact ⟨h1, h2, h3, k, fk, hk, hfk', hl1,
      pair_sets_equal_of_answers hl1 hl2 (hnodup stamped hsm k fk hk hfk') hsub⟩
  -- the generated clause
  obtain ⟨raw, hraw⟩ := fk_join_raw_clause_ok o.referencing_rel.p_nscolumns
    o.referenced_rel.p_nscolumns
    (o.referencing_cols.map (column_position o.referencing_rel.colnames))
    (o.referenced_cols.map (column_position o.referenced_rel.colnames))
    (by simp [hcl])
    (by
      intro a ha
      obtain ⟨name, hn, rfl⟩ := List.mem_map.mp ha
      rw [hingn]
      exact column_position_in_range (hingu name hn))
    (by
      intro a ha
      obtain ⟨name, hn, rfl⟩ := List.mem_map.mp ha
      rw [hedn]
      exact column_position_in_range (hedu name hn))
  obtain ⟨quals, hquals⟩ := hhost raw hraw
  refine ⟨stamped, raw, quals, hsm, hset, hraw, hquals, ?_⟩
  have hlk : lookup_foreign_key cat
      { referencing_rte := ing_rte, referenced_rte := ed_rte,
        referencing_attnums := o.referencing_cols.map (column_position o.referencing_rel.colnames),
        referenced_attnums := o.referenced_cols.map (column_position o.referenced_rel.colnames),
        base_referencing_rte := ing_rte,
        referencing_base_attnums :=
          o.referencing_cols.map (column_position o.referencing_rel.colnames),
        base_referenced_rte := ed_rte,
        referenced_base_attnums :=
          o.referenced_cols.map (column_position o.referenced_rel.colnames) } = stamped.oid :=
    hseq
  have hleaf1 := @analyze_base_table_leaf cat pstate fuel
    o.referencing_rel.p_rtindex none ing_rte ing_rel (!ing_rel.relrowsecurity)
    ing_rte.rteid {} fkjn.location [] hing hingk hingr hingb rfl
  have hleaf2 := @analyze_base_table_leaf cat pstate fuel
    o.referenced_rel.p_rtindex none ed_rte ed_rel (!ed_rel.relrowsecurity)
    ed_rte.rteid {} fkjn.location [] hed hedk hedr hedb rfl
  rw [hrls] at hleaf2
  rw [validate_eq hfk hother hlen, ← ho]
  rw [validate_oriented_eq hres (by rw [hlk]; exact hsoid)
    (by rw [harg1]; exact hleaf1) (by rw [harg2]; exact hleaf2)]
  unfold enforce_and_rewrite build_fk_join_on_clause
  simp [fds_has_self_dep, hraw, hlk, stamp_node]
  rw [bind_eq_ok] at hquals
  obtain ⟨typed, ht, hc⟩ := hquals
  simp [ht, hc]


theorem demo_constraints_nodup :
    ∀ c ∈ Demo.cat.constraints, ∀ k fk, c.conkey = some k → c.confkey = some fk →
      (k.zip fk).Nodup := by
  intro c hc k fk hk hfk
  simp [Demo.cat] at hc
  subst hc
  simp [Demo.t2_c3_fkey] at hk hfk
  subst hk; subst hfk
  simp

/-- Claim C3 at `t1(c1 PK, c2)`, `t2(c3 PK REFERENCES t1(c1), c4)`: both
`t1 JOIN t2 KEY (c3) -> t1 (c1)` and `t2 JOIN t1 KEY (c1) <- t2 (c3)` are accepted with
the constraint `t2_c3_fkey` (OID 100) and the predicate `t2.c3 = t1.c1`. -/
theorem plain_base_table_join_accepted_witness :
    transformAndValidateForeignKeyJoin Demo.cat (Demo.pstate_of Demo.rte_t1) 1
        (Demo.join_to "t1") (Demo.ns_t2 2) [Demo.ns_t1 1] = .ok (Demo.join_to_resolved "t1") ∧
    transformAndValidateForeignKeyJoin Demo.cat Demo.pstate_mirror 1
        Demo.join_from_t2 (Demo.ns_t1 2) [Demo.ns_t2 1] = .ok Demo.join_from_t2_resolved ∧
    (∃ stamped raw quals,
      stamped ∈ Demo.cat.constraints ∧
      FkPairSetEquals stamped 2 1 [1] [1] ∧
      fk_join_raw_clause (Demo.nscols2 2) [1] (Demo.nscols2 1) [1] = .ok raw ∧
      (liftHost (Except.ok raw) >>= fun e => liftHost (Except.ok e)) = Except.ok quals ∧
      transformAndValidateForeignKeyJoin Demo.cat (Demo.pstate_of Demo.rte_t1) 1
          (Demo.join_to "t1") (Demo.ns_t2 2) [Demo.ns_t1 1] =
        .ok { Demo.join_to "t1" with
              quals := some quals,
              fkJoin := some (.node
                { fkdir := .FKDIR_TO, referencingVarno := 2, referencingAttnums := [1],
                  referencedVarno := 1, referencedAttnums := [1],
                  constraint := stamped.oid }) }) :=
  ⟨rfl, rfl,
    plain_base_table_join_accepted Demo.cat (Demo.pstate_of Demo.rte_t1) 0
      (Demo.join_to "t1") (Demo.ns_t2 2) [Demo.ns_t1 1]
      { fkdir := .FKDIR_TO, refAlias := "t1", refCols := ["c1"], localCols := ["c3"],
        location := 7 }
      (Demo.ns_t1 1)
      { referencing_rel := Demo.ns_t2 2, referenced_rel := Demo.ns_t1 1,
        referencing_cols := ["c3"], referenced_cols := ["c1"],
        referencing_arg := .RangeTblRef 2, referenced_arg := .RangeTblRef 1 }
      Demo.rte_t2 Demo.rte_t1 Demo.t2_rel Demo.t1_rel Demo.t2_c3_fkey [1] [1]
      rfl rfl rfl rfl rfl rfl rfl rfl rfl rfl rfl rfl (Or.inl rfl) (Or.inl rfl)
      (by decide) (by decide) rfl (by decide) (by decide) rfl rfl
      (by simp [Demo.cat]) rfl rfl rfl rfl rfl rfl (by decide) (by decide)
      demo_constraints_nodup (fun raw _ => ⟨raw, rfl⟩)⟩

/-! ## Leaves that wrap a query -/

theorem leaf_is_unfiltered_some {rel : RelInfo} {q : Query} {jointree : FromExpr}
    (hjt : q.fields.jointree = some jointree) :
    leaf_is_unfiltered rel (some q) =
      .ok (!rel.relrowsecurity && (jointree.quals.isNone && q.fields.limitOffset.isNone &&
        q.fields.limitCount.isNone && q.fields.havingQual.isNone)) := by
  unfold leaf_is_unfiltered
  cases h : rel.relrowsecurity <;> simp [hjt]

theorem leaf_is_unfiltered_filtered {rel : RelInfo} {q : Query} {jointree : FromExpr}
    (hjt : q.fields.jointree = some jointree)
    (hf : QueryFiltered q ∨ rel.relrowsecurity = true) :
    leaf_is_unfiltered rel (some q) = .ok false := by
  rw [leaf_is_unfiltered_some hjt]
  rcases hf with (⟨jt, hjt', hq⟩ | hh | hl | ho) | hr
  · rw [hjt] at hjt'
    cases hjt'
    cases hq' : jointree.quals <;> simp_all
  · cases hq' : q.fields.havingQual <;> simp_all
  · cases hq' : q.fields.limitCount <;> simp_all
  · cases hq' : q.fields.limitOffset <;> simp_all
  · simp [hr]

theorem analyze_wrapper {cat : Catalog} {pstate : ParseState} {fuel : Nat} {rtindex : Int}
    {query : Option Query} {rte : RangeTblEntry} {q : Query} {item : JoinTree}
    (rte_id : RTEId) (out : AnalyzeOut) (location : Int) (query_stack : QueryStack)
    (hfetch : rt_fetch rtindex (match query with
        | some q => q.rtable
        | none => pstate.p_rtable) = .ok rte)
    (hwrap : RteWrapsQuery cat rte q) (hitem : SingleFromItem q item) :
    analyze_join_tree cat pstate (fuel + 1) (.RangeTblRef rtindex) query rte_id out location
        query_stack =
      analyze_join_tree cat pstate fuel item (some q) rte_id out location (q :: query_stack)
        >>= after_inner_query cat q := by
  obtain ⟨jointree, hjt, hfl⟩ := hitem
  rw [analyze_join_tree_succ]
  unfold analyze_join_tree_body
  rcases hwrap with ⟨hk, hs⟩ | ⟨hk, rel, hrel, hv, hq⟩
  · simp only [hfetch, ok_bind, hk, hs, pure_eq_ok, hjt, hfl]
  · simp only [hfetch, ok_bind, hk, table_open, hrel, hv, if_true, get_view_query, hq,
      pure_eq_ok, hjt, hfl]


theorem resolve_sides_inv {cat : Catalog} {pstate : ParseState} {fuel : Nat}
    {fkjn : ForeignKeyClause} {o : OrientedSides} {r : ResolvedSides}
    (h : resolve_sides cat pstate fuel fkjn o = .ok r) :
    rt_fetch o.referencing_rel.p_rtindex pstate.p_rtable = .ok r.referencing_rte ∧
    rt_fetch o.referenced_rel.p_rtindex pstate.p_rtable = .ok r.referenced_rte ∧
    resolve_cols "referencing" o.referencing_rel.colnames fkjn.location o.referencing_cols
      = .ok r.referencing_attnums ∧
    resolve_cols "referenced" o.referenced_rel.colnames fkjn.location o.referenced_cols
      = .ok r.referenced_attnums ∧
    drill_down_to_base_rel cat pstate fuel r.referencing_rte r.referencing_attnums
      fkjn.location [] = .ok (r.base_referencing_rte, r.referencing_base_attnums) ∧
    drill_down_to_base_rel cat pstate fuel r.referenced_rte r.referenced_attnums
      fkjn.location [] = .ok (r.base_referenced_rte, r.referenced_base_attnums) ∧
    r.base_referencing_rte.relid ≠ InvalidOid ∧ r.base_referenced_rte.relid ≠ InvalidOid := by
  unfold resolve_sides at h
  cases h1 : rt_fetch o.referencing_rel.p_rtindex pstate.p_rtable with
  | error e => simp [h1] at h
  | ok ing_rte =>
  cases h2 : rt_fetch o.referenced_rel.p_rtindex pstate.p_rtable with
  | error e => simp [h1, h2] at h
  | ok ed_rte =>
  cases h3 : resolve_cols "referencing" o.referencing_rel.colnames fkjn.location
      o.referencing_cols with
  | error e => simp [h1, h2, h3] at h
  | ok ing_attnums =>
  cases h4 : resolve_cols "referenced" o.referenced_rel.colnames fkjn.location
      o.referenced_cols with
  | error e => simp [h1, h2, h3, h4] at h
  | ok ed_attnums =>
  cases h5 : drill_down_to_base_rel cat pstate fuel ing_rte ing_attnums fkjn.location [] with
  | error e => simp [h1, h2, h3, h4, h5] at h
  | ok p5 =>
  cases h6 : drill_down_to_base_rel cat pstate fuel ed_rte ed_attnums fkjn.location [] with
  | error e => simp [h1, h2, h3, h4, h5, h6] at h
  | ok p6 =>
  obtain ⟨b5, a5⟩ := p5
  obtain ⟨b6, a6⟩ := p6
  simp only [h1, h2, h3, h4, h5, h6, ok_bind] at h
  by_cases hv : b5.relid = InvalidOid ∨ b6.relid = InvalidOid
  · simp [hv] at h
  · simp only [hv, if_false, pure_eq_ok, ok_bind] at h
    have hr : r = _ := (Except.ok.inj h).symm
    subst hr
    push_neg at hv
    exact ⟨rfl, rfl, rfl, rfl, h5, h6, hv.1, hv.2⟩

theorem enforce_without_fds {pstate : ParseState} {join : JoinExpr}
    {fkjn : ForeignKeyClause} {o : OrientedSides} {r : ResolvedSides} {fkoid : Oid}
    {ed : AnalyzeOut} (hfd : ed.functional_dependencies = []) :
    ∃ e, enforce_and_rewrite pstate join fkjn o r fkoid ed = .error (.ereport e) ∧
      e.sqlerrcode = .INVALID_FOREIGN_KEY ∧
      (r.base_referenced_rte.rteid ∈ ed.uniqueness_preservation →
        e.detail = some "referenced relation does not preserve all rows") := by
  by_cases hu : r.base_referenced_rte.rteid ∈ ed.uniqueness_preservation
  · refine ⟨_, enforce_not_all_rows hu (by rw [hfd]; rfl), rfl, fun _ => rfl⟩
  · exact ⟨_, enforce_not_unique hu, rfl, fun h => absurd h hu⟩

/-- Claim C4. Let the referenced child be a plain reference to the referenced relation, and
let that relation be a base table with row-level security, or a subquery or view whose
single from-item is a base table and whose query has a WHERE clause, a HAVING clause, a
LIMIT or an OFFSET, or whose base table has row-level security.  If the validator gets as
far as analysing the referenced child (the sides resolve, a matching constraint is found,
the referencing child is analysed, and the GROUP BY test of the query, when it has a GROUP
BY clause, returns), it fails with INVALID_FOREIGN_KEY; when the query has no GROUP BY
clause and the drill-down ends at that base table, the detail is "referenced relation does
not preserve all rows". -/
theorem filtered_referenced_side_rejected (cat : Catalog) (pstate : ParseState) (fuel : Nat)
    (join : JoinExpr) (r_nsitem : ParseNamespaceItem) (l_namespace : List ParseNamespaceItem)
    (fkjn : ForeignKeyClause) (other_rel : ParseNamespaceItem) (o : OrientedSides)
    (r : ResolvedSides) (ing : AnalyzeOut) (leaf : RangeTblEntry) (leafrel : RelInfo)
    (q : Option Query)
    (hfk : join.fkJoin = some (.clause fkjn))
    (hother : find_other_rel fkjn.refAlias l_namespace = some other_rel)
    (hlen : fkjn.refCols.length = fkjn.localCols.length)
    (ho : o = orient_sides fkjn join other_rel r_nsitem)
    (hres : resolve_sides cat pstate (fuel + 2) fkjn o = .ok r)
    (hlk : lookup_foreign_key cat r ≠ InvalidOid)
    (hing : analyze_join_tree cat pstate (fuel + 2) o.referencing_arg none
      r.referencing_rte.rteid {} fkjn.location [] = .ok ing)
    (harg : o.referenced_arg = .RangeTblRef o.referenced_rel.p_rtindex)
    (hleafk : leaf.rtekind = .RTE_RELATION)
    (hleafr : cat.relations leaf.relid = some leafrel)
    (hleafb : IsBaseTableKind leafrel.relkind)
    (hshape : match q with
      | none => r.referenced_rte = leaf ∧ leafrel.relrowsecurity = true
      | some q =>
          RteWrapsQuery cat r.referenced_rte q ∧
          (∃ k, SingleFromItem q (.RangeTblRef k) ∧ rt_fetch k q.rtable = .ok leaf) ∧
          (QueryFiltered q ∨ leafrel.relrowsecurity = true) ∧
          (q.fields.groupClause = [] ∨
            ∃ res, check_group_by_preserves_uniqueness cat q [leaf.rteid] = .ok res)) :
    ∃ e, transformAndValidateForeignKeyJoin cat pstate (fuel + 2) join r_nsitem l_namespace =
        .error (.ereport e) ∧
      e.sqlerrcode = .INVALID_FOREIGN_KEY ∧
      ((∀ q', q = some q' → q'.fields.groupClause = []) →
        r.base_referenced_rte.rteid = leaf.rteid →
        e.detail = some "referenced relation does not preserve all rows") := by
  obtain ⟨_, hfetch, _⟩ := resolve_sides_inv hres
  have hana : ∃ ed, analyze_join_tree cat pstate (fuel + 2) o.referenced_arg none
      r.referenced_rte.rteid {} fkjn.location [] = .ok ed ∧
      ed.functional_dependencies = [] ∧
      ((∀ q', q = some q' → q'.fields.groupClause = []) →
        ed.uniqueness_preservation = [leaf.rteid]) := by
    rw [harg]
    cases q with
    | none =>
        obtain ⟨hrte, hrls⟩ := hshape
        rw [hrte] at hfetch ⊢
        have := @analyze_base_table_leaf cat pstate (fuel + 1)
          o.referenced_rel.p_rtindex none leaf leafrel false
          leaf.rteid {} fkjn.location [] hfetch hleafk hleafr hleafb
          (by simp [leaf_is_unfiltered, hrls])
        exact ⟨_, this, rfl, fun _ => rfl⟩
    | some q =>
        obtain ⟨hwrap, ⟨k, hitem, hk⟩, hfilt, hgrp⟩ := hshape
        obtain ⟨jointree, hjt, _⟩ := hitem
        have hinner := @analyze_base_table_leaf cat pstate fuel k (some q) leaf leafrel false
          r.referenced_rte.rteid {} fkjn.location [q] hk hleafk hleafr hleafb
          (leaf_is_unfiltered_filtered hjt hfilt)
        rw [@analyze_wrapper cat pstate (fuel + 1) _ none _ q _ r.referenced_rte.rteid {} fkjn.location []
          hfetch hwrap ⟨jointree, hjt, by assumption⟩, hinner]
        simp only [ok_bind, Bool.false_eq_true, if_false]
        unfold after_inner_query
        by_cases hg : q.fields.groupClause = []
        · simp only [hg, ne_eq, not_true_eq_false, if_false, pure_eq_ok]
          exact ⟨_, rfl, rfl, fun _ => rfl⟩
        · rcases hgrp with hg' | ⟨res, hres'⟩
          · exact absurd hg' hg
          · obtain ⟨b, u⟩ := res
            simp only [ne_eq, hg, not_false_eq_true, if_true, hres', ok_bind]
            cases b
            · exact ⟨_, rfl, rfl, fun hq => absurd (hq q rfl) hg⟩
            · exact ⟨_, rfl, rfl, fun hq => absurd (hq q rfl) hg⟩
  obtain ⟨ed, hed, hfd, hu⟩ := hana
  rw [validate_eq hfk hother hlen, ← ho, validate_oriented_eq hres hlk hing hed]
  obtain ⟨e, he, hcode, hdet⟩ := @enforce_without_fds pstate join fkjn o r
    (lookup_foreign_key cat r) ed hfd
  refine ⟨e, he, hcode, fun hq hR => hdet ?_⟩
  rw [hu hq, hR]
  exact List.mem_singleton.mpr rfl


/-- The claim C4 at `(SELECT * FROM t1 WHERE c2 > 0) AS t1f JOIN t2 KEY (c3) -> t1f (c1)`:
the join is rejected with INVALID_FOREIGN_KEY and the detail "referenced relation does not
preserve all rows". -/
theorem filtered_referenced_side_rejected_witness :
    ∃ e, transformAndValidateForeignKeyJoin Demo.cat (Demo.pstate_of Demo.rte_t1f) 2
        (Demo.join_to "t1f") (Demo.ns_t2 2) [Demo.ns_derived "t1f" 1] = .error (.ereport e) ∧
      e.sqlerrcode = .INVALID_FOREIGN_KEY ∧
      e.detail = some "referenced relation does not preserve all rows" :=
  let ⟨e, he, hcode, hdet⟩ :=
    filtered_referenced_side_rejected Demo.cat (Demo.pstate_of Demo.rte_t1f) 0
      (Demo.join_to "t1f") (Demo.ns_t2 2) [Demo.ns_derived "t1f" 1]
      { fkdir := .FKDIR_TO, refAlias := "t1f", refCols := ["c1"], localCols := ["c3"],
        location := 7 }
      (Demo.ns_derived "t1f" 1)
      { referencing_rel := Demo.ns_t2 2, referenced_rel := Demo.ns_derived "t1f" 1,
        referencing_cols := ["c3"], referenced_cols := ["c1"],
        referencing_arg := .RangeTblRef 2, referenced_arg := .RangeTblRef 1 }
      { referencing_rte := Demo.rte_t2, referenced_rte := Demo.rte_t1f,
        referencing_attnums := [1], referenced_attnums := [1],
        base_referencing_rte := Demo.rte_t2, referencing_base_attnums := [1],
        base_referenced_rte := Demo.rte_t1_as 41, referenced_base_attnums := [1] }
      { uniqueness_preservation := [12], functional_dependencies := [12, 12] }
      (Demo.rte_t1_as 41) Demo.t1_rel
      (some (Demo.select_star (some .Other) (Demo.rte_t1_as 41)))
      rfl rfl rfl rfl rfl (by decide) rfl rfl rfl rfl (Or.inl rfl)
      ⟨Or.inl ⟨rfl, rfl⟩, ⟨1, ⟨_, rfl, rfl⟩, rfl⟩, Or.inl (Or.inl (by simp [Demo.select_star, Query.fields])), Or.inl rfl⟩
  ⟨e, he, hcode, hdet (fun _ h => by cases h; rfl) rfl⟩

/-! ## Filters at an outer nesting level -/

/-- Claim C5 does not hold of the code: in
`(SELECT * FROM (SELECT * FROM t1) AS s WHERE c2 > 0) AS o JOIN t2 KEY (c3) -> o (c1)` the
referenced side reaches `t1` through two nested subqueries, each with a single from-item,
and the outer one carries a WHERE clause; yet the FDSet computed for the referenced side
holds the self-pair of the `t1` entry (identity 52) and the validator accepts the join.
Only the query that directly encloses the base table is tested for filters. -/
theorem outer_filter_not_detected :
    Demo.rte_nested.subquery = some Demo.nested_filtered_query ∧
    SingleFromItem Demo.nested_filtered_query (.RangeTblRef 1) ∧
    QueryFiltered Demo.nested_filtered_query ∧
    analyze_join_tree Demo.cat (Demo.pstate_of Demo.rte_nested) 6 (.RangeTblRef 1) none 15 {} 7 []
      = .ok { uniqueness_preservation := [52], functional_dependencies := [52, 52] } ∧
    fds_has_self_dep 52 [52, 52] = .ok true ∧
    transformAndValidateForeignKeyJoin Demo.cat (Demo.pstate_of Demo.rte_nested) 6
        (Demo.join_to "o") (Demo.ns_t2 2) [Demo.ns_derived "o" 1]
      = .ok (Demo.join_to_resolved "o") :=
  ⟨rfl, ⟨_, rfl, rfl⟩, Or.inl ⟨_, rfl, rfl⟩, rfl, rfl, rfl⟩

/-! ## The GROUP BY test -/

theorem bms_is_subset_iff (a b : Bitmapset) : bms_is_subset a b = true ↔ ∀ c ∈ a, c ∈ b := by
  simp [bms_is_subset]

theorem check_unique_index_covers_columns_iff (rel : RelInfo) (cols : Bitmapset) :
    check_unique_index_covers_columns rel cols = true ↔ UniqueIndexContains rel cols := by
  unfold check_unique_index_covers_columns UniqueIndexContains
  induction rel.indexlist with
  | nil => simp [check_unique_index_covers_columns_scan]
  | cons i rest ih =>
      unfold check_unique_index_covers_columns_scan
      by_cases hu : i.indisunique = true
      · by_cases hs : bms_is_subset cols (index_cols_of i.indkey) = true
        · simp only [hu, hs, Bool.not_true, Bool.false_eq_true, if_false, if_true, true_iff]
          exact ⟨i, List.mem_cons_self _ _, hu, (bms_is_subset_iff _ _).mp hs⟩
        · simp only [hu, hs, Bool.not_true, Bool.false_eq_true, if_false, ih]
          constructor
          · rintro ⟨j, hj, h⟩
            exact ⟨j, List.mem_cons_of_mem _ hj, h⟩
          · rintro ⟨j, hj, hju, hjs⟩
            rcases List.mem_cons.mp hj with rfl | hj
            · exact absurd ((bms_is_subset_iff _ _).mpr hjs) hs
            · exact ⟨j, hj, hju, hjs⟩
      · simp only [Bool.not_eq_true] at hu
        simp only [hu, Bool.not_false, if_true, ih]
        constructor
        · rintro ⟨j, hj, h⟩
          exact ⟨j, List.mem_cons_of_mem _ hj, h⟩
        · rintro ⟨j, hj, hju, hjs⟩
          rcases List.mem_cons.mp hj with rfl | hj
          · rw [hu] at hju; exact absurd hju (by decide)
          · exact ⟨j, hj, hju, hjs⟩

theorem bms_add_member_ok {a b : Bitmapset} {x : Int} :
    bms_add_member a x = .ok b ↔ 0 ≤ x ∧ b = a ++ [x.toNat] := by
  unfold bms_add_member
  by_cases h : x < 0
  · simp only [h, if_true, elog_error]
    constructor
    · intro h'; cases h'
    · rintro ⟨h', _⟩; omega
  · simp only [h, if_false]
    constructor
    · intro h'
      exact ⟨by omega, (Except.ok.inj h').symm⟩
    · rintro ⟨_, rfl⟩; rfl

theorem bms_add_member_nonneg {a : Bitmapset} {x : Int} (h : 0 ≤ x) :
    bms_add_member a x = .ok (a ++ [x.toNat]) :=
  bms_add_member_ok.mpr ⟨h, rfl⟩

theorem bms_add_member_neg {a : Bitmapset} {x : Int} (h : ¬ 0 ≤ x) :
    ∃ e, bms_add_member a x = .error e := by
  unfold bms_add_member
  rw [if_pos (by omega)]
  exact ⟨_, rfl⟩

/-- The loop over `groupexprs` on a list of column references: it runs to the end exactly
when the attribute numbers are non-negative and the references agree on the relation. -/
theorem group_exprs_collect_vars :
    ∀ (vars : List Var) (gv : Int) (gc : Bitmapset) (k : Int) (cols : Bitmapset),
      (∀ v ∈ vars, v.varno ≠ 0) →
      (group_exprs_collect (vars.map Node.Var) gv gc = .ok (some (k, cols)) ↔
        (∀ v ∈ vars, 0 ≤ v.varattno) ∧ cols = gc ++ var_columns vars ∧
        ((vars = [] ∧ k = gv) ∨
         (vars ≠ [] ∧ (gv = 0 ∨ gv = k) ∧ ∀ v ∈ vars, v.varno = k)))
  | [], gv, gc, k, cols, _ => by
      simp only [List.map_nil, group_exprs_collect, var_columns, List.append_nil,
        List.not_mem_nil, false_implies, implies_true, true_and, ne_eq, not_true_eq_false,
        false_and, or_false]
      constructor
      · intro h
        have := Except.ok.inj h
        simp only [Option.some.injEq, Prod.mk.injEq] at this
        exact ⟨this.2.symm, this.1.symm⟩
      · rintro ⟨rfl, rfl⟩; rfl
  | v :: vs, gv, gc, k, cols, hv => by
      have hv0 : v.varno ≠ 0 := hv v (List.mem_cons_self _ _)
      have hvs : ∀ w ∈ vs, w.varno ≠ 0 := fun w hw => hv w (List.mem_cons_of_mem _ hw)
      simp only [List.map_cons, group_exprs_collect]
      by_cases hneg : 0 ≤ v.varattno
      · simp only [bms_add_member_nonneg hneg, ok_bind]
        have key : ∀ g, (g = v.varno) →
            (group_exprs_collect (vs.map Node.Var) g (gc ++ [v.varattno.toNat])
                = .ok (some (k, cols)) ↔
              (∀ w ∈ v :: vs, 0 ≤ w.varattno) ∧ cols = gc ++ var_columns (v :: vs) ∧
                (∀ w ∈ v :: vs, w.varno = k)) := by
          intro g hg
          rw [group_exprs_collect_vars vs g _ k cols hvs]
          simp only [var_columns, List.map_cons, List.mem_cons, forall_eq_or_imp,
            List.append_assoc, List.singleton_append]
          constructor
          · rintro ⟨h1, h2, h3⟩
            refine ⟨⟨hneg, h1⟩, h2, ?_⟩
            rcases h3 with ⟨rfl, rfl⟩ | ⟨_, h4, h5⟩
            · exact ⟨hg.symm, by simp⟩
            · rcases h4 with h4 | h4
              · exact absurd (hg ▸ h4) hv0
              · exact ⟨hg ▸ h4, h5⟩
          · rintro ⟨⟨_, h1⟩, h2, h3, h4⟩
            refine ⟨h1, h2, ?_⟩
            by_cases hnil : vs = []
            · exact Or.inl ⟨hnil, by rw [hg, h3]⟩
            · exact Or.inr ⟨hnil, Or.inr (by rw [hg, h3]), h4⟩
        by_cases hg0 : gv = 0
        · simp only [hg0, if_true]
          rw [key v.varno rfl]
          simp
        · simp only [hg0, if_false]
          by_cases hne : gv = v.varno
          · simp only [hne, ne_eq, not_true_eq_false, if_false]
            rw [key v.varno rfl]
            constructor
            · rintro ⟨h1, h2, h3⟩
              exact ⟨h1, h2, Or.inr ⟨by simp, Or.inr (h3 v (List.mem_cons_self _ _)), h3⟩⟩
            · rintro ⟨h1, h2, h3⟩
              rcases h3 with ⟨h3, _⟩ | ⟨_, _, h5⟩
              · simp at h3
              · exact ⟨h1, h2, h5⟩
          · simp only [ne_eq, hne, not_false_eq_true, if_true, pure_eq_ok]
            constructor
            · intro h; cases h
            · rintro ⟨_, _, h3⟩
              rcases h3 with ⟨h3, _⟩ | ⟨_, h4, h5⟩
              · simp at h3
              · rcases h4 with h4 | h4
                · exact h4.elim
                · exact absurd (h4.trans (h5 v (List.mem_cons_self _ _)).symm) hne
      · obtain ⟨e, he⟩ := @bms_add_member_neg gc v.varattno hneg
        constructor
        · intro h
          exfalso
          by_cases hg0 : gv = 0
          · simp [hg0, he] at h
          · by_cases hne : gv = v.varno
            · simp [hg0, hne, he] at h
            · simp [hg0, hne] at h
        · rintro ⟨h1, _⟩
          exact absurd (h1 v (List.mem_cons_self _ _)) hneg

theorem group_exprs_collect_all_vars :
    ∀ (exprs : List Node) (gv : Int) (gc : Bitmapset) (p : Int × Bitmapset),
      group_exprs_collect exprs gv gc = .ok (some p) → ∃ gvars : List Var, exprs = gvars.map Node.Var
  | [], _, _, _, _ => ⟨[], rfl⟩
  | expr :: rest, gv, gc, p, h => by
      unfold group_exprs_collect at h
      cases expr with
      | Var v =>
          have hrest : ∃ g c, group_exprs_collect rest g c = .ok (some p) := by
            simp only at h
            cases hb : bms_add_member gc v.varattno with
            | error e =>
                exfalso
                by_cases hg0 : gv = 0
                · simp [hg0, hb] at h
                · by_cases hne : gv = v.varno
                  · simp [hg0, hne, hb] at h
                  · simp [hg0, hne] at h
            | ok c =>
                by_cases hg0 : gv = 0
                · simp only [hg0, if_true, hb, ok_bind] at h
                  exact ⟨_, _, h⟩
                · by_cases hne : gv = v.varno
                  · simp only [hg0, if_false] at h
                    simp only [hne, ne_eq, not_true_eq_false, if_false, hb, ok_bind] at h
                    exact ⟨_, _, h⟩
                  · simp [hg0, hne] at h
          obtain ⟨g, c, hgc⟩ := hrest
          obtain ⟨gvars, hg⟩ := group_exprs_collect_all_vars rest g c p hgc
          exact ⟨v :: gvars, by rw [hg]; rfl⟩
      | A_Expr _ _ _ _ => simp at h
      | BoolExpr _ _ _ => simp at h
      | Other => simp at h

/-- The loop over the grouping clauses does what the loop over `groupexprs` does on the
column references among the designated target entries. -/
theorem group_by_collect_eq {targetList : List TargetEntry} :
    ∀ {clauses : List SortGroupClause} {tles : List TargetEntry},
      List.Forall₂
        (fun sgc tle => list_nth targetList ((sgc.tleSortGroupRef : Int) - 1) = .ok tle)
        clauses tles →
      ∀ (gv : Int) (gc : Bitmapset),
        group_by_collect targetList clauses gv gc =
          group_exprs_collect ((grouped_vars tles).map Node.Var) gv gc
  | [], _, .nil, _, _ => rfl
  | sgc :: clauses, tle :: tles, .cons h hrest, gv, gc => by
      unfold group_by_collect
      simp only [h, ok_bind]
      cases he : tle.expr with
      | Var v =>
          have hg : grouped_vars (tle :: tles) = v :: grouped_vars tles := by
            simp [grouped_vars, List.filterMap_cons, he, Node.asVar]
          rw [hg]
          simp only [List.map_cons, group_exprs_collect]
          by_cases hg0 : gv = 0
          · simp only [hg0, if_true]
            cases hb : bms_add_member gc v.varattno with
            | error e => rfl
            | ok c => simp only [ok_bind]; exact group_by_collect_eq hrest _ _
          · simp only [hg0, if_false]
            by_cases hne : gv = v.varno
            · simp only [hne, ne_eq, not_true_eq_false, if_false]
              cases hb : bms_add_member gc v.varattno with
              | error e => rfl
              | ok c => simp only [ok_bind]; exact group_by_collect_eq hrest _ _
            · simp only [ne_eq, hne, not_false_eq_true, if_true]
      | A_Expr _ _ _ _ =>
          have hg : grouped_vars (tle :: tles) = grouped_vars tles := by
            simp [grouped_vars, List.filterMap_cons, he, Node.asVar]
          rw [hg]
          exact group_by_collect_eq hrest _ _
      | BoolExpr _ _ _ =>
          have hg : grouped_vars (tle :: tles) = grouped_vars tles := by
            simp [grouped_vars, List.filterMap_cons, he, Node.asVar]
          rw [hg]
          exact group_by_collect_eq hrest _ _
      | Other =>
          have hg : grouped_vars (tle :: tles) = grouped_vars tles := by
            simp [grouped_vars, List.filterMap_cons, he, Node.asVar]
          rw [hg]
          exact group_by_collect_eq hrest _ _

theorem group_by_collect_entries {targetList : List TargetEntry} :
    ∀ (clauses : List SortGroupClause) (gv : Int) (gc : Bitmapset) (p : Int × Bitmapset),
      group_by_collect targetList clauses gv gc = .ok (some p) →
      ∃ tles, List.Forall₂
        (fun sgc tle => list_nth targetList ((sgc.tleSortGroupRef : Int) - 1) = .ok tle)
        clauses tles
  | [], _, _, _, _ => ⟨[], .nil⟩
  | sgc :: clauses, gv, gc, p, h => by
      unfold group_by_collect at h
      cases ht : list_nth targetList ((sgc.tleSortGroupRef : Int) - 1) with
      | error e => simp [ht] at h
      | ok tle =>
          simp only [ht, ok_bind] at h
          have hrest : ∃ g c, group_by_collect targetList clauses g c = .ok (some p) := by
            cases he : tle.expr with
            | Var v =>
                simp only [he] at h
                cases hb : bms_add_member gc v.varattno with
                | error e =>
                    exfalso
                    by_cases hg0 : gv = 0
                    · simp [hg0, hb] at h
                    · by_cases hne : gv = v.varno
                      · simp [hg0, hne, hb] at h
                      · simp [hg0, hne] at h
                | ok c =>
                    by_cases hg0 : gv = 0
                    · simp only [hg0, if_true, hb, ok_bind] at h
                      exact ⟨_, _, h⟩
                    · by_cases hne : gv = v.varno
                      · simp only [hg0, if_false] at h
                        simp only [hne, ne_eq, not_true_eq_false, if_false, hb, ok_bind] at h
                        exact ⟨_, _, h⟩
                      · simp [hg0, hne] at h
            | A_Expr _ _ _ _ => simp only [he] at h; exact ⟨_, _, h⟩
            | BoolExpr _ _ _ => simp only [he] at h; exact ⟨_, _, h⟩
            | Other => simp only [he] at h; exact ⟨_, _, h⟩
          obtain ⟨g, c, hgc⟩ := hrest
          obtain ⟨tles, htles⟩ := group_by_collect_entries clauses g c p hgc
          exact ⟨tle :: tles, .cons ht htles⟩

theorem list_nth_mem {α : Type} {l : List α} {n : Int} {a : α} (h : list_nth l n = .ok a) :
    a ∈ l := by
  unfold list_nth at h
  by_cases hn : n < 0
  · simp [hn] at h
  · simp only [hn, if_false] at h
    cases hl : l[n.toNat]? with
    | none => simp [hl] at h
    | some b =>
        simp only [hl] at h
        cases Except.ok.inj h
        exact List.getElem?_mem hl

theorem forall₂_mem_right {α β : Type} {R : α → β → Prop} :
    ∀ {l₁ : List α} {l₂ : List β}, List.Forall₂ R l₁ l₂ → ∀ b ∈ l₂, ∃ a ∈ l₁, R a b
  | _, _, .nil, b, hb => by simp at hb
  | _, _, .cons h hrest, b, hb => by
      rcases List.mem_cons.mp hb with rfl | hb
      · exact ⟨_, List.mem_cons_self _ _, h⟩
      · obtain ⟨a, ha, hab⟩ := forall₂_mem_right hrest b hb
        exact ⟨a, List.mem_cons_of_mem _ ha, hab⟩

theorem grouped_vars_mem {tles : List TargetEntry} {v : Var} (h : v ∈ grouped_vars tles) :
    ∃ tle ∈ tles, tle.expr = .Var v := by
  unfold grouped_vars at h
  obtain ⟨tle, htle, hv⟩ := List.mem_filterMap.mp h
  refine ⟨tle, htle, ?_⟩
  cases he : tle.expr with
  | Var w => simp only [he, Node.asVar, Option.some.injEq] at hv; rw [hv]
  | A_Expr _ _ _ _ => simp [he, Node.asVar] at hv
  | BoolExpr _ _ _ => simp [he, Node.asVar] at hv
  | Other => simp [he, Node.asVar] at hv

theorem node_var_injective : Function.Injective Node.Var := by
  intro a b h
  cases h
  rfl

/-- The loop over `groupexprs`, started as the source starts it, ends with a relation
settled exactly when the expressions are column references of one relation. -/
theorem group_exprs_collect_settled (exprs : List Node) (k : Int) (cols : Bitmapset)
    (hv : ∀ v, Node.Var v ∈ exprs → v.varno ≠ 0) :
    (group_exprs_collect exprs 0 [] = .ok (some (k, cols)) ∧ k ≠ 0) ↔
      ∃ gvars : List Var, exprs = gvars.map Node.Var ∧ VarsOfOneRelation gvars k ∧
        cols = var_columns gvars := by
  constructor
  · rintro ⟨h, hk⟩
    obtain ⟨gvars, rfl⟩ := group_exprs_collect_all_vars exprs 0 [] (k, cols) h
    have hv2 : ∀ v ∈ gvars, v.varno ≠ 0 := fun v hm => hv v (List.mem_map_of_mem _ hm)
    obtain ⟨h1, h2, h3⟩ := (group_exprs_collect_vars gvars 0 [] k cols hv2).mp h
    rcases h3 with ⟨_, h3⟩ | ⟨h3, _, h5⟩
    · exact absurd h3 hk
    · exact ⟨gvars, rfl, ⟨h3, hk, fun v hm => ⟨h5 v hm, h1 v hm⟩⟩, by simpa using h2⟩
  · rintro ⟨gvars, rfl, ⟨h1, hk, h2⟩, rfl⟩
    have hv2 : ∀ v ∈ gvars, v.varno ≠ 0 := fun v hm => hv v (List.mem_map_of_mem _ hm)
    refine ⟨(group_exprs_collect_vars gvars 0 [] k _ hv2).mpr
      ⟨fun v hm => (h2 v hm).2, by simp, Or.inr ⟨h1, Or.inl rfl, fun v hm => (h2 v hm).1⟩⟩, hk⟩

/-- The loop over the grouping clauses, started as the source starts it, passes the test
that follows it exactly when every clause designates a target entry and the column
references among these entries are of one relation. -/
theorem group_by_collect_settled (targetList : List TargetEntry)
    (clauses : List SortGroupClause) (k : Int) (cols : Bitmapset)
    (hv : ∀ tle ∈ targetList, ∀ v, tle.expr = .Var v → v.varno ≠ 0) :
    (group_by_collect targetList clauses 0 [] = .ok (some (k, cols)) ∧
        ¬ (bms_is_empty cols = true ∨ k = 0)) ↔
      ∃ tles, List.Forall₂
          (fun sgc tle => list_nth targetList ((sgc.tleSortGroupRef : Int) - 1) = .ok tle)
          clauses tles ∧
        VarsOfOneRelation (grouped_vars tles) k ∧ cols = var_columns (grouped_vars tles) := by
  have hvars : ∀ {tles}, List.Forall₂
      (fun sgc tle => list_nth targetList ((sgc.tleSortGroupRef : Int) - 1) = .ok tle)
      clauses tles → ∀ v, Node.Var v ∈ (grouped_vars tles).map Node.Var → v.varno ≠ 0 := by
    intro tles hf v hm
    obtain ⟨w, hw, hwv⟩ := List.mem_map.mp hm
    cases node_var_injective hwv
    obtain ⟨tle, htle, he⟩ := grouped_vars_mem hw
    obtain ⟨sgc, _, hsgc⟩ := forall₂_mem_right hf tle htle
    exact hv tle (list_nth_mem hsgc) v he
  constructor
  · rintro ⟨h, hk⟩
    push_neg at hk
    obtain ⟨tles, hf⟩ := group_by_collect_entries clauses 0 [] (k, cols) h
    rw [group_by_collect_eq hf] at h
    obtain ⟨gvars, hg, h1, h2⟩ :=
      (group_exprs_collect_settled _ k cols (hvars hf)).mp ⟨h, hk.2⟩
    have : grouped_vars tles = gvars := (List.map_injective_iff.mpr node_var_injective) hg
    subst this
    exact ⟨tles, hf, h1, h2⟩
  · rintro ⟨tles, hf, h1, rfl⟩
    rw [group_by_collect_eq hf]
    obtain ⟨h, hk⟩ := (group_exprs_collect_settled _ k _ (hvars hf)).mpr ⟨_, rfl, h1, rfl⟩
    refine ⟨h, ?_⟩
    push_neg
    refine ⟨?_, hk⟩
    obtain ⟨hne, _⟩ := h1
    cases hgv : grouped_vars tles with
    | nil => exact absurd hgv hne
    | cons a b => simp [var_columns, bms_is_empty]

theorem rt_fetch_mem {k : Int} {rtable : List RangeTblEntry} {rte : RangeTblEntry}
    (h : rt_fetch k rtable = .ok rte) : rte ∈ rtable :=
  list_nth_mem h

/-- The entry and column set `check_group_by_preserves_uniqueness` settles on. -/
theorem group_by_base_iff (query : Query) (base : RangeTblEntry) (cols : Bitmapset)
    (hv1 : ∀ tle ∈ query.fields.targetList, ∀ v, tle.expr = .Var v → v.varno ≠ 0)
    (hv2 : ∀ rte ∈ query.rtable, ∀ v, Node.Var v ∈ rte.fields.groupexprs → v.varno ≠ 0) :
    group_by_base query = .ok (some (base, cols)) ↔
      ∃ tles, GroupingEntries query tles ∧ GroupedBase query (grouped_vars tles) base cols := by
  constructor
  · intro h
    unfold group_by_base at h
    by_cases hg : query.fields.groupClause = []
    · simp [hg] at h
    · simp only [hg, if_false] at h
      cases hc : group_by_collect query.fields.targetList query.fields.groupClause 0 [] with
      | error e => simp [hc] at h
      | ok collected =>
      simp only [hc, ok_bind] at h
      cases collected with
      | none => simp at h
      | some p =>
      obtain ⟨k, cols0⟩ := p
      simp only at h
      by_cases hk : bms_is_empty cols0 = true ∨ k = 0
      · simp [hk] at h
      · simp only [hk, if_false] at h
        obtain ⟨tles, hf, hvars, hcols⟩ :=
          (group_by_collect_settled _ _ k cols0 hv1).mp ⟨hc, hk⟩
        refine ⟨tles, hf, ?_⟩
        cases hr : rt_fetch k query.rtable with
        | error e => simp [hr] at h
        | ok rte =>
        simp only [hr, ok_bind] at h
        refine ⟨k, rte, hvars, hr, ?_⟩
        by_cases hgrp : rte.rtekind = .RTE_GROUP
        · right
          simp only [hgrp, if_true] at h
          by_cases hlen : rte.fields.groupexprs.length > 0
          · simp only [hlen, if_true] at h
            cases hu : group_exprs_collect rte.fields.groupexprs 0 [] with
            | error e => simp [hu] at h
            | ok underlying =>
            simp only [hu, ok_bind] at h
            cases underlying with
            | none => simp at h
            | some p2 =>
            obtain ⟨k2, cols2⟩ := p2
            simp only at h
            by_cases hk2 : k2 ≠ 0
            · simp only [ne_eq, hk2, not_false_eq_true, if_true] at h
              cases hr2 : rt_fetch k2 query.rtable with
              | error e => simp [hr2] at h
              | ok rte2 =>
              simp only [hr2, ok_bind] at h
              by_cases hb : rte2.rtekind = .RTE_RELATION ∧ rte2.relid ≠ InvalidOid
              · simp only [hb, and_self, if_true, pure_eq_ok] at h
                have := Except.ok.inj h
                simp only [Option.some.injEq, Prod.mk.injEq] at this
                obtain ⟨rfl, rfl⟩ := this
                obtain ⟨gvars, hge, hgv, hgc⟩ :=
                  (group_exprs_collect_settled _ k2 cols2 (hv2 rte (rt_fetch_mem hr))).mp
                    ⟨hu, hk2⟩
                exact ⟨hgrp, gvars, k2, hge, hgv, hr2, hb.1, hb.2, hgc⟩
              · simp [hb] at h
            · simp [hk2] at h
          · simp [hlen] at h
        · left
          simp only [hgrp, if_false] at h
          by_cases hb : rte.rtekind ≠ .RTE_RELATION ∨ rte.relid = InvalidOid
          · simp [hb] at h
          · simp only [hb, if_false, pure_eq_ok] at h
            have := Except.ok.inj h
            simp only [Option.some.injEq, Prod.mk.injEq] at this
            obtain ⟨rfl, rfl⟩ := this
            push_neg at hb
            exact ⟨hb.1, hb.2, rfl, hcols⟩
  · rintro ⟨tles, hf, k, rte, hvars, hr, hcase⟩
    have hne : query.fields.groupClause ≠ [] := by
      intro hnil
      unfold GroupingEntries at hf
      rw [hnil] at hf
      cases hf
      exact hvars.1 rfl
    obtain ⟨hc, hk⟩ := (group_by_collect_settled _ _ k _ hv1).mpr ⟨tles, hf, hvars, rfl⟩
    unfold group_by_base
    simp only [hne, if_false, hc, ok_bind, hk, hr]
    rcases hcase with ⟨hrel, hvalid, rfl, rfl⟩ | ⟨hgrp, gvars, k2, hge, hgv, hr2, hrel, hvalid, rfl⟩
    · have h1 : ¬ base.rtekind = .RTE_GROUP := by rw [hrel]; decide
      have h2 : ¬ (base.rtekind ≠ .RTE_RELATION ∨ base.relid = InvalidOid) := by
        push_neg; exact ⟨hrel, hvalid⟩
      simp only [h1, if_false, h2, pure_eq_ok]
    · obtain ⟨hu, hk2⟩ :=
        (group_exprs_collect_settled rte.fields.groupexprs k2 _
          (hv2 rte (rt_fetch_mem hr))).mpr ⟨gvars, hge, hgv, rfl⟩
      have hlen : rte.fields.groupexprs.length > 0 := by
        rw [hge, List.length_map]
        exact List.length_pos.mpr hgv.1
      simp only [hgrp, if_true, hlen, hu, ok_bind, hk2, ne_eq, not_false_eq_true, hr2, hrel,
        hvalid, and_self, pure_eq_ok]

/-- The GROUP BY test as the code has it. Let no column reference of the target list or of
a `groupexprs` list have range-table index 0.  Then
`check_group_by_preserves_uniqueness` returns true,
with `[base.rteid]` as the new uniqueness list, exactly when every grouping clause
designates a target entry, at least one of these entries is a bare column reference (the
others are passed over), the column references all name one range-table entry and have
non-negative attribute numbers, that entry is an `RTE_RELATION` entry with a valid `relid`
(a table or a view) or an `RTE_GROUP` entry whose `groupexprs` are all column references
to one such entry, the relation of that entry `base` is in the catalog, and some unique
index of it has every grouped column among its columns: the grouped columns are a subset
of the index columns, not the index columns a subset of the grouped columns. -/
theorem check_group_by_preserves_uniqueness_iff (cat : Catalog) (query : Query)
    (uniqueness_preservation out_list : List RTEId)
    (hv1 : ∀ tle ∈ query.fields.targetList, ∀ v, tle.expr = .Var v → v.varno ≠ 0)
    (hv2 : ∀ rte ∈ query.rtable, ∀ v, Node.Var v ∈ rte.fields.groupexprs → v.varno ≠ 0) :
    check_group_by_preserves_uniqueness cat query uniqueness_preservation
        = .ok (true, out_list) ↔
      ∃ tles base cols rel, GroupingEntries query tles ∧
        GroupedBase query (grouped_vars tles) base cols ∧
        cat.relations base.relid = some rel ∧ UniqueIndexContains rel cols ∧
        out_list = [base.rteid] := by
  unfold check_group_by_preserves_uniqueness
  constructor
  · intro h
    cases hb : group_by_base query with
    | error e => simp [hb] at h
    | ok b =>
    simp only [hb, ok_bind] at h
    cases b with
    | none => simp at h
    | some p =>
    obtain ⟨base, cols⟩ := p
    simp only at h
    obtain ⟨tles, hf, hgb⟩ := (group_by_base_iff query base cols hv1 hv2).mp hb
    unfold table_open at h
    cases hrel : cat.relations base.relid with
    | none => simp [hrel, elog_error] at h
    | some rel =>
    simp only [hrel, ok_bind] at h
    by_cases hres : check_unique_index_covers_columns rel cols = true
    · simp only [hres, if_true, pure_eq_ok] at h
      have := Except.ok.inj h
      simp only [Prod.mk.injEq, true_and] at this
      exact ⟨tles, base, cols, rel, hf, hgb, hrel,
        (check_unique_index_covers_columns_iff rel cols).mp hres, this.symm⟩
    · simp [hres] at h
  · rintro ⟨tles, base, cols, rel, hf, hgb, hrel, hidx, rfl⟩
    have hb := (group_by_base_iff query base cols hv1 hv2).mpr ⟨tles, hf, hgb⟩
    have hres := (check_unique_index_covers_columns_iff rel cols).mpr hidx
    simp only [hb, ok_bind, table_open, hrel, hres, if_true, pure_eq_ok]

theorem demo_group_by_query_targets (inner : RangeTblEntry) (gid : RTEId) (col : Int) :
    ∀ tle ∈ (Demo.group_by_query inner gid col).fields.targetList,
      ∀ v, tle.expr = .Var v → v.varno ≠ 0 := by
  intro tle htle v hv
  simp only [Demo.group_by_query, Query.fields, List.mem_cons, List.mem_singleton,
    List.not_mem_nil, or_false] at htle
  rcases htle with rfl | rfl
  · cases hv; decide
  · cases hv

theorem demo_group_by_query_groupexprs (inner : RangeTblEntry) (gid : RTEId) (col : Int)
    (hinner : inner.fields.groupexprs = []) :
    ∀ rte ∈ (Demo.group_by_query inner gid col).rtable,
      ∀ v, Node.Var v ∈ rte.fields.groupexprs → v.varno ≠ 0 := by
  intro rte hrte v hv
  simp only [Demo.group_by_query, Query.rtable, List.mem_cons, List.mem_singleton,
    List.not_mem_nil, or_false] at hrte
  rcases hrte with rfl | rfl
  · rw [hinner] at hv; simp at hv
  · simp only [Demo.rte_group, RangeTblEntry.fields, List.mem_singleton] at hv
    cases hv
    show (1 : Int) ≠ 0
    decide

theorem demo_group_by_mixed_query_targets (inner : RangeTblEntry) :
    ∀ tle ∈ (Demo.group_by_mixed_query inner).fields.targetList,
      ∀ v, tle.expr = .Var v → v.varno ≠ 0 := by
  intro tle htle v hv
  simp only [Demo.group_by_mixed_query, Query.fields, List.mem_cons, List.mem_singleton,
    List.not_mem_nil, or_false] at htle
  rcases htle with rfl | rfl
  · cases hv; decide
  · cases hv

/-- Claim C6 does not hold of the code. Over `t3(a, b)`, whose one unique index is on
`(a, b)`, the test returns true for `SELECT a, max(b) FROM t3 GROUP BY a`, although no
unique index of `t3` has its columns within the grouped column `a`: grouping by `a`
merges rows of `t3`, and the grouped column is not a unique key.  The index test asks
whether the grouped columns are among the index columns, where the claim and the header
comment of the function ("the GROUP BY columns form a unique key") ask for an index whose
columns are among the grouped ones.  The analysis of
`(SELECT a, max(b) FROM t3 GROUP BY a) AS g` so returns the UniquenessSet of the `t3`
entry. -/
theorem group_by_test_counterexample :
    check_group_by_preserves_uniqueness Demo.cat
        (Demo.group_by_query (Demo.rte_t3_as 81) 82 1) [] = .ok (true, [81]) ∧
    ¬ GroupByPreservesUniqueness_spec Demo.cat
        (Demo.group_by_query (Demo.rte_t3_as 81) 82 1) ∧
    (Demo.t3_rel.indexlist.map fun index => (index.indisunique, index.indkey)) =
      [(true, [1, 2])] ∧
    analyze_join_tree Demo.cat (Demo.pstate_of Demo.rte_g3) 6 (.RangeTblRef 1) none 36 {} 7
        [] = .ok { uniqueness_preservation := [81], functional_dependencies := [81, 81] } := by
  refine ⟨rfl, ?_, rfl, rfl⟩
  rintro ⟨tles, base, cols, rel, hf, _, hgb, hrel, _, index, hmem, _, hsub⟩
  have hb := (group_by_base_iff _ base cols
    (demo_group_by_query_targets _ _ _)
    (demo_group_by_query_groupexprs (Demo.rte_t3_as 81) 82 1 rfl)).mpr
    ⟨tles, hf, hgb⟩
  have hval : group_by_base (Demo.group_by_query (Demo.rte_t3_as 81) 82 1)
      = .ok (some (Demo.rte_t3_as 81, [1])) := rfl
  rw [hval] at hb
  cases hb
  have hrel2 : some Demo.t3_rel = some rel := hrel
  cases hrel2
  simp only [Demo.t3_rel, List.mem_singleton] at hmem
  subst hmem
  exact absurd (hsub 2 (by decide)) (by decide)

/-- Target entries that are not column references are passed over by the first loop of the
test: over `t1`, a query grouped by `c1` and by an expression, whose target entries refer
to `t1` directly, tests true. -/
theorem group_by_passes_over_expressions :
    check_group_by_preserves_uniqueness Demo.cat
        (Demo.group_by_mixed_query (Demo.rte_t1_as 81)) [] = .ok (true, [81]) ∧
    ¬ GroupByPreservesUniqueness_spec Demo.cat
        (Demo.group_by_mixed_query (Demo.rte_t1_as 81)) := by
  refine ⟨rfl, ?_⟩
  rintro ⟨tles, base, cols, rel, hf, hall, _⟩
  unfold GroupingEntries at hf
  cases hf with
  | cons h1 hrest =>
  cases hrest with
  | cons h2 hnil =>
  obtain ⟨v, hv⟩ := hall _ (List.mem_cons_of_mem _ (List.mem_cons_self _ _))
  have h2b : (Except.ok { expr := Node.Other, ressortgroupref := 2 } :
      Except Fault TargetEntry) = .ok _ := h2
  cases h2b
  cases hv

/-- The GROUP BY test at `t1(c1 PK, c2)`: the test returns true for
`SELECT c1, max(c2) FROM t1 GROUP BY c1` and false for the query grouped by `c2`; the join
`(SELECT c1, max(c2) FROM t1 GROUP BY c1) AS g JOIN t2 KEY (c3) -> g (c1)` is accepted, and
with the subquery grouped by `c2` it is rejected. -/
theorem check_group_by_preserves_uniqueness_iff_witness :
    check_group_by_preserves_uniqueness Demo.cat
        (Demo.group_by_query (Demo.rte_t1_as 81) 82 1) [] = .ok (true, [81]) ∧
    check_group_by_preserves_uniqueness Demo.cat
        (Demo.group_by_query (Demo.rte_t1_as 91) 92 2) [91] = .ok (false, [91]) ∧
    transformAndValidateForeignKeyJoin Demo.cat (Demo.pstate_of Demo.rte_g1) 6
        (Demo.join_to "g") (Demo.ns_t2 2) [Demo.ns_derived "g" 1]
      = .ok (Demo.join_to_resolved "g") ∧
    transformAndValidateForeignKeyJoin Demo.cat (Demo.pstate_of Demo.rte_g2) 6
        (Demo.join_to "g") (Demo.ns_t2 2) [Demo.ns_derived "g" 1]
      = .error (err_no_foreign_key "t2" "c3" "g" "c1" 7) :=
  ⟨(check_group_by_preserves_uniqueness_iff Demo.cat
      (Demo.group_by_query (Demo.rte_t1_as 81) 82 1) [] [81]
      (demo_group_by_query_targets _ _ _)
      (demo_group_by_query_groupexprs (Demo.rte_t1_as 81) 82 1 rfl)).mpr
      ⟨[{ expr := .Var { varno := 2, varattno := 1 }, ressortgroupref := 1 }],
       Demo.rte_t1_as 81, [1], Demo.t1_rel, .cons rfl .nil,
       ⟨2, Demo.rte_group 82 [.Var { varno := 1, varattno := 1 }],
        ⟨by decide, by decide, by decide⟩, rfl,
        Or.inr ⟨rfl, [{ varno := 1, varattno := 1 }], 1, rfl,
          ⟨by decide, by decide, by decide⟩, rfl, rfl, by decide, rfl⟩⟩,
       rfl, ⟨_, List.mem_singleton.mpr rfl, rfl, by decide⟩, rfl⟩,
   rfl, rfl, rfl⟩

/-! ## Views in place of tables -/

/-- Claim C7 does not hold of the code: `v1` is the view `SELECT * FROM t1`, and with the
referenced side `(SELECT * FROM t1 WHERE c2 > 0) AS t1f` the join
`t1f JOIN t2 KEY (c3) -> t1f (c1)` is rejected ("referenced relation does not preserve all
rows"), while with the entry of `t1` in that subquery replaced by an entry of `v1`, that is
`(SELECT * FROM v1 WHERE c2 > 0) AS t1f`, the same join is accepted and resolves to the
constraint `t2_c3_fkey`.  The WHERE clause is seen only when the base table is a direct
from-item of the filtered query.  At the top level the replacement changes nothing here:
both `t1 JOIN t2 KEY (c3) -> t1 (c1)` and `v1 JOIN t2 KEY (c3) -> v1 (c1)` are accepted. -/
theorem view_replacement_changes_outcome :
    Demo.cat.relations 3 = some Demo.v1_rel ∧
    Demo.v1_rel.relkind = .RELKIND_VIEW ∧
    Demo.v1_rel.viewQuery = some (Demo.select_star none (Demo.rte_t1_as 21)) ∧
    Demo.rte_t1f.subquery = some (Demo.select_star (some .Other) (Demo.rte_t1_as 41)) ∧
    Demo.rte_t1f_over_v1.subquery
      = some (Demo.select_star (some .Other) (Demo.rte_v1_as 42)) ∧
    transformAndValidateForeignKeyJoin Demo.cat (Demo.pstate_of Demo.rte_t1f) 6
        (Demo.join_to "t1f") (Demo.ns_t2 2) [Demo.ns_derived "t1f" 1]
      = .error (err_not_all_rows 7) ∧
    transformAndValidateForeignKeyJoin Demo.cat (Demo.pstate_of Demo.rte_t1f_over_v1) 6
        (Demo.join_to "t1f") (Demo.ns_t2 2) [Demo.ns_derived "t1f" 1]
      = .ok (Demo.join_to_resolved "t1f") ∧
    transformAndValidateForeignKeyJoin Demo.cat (Demo.pstate_of Demo.rte_t1) 6
        (Demo.join_to "t1") (Demo.ns_t2 2) [Demo.ns_derived "t1" 1]
      = .ok (Demo.join_to_resolved "t1") ∧
    transformAndValidateForeignKeyJoin Demo.cat (Demo.pstate_of (Demo.rte_v1_as 17)) 6
        (Demo.join_to "v1") (Demo.ns_t2 2) [Demo.ns_derived "v1" 1]
      = .ok (Demo.join_to_resolved "v1") :=
  ⟨rfl, rfl, rfl, rfl, rfl, rfl, rfl, rfl, rfl⟩

/-! ## Direction symmetry -/

theorem resolve_sides_location {cat : Catalog} {pstate : ParseState} {fuel : Nat}
    {fkjn1 fkjn2 : ForeignKeyClause} (o : OrientedSides)
    (hloc : fkjn2.location = fkjn1.location) :
    resolve_sides cat pstate fuel fkjn2 o = resolve_sides cat pstate fuel fkjn1 o := by
  unfold resolve_sides
  rw [hloc]

/-- The validator's work after the orientation depends on the clause through its location
and its direction marker only, and on the join node only as the record the result is
written to. -/
theorem validate_oriented_restamp {cat : Catalog} {pstate : ParseState} {fuel : Nat}
    (join1 join2 : JoinExpr) (fkjn1 fkjn2 : ForeignKeyClause) (o : OrientedSides)
    (hloc : fkjn2.location = fkjn1.location) :
    validate_oriented cat pstate fuel join2 fkjn2 o =
      (validate_oriented cat pstate fuel join1 fkjn1 o).map
        (fun j => { join2 with quals := j.quals,
                               fkJoin := with_direction fkjn2.fkdir j.fkJoin }) := by
  unfold validate_oriented
  rw [resolve_sides_location o hloc, hloc]
  cases hr : resolve_sides cat pstate fuel fkjn1 o with
  | error e => rfl
  | ok r =>
  simp only [ok_bind]
  by_cases hfk : lookup_foreign_key cat r = InvalidOid
  · simp only [hfk, if_true]
    rfl
  · simp only [hfk, if_false]
    cases hing : analyze_join_tree cat pstate fuel o.referencing_arg none
        r.referencing_rte.rteid {} fkjn1.location [] with
    | error e => rfl
    | ok ing =>
    cases hed : analyze_join_tree cat pstate fuel o.referenced_arg none
        r.referenced_rte.rteid {} fkjn1.location [] with
    | error e => rfl
    | ok ed =>
    simp only [ok_bind, pure_eq_ok]
    unfold enforce_and_rewrite
    rw [hloc]
    by_cases hu : r.base_referenced_rte.rteid ∈ ed.uniqueness_preservation
    · simp only [hu, not_true_eq_false, if_false]
      cases hfd : fds_has_self_dep r.base_referenced_rte.rteid ed.functional_dependencies with
      | error e => rfl
      | ok b =>
      cases b with
      | false => rfl
      | true =>
      simp only [ok_bind, pure_eq_ok]
      cases hq : build_fk_join_on_clause pstate o.referencing_rel.p_nscolumns
          r.referencing_attnums o.referenced_rel.p_nscolumns r.referenced_attnums with
      | error e => rfl
      | ok quals => rfl
    · simp only [hu, not_false_eq_true, if_true]
      rfl

theorem validate_ok_node {cat : Catalog} {pstate : ParseState} {fuel : Nat} {join : JoinExpr}
    {r_nsitem : ParseNamespaceItem} {l_namespace : List ParseNamespaceItem} {j : JoinExpr}
    (h : transformAndValidateForeignKeyJoin cat pstate fuel join r_nsitem l_namespace = .ok j) :
    ∃ fkjn n q, join.fkJoin = some (.clause fkjn) ∧ j.fkJoin = some (.node n) ∧
      n.fkdir = fkjn.fkdir ∧ j.quals = some q ∧
      j.jointype = join.jointype ∧ j.larg = join.larg ∧ j.rarg = join.rarg := by
  obtain ⟨fkjn, other_rel, hfk, _, _, hv⟩ := validate_inv h
  obtain ⟨r, _, ed, _, _, _, _, he⟩ := validate_oriented_inv hv
  obtain ⟨_, _, quals, _, rfl⟩ := enforce_and_rewrite_inv he
  exact ⟨fkjn, _, quals, hfk, rfl, rfl, rfl, rfl, rfl, rfl⟩

/-- Claim C8. Let `J` be a FROM-directed foreign-key join and `J'` its TO-directed mirror
over the same catalog and range table: the children exchanged, `local_cols` and `ref_cols`
exchanged, and the alias naming the relation that was on the right.  The validator gives
for `J'` what it gives for `J`, carried over to the mirrored node: the same error when `J`
is rejected, and when `J` is accepted with resolved node `n` and predicate `q`, `J'` is
accepted with the same predicate and the node `n` with direction TO, that is with the same
constraint, the same referencing and referenced range-table indices and the same attribute
lists.  In particular `J` is accepted if and only if `J'` is. -/
theorem direction_mirror_agrees (cat : Catalog) (pstate : ParseState) (fuel : Nat)
    (join : JoinExpr) (fkjn : ForeignKeyClause) (r_nsitem other_rel : ParseNamespaceItem)
    (l_namespace l_namespace2 : List ParseNamespaceItem) (refAlias : String)
    (hfk : join.fkJoin = some (.clause fkjn)) (hdir : fkjn.fkdir = .FKDIR_FROM)
    (hother : find_other_rel fkjn.refAlias l_namespace = some other_rel)
    (hother2 : find_other_rel refAlias l_namespace2 = some r_nsitem) :
    transformAndValidateForeignKeyJoin cat pstate fuel (mirror_join join fkjn refAlias)
        other_rel l_namespace2 =
      (transformAndValidateForeignKeyJoin cat pstate fuel join r_nsitem l_namespace).map
        (mirror_result (mirror_join join fkjn refAlias)) ∧
    ((∃ j, transformAndValidateForeignKeyJoin cat pstate fuel join r_nsitem l_namespace
        = .ok j) ↔
      ∃ j2, transformAndValidateForeignKeyJoin cat pstate fuel
        (mirror_join join fkjn refAlias) other_rel l_namespace2 = .ok j2) ∧
    (∀ j, transformAndValidateForeignKeyJoin cat pstate fuel join r_nsitem l_namespace
        = .ok j →
      ∃ n q, j.fkJoin = some (.node n) ∧ n.fkdir = .FKDIR_FROM ∧ j.quals = some q ∧
        transformAndValidateForeignKeyJoin cat pstate fuel (mirror_join join fkjn refAlias)
            other_rel l_namespace2 =
          .ok { mirror_join join fkjn refAlias with
                quals := some q, fkJoin := some (.node { n with fkdir := .FKDIR_TO }) }) := by
  have hmain : transformAndValidateForeignKeyJoin cat pstate fuel
      (mirror_join join fkjn refAlias) other_rel l_namespace2 =
      (transformAndValidateForeignKeyJoin cat pstate fuel join r_nsitem l_namespace).map
        (mirror_result (mirror_join join fkjn refAlias)) := by
    by_cases hlen : fkjn.refCols.length = fkjn.localCols.length
    · have hfk2 : (mirror_join join fkjn refAlias).fkJoin
          = some (.clause (mirror_clause fkjn refAlias)) := rfl
      have ho : orient_sides (mirror_clause fkjn refAlias) (mirror_join join fkjn refAlias)
          r_nsitem other_rel = orient_sides fkjn join other_rel r_nsitem := by
        simp [orient_sides, hdir, mirror_clause, mirror_join]
      rw [validate_eq hfk hother hlen,
        @validate_eq cat pstate fuel (mirror_join join fkjn refAlias) other_rel l_namespace2 _ _
          hfk2 hother2 hlen.symm, ho]
      exact validate_oriented_restamp join (mirror_join join fkjn refAlias) fkjn
        (mirror_clause fkjn refAlias) _ rfl
    · have hlen2 : (mirror_clause fkjn refAlias).refCols.length
          ≠ (mirror_clause fkjn refAlias).localCols.length := fun h => hlen h.symm
      unfold transformAndValidateForeignKeyJoin
      have hother3 : find_other_rel (mirror_clause fkjn refAlias).refAlias l_namespace2
          = some r_nsitem := hother2
      simp only [hfk, hother, mirror_join, hother3, hlen, hlen2, ne_eq, not_false_eq_true,
        if_true]
      rfl
  refine ⟨hmain, ?_, ?_⟩
  · rw [hmain]
    constructor
    · rintro ⟨j, hj⟩
      exact ⟨_, by rw [hj]; rfl⟩
    · rintro ⟨j2, hj2⟩
      cases hv : transformAndValidateForeignKeyJoin cat pstate fuel join r_nsitem
          l_namespace with
      | error e => rw [hv] at hj2; cases hj2
      | ok j => exact ⟨j, rfl⟩
  · intro j hj
    obtain ⟨fkjn2, n, q, hfk3, hn, hnd, hq, _⟩ := validate_ok_node hj
    have hsame : fkjn2 = fkjn := by
      rw [hfk] at hfk3
      cases hfk3
      rfl
    subst hsame
    refine ⟨n, q, hn, hnd.trans hdir, hq, ?_⟩
    rw [hmain, hj]
    simp only [Except.map, mirror_result, hq, hn, with_direction]

/-- Claim C8 at `t2 JOIN t1 KEY (c1) <- t2 (c3)` over the range table `[t2, t1]`: the join
and its mirror resolve to `t2_c3_fkey` with the same attribute lists and the predicate
`t2.c3 = t1.c1`; so does the mirror `t1 JOIN t2 KEY (c3) -> t1 (c1)` written over its own
range table `[t1, t2]`. -/
theorem direction_mirror_agrees_witness :
    transformAndValidateForeignKeyJoin Demo.cat Demo.pstate_mirror 4 Demo.join_from_t2
        (Demo.ns_t1 2) [Demo.ns_t2 1] = .ok Demo.join_from_t2_resolved ∧
    transformAndValidateForeignKeyJoin Demo.cat Demo.pstate_mirror 4
        (mirror_join Demo.join_from_t2
          { fkdir := .FKDIR_FROM, refAlias := "t2", refCols := ["c3"], localCols := ["c1"],
            location := 7 } "t1")
        (Demo.ns_t2 1) [Demo.ns_t1 2] =
      .ok { jointype := .JOIN_INNER, larg := .RangeTblRef 2, rarg := .RangeTblRef 1,
            quals := some (Demo.eq_c3_c1 1 2),
            fkJoin := some (.node { fkdir := .FKDIR_TO, referencingVarno := 1,
                                    referencingAttnums := [1], referencedVarno := 2,
                                    referencedAttnums := [1], constraint := 100 }) } ∧
    transformAndValidateForeignKeyJoin Demo.cat (Demo.pstate_of Demo.rte_t1) 4
        (Demo.join_to "t1") (Demo.ns_t2 2) [Demo.ns_t1 1] = .ok (Demo.join_to_resolved "t1") :=
  ⟨rfl,
   ((direction_mirror_agrees Demo.cat Demo.pstate_mirror 4 Demo.join_from_t2
      { fkdir := .FKDIR_FROM, refAlias := "t2", refCols := ["c3"], localCols := ["c1"],
        location := 7 }
      (Demo.ns_t1 2) (Demo.ns_t2 1) [Demo.ns_t2 1] [Demo.ns_t1 2] "t1" rfl rfl rfl rfl).1).trans
      rfl,
   rfl⟩

/-! ## The stamped node -/

theorem scan_colnames_ok (side ref_colname : String) (location : Int) :
    ∀ (colnames : List String) (ndx col_index c : Int),
      scan_colnames side ref_colname location colnames ndx col_index = .ok c →
      (0 ≤ col_index → c = col_index ∧ ref_colname ∉ colnames) ∧
      (col_index < 0 → 0 ≤ ndx →
        (c = col_index ∧ ref_colname ∉ colnames) ∨
        (colnames.count ref_colname = 1 ∧ c = ndx + (colnames.indexOf ref_colname : Int)))
  | [], ndx, col_index, c, h => by
      simp only [scan_colnames] at h
      have hc : col_index = c := Except.ok.inj h
      subst hc
      exact ⟨fun _ => ⟨rfl, by simp⟩, fun _ _ => Or.inl ⟨rfl, by simp⟩⟩
  | colname :: rest, ndx, col_index, c, h => by
      unfold scan_colnames at h
      by_cases hc : colname = ref_colname
      · subst hc
        simp only [if_true] at h
        by_cases hci : col_index ≥ 0
        · simp [hci] at h
        · simp only [hci, if_false] at h
          refine ⟨fun h0 => absurd h0 hci, fun _ hnd => Or.inr ?_⟩
          obtain ⟨hc1, hc2⟩ := (scan_colnames_ok side colname location rest (ndx + 1) ndx c h).1 hnd
          refine ⟨?_, ?_⟩
          · rw [List.count_cons_self, List.count_eq_zero.mpr hc2]
          · simp [hc1]
      · simp only [hc, if_false] at h
        have ih := scan_colnames_ok side ref_colname location rest (ndx + 1) col_index c h
        have hne : ref_colname ≠ colname := fun e => hc e.symm
        refine ⟨fun h0 => ?_, fun hneg hnd => ?_⟩
        · obtain ⟨h1, h2⟩ := ih.1 h0
          exact ⟨h1, by simp [hne, h2]⟩
        · rcases ih.2 hneg (by omega) with ⟨h1, h2⟩ | ⟨h1, h2⟩
          · exact Or.inl ⟨h1, by simp [hne, h2]⟩
          · refine Or.inr ⟨?_, ?_⟩
            · rw [List.count_cons_of_ne hne]; exact h1
            · rw [List.indexOf_cons_ne _ hc, h2]
              push_cast
              ring

/-- A column list resolves only when each of its names occurs exactly once among the
visible column names; the positions are then the 1-based positions of the names. -/
theorem resolve_cols_inv (side : String) (colnames : List String) (location : Int) :
    ∀ (cols : List String) (attnums : List Int),
      resolve_cols side colnames location cols = .ok attnums →
      attnums = cols.map (column_position colnames) ∧
      ∀ name ∈ cols, colnames.count name = 1
  | [], attnums, h => by
      simp only [resolve_cols] at h
      cases Except.ok.inj h
      exact ⟨rfl, by simp⟩
  | name :: rest, attnums, h => by
      unfold resolve_cols at h
      cases hs : scan_colnames side name location colnames 0 (-1) with
      | error e => simp [hs] at h
      | ok c =>
      simp only [hs, ok_bind] at h
      by_cases hc : c < 0
      · simp [hc] at h
      · simp only [hc, if_false] at h
        cases hr : resolve_cols side colnames location rest with
        | error e => simp [hr] at h
        | ok tail =>
        simp only [hr, ok_bind, pure_eq_ok] at h
        have hh := Except.ok.inj h
        subst hh
        obtain ⟨ht, hall⟩ := resolve_cols_inv side colnames location rest tail hr
        rcases (scan_colnames_ok side name location colnames 0 (-1) c hs).2 (by decide)
          (by decide) with ⟨h1, _⟩ | ⟨h1, h2⟩
        · omega
        · refine ⟨?_, ?_⟩
          · simp only [List.map_cons, ht, column_position, h2, zero_add]
          · intro n hn
            rcases List.mem_cons.mp hn with rfl | hn
            · exact h1
            · exact hall n hn

/-- Claim C10. On success the join's `fkJoin` field holds a resolved node whose direction
is the direction of the request and whose constraint is the valid identifier that
`find_foreign_key` returned for the drilled-down base relations and base columns.  If the
direction is FROM, `referencingVarno` is the range-table index of the relation named by
the alias and `referencedVarno` that of the right-hand relation, `referencingAttnums` are
the positions of `ref_cols` among the visible columns of the aliased relation and
`referencedAttnums` the positions of `local_cols` among those of the right-hand relation;
if the direction is TO the two roles are exchanged.  The stamped lists are these visible
positions: the base positions reached by the drill-down are used for the lookup only. -/
theorem validator_stamps_resolved_node (cat : Catalog) (pstate : ParseState) (fuel : Nat)
    (join : JoinExpr) (r_nsitem : ParseNamespaceItem) (l_namespace : List ParseNamespaceItem)
    (j : JoinExpr)
    (h : transformAndValidateForeignKeyJoin cat pstate fuel join r_nsitem l_namespace = .ok j) :
    ∃ fkjn other_rel n, join.fkJoin = some (.clause fkjn) ∧
      find_other_rel fkjn.refAlias l_namespace = some other_rel ∧
      j.fkJoin = some (.node n) ∧ n.fkdir = fkjn.fkdir ∧
      (∃ ing_rte ed_rte base_ing base_ed ing_base_attnums ed_base_attnums,
        rt_fetch n.referencingVarno pstate.p_rtable = .ok ing_rte ∧
        rt_fetch n.referencedVarno pstate.p_rtable = .ok ed_rte ∧
        drill_down_to_base_rel cat pstate fuel ing_rte n.referencingAttnums fkjn.location []
          = .ok (base_ing, ing_base_attnums) ∧
        drill_down_to_base_rel cat pstate fuel ed_rte n.referencedAttnums fkjn.location []
          = .ok (base_ed, ed_base_attnums) ∧
        n.constraint =
          find_foreign_key cat base_ing.relid base_ed.relid ing_base_attnums ed_base_attnums ∧
        n.constraint ≠ InvalidOid) ∧
      (fkjn.fkdir = .FKDIR_FROM →
        n.referencingVarno = other_rel.p_rtindex ∧ n.referencedVarno = r_nsitem.p_rtindex ∧
        n.referencingAttnums = fkjn.refCols.map (column_position other_rel.colnames) ∧
        n.referencedAttnums = fkjn.localCols.map (column_position r_nsitem.colnames)) ∧
      (fkjn.fkdir = .FKDIR_TO →
        n.referencingVarno = r_nsitem.p_rtindex ∧ n.referencedVarno = other_rel.p_rtindex ∧
        n.referencingAttnums = fkjn.localCols.map (column_position r_nsitem.colnames) ∧
        n.referencedAttnums = fkjn.refCols.map (column_position other_rel.colnames)) ∧
      (∀ name ∈ fkjn.refCols, other_rel.colnames.count name = 1) ∧
      (∀ name ∈ fkjn.localCols, r_nsitem.colnames.count name = 1) := by
  obtain ⟨fkjn, other_rel, hfk, hother, _, hv⟩ := validate_inv h
  obtain ⟨r, _, ed, hres, hlk, _, _, he⟩ := validate_oriented_inv hv
  obtain ⟨_, _, quals, _, rfl⟩ := enforce_and_rewrite_inv he
  obtain ⟨hf1, hf2, hc1, hc2, hd1, hd2, _, _⟩ := resolve_sides_inv hres
  obtain ⟨ha1, hu1⟩ := resolve_cols_inv _ _ _ _ _ hc1
  obtain ⟨ha2, hu2⟩ := resolve_cols_inv _ _ _ _ _ hc2
  refine ⟨fkjn, other_rel, _, hfk, hother, rfl, rfl,
    ⟨r.referencing_rte, r.referenced_rte, r.base_referencing_rte, r.base_referenced_rte,
      r.referencing_base_attnums, r.referenced_base_attnums, hf1, hf2, hd1, hd2, rfl, hlk⟩,
    ?_, ?_, ?_, ?_⟩
  · intro hdir
    simp only [orient_sides, hdir, if_true] at ha1 ha2
    simp only [stamp_node, orient_sides, hdir, if_true]
    exact ⟨trivial, trivial, ha1, ha2⟩
  · intro hdir
    have hne : ¬ fkjn.fkdir = .FKDIR_FROM := by rw [hdir]; decide
    simp only [orient_sides, hne, if_false] at ha1 ha2
    simp only [stamp_node, orient_sides, hne, if_false]
    exact ⟨trivial, trivial, ha1, ha2⟩
  · by_cases hdir : fkjn.fkdir = .FKDIR_FROM
    · simp only [orient_sides, hdir, if_true] at hu1
      exact hu1
    · simp only [orient_sides, hdir, if_false] at hu2
      exact hu2
  · by_cases hdir : fkjn.fkdir = .FKDIR_FROM
    · simp only [orient_sides, hdir, if_true] at hu2
      exact hu2
    · simp only [orient_sides, hdir, if_false] at hu1
      exact hu1

/-- Claim C10 at `(SELECT c2, c1 FROM t1) AS p JOIN t2 KEY (c3) -> p (c1)`: the join is
accepted, the node is stamped with the visible position 2 of `c1` in `p`, while the
drill-down of that position ends at column 1 of `t1`, the column the constraint
`t2_c3_fkey` refers to. -/
theorem validator_stamps_resolved_node_witness :
    transformAndValidateForeignKeyJoin Demo.cat (Demo.pstate_of Demo.rte_p) 4
        (Demo.join_to "p") (Demo.ns_t2 2) [Demo.ns_p 1] = .ok Demo.join_to_p_resolved ∧
    drill_down_to_base_rel Demo.cat (Demo.pstate_of Demo.rte_p) 4 Demo.rte_p [2] 7 []
      = .ok (Demo.rte_t1_as 201, [1]) ∧
    ∃ fkjn other_rel n, (Demo.join_to "p").fkJoin = some (.clause fkjn) ∧
      find_other_rel fkjn.refAlias [Demo.ns_p 1] = some other_rel ∧
      Demo.join_to_p_resolved.fkJoin = some (.node n) ∧ n.fkdir = fkjn.fkdir ∧
      (∃ ing_rte ed_rte base_ing base_ed ing_base_attnums ed_base_attnums,
        rt_fetch n.referencingVarno (Demo.pstate_of Demo.rte_p).p_rtable = .ok ing_rte ∧
        rt_fetch n.referencedVarno (Demo.pstate_of Demo.rte_p).p_rtable = .ok ed_rte ∧
        drill_down_to_base_rel Demo.cat (Demo.pstate_of Demo.rte_p) 4 ing_rte
          n.referencingAttnums fkjn.location [] = .ok (base_ing, ing_base_attnums) ∧
        drill_down_to_base_rel Demo.cat (Demo.pstate_of Demo.rte_p) 4 ed_rte
          n.referencedAttnums fkjn.location [] = .ok (base_ed, ed_base_attnums) ∧
        n.constraint =
          find_foreign_key Demo.cat base_ing.relid base_ed.relid ing_base_attnums
            ed_base_attnums ∧
        n.constraint ≠ InvalidOid) ∧
      (fkjn.fkdir = .FKDIR_FROM →
        n.referencingVarno = other_rel.p_rtindex ∧ n.referencedVarno = (Demo.ns_t2 2).p_rtindex ∧
        n.referencingAttnums = fkjn.refCols.map (column_position other_rel.colnames) ∧
        n.referencedAttnums = fkjn.localCols.map (column_position (Demo.ns_t2 2).colnames)) ∧
      (fkjn.fkdir = .FKDIR_TO →
        n.referencingVarno = (Demo.ns_t2 2).p_rtindex ∧ n.referencedVarno = other_rel.p_rtindex ∧
        n.referencingAttnums = fkjn.localCols.map (column_position (Demo.ns_t2 2).colnames) ∧
        n.referencedAttnums = fkjn.refCols.map (column_position other_rel.colnames)) ∧
      (∀ name ∈ fkjn.refCols, other_rel.colnames.count name = 1) ∧
      (∀ name ∈ fkjn.localCols, (Demo.ns_t2 2).colnames.count name = 1) :=
  ⟨rfl, rfl,
   validator_stamps_resolved_node Demo.cat (Demo.pstate_of Demo.rte_p) 4 (Demo.join_to "p")
     (Demo.ns_t2 2) [Demo.ns_p 1] Demo.join_to_p_resolved rfl⟩

/-! ## The alias and the arity check -/

theorem find_other_rel_none (refAlias : String) :
    ∀ (l_namespace : List ParseNamespaceItem),
      find_other_rel refAlias l_namespace = none ↔
        ∀ nsi ∈ l_namespace, ¬ (nsi.p_rel_visible = true ∧ nsi.aliasname = refAlias)
  | [] => by simp [find_other_rel]
  | nsi :: rest => by
      unfold find_other_rel
      by_cases hv : nsi.p_rel_visible = true
      · by_cases ha : nsi.aliasname = refAlias
        · simp [hv, ha]
        · simp [hv, ha, find_other_rel_none refAlias rest]
      · simp [hv, find_other_rel_none refAlias rest]

theorem find_other_rel_some (refAlias : String) (found : ParseNamespaceItem) :
    ∀ (l_namespace : List ParseNamespaceItem),
      find_other_rel refAlias l_namespace = some found ↔
        ∃ pre post, l_namespace = pre ++ found :: post ∧
          found.p_rel_visible = true ∧ found.aliasname = refAlias ∧
          ∀ x ∈ pre, ¬ (x.p_rel_visible = true ∧ x.aliasname = refAlias)
  | [] => by simp [find_other_rel]
  | nsi :: rest => by
      have ih := find_other_rel_some refAlias found rest
      unfold find_other_rel
      by_cases hm : nsi.p_rel_visible = true ∧ nsi.aliasname = refAlias
      · obtain ⟨hv, ha⟩ := hm
        simp only [hv, Bool.not_true, Bool.false_eq_true, if_false, ha, if_true,
          Option.some.injEq]
        constructor
        · rintro rfl
          exact ⟨[], rest, rfl, hv, ha, by simp⟩
        · rintro ⟨pre, post, heq, _, _, hpre⟩
          cases pre with
          | nil =>
              simp only [List.nil_append, List.cons.injEq] at heq
              exact heq.1
          | cons p pre =>
              simp only [List.cons_append, List.cons.injEq] at heq
              exact absurd ⟨heq.1 ▸ hv, heq.1 ▸ ha⟩ (hpre p (List.mem_cons_self _ _))
      · have hstep : (if (!nsi.p_rel_visible) = true then find_other_rel refAlias rest
            else if nsi.aliasname = refAlias then some nsi
            else find_other_rel refAlias rest) = find_other_rel refAlias rest := by
          by_cases hv : nsi.p_rel_visible = true
          · have ha : ¬ nsi.aliasname = refAlias := fun ha => hm ⟨hv, ha⟩
            simp [hv, ha]
          · simp [hv]
        rw [hstep, ih]
        constructor
        · rintro ⟨pre, post, rfl, hv, ha, hpre⟩
          refine ⟨nsi :: pre, post, rfl, hv, ha, ?_⟩
          intro x hx
          rcases List.mem_cons.mp hx with rfl | hx
          · exact hm
          · exact hpre x hx
        · rintro ⟨pre, post, heq, hv, ha, hpre⟩
          cases pre with
          | nil =>
              simp only [List.nil_append, List.cons.injEq] at heq
              exact absurd ⟨heq.1 ▸ hv, heq.1 ▸ ha⟩ hm
          | cons p pre =>
              simp only [List.cons_append, List.cons.injEq] at heq
              exact ⟨pre, post, heq.2, hv, ha,
                fun x hx => hpre x (List.mem_cons_of_mem _ hx)⟩

theorem validate_alias_not_found {cat : Catalog} {pstate : ParseState} {fuel : Nat}
    {join : JoinExpr} {r_nsitem : ParseNamespaceItem} {l_namespace : List ParseNamespaceItem}
    {fkjn : ForeignKeyClause}
    (hfk : join.fkJoin = some (.clause fkjn))
    (hother : find_other_rel fkjn.refAlias l_namespace = none) :
    transformAndValidateForeignKeyJoin cat pstate fuel join r_nsitem l_namespace =
      .error (err_table_ref_not_found fkjn.refAlias fkjn.location) := by
  unfold transformAndValidateForeignKeyJoin
  simp [hfk, hother]

theorem validate_arity_mismatch {cat : Catalog} {pstate : ParseState} {fuel : Nat}
    {join : JoinExpr} {r_nsitem : ParseNamespaceItem} {l_namespace : List ParseNamespaceItem}
    {fkjn : ForeignKeyClause} {other_rel : ParseNamespaceItem}
    (hfk : join.fkJoin = some (.clause fkjn))
    (hother : find_other_rel fkjn.refAlias l_namespace = some other_rel)
    (hlen : fkjn.refCols.length ≠ fkjn.localCols.length) :
    transformAndValidateForeignKeyJoin cat pstate fuel join r_nsitem l_namespace =
      .error (err_arity fkjn.location) := by
  unfold transformAndValidateForeignKeyJoin
  simp [hfk, hother, hlen]

/-- Claim C11. For a request whose two column-name lists have different lengths the
validator never succeeds.  When the alias names a visible entry of the left-hand namespace
the failure is the arity error, of class INVALID_FOREIGN_KEY, at the position of the
clause; otherwise it is the error for the unknown alias.  The outcome is the same for every
catalog, range table, recursion budget and right-hand namespace item: it is reached before
any column name is resolved and before any catalog lookup. -/
theorem arity_mismatch_rejected (cat : Catalog) (pstate : ParseState) (fuel : Nat)
    (join : JoinExpr) (r_nsitem : ParseNamespaceItem) (l_namespace : List ParseNamespaceItem)
    (fkjn : ForeignKeyClause)
    (hfk : join.fkJoin = some (.clause fkjn))
    (hlen : fkjn.refCols.length ≠ fkjn.localCols.length) :
    (∀ j, transformAndValidateForeignKeyJoin cat pstate fuel join r_nsitem l_namespace
      ≠ .ok j) ∧
    (∀ other_rel, find_other_rel fkjn.refAlias l_namespace = some other_rel →
      transformAndValidateForeignKeyJoin cat pstate fuel join r_nsitem l_namespace =
        .error (.ereport
          { sqlerrcode := .INVALID_FOREIGN_KEY,
            message := "number of referencing and referenced columns for foriegn key disagree",
            cursorpos := some fkjn.location })) ∧
    (find_other_rel fkjn.refAlias l_namespace = none →
      transformAndValidateForeignKeyJoin cat pstate fuel join r_nsitem l_namespace =
        .error (err_table_ref_not_found fkjn.refAlias fkjn.location)) ∧
    (∀ (cat2 : Catalog) (pstate2 : ParseState) (fuel2 : Nat) (r_nsitem2 : ParseNamespaceItem),
      transformAndValidateForeignKeyJoin cat2 pstate2 fuel2 join r_nsitem2 l_namespace =
        transformAndValidateForeignKeyJoin cat pstate fuel join r_nsitem l_namespace) := by
  have hval : ∀ (c : Catalog) (p : ParseState) (f : Nat) (r : ParseNamespaceItem),
      transformAndValidateForeignKeyJoin c p f join r l_namespace =
        match find_other_rel fkjn.refAlias l_namespace with
        | none => .error (err_table_ref_not_found fkjn.refAlias fkjn.location)
        | some _ => .error (err_arity fkjn.location) := by
    intro c p f r
    cases hother : find_other_rel fkjn.refAlias l_namespace with
    | none => exact validate_alias_not_found hfk hother
    | some other_rel => exact validate_arity_mismatch hfk hother hlen
  refine ⟨?_, ?_, ?_, ?_⟩
  · intro j hj
    rw [hval] at hj
    cases hother : find_other_rel fkjn.refAlias l_namespace with
    | none => rw [hother] at hj; cases hj
    | some other_rel => rw [hother] at hj; cases hj
  · intro other_rel hother
    exact validate_arity_mismatch hfk hother hlen
  · intro hother
    exact validate_alias_not_found hfk hother
  · intro c p f r
    rw [hval c p f r, hval cat pstate fuel r_nsitem]

/-- Claim C11 at `t1 JOIN t2 KEY (c3) -> t1 (c1, c2)`: rejected with the arity error
whatever the catalog and the range table, here both empty. -/
theorem arity_mismatch_rejected_witness :
    transformAndValidateForeignKeyJoin { relations := fun _ => none, constraints := [] }
        { p_rtable := [] } 0 (Demo.join_arity "t1") (Demo.ns_t2 2) [Demo.ns_t1 1] =
      .error (err_arity 7) :=
  (arity_mismatch_rejected { relations := fun _ => none, constraints := [] }
    { p_rtable := [] } 0 (Demo.join_arity "t1") (Demo.ns_t2 2) [Demo.ns_t1 1]
    { fkdir := .FKDIR_TO, refAlias := "t1", refCols := ["c1", "c2"], localCols := ["c3"],
      location := 7 } rfl (by decide)).2.1 (Demo.ns_t1 1) rfl

/-- Claim C12. If no entry of the left-hand namespace is relation-visible with an alias
name equal to the alias of the request, the validator fails with the UNDEFINED_TABLE error
naming that alias, whatever the column lists, the catalog and the range table.  The entry
the search returns is the first one, in namespace order, that is relation-visible and
carries the alias: entries that are not relation-visible are passed over even when their
alias matches.  That entry is the one the validator takes as the other relation. -/
theorem unknown_alias_rejected (cat : Catalog) (pstate : ParseState) (fuel : Nat)
    (join : JoinExpr) (r_nsitem : ParseNamespaceItem) (l_namespace : List ParseNamespaceItem)
    (fkjn : ForeignKeyClause)
    (hfk : join.fkJoin = some (.clause fkjn)) :
    ((∀ nsi ∈ l_namespace, ¬ (nsi.p_rel_visible = true ∧ nsi.aliasname = fkjn.refAlias)) →
      transformAndValidateForeignKeyJoin cat pstate fuel join r_nsitem l_namespace =
        .error (.ereport
          { sqlerrcode := .UNDEFINED_TABLE, message := "table reference \"%s\" not found",
            args := [.str fkjn.refAlias], cursorpos := some fkjn.location })) ∧
    (∀ other_rel, find_other_rel fkjn.refAlias l_namespace = some other_rel ↔
      ∃ pre post, l_namespace = pre ++ other_rel :: post ∧
        other_rel.p_rel_visible = true ∧ other_rel.aliasname = fkjn.refAlias ∧
        ∀ x ∈ pre, ¬ (x.p_rel_visible = true ∧ x.aliasname = fkjn.refAlias)) ∧
    (∀ pre other_rel post, l_namespace = pre ++ other_rel :: post →
      other_rel.p_rel_visible = true → other_rel.aliasname = fkjn.refAlias →
      (∀ x ∈ pre, ¬ (x.p_rel_visible = true ∧ x.aliasname = fkjn.refAlias)) →
      transformAndValidateForeignKeyJoin cat pstate fuel join r_nsitem l_namespace =
        if fkjn.refCols.length ≠ fkjn.localCols.length then .error (err_arity fkjn.location)
        else validate_oriented cat pstate fuel join fkjn
          (orient_sides fkjn join other_rel r_nsitem)) := by
  refine ⟨?_, fun other_rel => find_other_rel_some _ _ _, ?_⟩
  · intro hnone
    exact validate_alias_not_found hfk ((find_other_rel_none _ _).mpr hnone)
  · intro pre other_rel post hl hv ha hpre
    have hother := (find_other_rel_some fkjn.refAlias other_rel l_namespace).mpr
      ⟨pre, post, hl, hv, ha, hpre⟩
    by_cases hlen : fkjn.refCols.length = fkjn.localCols.length
    · rw [validate_eq hfk hother hlen]
      simp [hlen]
    · rw [validate_arity_mismatch hfk hother hlen]
      simp [hlen]

/-- Claim C12 at `t1 JOIN t2 KEY (c3) -> xx (c1)`, rejected with UNDEFINED_TABLE for `xx`;
at a namespace whose only entry named `t1` is not relation-visible, rejected likewise; and
at a namespace with a hidden and two visible entries named `t1`, where the first visible
one is used. -/
theorem unknown_alias_rejected_witness :
    transformAndValidateForeignKeyJoin Demo.cat (Demo.pstate_of Demo.rte_t1) 4
        (Demo.join_to "xx") (Demo.ns_t2 2) [Demo.ns_t1 1] =
      .error (err_table_ref_not_found "xx" 7) ∧
    transformAndValidateForeignKeyJoin Demo.cat (Demo.pstate_of Demo.rte_t1) 4
        (Demo.join_to "t1") (Demo.ns_t2 2) [Demo.ns_t1_hidden 1] =
      .error (err_table_ref_not_found "t1" 7) ∧
    find_other_rel "t1" [Demo.ns_t2 2, Demo.ns_t1_hidden 3, Demo.ns_t1 1, Demo.ns_t1 4]
      = some (Demo.ns_t1 1) :=
  ⟨(unknown_alias_rejected Demo.cat (Demo.pstate_of Demo.rte_t1) 4 (Demo.join_to "xx")
      (Demo.ns_t2 2) [Demo.ns_t1 1]
      { fkdir := .FKDIR_TO, refAlias := "xx", refCols := ["c1"], localCols := ["c3"],
        location := 7 } rfl).1 (by decide),
   rfl, rfl⟩

/-! ## Column names: positions, ambiguity, absence -/

theorem scan_colnames_ambiguous (side ref_colname : String) (location : Int) :
    ∀ (colnames : List String) (ndx col_index : Int), 0 ≤ ndx →
      (0 ≤ col_index → ref_colname ∈ colnames →
        scan_colnames side ref_colname location colnames ndx col_index =
          .error (err_ambiguous_column side ref_colname location)) ∧
      (col_index < 0 → 2 ≤ colnames.count ref_colname →
        scan_colnames side ref_colname location colnames ndx col_index =
          .error (err_ambiguous_column side ref_colname location))
  | [], _, _, _ => by simp
  | colname :: rest, ndx, col_index, hnd => by
      have ih := fun ci => scan_colnames_ambiguous side ref_colname location rest (ndx + 1) ci
        (by omega)
      by_cases hc : colname = ref_colname
      · subst hc
        refine ⟨fun h0 _ => ?_, fun hneg hcount => ?_⟩
        · simp [scan_colnames, h0]
        · have hnot : ¬ (col_index ≥ 0) := by omega
          have hmem : colname ∈ rest := by
            apply List.count_pos_iff.mp
            rw [List.count_cons_self] at hcount
            omega
          simp only [scan_colnames, if_true, hnot, if_false]
          exact (ih ndx).1 hnd hmem
      · have hne : ref_colname ≠ colname := fun e => hc e.symm
        refine ⟨fun h0 hmem => ?_, fun hneg hcount => ?_⟩
        · have hmem2 : ref_colname ∈ rest := by
            rcases List.mem_cons.mp hmem with h | h
            · exact absurd h hne
            · exact h
          simp only [scan_colnames, hc, if_false]
          exact (ih col_index).1 h0 hmem2
        · rw [List.count_cons_of_ne hne] at hcount
          simp only [scan_colnames, hc, if_false]
          exact (ih col_index).2 hneg hcount

theorem resolve_cols_append (side : String) (colnames : List String) (location : Int) :
    ∀ (pre rest : List String), (∀ n ∈ pre, colnames.count n = 1) →
      resolve_cols side colnames location (pre ++ rest) =
        (resolve_cols side colnames location rest).map
          (fun tail => pre.map (column_position colnames) ++ tail)
  | [], rest, _ => by
      rw [List.nil_append]
      cases resolve_cols side colnames location rest <;> simp [Except.map]
  | name :: pre, rest, h => by
      have h1 := h name (List.mem_cons_self _ _)
      have ih := resolve_cols_append side colnames location pre rest
        (fun n hn => h n (List.mem_cons_of_mem _ hn))
      have hnn : ¬ ((0 : Int) + (colnames.indexOf name : Int) < 0) := by omega
      have hstep : ∀ l, resolve_cols side colnames location (name :: l) =
          (resolve_cols side colnames location l).map
            (fun tail => column_position colnames name :: tail) := by
        intro l
        rw [resolve_cols]
        simp only [scan_colnames_unique side name location colnames 0 (-1) h1 (by decide)
          (by decide), ok_bind, hnn, if_false]
        cases resolve_cols side colnames location l <;> simp [Except.map, column_position]
      rw [List.cons_append, hstep, ih]
      cases resolve_cols side colnames location rest <;> simp [Except.map]

/-- The first name of a list that does not occur exactly once decides the outcome of the
resolution loop: the ambiguity error when it occurs more than once, the error for an
undefined column when it does not occur. -/
theorem resolve_cols_first_offender (side : String) (colnames : List String) (location : Int)
    (pre : List String) (name : String) (post : List String)
    (hpre : ∀ n ∈ pre, colnames.count n = 1) :
    (2 ≤ colnames.count name →
      resolve_cols side colnames location (pre ++ name :: post) =
        .error (err_ambiguous_column side name location)) ∧
    (colnames.count name = 0 →
      resolve_cols side colnames location (pre ++ name :: post) =
        .error (err_undefined_column side name location)) := by
  rw [resolve_cols_append side colnames location pre _ hpre]
  refine ⟨fun h => ?_, fun h => ?_⟩
  · have hs := (scan_colnames_ambiguous side name location colnames 0 (-1) (by decide)).2
      (by decide) h
    simp [resolve_cols, hs, Except.map]
  · have habs : name ∉ colnames := List.count_eq_zero.mp h
    have hs := scan_colnames_absent side name location colnames 0 (-1) habs
    simp [resolve_cols, hs, Except.map]

theorem indexOf_of_unique {name : String} :
    ∀ {colnames : List String} {k : Nat}, colnames.count name = 1 →
      colnames[k]? = some name → colnames.indexOf name = k
  | [], _, h, _ => by simp at h
  | colname :: rest, k, h, hk => by
      by_cases hc : colname = name
      · subst hc
        have h0 : rest.count colname = 0 := by simpa using h
        have habs : colname ∉ rest := List.count_eq_zero.mp h0
        cases k with
        | zero => simp
        | succ k =>
            simp only [List.getElem?_cons_succ] at hk
            exact absurd (List.getElem?_mem hk) habs
      · have hne : name ≠ colname := fun e => hc e.symm
        rw [List.count_cons_of_ne hne] at h
        cases k with
        | zero =>
            simp only [List.getElem?_cons_zero, Option.some.injEq] at hk
            exact absurd hk hc
        | succ k =>
            simp only [List.getElem?_cons_succ] at hk
            rw [List.indexOf_cons_ne _ hc, indexOf_of_unique h hk]

theorem column_position_spec {colnames : List String} {name : String}
    (h : colnames.count name = 1) (k : Nat) :
    colnames[k]? = some name ↔ column_position colnames name = (k : Int) + 1 := by
  unfold column_position
  constructor
  · intro hk
    rw [indexOf_of_unique h hk]
  · intro hk
    have hidx : colnames.indexOf name = k := by omega
    have hm : name ∈ colnames := List.count_pos_iff.mp (by omega)
    have hlt := List.indexOf_lt_length.mpr hm
    rw [← hidx, List.getElem?_eq_getElem hlt]
    simp

theorem resolved_positions_of_unique (colnames : List String) :
    ∀ (cols : List String), (∀ name ∈ cols, colnames.count name = 1) →
      ResolvedPositions colnames cols (cols.map (column_position colnames))
  | [], _ => .nil
  | name :: rest, h =>
      .cons (fun k => by
          rw [column_position_spec (h name (List.mem_cons_self _ _)) k])
        (resolved_positions_of_unique colnames rest
          (fun n hn => h n (List.mem_cons_of_mem _ hn)))

theorem resolve_cols_positions {side : String} {colnames : List String} {location : Int}
    {cols : List String} {attnums : List Int}
    (h : resolve_cols side colnames location cols = .ok attnums) :
    ResolvedPositions colnames cols attnums := by
  obtain ⟨ha, hu⟩ := resolve_cols_inv side colnames location cols attnums h
  rw [ha]
  exact resolved_positions_of_unique colnames cols hu

theorem validate_oriented_resolve_error {cat : Catalog} {pstate : ParseState} {fuel : Nat}
    {join : JoinExpr} {fkjn : ForeignKeyClause} {o : OrientedSides} {e : Fault}
    (hr : resolve_sides cat pstate fuel fkjn o = .error e) :
    validate_oriented cat pstate fuel join fkjn o = .error e := by
  unfold validate_oriented
  rw [hr]
  rfl

theorem resolve_sides_referencing_error {cat : Catalog} {pstate : ParseState} {fuel : Nat}
    {fkjn : ForeignKeyClause} {o : OrientedSides} {ing_rte ed_rte : RangeTblEntry} {e : Fault}
    (hing : rt_fetch o.referencing_rel.p_rtindex pstate.p_rtable = .ok ing_rte)
    (hed : rt_fetch o.referenced_rel.p_rtindex pstate.p_rtable = .ok ed_rte)
    (hcols : resolve_cols "referencing" o.referencing_rel.colnames fkjn.location
      o.referencing_cols = .error e) :
    resolve_sides cat pstate fuel fkjn o = .error e := by
  unfold resolve_sides
  rw [hing, hed, hcols]
  rfl

theorem resolve_sides_referenced_error {cat : Catalog} {pstate : ParseState} {fuel : Nat}
    {fkjn : ForeignKeyClause} {o : OrientedSides} {ing_rte ed_rte : RangeTblEntry}
    {attnums : List Int} {e : Fault}
    (hing : rt_fetch o.referencing_rel.p_rtindex pstate.p_rtable = .ok ing_rte)
    (hed : rt_fetch o.referenced_rel.p_rtindex pstate.p_rtable = .ok ed_rte)
    (hcols1 : resolve_cols "referencing" o.referencing_rel.colnames fkjn.location
      o.referencing_cols = .ok attnums)
    (hcols2 : resolve_cols "referenced" o.referenced_rel.colnames fkjn.location
      o.referenced_cols = .error e) :
    resolve_sides cat pstate fuel fkjn o = .error e := by
  unfold resolve_sides
  rw [hing, hed, hcols1, hcols2]
  rfl

/-- Claim C13. Let the validator reach the resolution of the column names: the alias is
found, the two lists have one length and the two range-table entries are fetched.  The
referencing list is resolved first, then the referenced list, each in order.  A name that
occurs exactly once among the visible column names of its relation, at the 0-based index
`k`, resolves to `k + 1`.  The first name that does not occur exactly once ends the
validation: with AMBIGUOUS_COLUMN when it occurs more than once, with UNDEFINED_COLUMN when
it does not occur.  Whenever the two lists resolve, and so whenever the validator succeeds,
each attribute list has the length and order of its name list and every entry `a`
satisfies `colnames[a - 1] = name`, the name occurring nowhere else. -/
theorem column_names_resolved (cat : Catalog) (pstate : ParseState) (fuel : Nat)
    (join : JoinExpr) (r_nsitem : ParseNamespaceItem) (l_namespace : List ParseNamespaceItem)
    (fkjn : ForeignKeyClause) (other_rel : ParseNamespaceItem) (o : OrientedSides)
    (ing_rte ed_rte : RangeTblEntry)
    (hfk : join.fkJoin = some (.clause fkjn))
    (hother : find_other_rel fkjn.refAlias l_namespace = some other_rel)
    (hlen : fkjn.refCols.length = fkjn.localCols.length)
    (ho : o = orient_sides fkjn join other_rel r_nsitem)
    (hing : rt_fetch o.referencing_rel.p_rtindex pstate.p_rtable = .ok ing_rte)
    (hed : rt_fetch o.referenced_rel.p_rtindex pstate.p_rtable = .ok ed_rte) :
    -- names that occur exactly once
    ((∀ name ∈ o.referencing_cols, o.referencing_rel.colnames.count name = 1) →
      ∃ attnums, resolve_cols "referencing" o.referencing_rel.colnames fkjn.location
          o.referencing_cols = .ok attnums ∧
        ResolvedPositions o.referencing_rel.colnames o.referencing_cols attnums) ∧
    ((∀ name ∈ o.referenced_cols, o.referenced_rel.colnames.count name = 1) →
      ∃ attnums, resolve_cols "referenced" o.referenced_rel.colnames fkjn.location
          o.referenced_cols = .ok attnums ∧
        ResolvedPositions o.referenced_rel.colnames o.referenced_cols attnums) ∧
    -- the first offending name of the referencing list
    (∀ pre name post, o.referencing_cols = pre ++ name :: post →
      (∀ n ∈ pre, o.referencing_rel.colnames.count n = 1) →
      (2 ≤ o.referencing_rel.colnames.count name →
        transformAndValidateForeignKeyJoin cat pstate fuel join r_nsitem l_namespace =
          .error (.ereport
            { sqlerrcode := .AMBIGUOUS_COLUMN,
              message :=
                "common column name \"%s\" appears more than once in referencing table",
              args := [.str name], cursorpos := some fkjn.location })) ∧
      (o.referencing_rel.colnames.count name = 0 →
        transformAndValidateForeignKeyJoin cat pstate fuel join r_nsitem l_namespace =
          .error (.ereport
            { sqlerrcode := .UNDEFINED_COLUMN,
              message := "column \"%s\" does not exist in referencing table",
              args := [.str name], cursorpos := some fkjn.location }))) ∧
    -- the first offending name of the referenced list, the referencing list being resolved
    ((∀ name ∈ o.referencing_cols, o.referencing_rel.colnames.count name = 1) →
      ∀ pre name post, o.referenced_cols = pre ++ name :: post →
      (∀ n ∈ pre, o.referenced_rel.colnames.count n = 1) →
      (2 ≤ o.referenced_rel.colnames.count name →
        transformAndValidateForeignKeyJoin cat pstate fuel join r_nsitem l_namespace =
          .error (.ereport
            { sqlerrcode := .AMBIGUOUS_COLUMN,
              message :=
                "common column name \"%s\" appears more than once in referenced table",
              args := [.str name], cursorpos := some fkjn.location })) ∧
      (o.referenced_rel.colnames.count name = 0 →
        transformAndValidateForeignKeyJoin cat pstate fuel join r_nsitem l_namespace =
          .error (.ereport
            { sqlerrcode := .UNDEFINED_COLUMN,
              message := "column \"%s\" does not exist in referenced table",
              args := [.str name], cursorpos := some fkjn.location }))) ∧
    -- success
    (∀ j, transformAndValidateForeignKeyJoin cat pstate fuel join r_nsitem l_namespace
        = .ok j →
      ∃ n, j.fkJoin = some (.node n) ∧
        ResolvedPositions o.referencing_rel.colnames o.referencing_cols n.referencingAttnums ∧
        ResolvedPositions o.referenced_rel.colnames o.referenced_cols n.referencedAttnums) := by
  have hv := @validate_eq cat pstate fuel join r_nsitem l_namespace fkjn other_rel hfk hother
    hlen
  rw [← ho] at hv
  refine ⟨?_, ?_, ?_, ?_, ?_⟩
  · intro hu
    exact ⟨_, resolve_cols_unique _ _ _ _ hu, resolved_positions_of_unique _ _ hu⟩
  · intro hu
    exact ⟨_, resolve_cols_unique _ _ _ _ hu, resolved_positions_of_unique _ _ hu⟩
  · intro pre name post hcols hpre
    have hfo := resolve_cols_first_offender "referencing" o.referencing_rel.colnames
      fkjn.location pre name post hpre
    rw [← hcols] at hfo
    refine ⟨fun h2 => ?_, fun h0 => ?_⟩
    · rw [hv, validate_oriented_resolve_error
        (resolve_sides_referencing_error hing hed (hfo.1 h2))]
      rfl
    · rw [hv, validate_oriented_resolve_error
        (resolve_sides_referencing_error hing hed (hfo.2 h0))]
      rfl
  · intro hu pre name post hcols hpre
    have hfo := resolve_cols_first_offender "referenced" o.referenced_rel.colnames
      fkjn.location pre name post hpre
    rw [← hcols] at hfo
    have h1 := resolve_cols_unique "referencing" o.referencing_rel.colnames fkjn.location
      o.referencing_cols hu
    refine ⟨fun h2 => ?_, fun h0 => ?_⟩
    · rw [hv, validate_oriented_resolve_error
        (resolve_sides_referenced_error hing hed h1 (hfo.1 h2))]
      rfl
    · rw [hv, validate_oriented_resolve_error
        (resolve_sides_referenced_error hing hed h1 (hfo.2 h0))]
      rfl
  · intro j hj
    rw [hv] at hj
    obtain ⟨r, _, ed, hres, _, _, _, he⟩ := validate_oriented_inv hj
    obtain ⟨_, _, quals, _, rfl⟩ := enforce_and_rewrite_inv he
    obtain ⟨_, _, hc1, hc2, _⟩ := resolve_sides_inv hres
    exact ⟨_, rfl, resolve_cols_positions hc1, resolve_cols_positions hc2⟩

/-- Claim C13 at `t1 JOIN t2 KEY (c3) -> t1 (c1)` where `t1` shows the name `c1` twice
(AMBIGUOUS_COLUMN), at `KEY (c3) -> t1 (zz)` (UNDEFINED_COLUMN), at `KEY (c4, zz) -> t1
(c2, c1)`, where the missing name of the referencing list is reported, and at
`KEY (c4) -> t1 (c2)`, where both names resolve to position 2 and no constraint is found. -/
theorem column_names_resolved_witness :
    transformAndValidateForeignKeyJoin Demo.cat (Demo.pstate_of Demo.rte_t1) 4
        (Demo.join_key "t1" ["c1"] ["c3"]) (Demo.ns_t2 2) [Demo.ns_t1_twice 1] =
      .error (err_ambiguous_column "referenced" "c1" 7) ∧
    transformAndValidateForeignKeyJoin Demo.cat (Demo.pstate_of Demo.rte_t1) 4
        (Demo.join_key "t1" ["zz"] ["c3"]) (Demo.ns_t2 2) [Demo.ns_t1 1] =
      .error (err_undefined_column "referenced" "zz" 7) ∧
    transformAndValidateForeignKeyJoin Demo.cat (Demo.pstate_of Demo.rte_t1) 4
        (Demo.join_key "t1" ["c2", "c1"] ["c4", "zz"]) (Demo.ns_t2 2) [Demo.ns_t1_twice 1] =
      .error (err_undefined_column "referencing" "zz" 7) ∧
    transformAndValidateForeignKeyJoin Demo.cat (Demo.pstate_of Demo.rte_t1) 4
        (Demo.join_key "t1" ["c2"] ["c4"]) (Demo.ns_t2 2) [Demo.ns_t1 1] =
      .error (err_no_foreign_key "t2" "c4" "t1" "c2" 7) ∧
    resolve_cols "referenced" (Demo.ns_t1 1).colnames 7 ["c2"] = .ok [2] :=
  ⟨((column_names_resolved Demo.cat (Demo.pstate_of Demo.rte_t1) 4
      (Demo.join_key "t1" ["c1"] ["c3"]) (Demo.ns_t2 2) [Demo.ns_t1_twice 1]
      { fkdir := .FKDIR_TO, refAlias := "t1", refCols := ["c1"], localCols := ["c3"],
        location := 7 }
      (Demo.ns_t1_twice 1)
      { referencing_rel := Demo.ns_t2 2, referenced_rel := Demo.ns_t1_twice 1,
        referencing_cols := ["c3"], referenced_cols := ["c1"],
        referencing_arg := .RangeTblRef 2, referenced_arg := .RangeTblRef 1 }
      Demo.rte_t2 Demo.rte_t1 rfl rfl rfl rfl rfl rfl).2.2.2.1 (by decide)
      [] "c1" [] rfl (by simp)).1 (by decide),
   rfl, rfl, rfl, rfl⟩

/-! ## No partial rewrite -/

section RunLemmas

variable {α β : Type}

theorem run_get (s : JoinExpr) :
    ((get : JoinProc JoinExpr).run.run s) = (.ok s, s) := rfl

theorem run_throw (e : Fault) (s : JoinExpr) :
    ((throw e : JoinProc α).run.run s) = (.error e, s) := rfl

theorem run_ofExcept (x : Except Fault α) (s : JoinExpr) :
    ((JoinProc.ofExcept x).run.run s) = (x, s) := rfl

theorem run_modify (f : JoinExpr → JoinExpr) (s : JoinExpr) :
    ((modify f : JoinProc PUnit).run.run s) = (.ok PUnit.unit, f s) := rfl

theorem run_bind (x : JoinProc α) (f : α → JoinProc β) (s : JoinExpr) :
    ((x >>= f).run.run s) =
      match x.run.run s with
      | (.ok a, s1) => (f a).run.run s1
      | (.error e, s1) => (.error e, s1) := by
  show (ExceptT.bind x f).run.run s = _
  unfold ExceptT.bind ExceptT.run ExceptT.mk ExceptT.bindCont
  simp only [StateT.run_bind]
  cases h : (StateT.run x s) with
  | mk r s1 =>
  cases r with
  | ok a => rfl
  | error e => rfl

end RunLemmas

theorem run_inplace_eq (cat : Catalog) (pstate : ParseState) (fuel : Nat) (join : JoinExpr)
    (r_nsitem : ParseNamespaceItem) (l_namespace : List ParseNamespaceItem) :
    run_inplace cat pstate fuel join r_nsitem l_namespace =
      match transformAndValidateForeignKeyJoin cat pstate fuel join r_nsitem l_namespace with
      | .ok j => (.ok (), j)
      | .error e => (.error e, join) := by
  unfold run_inplace transformAndValidateForeignKeyJoin_inplace
    transformAndValidateForeignKeyJoin
  rw [run_bind, run_get]
  simp only []
  cases hfk : join.fkJoin with
  | none => rfl
  | some f =>
  cases f with
  | node n => rfl
  | clause fkjn =>
  simp only []
  cases hother : find_other_rel fkjn.refAlias l_namespace with
  | none => rfl
  | some other_rel =>
  simp only []
  by_cases hlen : fkjn.refCols.length = fkjn.localCols.length
  · simp only [hlen, ne_eq, not_true_eq_false, if_false]
    unfold validate_oriented
    rw [run_bind, run_ofExcept]
    cases hr : resolve_sides cat pstate fuel fkjn (orient_sides fkjn join other_rel r_nsitem) with
    | error e => rfl
    | ok r =>
    simp only [ok_bind]
    by_cases hlk : lookup_foreign_key cat r = InvalidOid
    · simp only [hlk, if_true]
      rfl
    · simp only [hlk, if_false]
      rw [run_bind, run_ofExcept]
      cases hing : analyze_join_tree cat pstate fuel
          (orient_sides fkjn join other_rel r_nsitem).referencing_arg none
          r.referencing_rte.rteid {} fkjn.location [] with
      | error e => rfl
      | ok ing =>
      simp only [ok_bind]
      rw [run_bind, run_ofExcept]
      cases hed : analyze_join_tree cat pstate fuel
          (orient_sides fkjn join other_rel r_nsitem).referenced_arg none
          r.referenced_rte.rteid {} fkjn.location [] with
      | error e => rfl
      | ok ed =>
      simp only [ok_bind]
      unfold enforce_and_rewrite
      by_cases hu : r.base_referenced_rte.rteid ∈ ed.uniqueness_preservation
      · simp only [hu, not_true_eq_false, if_false]
        rw [run_bind, run_ofExcept]
        cases hfd : fds_has_self_dep r.base_referenced_rte.rteid
            ed.functional_dependencies with
        | error e => rfl
        | ok b =>
        cases b with
        | false => rfl
        | true =>
        simp only [ok_bind, Bool.not_true, Bool.false_eq_true, if_false]
        rw [run_bind, run_ofExcept]
        cases hq : build_fk_join_on_clause pstate
            (orient_sides fkjn join other_rel r_nsitem).referencing_rel.p_nscolumns
            r.referencing_attnums
            (orient_sides fkjn join other_rel r_nsitem).referenced_rel.p_nscolumns
            r.referenced_attnums with
        | error e => rfl
        | ok quals => rfl
      · simp only [hu, not_false_eq_true, if_true]
        rfl
  · simp only [hlen, ne_eq, not_false_eq_true, if_true]
    rfl

/-- Claim C14. Run as a procedure that assigns the join node in place, the validator leaves
the node exactly as it was whenever it fails, whatever the error: the two assignments come
after every check, the construction and type-checking of the predicate included.  The
procedure fails exactly when the validator does, with the same error, and when it succeeds
the node differs from the original in `quals` and `fkJoin` only. -/
theorem failure_leaves_join_unchanged (cat : Catalog) (pstate : ParseState) (fuel : Nat)
    (join : JoinExpr) (r_nsitem : ParseNamespaceItem) (l_namespace : List ParseNamespaceItem) :
    (∀ e after, run_inplace cat pstate fuel join r_nsitem l_namespace = (.error e, after) →
      after = join ∧
      transformAndValidateForeignKeyJoin cat pstate fuel join r_nsitem l_namespace
        = .error e) ∧
    (∀ e, transformAndValidateForeignKeyJoin cat pstate fuel join r_nsitem l_namespace
        = .error e →
      run_inplace cat pstate fuel join r_nsitem l_namespace = (.error e, join)) ∧
    (∀ after, run_inplace cat pstate fuel join r_nsitem l_namespace = (.ok (), after) →
      transformAndValidateForeignKeyJoin cat pstate fuel join r_nsitem l_namespace
        = .ok after ∧
      ∃ quals n, after = { join with quals := some quals, fkJoin := some (.node n) }) := by
  have heq := run_inplace_eq cat pstate fuel join r_nsitem l_namespace
  refine ⟨?_, ?_, ?_⟩
  · intro e after h
    rw [heq] at h
    cases hv : transformAndValidateForeignKeyJoin cat pstate fuel join r_nsitem
        l_namespace with
    | error e2 =>
        rw [hv] at h
        simp only [Prod.mk.injEq, Except.error.injEq] at h
        exact ⟨h.2.symm, by rw [h.1]⟩
    | ok j =>
        rw [hv] at h
        simp at h
  · intro e hv
    rw [heq, hv]
  · intro after h
    rw [heq] at h
    cases hv : transformAndValidateForeignKeyJoin cat pstate fuel join r_nsitem
        l_namespace with
    | error e2 =>
        rw [hv] at h
        simp at h
    | ok j =>
        rw [hv] at h
        simp only [Prod.mk.injEq, true_and] at h
        subst h
        refine ⟨rfl, ?_⟩
        obtain ⟨fkjn, other_rel, _, _, _, hvo⟩ := validate_inv hv
        obtain ⟨r, _, ed, _, _, _, _, he⟩ := validate_oriented_inv hvo
        obtain ⟨_, _, quals, _, hj⟩ := enforce_and_rewrite_inv he
        exact ⟨quals, _, hj⟩

/-- Claim C14 at `t1 JOIN t2 KEY (c3) -> t1 (c1)` with a host whose `coerce_to_boolean`
fails, the last thing that can fail: the node is unchanged; and at the join with the
filtered subquery `t1f`, rejected by the row-preservation check. -/
theorem failure_leaves_join_unchanged_witness :
    run_inplace Demo.cat Demo.pstate_failing_host 4 (Demo.join_to "t1") (Demo.ns_t2 2)
        [Demo.ns_t1 1] = (.error (.ereport Demo.host_error), Demo.join_to "t1") ∧
    run_inplace Demo.cat (Demo.pstate_of Demo.rte_t1f) 4 (Demo.join_to "t1f") (Demo.ns_t2 2)
        [Demo.ns_derived "t1f" 1] = (.error (err_not_all_rows 7), Demo.join_to "t1f") ∧
    run_inplace Demo.cat (Demo.pstate_of Demo.rte_t1) 4 (Demo.join_to "t1") (Demo.ns_t2 2)
        [Demo.ns_t1 1] = (.ok (), Demo.join_to_resolved "t1") :=
  ⟨(failure_leaves_join_unchanged Demo.cat Demo.pstate_failing_host 4 (Demo.join_to "t1")
      (Demo.ns_t2 2) [Demo.ns_t1 1]).2.1 (.ereport Demo.host_error) rfl,
   rfl, rfl⟩

/-! ## Error positions -/

section ErrsLemmas

variable {α β : Type} {P Q : Fault → Prop}

theorem errs_ok (a : α) : Errs P (Except.ok a) := by
  intro f h; cases h

theorem errs_error {f : Fault} (h : P f) : Errs P (Except.error f : Except Fault α) := by
  intro g hg; cases hg; exact h

theorem errs_bind {x : Except Fault α} {g : α → Except Fault β}
    (hx : Errs P x) (hg : ∀ a, Errs P (g a)) : Errs P (x >>= g) := by
  intro f h
  cases x with
  | error e =>
      have h2 : (Except.error e : Except Fault α) = Except.error f := by
        cases h; rfl
      exact hx f h2
  | ok a => exact hg a f h

end ErrsLemmas

theorem silent_elog {α : Type} (fmt : String) (args : List ErrArg) :
    Errs InternalOrSilent (elog_error fmt args : Except Fault α) := by
  intro f h
  cases h
  intro e he
  cases he
  exact ⟨rfl, rfl⟩

theorem get_cte_for_rte_silent (pstate : ParseState) (rte : RangeTblEntry)
    (rtelevelsup : Int) : Errs InternalOrSilent (GetCTEForRTE pstate rte rtelevelsup) := by
  unfold GetCTEForRTE
  dsimp only
  split
  · exact silent_elog _ _
  · split
    · exact errs_ok _
    · exact silent_elog _ _

theorem find_cte_for_rte_walk_silent (pstate : ParseState) (rte : RangeTblEntry) :
    ∀ (query_stack : QueryStack) (levelsup : Nat),
      Errs InternalOrSilent (find_cte_for_rte_walk pstate rte levelsup query_stack)
  | [], levelsup => by
      cases levelsup <;> exact get_cte_for_rte_silent _ _ _
  | qs :: parent, 0 => by
      simp only [find_cte_for_rte_walk]
      split
      · exact errs_ok _
      · exact silent_elog _ _
  | qs :: parent, levelsup + 1 => by
      simp only [find_cte_for_rte_walk]
      exact find_cte_for_rte_walk_silent pstate rte parent levelsup

theorem find_cte_for_rte_silent (pstate : ParseState) (query_stack : QueryStack)
    (rte : RangeTblEntry) : Errs InternalOrSilent (find_cte_for_rte pstate query_stack rte) :=
  find_cte_for_rte_walk_silent pstate rte query_stack _

theorem is_referencing_cols_unique_scan_iff (attnums : List Int) :
    ∀ (indexlist : List IndexInfo),
      is_referencing_cols_unique_scan attnums indexlist = true ↔
        ∃ index ∈ indexlist, IndexMatchesCols index attnums
  | [] => by simp [is_referencing_cols_unique_scan]
  | index :: rest => by
      have ih := is_referencing_cols_unique_scan_iff attnums rest
      unfold is_referencing_cols_unique_scan
      by_cases hm : IndexMatchesCols index attnums
      · obtain ⟨hu, hl, hall⟩ := hm
        have hall2 : attnums.all (fun attnum => decide (attnum ∈ index.indkey)) = true := by
          simpa using hall
        simp only [hu, Bool.not_true, Bool.false_eq_true, if_false, hl, ne_eq,
          not_true_eq_false, hall2, if_true, true_iff]
        exact ⟨index, List.mem_cons_self _ _, hu, hl, hall⟩
      · have hstep : (if (!index.indisunique) = true then
              is_referencing_cols_unique_scan attnums rest
            else if attnums.length ≠ index.indnatts then
              is_referencing_cols_unique_scan attnums rest
            else if attnums.all (fun attnum => decide (attnum ∈ index.indkey)) = true then
              true
            else is_referencing_cols_unique_scan attnums rest) =
            is_referencing_cols_unique_scan attnums rest := by
          by_cases hu : index.indisunique = true
          · by_cases hl : attnums.length = index.indnatts
            · have hall : ¬ attnums.all (fun attnum => decide (attnum ∈ index.indkey)) = true := by
                intro hall
                exact hm ⟨hu, hl, by simpa using hall⟩
              simp [hu, hl, hall]
            · simp [hu, hl]
          · simp [hu]
        rw [hstep, ih]
        constructor
        · rintro ⟨i, hi, h⟩
          exact ⟨i, List.mem_cons_of_mem _ hi, h⟩
        · rintro ⟨i, hi, h⟩
          rcases List.mem_cons.mp hi with rfl | hi
          · exact absurd h hm
          · exact ⟨i, hi, h⟩

theorem index_matches_iff_same_set {index : IndexInfo} {attnums : List Int}
    (hnd1 : attnums.Nodup) (hnd2 : index.indkey.Nodup) :
    IndexMatchesCols index attnums ↔
      (index.indisunique = true ∧ ∀ a : Int, a ∈ index.indkey ↔ a ∈ attnums) := by
  unfold IndexMatchesCols IndexInfo.indnatts
  constructor
  · rintro ⟨hu, hl, hsub⟩
    have hsp : attnums.Subperm index.indkey := List.subperm_of_subset hnd1 hsub
    have hperm : attnums.Perm index.indkey := hsp.perm_of_length_le (by omega)
    exact ⟨hu, fun a => hperm.mem_iff.symm⟩
  · rintro ⟨hu, hset⟩
    have hperm : attnums.Perm index.indkey :=
      (List.perm_ext_iff_of_nodup hnd1 hnd2).mpr (fun a => (hset a).symm)
    exact ⟨hu, hperm.length_eq, fun a ha => (hset a).mpr ha⟩

/-- Claim C16 does not hold of the code on lists that repeat an attribute number.  Over
`t3(a, b)` with its unique index on `(a, b)` the test answers true for the list `[1, 1]`,
whose set `{1}` is not the set `{1, 2}` of the index columns, so that the column `a`
alone passes for unique; over `t1` with its unique index on `(c1)` it answers false for
`[1, 1]`, whose set is the set of the index columns.  The code compares the number of
entries and looks every listed attribute up in the index; it does not compare sets. -/
theorem cols_unique_counterexample :
    is_referencing_cols_unique Demo.cat 4 [1, 1] = .ok true ∧
    ¬ ColsUnique_spec Demo.cat 4 [1, 1] ∧
    is_referencing_cols_unique Demo.cat 1 [1, 1] = .ok false ∧
    ColsUnique_spec Demo.cat 1 [1, 1] := by
  refine ⟨rfl, ?_, rfl, ?_⟩
  · rintro ⟨rel, hrel, index, hmem, _, hset⟩
    have hrel2 : some Demo.t3_rel = some rel := hrel
    cases hrel2
    simp only [Demo.t3_rel, List.mem_singleton] at hmem
    subst hmem
    have := (hset 2).mp (by decide)
    exact absurd this (by decide)
  · refine ⟨Demo.t1_rel, rfl, { indisunique := true, indkey := [1] }, ?_, rfl, ?_⟩
    · simp [Demo.t1_rel]
    · intro a
      simp

/-- The test as the code has it. `is_referencing_cols_unique(relid, attnums)` is true if and only
if some unique index on `relid` has as many columns as the list has entries and has every
listed attribute number among its columns.  When the list repeats no attribute number and
no index repeats a column, this is the case exactly when some unique index has, as the
set of its columns, the set of the listed attribute numbers, whatever the order of the
columns in the index or in the list. -/
theorem is_referencing_cols_unique_iff (cat : Catalog) (relid : Oid) (attnums : List Int)
    (rel : RelInfo) (hrel : cat.relations relid = some rel) :
    (∃ b, is_referencing_cols_unique cat relid attnums = .ok b) ∧
    (is_referencing_cols_unique cat relid attnums = .ok true ↔
      ∃ index ∈ rel.indexlist, index.indisunique = true ∧
        attnums.length = index.indnatts ∧ ∀ a ∈ attnums, a ∈ index.indkey) ∧
    (attnums.Nodup → (∀ index ∈ rel.indexlist, index.indkey.Nodup) →
      (is_referencing_cols_unique cat relid attnums = .ok true ↔
        ColsUnique_spec cat relid attnums)) := by
  have hval : is_referencing_cols_unique cat relid attnums =
      .ok (is_referencing_cols_unique_scan attnums rel.indexlist) := by
    unfold is_referencing_cols_unique table_open
    rw [hrel]
    rfl
  have hiff : is_referencing_cols_unique cat relid attnums = .ok true ↔
      ∃ index ∈ rel.indexlist, IndexMatchesCols index attnums := by
    rw [hval, ← is_referencing_cols_unique_scan_iff]
    constructor
    · intro h; exact Except.ok.inj h
    · intro h; rw [h]
  refine ⟨⟨_, hval⟩, hiff, ?_⟩
  intro hnd1 hnd2
  rw [hiff]
  unfold ColsUnique_spec
  constructor
  · rintro ⟨index, hmem, hm⟩
    exact ⟨rel, hrel, index, hmem, (index_matches_iff_same_set hnd1 (hnd2 index hmem)).mp hm⟩
  · rintro ⟨rel2, hrel2, index, hmem, hm⟩
    rw [hrel] at hrel2
    cases hrel2
    exact ⟨index, hmem, (index_matches_iff_same_set hnd1 (hnd2 index hmem)).mpr hm⟩

/-- The test at `t3(a, b)`: it answers true for `[2, 1]`, the index
columns in another order, and false for `[1]`. -/
theorem is_referencing_cols_unique_iff_witness :
    (is_referencing_cols_unique Demo.cat 4 [2, 1] = .ok true ↔
      ColsUnique_spec Demo.cat 4 [2, 1]) ∧
    is_referencing_cols_unique Demo.cat 4 [2, 1] = .ok true ∧
    is_referencing_cols_unique Demo.cat 4 [1] = .ok false :=
  ⟨(is_referencing_cols_unique_iff Demo.cat 4 [2, 1] Demo.t3_rel rfl).2.2 (by decide)
      (by decide),
   rfl, rfl⟩

/-- Claim C17. `check_unique_index_covers_columns(rel, S)` is true if and only if some
unique index of `rel` has every member of `S` among its columns (the entries of `indkey`
that are attribute numbers, expression columns being passed over): the index columns form
a superset of `S`.  Indexes that are not unique never contribute: the answer is the one
obtained from the unique indexes alone. -/
theorem unique_index_covers_columns_superset (rel : RelInfo) (columns : Bitmapset) :
    (check_unique_index_covers_columns rel columns = true ↔
      ∃ index ∈ rel.indexlist, index.indisunique = true ∧
        ∀ c ∈ columns, 0 < c ∧ (c : Int) ∈ index.indkey) ∧
    check_unique_index_covers_columns rel columns =
      check_unique_index_covers_columns
        { rel with indexlist := rel.indexlist.filter (fun index => index.indisunique) }
        columns := by
  have hcols : ∀ (indkey : List Int) (c : Nat),
      c ∈ index_cols_of indkey ↔ 0 < c ∧ (c : Int) ∈ indkey := by
    intro indkey c
    unfold index_cols_of
    simp only [List.mem_map, List.mem_filter, decide_eq_true_eq]
    constructor
    · rintro ⟨a, ⟨ha, hpos⟩, hc⟩
      have : (c : Int) = a := by omega
      exact ⟨by omega, this ▸ ha⟩
    · rintro ⟨hpos, hc⟩
      exact ⟨(c : Int), ⟨hc, by omega⟩, by simp⟩
  refine ⟨?_, ?_⟩
  · rw [check_unique_index_covers_columns_iff]
    unfold UniqueIndexContains
    constructor
    · rintro ⟨index, hmem, hu, hall⟩
      exact ⟨index, hmem, hu, fun c hc => (hcols _ c).mp (hall c hc)⟩
    · rintro ⟨index, hmem, hu, hall⟩
      exact ⟨index, hmem, hu, fun c hc => (hcols _ c).mpr (hall c hc)⟩
  · unfold check_unique_index_covers_columns
    dsimp only
    induction rel.indexlist with
    | nil => rfl
    | cons index rest ih =>
        by_cases hu : index.indisunique = true
        · rw [List.filter_cons_of_pos hu]
          unfold check_unique_index_covers_columns_scan
          simp only [hu, Bool.not_true, Bool.false_eq_true, if_false, ih]
        · rw [List.filter_cons_of_neg hu]
          conv_lhs => unfold check_unique_index_covers_columns_scan
          simp only [Bool.not_eq_true] at hu
          simp only [hu, Bool.not_false, if_true, ih]

/-! ## The loops of the drill-down -/

theorem drill_join_alias_vars_eq (joinaliasvars : List Node) (location : Int) :
    ∀ (attnums : List Int) (k : Int) (acc : List Int),
      drill_join_alias_vars joinaliasvars location attnums k acc =
        drill_loop (look_join_alias joinaliasvars location) attnums k acc
  | [], _, _ => rfl
  | attno :: rest, k, acc => by
      unfold drill_join_alias_vars drill_loop look_join_alias
      cases hn : list_nth joinaliasvars (attno - 1) with
      | error f => rfl
      | ok node =>
          cases node with
          | Var v =>
              simp only [ok_bind]
              rw [drill_join_alias_vars_eq joinaliasvars location rest,
                drill_join_alias_vars_eq joinaliasvars location rest]
              rfl
          | A_Expr _ _ _ _ => rfl
          | BoolExpr _ _ _ => rfl
          | Other => rfl

theorem drill_group_exprs_eq (groupexprs : List Node) (location : Int) :
    ∀ (attnums : List Int) (k : Int) (acc : List Int),
      drill_group_exprs groupexprs location attnums k acc =
        drill_loop (look_group_expr groupexprs location) attnums k acc
  | [], _, _ => rfl
  | attno :: rest, k, acc => by
      unfold drill_group_exprs drill_loop look_group_expr
      dsimp only
      by_cases hr : attno > 0 ∧ attno ≤ (groupexprs.length : Int)
      · simp only [hr, and_self, if_true]
        cases hg : groupexprs[(attno - 1).toNat]? with
        | none => rfl
        | some node =>
            cases node with
            | Var v =>
                simp only []
                rw [drill_group_exprs_eq groupexprs location rest,
                  drill_group_exprs_eq groupexprs location rest]
                rfl
            | A_Expr _ _ _ _ => rfl
            | BoolExpr _ _ _ => rfl
            | Other => rfl
      · simp only [hr, if_false]

theorem drill_target_list_eq (targetList : List TargetEntry) (location : Int) :
    ∀ (attnums : List Int) (k : Int) (acc : List Int),
      drill_target_list targetList location attnums k acc =
        drill_loop (look_target_entry targetList location) attnums k acc
  | [], _, _ => rfl
  | attno :: rest, k, acc => by
      unfold drill_target_list drill_loop look_target_entry
      cases hn : list_nth targetList (attno - 1) with
      | error f => rfl
      | ok tle =>
          simp only [ok_bind]
          cases he : tle.expr with
          | Var v =>
              simp only []
              rw [drill_target_list_eq targetList location rest,
                drill_target_list_eq targetList location rest]
              rfl
          | A_Expr _ _ _ _ => rfl
          | BoolExpr _ _ _ => rfl
          | Other => rfl

theorem drill_loop_maps {look : Int → Except Fault (Var × Fault)} :
    ∀ (attnums : List Int) (g : Int) (acc : List Int) (k : Int) (next : List Int),
      (∀ a v m, look a = .ok (v, m) → v.varno ≠ 0) →
      (drill_loop look attnums g acc = .ok (k, next) ↔
        ∃ vars, MapsToVars look attnums vars ∧
          next = acc ++ vars.map (fun v => v.varattno) ∧
          ((vars = [] ∧ k = g) ∨
           (vars ≠ [] ∧ (g = 0 ∨ g = k) ∧ ∀ v ∈ vars, v.varno = k)))
  | [], g, acc, k, next, _ => by
      unfold drill_loop MapsToVars
      constructor
      · intro h
        have := Except.ok.inj h
        simp only [Prod.mk.injEq] at this
        exact ⟨[], .nil, by simp [this.2], Or.inl ⟨rfl, this.1.symm⟩⟩
      · rintro ⟨vars, hf, hnext, hk⟩
        cases hf
        rcases hk with ⟨_, rfl⟩ | ⟨hne, _⟩
        · simp [hnext]
        · exact absurd rfl hne
  | a :: rest, g, acc, k, next, hz => by
      unfold drill_loop
      cases hl : look a with
      | error f =>
          simp only []
          constructor
          · intro h; cases h
          · rintro ⟨vars, hf, _⟩
            unfold MapsToVars at hf
            cases hf with
            | cons h1 _ =>
                obtain ⟨m, hm⟩ := h1
                rw [hl] at hm
                cases hm
      | ok p =>
          obtain ⟨v, m⟩ := p
          have hv0 : v.varno ≠ 0 := hz a v m hl
          have ih := fun g2 => drill_loop_maps rest g2 (acc ++ [v.varattno]) k next hz
          have key : ∀ g2, g2 = v.varno →
              (drill_loop look rest g2 (acc ++ [v.varattno]) = .ok (k, next) ↔
                ∃ vars, MapsToVars look (a :: rest) vars ∧
                  next = acc ++ vars.map (fun v => v.varattno) ∧
                  v.varno = k ∧ ∀ w ∈ vars, w.varno = k) := by
            intro g2 hg2
            rw [ih g2]
            constructor
            · rintro ⟨vars, hf, hnext, hk⟩
              refine ⟨v :: vars, .cons ⟨m, hl⟩ hf, by simp [hnext], ?_⟩
              rcases hk with ⟨rfl, rfl⟩ | ⟨_, hg, hall⟩
              · exact ⟨hg2.symm, by simp [hg2]⟩
              · rcases hg with hg | hg
                · exact absurd (hg2 ▸ hg) hv0
                · have hvk : v.varno = k := hg2 ▸ hg
                  exact ⟨hvk, by
                    intro w hw
                    rcases List.mem_cons.mp hw with rfl | hw
                    · exact hvk
                    · exact hall w hw⟩
            · rintro ⟨vars, hf, hnext, hvk, hall⟩
              unfold MapsToVars at hf
              cases hf with
              | cons h1 hrest =>
                  rename_i w ws
                  obtain ⟨m2, hm2⟩ := h1
                  rw [hl] at hm2
                  cases hm2
                  refine ⟨ws, hrest, by simpa using hnext, ?_⟩
                  by_cases hnil : ws = []
                  · exact Or.inl ⟨hnil, by rw [hg2, hvk]⟩
                  · exact Or.inr ⟨hnil, Or.inr (by rw [hg2, hvk]),
                      fun u hu => hall u (List.mem_cons_of_mem _ hu)⟩
          have hnz : ∀ vars, MapsToVars look (a :: rest) vars → vars ≠ [] := by
            intro vars hf hnil
            subst hnil
            cases hf
          simp only []
          by_cases hg0 : g = 0
          · simp only [hg0, if_true]
            rw [key v.varno rfl]
            constructor
            · rintro ⟨vars, hf, hnext, hvk, hall⟩
              exact ⟨vars, hf, hnext, Or.inr ⟨hnz vars hf, Or.inl trivial, hall⟩⟩
            · rintro ⟨vars, hf, hnext, hk⟩
              rcases hk with ⟨hnil, _⟩ | ⟨_, _, hall⟩
              · exact absurd hnil (hnz vars hf)
              · refine ⟨vars, hf, hnext, ?_, hall⟩
                unfold MapsToVars at hf
                cases hf with
                | cons h1 hrest =>
                    obtain ⟨m2, hm2⟩ := h1
                    rw [hl] at hm2
                    cases hm2
                    exact hall _ (List.mem_cons_self _ _)
          · simp only [hg0, if_false]
            by_cases hne : g = v.varno
            · simp only [hne, ne_eq, not_true_eq_false, if_false]
              rw [key v.varno rfl]
              constructor
              · rintro ⟨vars, hf, hnext, hvk, hall⟩
                exact ⟨vars, hf, hnext, Or.inr ⟨hnz vars hf, Or.inr hvk, hall⟩⟩
              · rintro ⟨vars, hf, hnext, hk⟩
                rcases hk with ⟨hnil, _⟩ | ⟨_, hg, hall⟩
                · exact absurd hnil (hnz vars hf)
                · rcases hg with hg | hg
                  · exact hg.elim
                  · exact ⟨vars, hf, hnext, hg, hall⟩
            · simp only [ne_eq, hne, not_false_eq_true, if_true]
              constructor
              · intro h; cases h
              · rintro ⟨vars, hf, hnext, hk⟩
                exfalso
                rcases hk with ⟨hnil, _⟩ | ⟨_, hg, hall⟩
                · exact hnz vars hf hnil
                · rcases hg with hg | hg
                  · exact hg
                  · unfold MapsToVars at hf
                    cases hf with
                    | cons h1 hrest =>
                        obtain ⟨m2, hm2⟩ := h1
                        rw [hl] at hm2
                        cases hm2
                        exact hne (hg.trans (hall _ (List.mem_cons_self _ _)).symm)

theorem drill_loop_ok_all {look : Int → Except Fault (Var × Fault)} :
    ∀ (attnums : List Int) (g : Int) (acc : List Int) (r : Int × List Int),
      drill_loop look attnums g acc = .ok r →
      ∀ a ∈ attnums, ∃ v m, look a = .ok (v, m)
  | [], _, _, _, _ => by simp
  | a :: rest, g, acc, r, h => by
      unfold drill_loop at h
      cases hl : look a with
      | error f => simp [hl] at h
      | ok p =>
          obtain ⟨v, m⟩ := p
          simp only [hl] at h
          have hrest : ∃ g2 acc2, drill_loop look rest g2 acc2 = .ok r := by
            by_cases hg0 : g = 0
            · simp only [hg0, if_true] at h
              exact ⟨_, _, h⟩
            · simp only [hg0, if_false] at h
              by_cases hne : g = v.varno
              · simp only [hne, ne_eq, not_true_eq_false, if_false] at h
                exact ⟨_, _, h⟩
              · simp [hne] at h
          obtain ⟨g2, acc2, h2⟩ := hrest
          intro b hb
          rcases List.mem_cons.mp hb with rfl | hb
          · exact ⟨v, m, hl⟩
          · exact drill_loop_ok_all rest g2 acc2 r h2 b hb

/-- The attributes before the first one that fails to be a column reference being column
references of one relation, the loop ends with the error of that attribute. -/
theorem drill_loop_first_error {look : Int → Except Fault (Var × Fault)} {k0 : Int}
    {a : Int} {post : List Int} {f : Fault} (ha : look a = .error f) :
    ∀ (pre : List Int) (vars : List Var) (g : Int) (acc : List Int),
      MapsToVars look pre vars → (∀ v ∈ vars, v.varno = k0) → (g = 0 ∨ g = k0) →
      drill_loop look (pre ++ a :: post) g acc = .error f
  | [], _, g, acc, _, _, _ => by
      simp only [List.nil_append]
      unfold drill_loop
      rw [ha]
  | p :: pre, vars, g, acc, hf, hall, hg => by
      unfold MapsToVars at hf
      cases hf with
      | cons h1 hrest =>
          rename_i v vs
          obtain ⟨m, hm⟩ := h1
          have hvk : v.varno = k0 := hall v (List.mem_cons_self _ _)
          have hall2 : ∀ w ∈ vs, w.varno = k0 := fun w hw => hall w (List.mem_cons_of_mem _ hw)
          simp only [List.cons_append]
          unfold drill_loop
          simp only [hm]
          by_cases hg0 : g = 0
          · simp only [hg0, if_true]
            exact drill_loop_first_error ha pre vs _ _ hrest hall2 (Or.inr hvk)
          · have hgk : g = v.varno := by
              rcases hg with hg | hg
              · exact absurd hg hg0
              · rw [hg, hvk]
            simp only [hg0, if_false]
            simp only [hgk, ne_eq, not_true_eq_false, if_false]
            exact drill_loop_first_error ha pre vs _ _ hrest hall2 (Or.inr hvk)

/-- The attributes before it being column references of one relation, the first column
reference that names another relation ends the loop with the mismatch error. -/
theorem drill_loop_first_mismatch {look : Int → Except Fault (Var × Fault)} {k0 : Int}
    {a : Int} {post : List Int} {v : Var} {mismatch : Fault}
    (ha : look a = .ok (v, mismatch)) (hv : v.varno ≠ k0) (hk0 : k0 ≠ 0) :
    ∀ (pre : List Int) (vars : List Var) (g : Int) (acc : List Int),
      MapsToVars look pre vars → (∀ w ∈ vars, w.varno = k0) → (g = 0 ∨ g = k0) →
      (g ≠ 0 ∨ pre ≠ []) →
      drill_loop look (pre ++ a :: post) g acc = .error mismatch
  | [], _, g, acc, _, _, hg, hne => by
      have hg0 : g ≠ 0 := by
        rcases hne with h | h
        · exact h
        · exact absurd rfl h
      have hgk : g = k0 := by
        rcases hg with h | h
        · exact absurd h hg0
        · exact h
      simp only [List.nil_append]
      unfold drill_loop
      simp only [ha, hg0, if_false]
      have : g ≠ v.varno := fun e => hv (e ▸ hgk)
      simp [this]
  | p :: pre, vars, g, acc, hf, hall, hg, _ => by
      unfold MapsToVars at hf
      cases hf with
      | cons h1 hrest =>
          rename_i w ws
          obtain ⟨m, hm⟩ := h1
          have hwk : w.varno = k0 := hall w (List.mem_cons_self _ _)
          have hall2 : ∀ u ∈ ws, u.varno = k0 := fun u hu => hall u (List.mem_cons_of_mem _ hu)
          simp only [List.cons_append]
          unfold drill_loop
          simp only [hm]
          by_cases hg0 : g = 0
          · simp only [hg0, if_true]
            exact drill_loop_first_mismatch ha hv hk0 pre ws _ _ hrest hall2 (Or.inr hwk)
              (Or.inl (by rw [hwk]; exact hk0))
          · have hgk : g = w.varno := by
              rcases hg with hg | hg
              · exact absurd hg hg0
              · rw [hg, hwk]
            simp only [hg0, if_false]
            simp only [hgk, ne_eq, not_true_eq_false, if_false]
            exact drill_loop_first_mismatch ha hv hk0 pre ws _ _ hrest hall2 (Or.inr hwk)
              (Or.inl (by rw [hwk]; exact hk0))

theorem drill_join_case {cat : Catalog} {pstate : ParseState} {fuel : Nat}
    {rte : RangeTblEntry} (hk : rte.rtekind = .RTE_JOIN) (attnums : List Int)
    (location : Int) (query_stack : QueryStack) :
    drill_down_to_base_rel cat pstate (fuel + 1) rte attnums location query_stack =
      (drill_loop (look_join_alias rte.fields.joinaliasvars location) attnums 0 []) >>=
        fun p =>
          if p.1 = 0 then .error .undefined_behaviour
          else rt_fetch p.1 (stack_rtable pstate query_stack) >>= fun inner =>
            drill_down_to_base_rel cat pstate fuel inner p.2 location query_stack := by
  rw [drill_down_to_base_rel_succ]
  unfold drill_down_to_base_rel_body
  simp only [hk, drill_join_alias_vars_eq]
  cases drill_loop (look_join_alias rte.fields.joinaliasvars location) attnums 0 [] with
  | error f => rfl
  | ok p =>
      obtain ⟨k, next⟩ := p
      simp only [ok_bind]
      by_cases hk0 : k = 0
      · simp only [hk0, if_true]
        rfl
      · simp only [hk0, if_false]
        rfl

theorem drill_group_case {cat : Catalog} {pstate : ParseState} {fuel : Nat}
    {rte : RangeTblEntry} (hk : rte.rtekind = .RTE_GROUP) (attnums : List Int)
    (location : Int) (query_stack : QueryStack) :
    drill_down_to_base_rel cat pstate (fuel + 1) rte attnums location query_stack =
      (drill_loop (look_group_expr rte.fields.groupexprs location) attnums 0 []) >>=
        fun p =>
          if p.1 = 0 then .error (err_group_no_columns location)
          else rt_fetch p.1 (stack_rtable pstate query_stack) >>= fun inner =>
            drill_down_to_base_rel cat pstate fuel inner p.2 location query_stack := by
  rw [drill_down_to_base_rel_succ]
  unfold drill_down_to_base_rel_body
  simp only [hk, drill_group_exprs_eq]
  cases drill_loop (look_group_expr rte.fields.groupexprs location) attnums 0 [] with
  | error f => rfl
  | ok p =>
      obtain ⟨k, next⟩ := p
      simp only [ok_bind]
      by_cases hk0 : k = 0
      · simp only [hk0, if_true]
        rfl
      · simp only [hk0, if_false]
        rfl

theorem drill_query_case {cat : Catalog} {pstate : ParseState} {fuel : Nat}
    {query : Query} (hq : QueryDrillable query) (attnums : List Int)
    (location : Int) (query_stack : QueryStack) :
    drill_down_to_base_rel_query cat pstate fuel query attnums location query_stack =
      (drill_loop (look_target_entry query.fields.targetList location) attnums 0 []) >>=
        fun p =>
          if p.1 = 0 then .error .undefined_behaviour
          else rt_fetch p.1 query.rtable >>= fun inner =>
            drill_down_to_base_rel cat pstate fuel inner p.2 location
              (query :: query_stack) := by
  obtain ⟨h1, h2, h3, h4, h5⟩ := hq
  unfold drill_down_to_base_rel_query drill_down_to_base_rel_query_body
  simp only [h1, h2, h3, h4, h5, drill_target_list_eq]
  cases drill_loop (look_target_entry query.fields.targetList location) attnums 0 [] with
  | error f => rfl
  | ok p =>
      obtain ⟨k, next⟩ := p
      by_cases hk0 : k = 0
      · simp [hk0]
      · simp [hk0]

theorem drill_query_gate {cat : Catalog} {pstate : ParseState} {fuel : Nat}
    {query : Query} (hq : ¬ QueryDrillable query) (attnums : List Int)
    (location : Int) (query_stack : QueryStack) :
    drill_down_to_base_rel_query cat pstate fuel query attnums location query_stack =
      .error (if query.fields.setOperations.isSome = true then err_set_operations location
        else err_query_not_supported location) := by
  unfold drill_down_to_base_rel_query drill_down_to_base_rel_query_body
  by_cases h1 : query.fields.setOperations.isSome = true
  · simp only [h1, if_true]
    rfl
  · have hgate : query.fields.commandType ≠ .CMD_SELECT ∨ query.fields.distinctClause ≠ [] ∨
        ¬ query.fields.groupingSets.isEmpty = true ∨ query.fields.hasTargetSRFs = true := by
      by_contra hcon
      push_neg at hcon
      apply hq
      refine ⟨by simpa using h1, hcon.1, hcon.2.1, hcon.2.2.1, by simpa using hcon.2.2.2⟩
    simp only [h1, if_false, hgate, if_true]
    rfl

theorem look_join_alias_not_var {joinaliasvars : List Node} {location a : Int} {node : Node}
    (hn : list_nth joinaliasvars (a - 1) = .ok node) (hv : node.asVar = none) :
    look_join_alias joinaliasvars location a = .error (err_join_alias_not_var location) := by
  unfold look_join_alias
  rw [hn]
  cases node <;> first | rfl | simp [Node.asVar] at hv

theorem look_group_expr_not_var {groupexprs : List Node} {location a : Int}
    (h : (a < 1 ∨ (groupexprs.length : Int) < a) ∨
      ∃ node, groupexprs[(a - 1).toNat]? = some node ∧ node.asVar = none) :
    look_group_expr groupexprs location a = .error (err_group_not_var a location) := by
  unfold look_group_expr
  by_cases hr : a > 0 ∧ a ≤ (groupexprs.length : Int)
  · rw [if_pos hr]
    rcases h with h | ⟨node, hn, hv⟩
    · omega
    · rw [hn]
      cases node <;> first | rfl | simp [Node.asVar] at hv
  · rw [if_neg hr]

theorem look_target_entry_not_var {targetList : List TargetEntry} {location a : Int}
    {tle : TargetEntry} (hn : list_nth targetList (a - 1) = .ok tle)
    (hv : tle.expr.asVar = none) :
    look_target_entry targetList location a =
      .error (err_target_not_var tle.resname location) := by
  unfold look_target_entry
  rw [hn]
  simp only [ok_bind]
  cases he : tle.expr <;> first | rfl | (rw [he] at hv; simp [Node.asVar] at hv)

theorem look_error_ne_ok {look : Int → Except Fault (Var × Fault)} {attnums : List Int}
    {a : Int} {f : Fault} (hmem : a ∈ attnums) (ha : look a = .error f)
    (g : Int) (acc : List Int) (r : Int × List Int) :
    drill_loop look attnums g acc ≠ .ok r := by
  intro h
  obtain ⟨v, m, hvm⟩ := drill_loop_ok_all attnums g acc r h a hmem
  rw [ha] at hvm
  cases hvm

theorem bind_ne_ok {α β : Type} {x : Except Fault α} {g : α → Except Fault β}
    (h : ∀ a, x ≠ .ok a) (b : β) : (x >>= g) ≠ .ok b := by
  cases x with
  | error f => intro hc; cases hc
  | ok a => exact absurd rfl (h a)

theorem drill_query_gate_fails {cat : Catalog} {pstate : ParseState} {fuel : Nat}
    {query : Query} (hq : ¬ QueryDrillable query) (attnums : List Int)
    (location : Int) (query_stack : QueryStack) :
    ∃ e, drill_down_to_base_rel_query cat pstate fuel query attnums location query_stack =
        .error (.ereport e) ∧
      e.sqlerrcode = .FEATURE_NOT_SUPPORTED ∧ e.cursorpos = some location := by
  rw [drill_query_gate hq]
  by_cases h1 : query.fields.setOperations.isSome = true
  · rw [if_pos h1]
    exact ⟨_, rfl, rfl, rfl⟩
  · rw [if_neg h1]
    exact ⟨_, rfl, rfl, rfl⟩

/-- Claim C18. One step of the drill-down resolver over the requested attributes
`attnums = pre ++ a :: post`, taken in order, where the attributes of `pre` map to column
references of one inner range-table index and `a` is the first attribute that does not
map to a bare column reference.  Through a join entry (`a` designates a join alias
column that is not a `Var`), through a GROUP relation (`a` lies outside
`1..|groupexprs|` or designates a grouping expression that is not a `Var`) and through a
query (`a` designates a target entry whose expression is not a `Var`) the resolution ends
with an error of class FEATURE_NOT_SUPPORTED at the position of the join clause.
Whatever the other attributes map to, a request that contains such an attribute never
succeeds. -/
theorem non_column_reference_rejected (cat : Catalog) (pstate : ParseState) (fuel : Nat)
    (location : Int) (query_stack : QueryStack) (attnums pre post : List Int) (a : Int)
    (vars : List Var) (k0 : Int) (hsplit : attnums = pre ++ a :: post)
    (hsame : ∀ v ∈ vars, v.varno = k0) :
    -- join alias
    (∀ (rte : RangeTblEntry) (node : Node), rte.rtekind = .RTE_JOIN →
      list_nth rte.fields.joinaliasvars (a - 1) = .ok node → node.asVar = none →
      (MapsToVars (look_join_alias rte.fields.joinaliasvars location) pre vars →
        drill_down_to_base_rel cat pstate (fuel + 1) rte attnums location query_stack =
          .error (err_join_alias_not_var location)) ∧
      ∀ r, drill_down_to_base_rel cat pstate (fuel + 1) rte attnums location query_stack ≠
        .ok r) ∧
    -- GROUP relation
    (∀ (rte : RangeTblEntry), rte.rtekind = .RTE_GROUP →
      ((a < 1 ∨ (rte.fields.groupexprs.length : Int) < a) ∨
        ∃ node, rte.fields.groupexprs[(a - 1).toNat]? = some node ∧ node.asVar = none) →
      (MapsToVars (look_group_expr rte.fields.groupexprs location) pre vars →
        drill_down_to_base_rel cat pstate (fuel + 1) rte attnums location query_stack =
          .error (err_group_not_var a location)) ∧
      ∀ r, drill_down_to_base_rel cat pstate (fuel + 1) rte attnums location query_stack ≠
        .ok r) ∧
    -- query target list
    (∀ (query : Query) (tle : TargetEntry),
      list_nth query.fields.targetList (a - 1) = .ok tle → tle.expr.asVar = none →
      (MapsToVars (look_target_entry query.fields.targetList location) pre vars →
        ∃ e, drill_down_to_base_rel_query cat pstate fuel query attnums location
            query_stack = .error (.ereport e) ∧
          e.sqlerrcode = .FEATURE_NOT_SUPPORTED ∧ e.cursorpos = some location) ∧
      ∀ r, drill_down_to_base_rel_query cat pstate fuel query attnums location
        query_stack ≠ .ok r) ∧
    -- the three errors are of class FEATURE_NOT_SUPPORTED, at the clause
    (∀ (resname : Option String) (f : Fault),
      f = err_join_alias_not_var location ∨ f = err_group_not_var a location ∨
        f = err_target_not_var resname location →
      ∃ e, f = .ereport e ∧ e.sqlerrcode = .FEATURE_NOT_SUPPORTED ∧
        e.cursorpos = some location) := by
  have hmem : a ∈ attnums := by rw [hsplit]; simp
  refine ⟨?_, ?_, ?_, ?_⟩
  · intro rte node hk hn hv
    have hl := @look_join_alias_not_var _ location _ _ hn hv
    rw [drill_join_case hk]
    refine ⟨fun hpre => ?_, fun r => bind_ne_ok (look_error_ne_ok hmem hl 0 []) r⟩
    rw [hsplit, drill_loop_first_error hl pre vars 0 [] hpre hsame (Or.inl rfl)]
    rfl
  · intro rte hk hn
    have hl := @look_group_expr_not_var _ location _ hn
    rw [drill_group_case hk]
    refine ⟨fun hpre => ?_, fun r => bind_ne_ok (look_error_ne_ok hmem hl 0 []) r⟩
    rw [hsplit, drill_loop_first_error hl pre vars 0 [] hpre hsame (Or.inl rfl)]
    rfl
  · intro query tle hn hv
    have hl := @look_target_entry_not_var _ location _ _ hn hv
    by_cases hq : QueryDrillable query
    · rw [drill_query_case hq]
      refine ⟨fun hpre => ?_, fun r => bind_ne_ok (look_error_ne_ok hmem hl 0 []) r⟩
      rw [hsplit, drill_loop_first_error hl pre vars 0 [] hpre hsame (Or.inl rfl)]
      exact ⟨_, rfl, rfl, rfl⟩
    · obtain ⟨e, he, hc, hp⟩ :=
        @drill_query_gate_fails cat pstate fuel query hq attnums location query_stack
      refine ⟨fun _ => ⟨e, he, hc, hp⟩, fun r => ?_⟩
      rw [he]
      intro hc2
      cases hc2
  · intro resname f hf
    rcases hf with h | h | h <;> exact ⟨_, h, rfl, rfl⟩

/-- Claim C18 at the requests `[1, 2]` whose second attribute is an expression: through
the join entry `Demo.rte_join_expr`, through the GROUP relation `Demo.rte_group_expr`,
through the GROUP relation at the position 3 that it does not have, and through the query
`SELECT c1, c2 + 1 AS x FROM t1`. -/
theorem non_column_reference_rejected_witness :
    drill_down_to_base_rel Demo.cat (Demo.pstate_of Demo.rte_t1) 1 Demo.rte_join_expr
        [1, 2] 7 [] = .error (err_join_alias_not_var 7) ∧
    drill_down_to_base_rel Demo.cat (Demo.pstate_of Demo.rte_t1) 1 Demo.rte_group_expr
        [1, 2] 7 [] = .error (err_group_not_var 2 7) ∧
    drill_down_to_base_rel Demo.cat (Demo.pstate_of Demo.rte_t1) 1 Demo.rte_group_expr
        [1, 3] 7 [] = .error (err_group_not_var 3 7) ∧
    (∃ e, drill_down_to_base_rel_query Demo.cat (Demo.pstate_of Demo.rte_t1) 0
        Demo.select_expr_query [1, 2] 7 [] = .error (.ereport e) ∧
      e.sqlerrcode = .FEATURE_NOT_SUPPORTED ∧ e.cursorpos = some 7) :=
  ⟨((non_column_reference_rejected Demo.cat (Demo.pstate_of Demo.rte_t1) 0 7 [] [1, 2] [1]
      [] 2 [{ varno := 1, varattno := 1 }] 1 rfl (by simp)).1
      Demo.rte_join_expr .Other rfl rfl rfl).1 (.cons ⟨_, rfl⟩ .nil),
   ((non_column_reference_rejected Demo.cat (Demo.pstate_of Demo.rte_t1) 0 7 [] [1, 2] [1]
      [] 2 [{ varno := 1, varattno := 1 }] 1 rfl (by simp)).2.1
      Demo.rte_group_expr rfl (Or.inr ⟨.Other, rfl, rfl⟩)).1 (.cons ⟨_, rfl⟩ .nil),
   ((non_column_reference_rejected Demo.cat (Demo.pstate_of Demo.rte_t1) 0 7 [] [1, 3] [1]
      [] 3 [{ varno := 1, varattno := 1 }] 1 rfl (by simp)).2.1
      Demo.rte_group_expr rfl (Or.inl (Or.inr (by decide)))).1 (.cons ⟨_, rfl⟩ .nil),
   ((non_column_reference_rejected Demo.cat (Demo.pstate_of Demo.rte_t1) 0 7 [] [1, 2] [1]
      [] 2 [{ varno := 1, varattno := 1 }] 1 rfl (by simp)).2.2.1
      Demo.select_expr_query { expr := .Other, resname := some "x" } rfl rfl).1
      (.cons ⟨_, rfl⟩ .nil)⟩

theorem maps_functional {look : Int → Except Fault (Var × Fault)} :
    ∀ (l : List Int) (vs ws : List Var),
      MapsToVars look l vs → MapsToVars look l ws → vs = ws
  | [], _, _, h1, h2 => by
      cases h1
      cases h2
      rfl
  | a :: l, _, _, h1, h2 => by
      cases h1 with
      | cons hv hvs =>
          cases h2 with
          | cons hw hws =>
              obtain ⟨m1, hv⟩ := hv
              obtain ⟨m2, hw⟩ := hw
              rw [hv] at hw
              have hh := Except.ok.inj hw
              simp only [Prod.mk.injEq] at hh
              rw [hh.1, maps_functional l _ _ hvs hws]

theorem maps_mem {look : Int → Except Fault (Var × Fault)} :
    ∀ (l : List Int) (vs : List Var), MapsToVars look l vs →
      ∀ a ∈ l, ∃ v ∈ vs, ∃ m, look a = .ok (v, m)
  | [], _, _, a, ha => by simp at ha
  | b :: l, _, h, a, ha => by
      cases h with
      | cons hv hvs =>
          rcases List.mem_cons.mp ha with rfl | hin
          · obtain ⟨m, hv⟩ := hv
            exact ⟨_, List.mem_cons_self _ _, m, hv⟩
          · obtain ⟨v, hvm, m, hl⟩ := maps_mem l _ hvs a hin
            exact ⟨v, List.mem_cons_of_mem _ hvm, m, hl⟩

theorem drill_loop_error_cases {look : Int → Except Fault (Var × Fault)} :
    ∀ (attnums : List Int) (g : Int) (acc : List Int) (f : Fault),
      drill_loop look attnums g acc = .error f →
      ∃ a ∈ attnums, look a = .error f ∨ ∃ v, look a = .ok (v, f)
  | [], _, _, _, h => by
      unfold drill_loop at h
      cases h
  | a :: rest, g, acc, f, h => by
      unfold drill_loop at h
      cases hl : look a with
      | error e =>
          simp only [hl] at h
          have he : e = f := by cases h; rfl
          exact ⟨a, List.mem_cons_self _ _, Or.inl (by rw [hl, he])⟩
      | ok p =>
          obtain ⟨v, m⟩ := p
          simp only [hl] at h
          by_cases hg : g = 0
          · rw [if_pos hg] at h
            obtain ⟨b, hb, hcase⟩ := drill_loop_error_cases rest _ _ f h
            exact ⟨b, List.mem_cons_of_mem _ hb, hcase⟩
          · rw [if_neg hg] at h
            by_cases hne : g ≠ v.varno
            · rw [if_pos hne] at h
              have he : m = f := by cases h; rfl
              exact ⟨a, List.mem_cons_self _ _, Or.inr ⟨v, by rw [hl, he]⟩⟩
            · rw [if_neg hne] at h
              obtain ⟨b, hb, hcase⟩ := drill_loop_error_cases rest _ _ f h
              exact ⟨b, List.mem_cons_of_mem _ hb, hcase⟩

/-- When every requested attribute maps to a column reference and two of them have
different inner indices, the loop ends with the mismatch error of one of them. -/
theorem drill_loop_two_indices {look : Int → Except Fault (Var × Fault)}
    (hz : ∀ a v m, look a = .ok (v, m) → v.varno ≠ 0)
    {attnums : List Int} {vars : List Var} (hmaps : MapsToVars look attnums vars)
    (hdiff : ∃ v ∈ vars, ∃ w ∈ vars, v.varno ≠ w.varno) :
    ∃ a ∈ attnums, ∃ v m, look a = .ok (v, m) ∧
      drill_loop look attnums 0 [] = .error m := by
  cases hres : drill_loop look attnums 0 [] with
  | ok p =>
      obtain ⟨k, next⟩ := p
      obtain ⟨vars2, hm2, _, hcase⟩ := (drill_loop_maps attnums 0 [] k next hz).mp hres
      have hvv := maps_functional attnums _ _ hm2 hmaps
      subst hvv
      obtain ⟨v, hv, w, hw, hne⟩ := hdiff
      rcases hcase with ⟨hnil, _⟩ | ⟨_, _, hall⟩
      · rw [hnil] at hv
        simp at hv
      · exact absurd ((hall v hv).trans (hall w hw).symm) hne
  | error f =>
      obtain ⟨a, ha, hcase⟩ := drill_loop_error_cases attnums 0 [] f hres
      obtain ⟨v, _, m, hl⟩ := maps_mem attnums vars hmaps a ha
      rcases hcase with he | ⟨v2, hv2⟩
      · rw [hl] at he
        cases he
      · exact ⟨a, ha, v2, f, hv2, rfl⟩

/-- When every requested attribute maps to a column reference of the inner index `k`, the
loop returns `k` and the inner attribute numbers in request order. -/
theorem drill_loop_one_index {look : Int → Except Fault (Var × Fault)}
    (hz : ∀ a v m, look a = .ok (v, m) → v.varno ≠ 0)
    {attnums : List Int} {vars : List Var} {k : Int} (hmaps : MapsToVars look attnums vars)
    (hne : vars ≠ []) (hall : ∀ v ∈ vars, v.varno = k) :
    drill_loop look attnums 0 [] = .ok (k, vars.map (fun v => v.varattno)) ∧ k ≠ 0 := by
  refine ⟨(drill_loop_maps attnums 0 [] k _ hz).mpr
    ⟨vars, hmaps, by simp, Or.inr ⟨hne, Or.inl rfl, hall⟩⟩, ?_⟩
  cases attnums with
  | nil =>
      cases hmaps
      exact absurd rfl hne
  | cons a rest =>
      obtain ⟨v, hv, m, hl⟩ := maps_mem _ vars hmaps a (List.mem_cons_self _ _)
      rw [← hall v hv]
      exact hz a v m hl

/-- A successful loop has mapped every requested attribute to a column reference of the
returned inner index. -/
theorem drill_loop_ok_inv {look : Int → Except Fault (Var × Fault)}
    (hz : ∀ a v m, look a = .ok (v, m) → v.varno ≠ 0)
    {attnums : List Int} {k : Int} {next : List Int}
    (h : drill_loop look attnums 0 [] = .ok (k, next)) (hk : k ≠ 0) :
    ∃ vars, MapsToVars look attnums vars ∧ vars ≠ [] ∧ (∀ v ∈ vars, v.varno = k) ∧
      next = vars.map (fun v => v.varattno) := by
  obtain ⟨vars, hm, hnext, hcase⟩ := (drill_loop_maps attnums 0 [] k next hz).mp h
  rcases hcase with ⟨_, hk0⟩ | ⟨hne, _, hall⟩
  · exact absurd hk0 hk
  · exact ⟨vars, hm, hne, hall, by simpa using hnext⟩

theorem look_join_alias_ok {joinaliasvars : List Node} {location a : Int} {v : Var}
    {m : Fault} (h : look_join_alias joinaliasvars location a = .ok (v, m)) :
    Node.Var v ∈ joinaliasvars ∧ m = err_not_same_table location := by
  unfold look_join_alias at h
  cases hn : list_nth joinaliasvars (a - 1) with
  | error e =>
      rw [hn] at h
      cases h
  | ok node =>
      rw [hn] at h
      cases node with
      | Var w =>
          have hh := Except.ok.inj h
          simp only [Prod.mk.injEq] at hh
          rw [← hh.1, ← hh.2]
          exact ⟨list_nth_mem hn, rfl⟩
      | _ => cases h

theorem look_group_expr_ok {groupexprs : List Node} {location a : Int} {v : Var}
    {m : Fault} (h : look_group_expr groupexprs location a = .ok (v, m)) :
    Node.Var v ∈ groupexprs ∧ m = err_not_same_table location := by
  unfold look_group_expr at h
  by_cases hr : a > 0 ∧ a ≤ (groupexprs.length : Int)
  · rw [if_pos hr] at h
    cases hn : groupexprs[(a - 1).toNat]? with
    | none =>
        rw [hn] at h
        cases h
    | some node =>
        rw [hn] at h
        cases node with
        | Var w =>
            have hh := Except.ok.inj h
            simp only [Prod.mk.injEq] at hh
            rw [← hh.1, ← hh.2]
            exact ⟨List.getElem?_mem hn, rfl⟩
        | _ => cases h
  · rw [if_neg hr] at h
    cases h

theorem look_target_entry_ok {targetList : List TargetEntry} {location a : Int} {v : Var}
    {m : Fault} (h : look_target_entry targetList location a = .ok (v, m)) :
    (∃ tle ∈ targetList, tle.expr = .Var v) ∧ m = err_not_same_table v.location := by
  unfold look_target_entry at h
  cases hn : list_nth targetList (a - 1) with
  | error e =>
      rw [hn] at h
      cases h
  | ok tle =>
      rw [hn] at h
      simp only [ok_bind] at h
      cases he : tle.expr with
      | Var w =>
          simp only [he] at h
          have hh := Except.ok.inj h
          simp only [Prod.mk.injEq] at hh
          rw [← hh.1, ← hh.2]
          exact ⟨⟨tle, list_nth_mem hn, he⟩, rfl⟩
      | _ =>
          simp only [he] at h
          cases h

/-- The three consequences of one drill-down step of the shape
`drill_loop look attnums 0 [] >>= continue`, where a returned index 0 is the error `z`
and any other index `k` continues with `next k`. -/
theorem drill_step_cases {look : Int → Except Fault (Var × Fault)}
    (hz : ∀ a v m, look a = .ok (v, m) → v.varno ≠ 0)
    (attnums : List Int) (z : Fault)
    (next : Int → List Int → Except Fault (RangeTblEntry × List Int))
    (x : Except Fault (RangeTblEntry × List Int))
    (hx : x = (drill_loop look attnums 0 []) >>= fun p =>
      if p.1 = 0 then .error z else next p.1 p.2) :
    (∀ vars, MapsToVars look attnums vars →
      ((∃ v ∈ vars, ∃ w ∈ vars, v.varno ≠ w.varno) →
        ∃ a ∈ attnums, ∃ v m, look a = .ok (v, m) ∧ x = .error m) ∧
      (∀ k, vars ≠ [] → (∀ v ∈ vars, v.varno = k) →
        x = next k (vars.map (fun v => v.varattno)))) ∧
    (∀ result, x = .ok result →
      ∃ vars k, MapsToVars look attnums vars ∧ vars ≠ [] ∧ (∀ v ∈ vars, v.varno = k) ∧
        next k (vars.map (fun v => v.varattno)) = .ok result) := by
  refine ⟨fun vars hmaps => ⟨fun hdiff => ?_, fun k hne hall => ?_⟩, fun result h => ?_⟩
  · obtain ⟨a, ha, v, m, hl, hres⟩ := drill_loop_two_indices hz hmaps hdiff
    refine ⟨a, ha, v, m, hl, ?_⟩
    rw [hx, hres]
    rfl
  · obtain ⟨hres, hk0⟩ := drill_loop_one_index hz hmaps hne hall
    rw [hx, hres]
    simp only [ok_bind, hk0, if_false]
  · rw [hx] at h
    cases hres : drill_loop look attnums 0 [] with
    | error f =>
        rw [hres] at h
        cases h
    | ok p =>
        obtain ⟨k, nxt⟩ := p
        rw [hres] at h
        simp only [ok_bind] at h
        by_cases hk0 : k = 0
        · rw [if_pos hk0] at h
          cases h
        · rw [if_neg hk0] at h
          obtain ⟨vars, hm, hne, hall, hnext⟩ := drill_loop_ok_inv hz hres hk0
          exact ⟨vars, k, hm, hne, hall, by rw [← hnext]; exact h⟩

/-- Claim C19. One step of the drill-down resolver over the requested attributes, for
entries whose column references have an inner index other than 0 (every `Var` of a parsed
query has).  Through a join entry, through a GROUP relation and through a query that
passes the checks made before the target list is read: when every requested attribute
maps to a column reference and two of them have different inner indices, the resolution
ends with "all key columns must belong to the same table", of class UNDEFINED_TABLE; when
the attributes map to column references `vars` of one inner index `k`, the result is that
of the recursion on the entry `k` of the current range table, with the attribute numbers
of `vars` in request order; and every successful step is of this kind.  Through a join
entry or a GROUP relation the range table is that of the innermost query of the stack (of
the parse state when there is none) and the stack is kept; through a query it is the
range table of that query, which is pushed on the stack. -/
theorem same_inner_index_required (cat : Catalog) (pstate : ParseState) (fuel : Nat)
    (location : Int) (query_stack : QueryStack) (attnums : List Int) :
    -- join alias
    (∀ (rte : RangeTblEntry), rte.rtekind = .RTE_JOIN →
      (∀ v, Node.Var v ∈ rte.fields.joinaliasvars → v.varno ≠ 0) →
      (∀ vars, MapsToVars (look_join_alias rte.fields.joinaliasvars location) attnums vars →
        ((∃ v ∈ vars, ∃ w ∈ vars, v.varno ≠ w.varno) →
          drill_down_to_base_rel cat pstate (fuel + 1) rte attnums location query_stack =
            .error (err_not_same_table location)) ∧
        (∀ k, vars ≠ [] → (∀ v ∈ vars, v.varno = k) →
          drill_down_to_base_rel cat pstate (fuel + 1) rte attnums location query_stack =
            rt_fetch k (stack_rtable pstate query_stack) >>= fun inner =>
              drill_down_to_base_rel cat pstate fuel inner
                (vars.map (fun v => v.varattno)) location query_stack)) ∧
      (∀ result,
        drill_down_to_base_rel cat pstate (fuel + 1) rte attnums location query_stack =
          .ok result →
        ∃ vars k inner,
          MapsToVars (look_join_alias rte.fields.joinaliasvars location) attnums vars ∧
          vars ≠ [] ∧ (∀ v ∈ vars, v.varno = k) ∧
          rt_fetch k (stack_rtable pstate query_stack) = .ok inner ∧
          drill_down_to_base_rel cat pstate fuel inner (vars.map (fun v => v.varattno))
            location query_stack = .ok result)) ∧
    -- GROUP relation
    (∀ (rte : RangeTblEntry), rte.rtekind = .RTE_GROUP →
      (∀ v, Node.Var v ∈ rte.fields.groupexprs → v.varno ≠ 0) →
      (∀ vars, MapsToVars (look_group_expr rte.fields.groupexprs location) attnums vars →
        ((∃ v ∈ vars, ∃ w ∈ vars, v.varno ≠ w.varno) →
          drill_down_to_base_rel cat pstate (fuel + 1) rte attnums location query_stack =
            .error (err_not_same_table location)) ∧
        (∀ k, vars ≠ [] → (∀ v ∈ vars, v.varno = k) →
          drill_down_to_base_rel cat pstate (fuel + 1) rte attnums location query_stack =
            rt_fetch k (stack_rtable pstate query_stack) >>= fun inner =>
              drill_down_to_base_rel cat pstate fuel inner
                (vars.map (fun v => v.varattno)) location query_stack)) ∧
      (∀ result,
        drill_down_to_base_rel cat pstate (fuel + 1) rte attnums location query_stack =
          .ok result →
        ∃ vars k inner,
          MapsToVars (look_group_expr rte.fields.groupexprs location) attnums vars ∧
          vars ≠ [] ∧ (∀ v ∈ vars, v.varno = k) ∧
          rt_fetch k (stack_rtable pstate query_stack) = .ok inner ∧
          drill_down_to_base_rel cat pstate fuel inner (vars.map (fun v => v.varattno))
            location query_stack = .ok result)) ∧
    -- query target list
    (∀ (query : Query), QueryDrillable query →
      (∀ tle ∈ query.fields.targetList, ∀ v, tle.expr = .Var v → v.varno ≠ 0) →
      (∀ vars, MapsToVars (look_target_entry query.fields.targetList location) attnums vars →
        ((∃ v ∈ vars, ∃ w ∈ vars, v.varno ≠ w.varno) →
          FailsWith .UNDEFINED_TABLE
            (drill_down_to_base_rel_query cat pstate fuel query attnums location
              query_stack)) ∧
        (∀ k, vars ≠ [] → (∀ v ∈ vars, v.varno = k) →
          drill_down_to_base_rel_query cat pstate fuel query attnums location query_stack =
            rt_fetch k query.rtable >>= fun inner =>
              drill_down_to_base_rel cat pstate fuel inner
                (vars.map (fun v => v.varattno)) location (query :: query_stack))) ∧
      (∀ result,
        drill_down_to_base_rel_query cat pstate fuel query attnums location query_stack =
          .ok result →
        ∃ vars k inner,
          MapsToVars (look_target_entry query.fields.targetList location) attnums vars ∧
          vars ≠ [] ∧ (∀ v ∈ vars, v.varno = k) ∧
          rt_fetch k query.rtable = .ok inner ∧
          drill_down_to_base_rel cat pstate fuel inner (vars.map (fun v => v.varattno))
            location (query :: query_stack) = .ok result)) ∧
    -- the class of the error
    FailsWith .UNDEFINED_TABLE
      (.error (err_not_same_table location) : Except Fault (RangeTblEntry × List Int)) := by
  have hinv : ∀ (k : Int) (rtable : List RangeTblEntry) (nxt : List Int) (stack : QueryStack)
      (result : RangeTblEntry × List Int),
      (rt_fetch k rtable >>= fun inner =>
        drill_down_to_base_rel cat pstate fuel inner nxt location stack) = .ok result →
      ∃ inner, rt_fetch k rtable = .ok inner ∧
        drill_down_to_base_rel cat pstate fuel inner nxt location stack = .ok result := by
    intro k rtable nxt stack result h
    cases hf : rt_fetch k rtable with
    | error e =>
        rw [hf] at h
        cases h
    | ok inner =>
        rw [hf] at h
        exact ⟨inner, rfl, h⟩
  refine ⟨?_, ?_, ?_, ⟨_, rfl, rfl⟩⟩
  · intro rte hk hnz
    have hz : ∀ a v m, look_join_alias rte.fields.joinaliasvars location a = .ok (v, m) →
        v.varno ≠ 0 := fun a v m h => hnz v (look_join_alias_ok h).1
    obtain ⟨h1, h2⟩ := drill_step_cases hz attnums .undefined_behaviour
      (fun k nxt => rt_fetch k (stack_rtable pstate query_stack) >>= fun inner =>
        drill_down_to_base_rel cat pstate fuel inner nxt location query_stack)
      _ (drill_join_case hk attnums location query_stack)
    refine ⟨fun vars hmaps => ⟨fun hdiff => ?_, (h1 vars hmaps).2⟩, fun result h => ?_⟩
    · obtain ⟨a, _, v, m, hl, hres⟩ := (h1 vars hmaps).1 hdiff
      rw [hres, (look_join_alias_ok hl).2]
    · obtain ⟨vars, k, hm, hne, hall, hnext⟩ := h2 result h
      obtain ⟨inner, hf, hd⟩ := hinv _ _ _ _ _ hnext
      exact ⟨vars, k, inner, hm, hne, hall, hf, hd⟩
  · intro rte hk hnz
    have hz : ∀ a v m, look_group_expr rte.fields.groupexprs location a = .ok (v, m) →
        v.varno ≠ 0 := fun a v m h => hnz v (look_group_expr_ok h).1
    obtain ⟨h1, h2⟩ := drill_step_cases hz attnums (err_group_no_columns location)
      (fun k nxt => rt_fetch k (stack_rtable pstate query_stack) >>= fun inner =>
        drill_down_to_base_rel cat pstate fuel inner nxt location query_stack)
      _ (drill_group_case hk attnums location query_stack)
    refine ⟨fun vars hmaps => ⟨fun hdiff => ?_, (h1 vars hmaps).2⟩, fun result h => ?_⟩
    · obtain ⟨a, _, v, m, hl, hres⟩ := (h1 vars hmaps).1 hdiff
      rw [hres, (look_group_expr_ok hl).2]
    · obtain ⟨vars, k, hm, hne, hall, hnext⟩ := h2 result h
      obtain ⟨inner, hf, hd⟩ := hinv _ _ _ _ _ hnext
      exact ⟨vars, k, inner, hm, hne, hall, hf, hd⟩
  · intro query hq hnz
    have hz : ∀ a v m, look_target_entry query.fields.targetList location a = .ok (v, m) →
        v.varno ≠ 0 := fun a v m h => by
      obtain ⟨tle, hmem, he⟩ := (look_target_entry_ok h).1
      exact hnz tle hmem v he
    obtain ⟨h1, h2⟩ := drill_step_cases hz attnums .undefined_behaviour
      (fun k nxt => rt_fetch k query.rtable >>= fun inner =>
        drill_down_to_base_rel cat pstate fuel inner nxt location (query :: query_stack))
      _ (@drill_query_case cat pstate fuel query hq attnums location query_stack)
    refine ⟨fun vars hmaps => ⟨fun hdiff => ?_, (h1 vars hmaps).2⟩, fun result h => ?_⟩
    · obtain ⟨a, _, v, m, hl, hres⟩ := (h1 vars hmaps).1 hdiff
      rw [hres, (look_target_entry_ok hl).2]
      exact ⟨_, rfl, rfl⟩
    · obtain ⟨vars, k, hm, hne, hall, hnext⟩ := h2 result h
      obtain ⟨inner, hf, hd⟩ := hinv _ _ _ _ _ hnext
      exact ⟨vars, k, inner, hm, hne, hall, hf, hd⟩

/-- Claim C19 at two join entries over `FROM t1 JOIN t2`: the request `[1, 2]` through
`Demo.rte_join_two`, whose alias columns belong to the entries 1 and 2, is rejected; the
request `[2, 1]` through `Demo.rte_join_one` continues on the entry 1 with the attribute
numbers `[2, 1]`, and ends at the base table `t1`. -/
theorem same_inner_index_required_witness :
    drill_down_to_base_rel Demo.cat (Demo.pstate_of Demo.rte_t1) 2 Demo.rte_join_two
        [1, 2] 7 [] = .error (err_not_same_table 7) ∧
    drill_down_to_base_rel Demo.cat (Demo.pstate_of Demo.rte_t1) 2 Demo.rte_join_one
        [2, 1] 7 [] =
      (rt_fetch 1 (stack_rtable (Demo.pstate_of Demo.rte_t1) []) >>= fun inner =>
        drill_down_to_base_rel Demo.cat (Demo.pstate_of Demo.rte_t1) 1 inner [2, 1] 7 []) ∧
    drill_down_to_base_rel Demo.cat (Demo.pstate_of Demo.rte_t1) 2 Demo.rte_join_one
        [2, 1] 7 [] = .ok (Demo.rte_t1, [2, 1]) :=
  ⟨(((same_inner_index_required Demo.cat (Demo.pstate_of Demo.rte_t1) 1 7 [] [1, 2]).1
      Demo.rte_join_two rfl (by simp [Demo.rte_join_two, RangeTblEntry.fields])).1
      [{ varno := 1, varattno := 1 }, { varno := 2, varattno := 2 }]
      (.cons ⟨_, rfl⟩ (.cons ⟨_, rfl⟩ .nil))).1
      ⟨_, List.mem_cons_self _ _, _, List.mem_cons_of_mem _ (List.mem_cons_self _ _),
        by decide⟩,
   (((same_inner_index_required Demo.cat (Demo.pstate_of Demo.rte_t1) 1 7 [] [2, 1]).1
      Demo.rte_join_one rfl (by simp [Demo.rte_join_one, RangeTblEntry.fields])).1
      [{ varno := 1, varattno := 2 }, { varno := 1, varattno := 1 }]
      (.cons ⟨_, rfl⟩ (.cons ⟨_, rfl⟩ .nil))).2 1 (by simp) (by simp),
   rfl⟩

theorem drill_query_body_case
    {drill : RangeTblEntry → List Int → Int → QueryStack →
      Except Fault (RangeTblEntry × List Int)}
    {query : Query} (hq : QueryDrillable query) (attnums : List Int)
    (location : Int) (query_stack : QueryStack) :
    drill_down_to_base_rel_query_body drill query attnums location query_stack =
      (drill_loop (look_target_entry query.fields.targetList location) attnums 0 []) >>=
        fun p =>
          if p.1 = 0 then .error .undefined_behaviour
          else rt_fetch p.1 query.rtable >>= fun inner =>
            drill inner p.2 location (query :: query_stack) := by
  obtain ⟨h1, h2, h3, h4, h5⟩ := hq
  unfold drill_down_to_base_rel_query_body
  simp only [h1, h2, h3, h4, h5, drill_target_list_eq]
  cases drill_loop (look_target_entry query.fields.targetList location) attnums 0 [] with
  | error f => rfl
  | ok p =>
      obtain ⟨k, next⟩ := p
      by_cases hk0 : k = 0
      · simp [hk0]
      · simp [hk0]

theorem drill_query_body_gate
    {drill : RangeTblEntry → List Int → Int → QueryStack →
      Except Fault (RangeTblEntry × List Int)}
    {query : Query} (hq : ¬ QueryDrillable query) (attnums : List Int)
    (location : Int) (query_stack : QueryStack) :
    drill_down_to_base_rel_query_body drill query attnums location query_stack =
      .error (if query.fields.setOperations.isSome = true then err_set_operations location
        else err_query_not_supported location) := by
  unfold drill_down_to_base_rel_query_body
  by_cases h1 : query.fields.setOperations.isSome = true
  · simp only [h1, if_true]
    rfl
  · have hgate : query.fields.commandType ≠ .CMD_SELECT ∨ query.fields.distinctClause ≠ [] ∨
        ¬ query.fields.groupingSets.isEmpty = true ∨ query.fields.hasTargetSRFs = true := by
      by_contra hcon
      push_neg at hcon
      apply hq
      refine ⟨by simpa using h1, hcon.1, hcon.2.1, hcon.2.2.1, by simpa using hcon.2.2.2⟩
    simp only [h1, if_false, hgate, if_true]
    rfl

theorem stack_rtable_agree (pstate : ParseState) {s1 s2 : QueryStack}
    (hs : StackAgree s1 s2) : stack_rtable pstate s1 = stack_rtable pstate s2 := by
  cases hs with
  | nil => rfl
  | cons h _ => exact h.1

theorem find_cte_for_rte_walk_agree (pstate : ParseState) (rte : RangeTblEntry) :
    ∀ (s1 s2 : QueryStack) (levelsup : Nat), StackAgree s1 s2 →
      find_cte_for_rte_walk pstate rte levelsup s1 =
        find_cte_for_rte_walk pstate rte levelsup s2
  | [], _, _, hs => by
      cases hs
      rfl
  | q1 :: p1, _, 0, hs => by
      cases hs with
      | cons h _ =>
          simp only [find_cte_for_rte_walk]
          rw [h.2]
  | q1 :: p1, _, levelsup + 1, hs => by
      cases hs with
      | cons _ hp =>
          simp only [find_cte_for_rte_walk]
          exact find_cte_for_rte_walk_agree pstate rte p1 _ levelsup hp

theorem bind_congr_ok {α β : Type} (x : Except Fault α) {f g : α → Except Fault β}
    (h : ∀ a, f a = g a) : (x >>= f) = (x >>= g) := by
  cases x with
  | error e => rfl
  | ok a => exact h a

/-- The body of `drill_down_to_base_rel_query` reads of the query the five members it
checks, the target list and the range table; of the stack it hands on, the callee reads
the range tables and the CTE lists. -/
theorem query_body_agree
    {drill : RangeTblEntry → List Int → Int → QueryStack →
      Except Fault (RangeTblEntry × List Int)}
    (hd : ∀ rte attnums location s1 s2, StackAgree s1 s2 →
      drill rte attnums location s1 = drill rte attnums location s2)
    {q1 q2 : Query} (hgc : ∃ gc, q1 = q2.withGroupClause gc)
    (attnums : List Int) (location : Int) {s1 s2 : QueryStack} (hs : StackAgree s1 s2) :
    drill_down_to_base_rel_query_body drill q1 attnums location s1 =
      drill_down_to_base_rel_query_body drill q2 attnums location s2 := by
  obtain ⟨gc, rfl⟩ := hgc
  have hagree : QueryAgree (q2.withGroupClause gc) q2 := ⟨rfl, rfl⟩
  have hiff : QueryDrillable (q2.withGroupClause gc) ↔ QueryDrillable q2 := Iff.rfl
  by_cases hq : QueryDrillable q2
  · rw [drill_query_body_case (hiff.mpr hq), drill_query_body_case hq]
    refine bind_congr_ok _ fun p => ?_
    by_cases hp : p.1 = 0
    · rw [if_pos hp, if_pos hp]
    · rw [if_neg hp, if_neg hp]
      exact bind_congr_ok _ fun inner => hd _ _ _ _ _ (.cons hagree hs)
  · rw [drill_query_body_gate (fun h => hq (hiff.mp h)), drill_query_body_gate hq]
    rfl

theorem drill_stack_agree (cat : Catalog) (pstate : ParseState) :
    ∀ (fuel : Nat) (rte : RangeTblEntry) (attnums : List Int) (location : Int)
      (s1 s2 : QueryStack), StackAgree s1 s2 →
      drill_down_to_base_rel cat pstate fuel rte attnums location s1 =
        drill_down_to_base_rel cat pstate fuel rte attnums location s2
  | 0, _, _, _, _, _, _ => rfl
  | fuel + 1, rte, attnums, location, s1, s2, hs => by
      have ih := drill_stack_agree cat pstate fuel
      have hq : ∀ q, drill_down_to_base_rel_query_body (drill_down_to_base_rel cat pstate fuel)
            q attnums location s1 =
          drill_down_to_base_rel_query_body (drill_down_to_base_rel cat pstate fuel)
            q attnums location s2 := fun q =>
        query_body_agree ih ⟨q.fields.groupClause, by cases q; rfl⟩ attnums location hs
      cases hk : rte.rtekind with
      | RTE_JOIN =>
          rw [drill_join_case hk, drill_join_case hk, stack_rtable_agree pstate hs]
          refine bind_congr_ok _ fun p => ?_
          by_cases hp : p.1 = 0
          · rw [if_pos hp, if_pos hp]
          · rw [if_neg hp, if_neg hp]
            exact bind_congr_ok _ fun inner => ih _ _ _ _ _ hs
      | RTE_GROUP =>
          rw [drill_group_case hk, drill_group_case hk, stack_rtable_agree pstate hs]
          refine bind_congr_ok _ fun p => ?_
          by_cases hp : p.1 = 0
          · rw [if_pos hp, if_pos hp]
          · rw [if_neg hp, if_neg hp]
            exact bind_congr_ok _ fun inner => ih _ _ _ _ _ hs
      | RTE_RELATION =>
          rw [drill_down_to_base_rel_succ]
          unfold drill_down_to_base_rel_body
          simp only [hk]
          refine bind_congr_ok _ fun rel => ?_
          cases rel.relkind <;> first | rfl | exact bind_congr_ok _ fun vq => hq vq
      | RTE_SUBQUERY =>
          rw [drill_down_to_base_rel_succ]
          unfold drill_down_to_base_rel_body
          simp only [hk]
          cases rte.subquery with
          | none => rfl
          | some q => exact hq q
      | RTE_CTE =>
          rw [drill_down_to_base_rel_succ]
          unfold drill_down_to_base_rel_body
          simp only [hk]
          have hc : find_cte_for_rte pstate s1 rte = find_cte_for_rte pstate s2 rte :=
            find_cte_for_rte_walk_agree pstate rte s1 s2 _ hs
          rw [hc]
          refine bind_congr_ok _ fun cte => ?_
          by_cases hr : cte.cterecursive = true
          · rw [if_pos hr, if_pos hr]
          · rw [if_neg hr, if_neg hr]
            cases cte.ctequery with
            | none => rfl
            | some q => exact hq q
      | _ =>
          rw [drill_down_to_base_rel_succ]
          unfold drill_down_to_base_rel_body
          simp only [hk]

/-- Claim C20. A query that has set operations, is not a SELECT, has a DISTINCT clause,
has grouping sets or has set-returning target expressions makes
`drill_down_to_base_rel_query` end with an error of class FEATURE_NOT_SUPPORTED at the
position of the join clause, and the outcome is the same whatever the target list holds
and whichever attributes are requested.  The `groupClause` of the query is not read: the
outcome for a query is the outcome for the same query with any other `groupClause`, the
empty one included. -/
theorem query_checks_before_target_list (cat : Catalog) (pstate : ParseState) (fuel : Nat)
    (query : Query) (attnums : List Int) (location : Int) (query_stack : QueryStack) :
    ((query.fields.setOperations.isSome = true ∨ query.fields.commandType ≠ .CMD_SELECT ∨
        query.fields.distinctClause ≠ [] ∨ query.fields.groupingSets ≠ [] ∨
        query.fields.hasTargetSRFs = true) →
      (∃ e, drill_down_to_base_rel_query cat pstate fuel query attnums location query_stack =
          .error (.ereport e) ∧
        e.sqlerrcode = .FEATURE_NOT_SUPPORTED ∧ e.cursorpos = some location) ∧
      (∀ (targetList : List TargetEntry) (attnums2 : List Int),
        drill_down_to_base_rel_query cat pstate fuel (query.withTargetList targetList)
            attnums2 location query_stack =
          drill_down_to_base_rel_query cat pstate fuel query attnums location query_stack)) ∧
    (∀ (groupClause : List SortGroupClause),
      drill_down_to_base_rel_query cat pstate fuel (query.withGroupClause groupClause)
          attnums location query_stack =
        drill_down_to_base_rel_query cat pstate fuel query attnums location query_stack) := by
  refine ⟨fun hgate => ?_, fun groupClause => ?_⟩
  · have hq : ¬ QueryDrillable query := by
      rintro ⟨h1, h2, h3, h4, h5⟩
      rcases hgate with h | h | h | h | h
      · rw [h1] at h
        cases h
      · exact h h2
      · exact h h3
      · exact h (List.isEmpty_iff.mp h4)
      · rw [h5] at h
        cases h
    refine ⟨drill_query_gate_fails hq attnums location query_stack, fun targetList attnums2 => ?_⟩
    have hq2 : ¬ QueryDrillable (query.withTargetList targetList) := fun h => hq h
    rw [drill_query_gate hq2, drill_query_gate hq]
    rfl
  · unfold drill_down_to_base_rel_query
    exact query_body_agree (drill_stack_agree cat pstate fuel) ⟨groupClause, rfl⟩ attnums
      location (List.forall₂_same.mpr fun _ _ => ⟨rfl, rfl⟩)

/-- Claim C20 at `SELECT DISTINCT * FROM t1`, which is rejected, and at
`SELECT c1, max(c2) FROM t1 GROUP BY c1`, through which the first column is resolved to
the column `c1` of the base table `t1`, as it is when the `groupClause` is emptied. -/
theorem query_checks_before_target_list_witness :
    (∃ e, drill_down_to_base_rel_query Demo.cat (Demo.pstate_of Demo.rte_t1) 2
        Demo.select_distinct_query [1] 7 [] = .error (.ereport e) ∧
      e.sqlerrcode = .FEATURE_NOT_SUPPORTED ∧ e.cursorpos = some 7) ∧
    drill_down_to_base_rel_query Demo.cat (Demo.pstate_of Demo.rte_t1) 2
        ((Demo.group_by_query (Demo.rte_t1_as 81) 82 1).withGroupClause []) [1] 7 [] =
      drill_down_to_base_rel_query Demo.cat (Demo.pstate_of Demo.rte_t1) 2
        (Demo.group_by_query (Demo.rte_t1_as 81) 82 1) [1] 7 [] ∧
    drill_down_to_base_rel_query Demo.cat (Demo.pstate_of Demo.rte_t1) 2
        (Demo.group_by_query (Demo.rte_t1_as 81) 82 1) [1] 7 [] =
      .ok (Demo.rte_t1_as 81, [1]) :=
  ⟨((query_checks_before_target_list Demo.cat (Demo.pstate_of Demo.rte_t1) 2
      Demo.select_distinct_query [1] 7 []).1
      (Or.inr (Or.inr (Or.inl (List.cons_ne_nil _ _))))).1,
   (query_checks_before_target_list Demo.cat (Demo.pstate_of Demo.rte_t1) 2
      (Demo.group_by_query (Demo.rte_t1_as 81) 82 1) [1] 7 []).2 [],
   rfl⟩

/-! ## Recursive CTEs -/

/-- Claim C21, the part that fails: the range-table-reference rule of the analyzer does
not reject a reference to a recursive CTE.  For `WITH RECURSIVE r AS (...)` and the leaf
`r` the analysis ends without an error and hands back the sets as they were on entry,
while the drill-down of the same entry is rejected. -/
theorem recursive_cte_analyzer_counterexample :
    analyze_join_tree Demo.cat Demo.pstate_cte_r 1 (.RangeTblRef 1) none 30 {} 7 [] =
      .ok {} ∧
    find_cte_for_rte Demo.pstate_cte_r [] Demo.rte_cte_r = .ok Demo.cte_r ∧
    Demo.cte_r.cterecursive = true ∧
    drill_down_to_base_rel Demo.cat Demo.pstate_cte_r 1 Demo.rte_cte_r [1] 7 [] =
      .error (err_relation_not_supported none 7) :=
  ⟨rfl, rfl, rfl, rfl⟩

/-- Claim C21, as the code has it.  A reference to a recursive CTE, found by
`find_cte_for_rte` at whatever depth of the query stack, is rejected by the drill-down
resolver with an error of class FEATURE_NOT_SUPPORTED at the position of the join clause.
The range-table-reference rule of the analyzer does not reject it: it descends into no
query and returns the three outputs as they were on entry. -/
theorem recursive_cte_rejected_by_drill_down (cat : Catalog) (pstate : ParseState)
    (fuel : Nat) (rte : RangeTblEntry) (cte : CommonTableExpr) (location : Int)
    (query_stack : QueryStack)
    (hkind : rte.rtekind = .RTE_CTE)
    (hcte : find_cte_for_rte pstate query_stack rte = .ok cte)
    (hrec : cte.cterecursive = true) :
    (∀ attnums,
      drill_down_to_base_rel cat pstate (fuel + 1) rte attnums location query_stack =
        .error (err_relation_not_supported none location)) ∧
    (∃ e, err_relation_not_supported none location = .ereport e ∧
      e.sqlerrcode = .FEATURE_NOT_SUPPORTED ∧ e.cursorpos = some location) ∧
    (∀ rtindex query rte_id out,
      rt_fetch rtindex (match query with
        | some q => q.rtable
        | none => pstate.p_rtable) = .ok rte →
      analyze_join_tree cat pstate (fuel + 1) (.RangeTblRef rtindex) query rte_id out
        location query_stack = .ok out) := by
  refine ⟨fun attnums => ?_, ⟨_, rfl, rfl, rfl⟩, fun rtindex query rte_id out hfetch => ?_⟩
  · rw [drill_down_to_base_rel_succ]
    unfold drill_down_to_base_rel_body
    simp only [hkind, hcte, ok_bind, hrec, if_true]
  · rw [analyze_join_tree_succ]
    unfold analyze_join_tree_body
    simp only [hfetch, ok_bind, hkind, hcte, hrec]
    rfl

/-- Claim C21 at the recursive CTE `r` of `Demo.pstate_cte_r`. -/
theorem recursive_cte_rejected_by_drill_down_witness :
    drill_down_to_base_rel Demo.cat Demo.pstate_cte_r 1 Demo.rte_cte_r [1] 7 [] =
      .error (err_relation_not_supported none 7) :=
  (recursive_cte_rejected_by_drill_down Demo.cat Demo.pstate_cte_r 0 Demo.rte_cte_r
    Demo.cte_r 7 [] rfl rfl rfl).1 [1]

/-! ## The base-table rule of the analyzer -/

theorem leaf_is_unfiltered_iff {rel : RelInfo} {query : Option Query}
    (hjt : ∀ q, query = some q → q.fields.jointree.isSome = true) :
    ∃ unfiltered, leaf_is_unfiltered rel query = .ok unfiltered ∧
      (unfiltered = true ↔ LeafUnfiltered rel query) := by
  cases query with
  | none =>
      refine ⟨!rel.relrowsecurity, rfl, ?_⟩
      unfold LeafUnfiltered
      cases rel.relrowsecurity <;> simp
  | some q =>
      have hq := hjt q rfl
      cases hj : q.fields.jointree with
      | none => rw [hj] at hq; cases hq
      | some jointree =>
          refine ⟨_, leaf_is_unfiltered_some hj, ?_⟩
          unfold LeafUnfiltered QueryFiltered
          cases rel.relrowsecurity <;> cases hq1 : jointree.quals <;>
            cases hq2 : q.fields.limitOffset <;> cases hq3 : q.fields.limitCount <;>
            cases hq4 : q.fields.havingQual <;> simp [hj, hq1, hq2, hq3, hq4]

/-- Claim C22. A range-table reference to an ordinary or partitioned base table with
identity `id`, in a query that has a `jointree` when there is a query: the analysis
returns, the UniquenessSet is `[id]`, and `found` is as it was on entry.  When the leaf is
unfiltered (no row-level security; no enclosing query, or one with none of WHERE, HAVING,
LIMIT and OFFSET) the FDSet is the one pair `(id, id)`; otherwise it is as it was on
entry, which is empty at every call the validator or a join node makes.  So, from an
empty FDSet, the result is `[(id, id)]` exactly when the leaf is unfiltered and is empty
otherwise.  The queries further out are not looked at: the result is the same for every
query stack. -/
theorem base_table_leaf_sets (cat : Catalog) (pstate : ParseState) (fuel : Nat)
    (rtindex : Int) (query : Option Query) (rte : RangeTblEntry) (rel : RelInfo)
    (rte_id : RTEId) (out : AnalyzeOut) (location : Int) (query_stack : QueryStack)
    (hfetch : rt_fetch rtindex (match query with
        | some q => q.rtable
        | none => pstate.p_rtable) = .ok rte)
    (hkind : rte.rtekind = .RTE_RELATION) (hrel : cat.relations rte.relid = some rel)
    (hbase : IsBaseTableKind rel.relkind)
    (hjt : ∀ q, query = some q → q.fields.jointree.isSome = true) :
    (∃ result,
      analyze_join_tree cat pstate (fuel + 1) (.RangeTblRef rtindex) query rte_id out
        location query_stack = .ok result ∧
      result.uniqueness_preservation = [rte.rteid] ∧
      result.found = out.found ∧
      (LeafUnfiltered rel query → result.functional_dependencies = [rte.rteid, rte.rteid]) ∧
      (¬ LeafUnfiltered rel query →
        result.functional_dependencies = out.functional_dependencies) ∧
      (out.functional_dependencies = [] →
        (result.functional_dependencies = [rte.rteid, rte.rteid] ↔
          LeafUnfiltered rel query) ∧
        (¬ LeafUnfiltered rel query → result.functional_dependencies = []))) ∧
    (∀ other_stack,
      analyze_join_tree cat pstate (fuel + 1) (.RangeTblRef rtindex) query rte_id out
          location other_stack =
        analyze_join_tree cat pstate (fuel + 1) (.RangeTblRef rtindex) query rte_id out
          location query_stack) := by
  obtain ⟨unfiltered, hfilter, hiff⟩ := @leaf_is_unfiltered_iff rel query hjt
  have hleaf := fun stack => @analyze_base_table_leaf cat pstate fuel rtindex query rte rel
    unfiltered rte_id out location stack hfetch hkind hrel hbase hfilter
  refine ⟨⟨_, hleaf query_stack, ?_⟩, fun other_stack => by rw [hleaf, hleaf]⟩
  cases unfiltered with
  | true =>
      have hu : LeafUnfiltered rel query := hiff.mp rfl
      exact ⟨rfl, rfl, fun _ => rfl, fun h => absurd hu h,
        fun _ => ⟨⟨fun _ => hu, fun _ => rfl⟩, fun h => absurd hu h⟩⟩
  | false =>
      have hu : ¬ LeafUnfiltered rel query := fun h => by
        have := hiff.mpr h
        cases this
      refine ⟨rfl, rfl, fun h => absurd h hu, fun _ => rfl, fun he => ⟨⟨fun h => ?_, fun h => absurd h hu⟩, fun _ => he⟩⟩
      rw [he] at h
      cases h

/-- Claim C22 at the leaf `t1` of `FROM t1 JOIN t2`, which has no enclosing query, and at
the leaf `t1` of `SELECT * FROM t1 WHERE c2 > 0`, which is filtered. -/
theorem base_table_leaf_sets_witness :
    analyze_join_tree Demo.cat (Demo.pstate_of Demo.rte_t1) 1 (.RangeTblRef 1) none 11 {} 7
        [] =
      .ok { uniqueness_preservation := [11], functional_dependencies := [11, 11] } ∧
    analyze_join_tree Demo.cat (Demo.pstate_of Demo.rte_t1) 1 (.RangeTblRef 1)
        (some (Demo.select_star (some .Other) (Demo.rte_t1_as 41))) 41 {} 7 [] =
      .ok { uniqueness_preservation := [41], functional_dependencies := [] } ∧
    (∃ result, analyze_join_tree Demo.cat (Demo.pstate_of Demo.rte_t1) 1 (.RangeTblRef 1)
        (some (Demo.select_star (some .Other) (Demo.rte_t1_as 41))) 41 {} 7 [] =
          .ok result ∧
      result.uniqueness_preservation = [41] ∧ result.functional_dependencies = []) :=
  ⟨rfl, rfl,
   (fun ⟨result, h1, h2, _, _, _, h6⟩ => ⟨result, h1, h2,
      (h6 rfl).2 (fun hu => hu.2 _ rfl (Or.inl ⟨_, rfl, rfl⟩))⟩)
    (base_table_leaf_sets Demo.cat (Demo.pstate_of Demo.rte_t1) 0 1
      (some (Demo.select_star (some .Other) (Demo.rte_t1_as 41))) (Demo.rte_t1_as 41)
      Demo.t1_rel 41 {} 7 [] rfl rfl rfl (Or.inl rfl)
      (fun q hq => by cases hq; rfl)).1⟩

/-! ## The join rule of the analyzer -/

/-- Claim C23. The join rule of `analyze_join_tree`, for whatever the recursive calls
(`analyze`) and the drill-downs (`drill`) compute, once the two range-table entries of the
join are fetched and the analysis of the referencing child has returned `ing`.  If `ing`
reports found, or the identity of the referencing entry is the target, the call returns
found = true with the two sets of `ing`: nothing is assumed of the analysis of the
referenced child or of the drill-downs, which are not run.  Otherwise, the analysis of the
referenced child having returned `ed`, the same test on `ed` and the referenced entry
returns found = true with the two sets of `ed`.  Only when both tests fail are the sets
combined: the UniquenessSet is `update_uniqueness_preservation` and the FDSet
`update_functional_dependencies` of the children's sets, and `found` is left as it was on
entry (false at every call). -/
theorem join_node_found_short_circuit (cat : Catalog) (pstate : ParseState)
    (analyze : JoinTree → Option Query → RTEId → AnalyzeOut → Int → QueryStack →
      Except Fault AnalyzeOut)
    (drill : RangeTblEntry → List Int → Int → QueryStack →
      Except Fault (RangeTblEntry × List Int))
    (jointype : JoinType) (larg rarg : JoinTree) (fkjn : ForeignKeyJoinNode)
    (quals : Option Node) (query : Option Query) (rte_id : RTEId) (out : AnalyzeOut)
    (location : Int) (query_stack : QueryStack) (referencing_rte referenced_rte : RangeTblEntry)
    (ing : AnalyzeOut)
    (hing : rt_fetch fkjn.referencingVarno (enclosing_rtable pstate query) =
      .ok referencing_rte)
    (hed : rt_fetch fkjn.referencedVarno (enclosing_rtable pstate query) =
      .ok referenced_rte)
    (hanalyze : analyze (if fkjn.fkdir = .FKDIR_FROM then larg else rarg) query rte_id {}
      location query_stack = .ok ing) :
    ((ing.found = true ∨ referencing_rte.rteid = rte_id) →
      analyze_join_tree_body cat pstate analyze drill
          (.JoinExpr jointype larg rarg (some (.node fkjn)) quals) query rte_id out location
          query_stack =
        .ok { uniqueness_preservation := ing.uniqueness_preservation,
              functional_dependencies := ing.functional_dependencies, found := true }) ∧
    (¬ (ing.found = true ∨ referencing_rte.rteid = rte_id) →
      ∀ ed, analyze (if fkjn.fkdir = .FKDIR_FROM then rarg else larg) query rte_id {}
          location query_stack = .ok ed →
        ((ed.found = true ∨ referenced_rte.rteid = rte_id) →
          analyze_join_tree_body cat pstate analyze drill
              (.JoinExpr jointype larg rarg (some (.node fkjn)) quals) query rte_id out
              location query_stack =
            .ok { uniqueness_preservation := ed.uniqueness_preservation,
                  functional_dependencies := ed.functional_dependencies, found := true }) ∧
        (¬ (ed.found = true ∨ referenced_rte.rteid = rte_id) →
          ∀ base_referencing_rte referencing_base_attnums base_referenced_rte
            referenced_base_attnums fk_cols_unique fk_cols_not_null fds,
            drill referencing_rte fkjn.referencingAttnums location query_stack =
              .ok (base_referencing_rte, referencing_base_attnums) →
            drill referenced_rte fkjn.referencedAttnums location query_stack =
              .ok (base_referenced_rte, referenced_base_attnums) →
            is_referencing_cols_unique cat base_referencing_rte.relid
              referencing_base_attnums = .ok fk_cols_unique →
            is_referencing_cols_not_null cat base_referencing_rte.relid
              referencing_base_attnums = .ok fk_cols_not_null →
            update_functional_dependencies ing.functional_dependencies
              base_referencing_rte.rteid ed.functional_dependencies
              base_referenced_rte.rteid fk_cols_not_null jointype fkjn.fkdir = .ok fds →
            analyze_join_tree_body cat pstate analyze drill
                (.JoinExpr jointype larg rarg (some (.node fkjn)) quals) query rte_id out
                location query_stack =
              .ok { uniqueness_preservation :=
                      update_uniqueness_preservation ing.uniqueness_preservation
                        ed.uniqueness_preservation fk_cols_unique,
                    functional_dependencies := fds, found := out.found })) := by
  unfold enclosing_rtable at hing hed
  refine ⟨fun h1 => ?_, fun h1 ed hed2 => ⟨fun h2 => ?_, fun h2 b1 a1 b2 a2 u nn fds hd1 hd2 hu hn hf => ?_⟩⟩
  · unfold analyze_join_tree_body
    simp only [hing, hed, hanalyze, ok_bind, h1, if_true, pure_eq_ok]
  · unfold analyze_join_tree_body
    simp only [hing, hed, hanalyze, ok_bind, h1, if_false, hed2, h2, if_true, pure_eq_ok]
  · unfold analyze_join_tree_body
    simp only [hing, hed, hanalyze, ok_bind, h1, if_false, hed2, h2, hd1, hd2, hu, hn, hf,
      pure_eq_ok]

/-- Claim C23 at the join tree of `t1 JOIN t2 KEY (c3) -> t1 (c1)`: with the referencing
entry `t2` (identity 12) as the target the sets of the `t2` leaf are returned, with the
referenced entry `t1` (identity 11) as the target the sets of the `t1` leaf, and with a
target that is neither the two children's sets are combined and `found` stays false. -/
theorem join_node_found_short_circuit_witness :
    analyze_join_tree Demo.cat (Demo.pstate_of Demo.rte_t1) 3 Demo.join_tree_t1_t2 none 12
        {} 7 [] =
      .ok { uniqueness_preservation := [12], functional_dependencies := [12, 12],
            found := true } ∧
    analyze_join_tree Demo.cat (Demo.pstate_of Demo.rte_t1) 3 Demo.join_tree_t1_t2 none 11
        {} 7 [] =
      .ok { uniqueness_preservation := [11], functional_dependencies := [11, 11],
            found := true } ∧
    analyze_join_tree Demo.cat (Demo.pstate_of Demo.rte_t1) 3 Demo.join_tree_t1_t2 none 99
        {} 7 [] =
      .ok { uniqueness_preservation := [12, 11],
            functional_dependencies := [12, 12, 12, 11], found := false } :=
  ⟨(join_node_found_short_circuit Demo.cat (Demo.pstate_of Demo.rte_t1)
      (analyze_join_tree Demo.cat (Demo.pstate_of Demo.rte_t1) 2)
      (drill_down_to_base_rel Demo.cat (Demo.pstate_of Demo.rte_t1) 2)
      .JOIN_INNER (.RangeTblRef 1) (.RangeTblRef 2)
      { fkdir := .FKDIR_TO, referencingVarno := 2, referencingAttnums := [1],
        referencedVarno := 1, referencedAttnums := [1], constraint := 100 }
      none none 12 {} 7 [] Demo.rte_t2 Demo.rte_t1
      { uniqueness_preservation := [12], functional_dependencies := [12, 12] }
      rfl rfl rfl).1 (Or.inr rfl),
   rfl, rfl⟩

/-! ## The combine rule: uniqueness -/

/-- Claim C24. The result of `update_uniqueness_preservation` is `U_ing` followed by
`U_ed` when `fk_cols_unique` is true and `U_ing` when it is false; so an identity is in
the result exactly when it is in `U_ing`, or `fk_cols_unique` holds and it is in `U_ed`. -/
theorem update_uniqueness_preservation_append (U_ing U_ed : List RTEId)
    (fk_cols_unique : Bool) :
    (fk_cols_unique = true →
      update_uniqueness_preservation U_ing U_ed fk_cols_unique = U_ing ++ U_ed) ∧
    (fk_cols_unique = false →
      update_uniqueness_preservation U_ing U_ed fk_cols_unique = U_ing) ∧
    (∀ id, id ∈ update_uniqueness_preservation U_ing U_ed fk_cols_unique ↔
      id ∈ U_ing ∨ (fk_cols_unique = true ∧ id ∈ U_ed)) := by
  have heq : update_uniqueness_preservation U_ing U_ed fk_cols_unique =
      if fk_cols_unique = true then U_ing ++ U_ed else U_ing := by
    unfold update_uniqueness_preservation
    cases fk_cols_unique <;> cases U_ing <;> cases U_ed <;> simp
  refine ⟨fun h => ?_, fun h => ?_, fun id => ?_⟩
  · rw [heq, if_pos h]
  · rw [heq, h]
    rfl
  · rw [heq]
    cases fk_cols_unique <;> simp

/-- Claim C24 at `U_ing = [12]`, `U_ed = [11]`. -/
theorem update_uniqueness_preservation_append_witness :
    update_uniqueness_preservation [12] [11] true = [12, 11] ∧
    update_uniqueness_preservation [12] [11] false = [12] :=
  ⟨(update_uniqueness_preservation_append [12] [11] true).1 rfl,
   (update_uniqueness_preservation_append [12] [11] false).2.1 rfl⟩

/-! ## The combine rule: functional dependencies -/

theorem fd_pairs_flat : ∀ (ps : List (RTEId × RTEId)), fd_pairs (fd_flat ps) = ps
  | [] => rfl
  | (a, b) :: rest => by
      unfold fd_flat fd_pairs
      rw [fd_pairs_flat rest]

theorem fd_flat_pairs : ∀ (l : List RTEId), l.length % 2 = 0 → fd_flat (fd_pairs l) = l
  | [], _ => rfl
  | [_], h => by simp at h
  | a :: b :: rest, h => by
      unfold fd_pairs fd_flat
      have h2 : rest.length % 2 = 0 := by
        simp only [List.length_cons] at h
        omega
      rw [fd_flat_pairs rest h2]

theorem fd_flat_cons (a b : RTEId) (rest : List (RTEId × RTEId)) :
    fd_flat ((a, b) :: rest) = a :: b :: fd_flat rest := rfl

theorem fd_flat_append : ∀ (ps qs : List (RTEId × RTEId)),
    fd_flat (ps ++ qs) = fd_flat ps ++ fd_flat qs
  | [], _ => rfl
  | (a, b) :: rest, qs => by
      rw [List.cons_append, fd_flat_cons, fd_flat_cons, fd_flat_append rest qs]
      rfl

theorem fds_has_self_dep_flat (id : RTEId) : ∀ (ps : List (RTEId × RTEId)),
    fds_has_self_dep id (fd_flat ps) = .ok (decide ((id, id) ∈ ps))
  | [] => rfl
  | (a, b) :: rest => by
      rw [fd_flat_cons]
      unfold fds_has_self_dep
      by_cases h : a = id ∧ b = id
      · rw [if_pos h]
        obtain ⟨rfl, rfl⟩ := h
        simp
      · rw [if_neg h, fds_has_self_dep_flat id rest]
        congr 1
        have hne : (id, id) ≠ (a, b) := fun he => h ⟨(Prod.mk.inj he).1.symm, (Prod.mk.inj he).2.symm⟩
        simp [hne]

theorem fds_append_with_det_flat (det : RTEId) : ∀ (ps : List (RTEId × RTEId))
    (result : List (RTEId × RTEId)),
    fds_append_with_det det (fd_flat ps) (fd_flat result) =
      .ok (fd_flat (result ++ ps.filter (fun q => q.1 = det)))
  | [], result => by simp [fd_flat, fds_append_with_det]
  | (a, b) :: rest, result => by
      rw [fd_flat_cons]
      unfold fds_append_with_det
      by_cases h : a = det
      · rw [if_pos h]
        have hr : fd_flat result ++ [a, b] = fd_flat (result ++ [(a, b)]) := by
          rw [fd_flat_append]
          rfl
        rw [hr, fds_append_with_det_flat det rest]
        simp [h]
      · rw [if_neg h, fds_append_with_det_flat det rest]
        simp [h]

theorem fds_carry_forward_flat (referencing_id : RTEId) (all : List (RTEId × RTEId)) :
    ∀ (ps : List (RTEId × RTEId)) (result : List (RTEId × RTEId)),
    fds_carry_forward referencing_id (fd_flat all) (fd_flat ps) (fd_flat result) =
      .ok (fd_flat (result ++ (ps.filter (fun p => p.2 = referencing_id)).flatMap
        (fun p => all.filter (fun q => q.1 = p.1))))
  | [], result => by simp [fd_flat, fds_carry_forward]
  | (a, b) :: rest, result => by
      rw [fd_flat_cons]
      unfold fds_carry_forward
      by_cases h : b = referencing_id
      · rw [if_pos h, fds_append_with_det_flat]
        simp only [ok_bind]
        rw [fds_carry_forward_flat referencing_id all rest]
        simp [h]
      · rw [if_neg h, fds_carry_forward_flat referencing_id all rest]
        simp [h]

theorem fds_append_transitive_flat (det referenced_id : RTEId) :
    ∀ (ps : List (RTEId × RTEId)) (result : List (RTEId × RTEId)),
    fds_append_transitive det referenced_id (fd_flat ps) (fd_flat result) =
      .ok (fd_flat (result ++
        (ps.filter (fun q => q.1 = referenced_id)).map (fun q => (det, q.2))))
  | [], result => by simp [fd_flat, fds_append_transitive]
  | (a, b) :: rest, result => by
      rw [fd_flat_cons]
      unfold fds_append_transitive
      by_cases h : a = referenced_id
      · rw [if_pos h]
        have hr : fd_flat result ++ [det, b] = fd_flat (result ++ [(det, b)]) := by
          rw [fd_flat_append]
          rfl
        rw [hr, fds_append_transitive_flat det referenced_id rest]
        simp [h]
      · rw [if_neg h, fds_append_transitive_flat det referenced_id rest]
        simp [h]

theorem fds_transitive_flat (referencing_id referenced_id : RTEId)
    (FD_ed : List (RTEId × RTEId)) :
    ∀ (ps : List (RTEId × RTEId)) (result : List (RTEId × RTEId)),
    fds_transitive referencing_id referenced_id (fd_flat FD_ed) (fd_flat ps)
        (fd_flat result) =
      .ok (fd_flat (result ++ (ps.filter (fun p => p.2 = referencing_id)).flatMap
        (fun p => (FD_ed.filter (fun q => q.1 = referenced_id)).map
          (fun q => (p.1, q.2)))))
  | [], result => by simp [fd_flat, fds_transitive]
  | (a, b) :: rest, result => by
      rw [fd_flat_cons]
      unfold fds_transitive
      by_cases h : b = referencing_id
      · rw [if_pos h, fds_append_transitive_flat]
        simp only [ok_bind]
        rw [fds_transitive_flat referencing_id referenced_id FD_ed rest]
        simp [h]
      · rw [if_neg h, fds_transitive_flat referencing_id referenced_id FD_ed rest]
        simp [h]

/-- The function `update_functional_dependencies` on the flat lists of two lists of pairs
returns, and returns the flat list of the pairs of the six steps. -/
theorem update_functional_dependencies_pairs (FD_ing : List (RTEId × RTEId))
    (referencing_id : RTEId) (FD_ed : List (RTEId × RTEId)) (referenced_id : RTEId)
    (fk_cols_not_null : Bool) (join_type : JoinType) (fk_dir : ForeignKeyDirection) :
    update_functional_dependencies (fd_flat FD_ing) referencing_id (fd_flat FD_ed)
        referenced_id fk_cols_not_null join_type fk_dir =
      .ok (fd_flat (combined_pairs FD_ing referencing_id FD_ed referenced_id
        fk_cols_not_null join_type fk_dir)) := by
  have houter : (if ((fk_dir = .FKDIR_TO ∧ join_type = .JOIN_LEFT) ∨
        (fk_dir = .FKDIR_FROM ∧ join_type = .JOIN_RIGHT) ∨ join_type = .JOIN_FULL)
      then (if decide ((fk_dir = .FKDIR_FROM ∧ join_type = .JOIN_LEFT) ∨
          (fk_dir = .FKDIR_TO ∧ join_type = .JOIN_RIGHT) ∨ join_type = .JOIN_FULL) = true
        then ([] : List RTEId) ++ fd_flat FD_ing else []) ++ fd_flat FD_ed
      else (if decide ((fk_dir = .FKDIR_FROM ∧ join_type = .JOIN_LEFT) ∨
          (fk_dir = .FKDIR_TO ∧ join_type = .JOIN_RIGHT) ∨ join_type = .JOIN_FULL) = true
        then ([] : List RTEId) ++ fd_flat FD_ing else [])) =
      fd_flat (outer_join_pairs FD_ing FD_ed join_type fk_dir) := by
    unfold outer_join_pairs
    rw [fd_flat_append]
    by_cases h1 : ReferencingPreserved fk_dir join_type <;>
      by_cases h2 : ReferencedPreserved fk_dir join_type
    · have h1b := h1
      have h2b := h2
      unfold ReferencingPreserved at h1b
      unfold ReferencedPreserved at h2b
      simp only [h1, h2, h1b, h2b, if_true, decide_True, List.nil_append]
    · have h1b := h1
      have h2b := h2
      unfold ReferencingPreserved at h1b
      unfold ReferencedPreserved at h2b
      simp only [h1, h2, h1b, h2b, if_true, if_false, decide_True, List.nil_append]
      exact (List.append_nil _).symm
    · have h1b := h1
      have h2b := h2
      unfold ReferencingPreserved at h1b
      unfold ReferencedPreserved at h2b
      simp only [h1, h2, h1b, h2b, if_true, if_false, decide_False, List.nil_append]
      rfl
    · have h1b := h1
      have h2b := h2
      unfold ReferencingPreserved at h1b
      unfold ReferencedPreserved at h2b
      simp only [h1, h2, h1b, h2b, if_false, decide_False]
      rfl
  unfold update_functional_dependencies combined_pairs
  simp only [houter]
  cases fk_cols_not_null with
  | false =>
      simp
  | true =>
      simp only [Bool.not_true, Bool.false_eq_true, if_false, fds_has_self_dep_flat, ok_bind,
        true_and]
      by_cases hself : (referenced_id, referenced_id) ∈ FD_ed
      · simp only [hself, decide_True, Bool.not_true, Bool.false_eq_true, if_false, if_true]
        by_cases h1 : ReferencingPreserved fk_dir join_type
        · have h1b := h1
          unfold ReferencingPreserved at h1b
          simp only [h1, h1b, decide_True, Bool.not_true, Bool.false_eq_true, if_false,
            if_true, pure_eq_ok, ok_bind, fds_transitive_flat, List.nil_append]
          rfl
        · have h1b := h1
          unfold ReferencingPreserved at h1b
          simp only [h1, h1b, decide_False, Bool.not_false, if_true, if_false,
            fds_carry_forward_flat, ok_bind, fds_transitive_flat, List.append_assoc]
          rfl
      · simp only [hself, decide_False, Bool.not_false, if_true, if_false, pure_eq_ok,
          List.append_nil]

theorem mem_carried_pairs {FD_ing : List (RTEId × RTEId)} {referencing_id : RTEId}
    {p : RTEId × RTEId} :
    p ∈ carried_pairs FD_ing referencing_id ↔ p ∈ FD_ing ∧ (p.1, referencing_id) ∈ FD_ing := by
  unfold carried_pairs
  simp only [List.mem_flatMap, List.mem_filter, decide_eq_true_eq]
  constructor
  · rintro ⟨q, ⟨hq, hq2⟩, hp, hp1⟩
    refine ⟨hp, ?_⟩
    rw [hp1, ← hq2]
    exact hq
  · rintro ⟨hp, hdet⟩
    exact ⟨(p.1, referencing_id), ⟨hdet, rfl⟩, hp, rfl⟩

theorem mem_transitive_pairs {FD_ing FD_ed : List (RTEId × RTEId)}
    {referencing_id referenced_id : RTEId} {p : RTEId × RTEId} :
    p ∈ transitive_pairs FD_ing referencing_id FD_ed referenced_id ↔
      (p.1, referencing_id) ∈ FD_ing ∧ (referenced_id, p.2) ∈ FD_ed := by
  unfold transitive_pairs
  simp only [List.mem_flatMap, List.mem_filter, decide_eq_true_eq, List.mem_map]
  constructor
  · rintro ⟨q, ⟨hq, hq2⟩, r, ⟨hr, hr1⟩, rfl⟩
    refine ⟨?_, ?_⟩
    · show (q.1, referencing_id) ∈ FD_ing
      rw [← hq2]
      exact hq
    · show (referenced_id, r.2) ∈ FD_ed
      rw [← hr1]
      exact hr
  · rintro ⟨h1, h2⟩
    exact ⟨(p.1, referencing_id), ⟨h1, rfl⟩, (referenced_id, p.2), ⟨h2, rfl⟩, rfl⟩

theorem mem_outer_join_pairs {FD_ing FD_ed : List (RTEId × RTEId)} {join_type : JoinType}
    {fk_dir : ForeignKeyDirection} {p : RTEId × RTEId} :
    p ∈ outer_join_pairs FD_ing FD_ed join_type fk_dir ↔
      (ReferencingPreserved fk_dir join_type ∧ p ∈ FD_ing) ∨
      (ReferencedPreserved fk_dir join_type ∧ p ∈ FD_ed) := by
  unfold outer_join_pairs
  by_cases h1 : ReferencingPreserved fk_dir join_type <;>
    by_cases h2 : ReferencedPreserved fk_dir join_type <;> simp [h1, h2]

theorem mem_combined_pairs {FD_ing FD_ed : List (RTEId × RTEId)}
    {referencing_id referenced_id : RTEId} {fk_cols_not_null : Bool} {join_type : JoinType}
    {fk_dir : ForeignKeyDirection} {p : RTEId × RTEId} :
    p ∈ combined_pairs FD_ing referencing_id FD_ed referenced_id fk_cols_not_null join_type
        fk_dir ↔
      p ∈ outer_join_pairs FD_ing FD_ed join_type fk_dir ∨
      (fk_cols_not_null = true ∧ (referenced_id, referenced_id) ∈ FD_ed ∧
        ((¬ ReferencingPreserved fk_dir join_type ∧
            p ∈ carried_pairs FD_ing referencing_id) ∨
          p ∈ transitive_pairs FD_ing referencing_id FD_ed referenced_id)) := by
  unfold combined_pairs
  by_cases hc : fk_cols_not_null = true ∧ (referenced_id, referenced_id) ∈ FD_ed
  · by_cases h1 : ReferencingPreserved fk_dir join_type
    · simp [hc, h1]
    · simp [hc, h1]
  · rw [if_neg hc, List.append_nil]
    constructor
    · exact Or.inl
    · rintro (h | ⟨h1, h2, _⟩)
      · exact h
      · exact absurd ⟨h1, h2⟩ hc

/-- Claim C25. For all FD sets `FD_ing`, `FD_ed`, handed over as flat lists, and all other
inputs, `update_functional_dependencies` returns; every pair of `FD_ing` is among the
pairs of the result whenever the referencing side is preserved ((FROM and LEFT) or (TO
and RIGHT) or FULL), and every pair of `FD_ed` whenever the referenced side is preserved
((TO and LEFT) or (FROM and RIGHT) or FULL), whatever `fk_cols_not_null` is and whether or
not `FD_ed` holds the self-pair of the referenced relation. -/
theorem outer_join_rules_include_fds (FD_ing : List (RTEId × RTEId)) (referencing_id : RTEId)
    (FD_ed : List (RTEId × RTEId)) (referenced_id : RTEId) (fk_cols_not_null : Bool)
    (join_type : JoinType) (fk_dir : ForeignKeyDirection) :
    ∃ result,
      update_functional_dependencies (fd_flat FD_ing) referencing_id (fd_flat FD_ed)
        referenced_id fk_cols_not_null join_type fk_dir = .ok result ∧
      (((fk_dir = .FKDIR_FROM ∧ join_type = .JOIN_LEFT) ∨
          (fk_dir = .FKDIR_TO ∧ join_type = .JOIN_RIGHT) ∨ join_type = .JOIN_FULL) →
        ∀ p ∈ FD_ing, p ∈ fd_pairs result) ∧
      (((fk_dir = .FKDIR_TO ∧ join_type = .JOIN_LEFT) ∨
          (fk_dir = .FKDIR_FROM ∧ join_type = .JOIN_RIGHT) ∨ join_type = .JOIN_FULL) →
        ∀ p ∈ FD_ed, p ∈ fd_pairs result) := by
  refine ⟨_, update_functional_dependencies_pairs _ _ _ _ _ _ _, fun h p hp => ?_,
    fun h p hp => ?_⟩
  · rw [fd_pairs_flat]
    exact mem_combined_pairs.mpr (Or.inl (mem_outer_join_pairs.mpr (Or.inl ⟨h, hp⟩)))
  · rw [fd_pairs_flat]
    exact mem_combined_pairs.mpr (Or.inl (mem_outer_join_pairs.mpr (Or.inr ⟨h, hp⟩)))

/-- Claim C25 at a LEFT join in direction FROM with nullable key columns: the pair of
`FD_ing` is in the result. -/
theorem outer_join_rules_include_fds_witness :
    ∃ result,
      update_functional_dependencies [12, 12] 12 [11, 11] 11 false .JOIN_LEFT .FKDIR_FROM =
        .ok result ∧
      (12, 12) ∈ fd_pairs result :=
  (fun ⟨result, h, h1, _⟩ =>
    ⟨result, h, h1 (Or.inl ⟨rfl, rfl⟩) (12, 12) (List.mem_singleton.mpr rfl)⟩)
    (outer_join_rules_include_fds [(12, 12)] 12 [(11, 11)] 11 false .JOIN_LEFT .FKDIR_FROM)

/-- Claim C26. If `fk_cols_not_null` is false, or `FD_ed` does not hold the self-pair of
the referenced relation, the result of `update_functional_dependencies` is exactly what
the two outer-join rules contribute: `FD_ing` if the referencing side is preserved,
followed by `FD_ed` if the referenced side is preserved, and nothing else.  For an INNER
join it is then empty. -/
theorem no_inner_join_dependencies (FD_ing : List (RTEId × RTEId)) (referencing_id : RTEId)
    (FD_ed : List (RTEId × RTEId)) (referenced_id : RTEId) (fk_cols_not_null : Bool)
    (join_type : JoinType) (fk_dir : ForeignKeyDirection)
    (hstop : fk_cols_not_null = false ∨ (referenced_id, referenced_id) ∉ FD_ed) :
    update_functional_dependencies (fd_flat FD_ing) referencing_id (fd_flat FD_ed)
        referenced_id fk_cols_not_null join_type fk_dir =
      .ok (fd_flat
        ((if (fk_dir = .FKDIR_FROM ∧ join_type = .JOIN_LEFT) ∨
              (fk_dir = .FKDIR_TO ∧ join_type = .JOIN_RIGHT) ∨ join_type = .JOIN_FULL
            then FD_ing else []) ++
          (if (fk_dir = .FKDIR_TO ∧ join_type = .JOIN_LEFT) ∨
              (fk_dir = .FKDIR_FROM ∧ join_type = .JOIN_RIGHT) ∨ join_type = .JOIN_FULL
            then FD_ed else []))) ∧
    (join_type = .JOIN_INNER →
      update_functional_dependencies (fd_flat FD_ing) referencing_id (fd_flat FD_ed)
        referenced_id fk_cols_not_null join_type fk_dir = .ok []) := by
  have hc : ¬ (fk_cols_not_null = true ∧ (referenced_id, referenced_id) ∈ FD_ed) := by
    rintro ⟨h1, h2⟩
    rcases hstop with h | h
    · rw [h] at h1
      cases h1
    · exact h h2
  have heq : combined_pairs FD_ing referencing_id FD_ed referenced_id fk_cols_not_null
      join_type fk_dir = outer_join_pairs FD_ing FD_ed join_type fk_dir := by
    unfold combined_pairs
    rw [if_neg hc, List.append_nil]
  rw [update_functional_dependencies_pairs, heq]
  refine ⟨rfl, fun hinner => ?_⟩
  subst hinner
  unfold outer_join_pairs ReferencingPreserved ReferencedPreserved
  simp
  rfl

/-- Claim C26 at nullable key columns: an INNER join gives the empty list, a LEFT join in
direction FROM gives `FD_ing` alone. -/
theorem no_inner_join_dependencies_witness :
    update_functional_dependencies [12, 12] 12 [11, 11] 11 false .JOIN_INNER .FKDIR_FROM =
      .ok [] ∧
    update_functional_dependencies [12, 12] 12 [11, 11] 11 false .JOIN_LEFT .FKDIR_FROM =
      .ok [12, 12] :=
  ⟨(no_inner_join_dependencies [(12, 12)] 12 [(11, 11)] 11 false .JOIN_INNER .FKDIR_FROM
      (Or.inl rfl)).2 rfl,
   (no_inner_join_dependencies [(12, 12)] 12 [(11, 11)] 11 false .JOIN_LEFT .FKDIR_FROM
      (Or.inl rfl)).1⟩

/-- Claim C27. If `fk_cols_not_null` is true and `FD_ed` holds the self-pair of the
referenced relation, then, for every join type and direction,
`update_functional_dependencies` returns and the pairs of its result include `(X, Z)` for
every pair `(X, referencing_id)` of `FD_ing` and every pair `(referenced_id, Z)` of
`FD_ed`; in particular they include `(X, referenced_id)`. -/
theorem transitive_pairs_added (FD_ing : List (RTEId × RTEId)) (referencing_id : RTEId)
    (FD_ed : List (RTEId × RTEId)) (referenced_id : RTEId)
    (join_type : JoinType) (fk_dir : ForeignKeyDirection)
    (hself : (referenced_id, referenced_id) ∈ FD_ed) :
    ∃ result,
      update_functional_dependencies (fd_flat FD_ing) referencing_id (fd_flat FD_ed)
        referenced_id true join_type fk_dir = .ok result ∧
      (∀ X Z, (X, referencing_id) ∈ FD_ing → (referenced_id, Z) ∈ FD_ed →
        (X, Z) ∈ fd_pairs result) ∧
      (∀ X, (X, referencing_id) ∈ FD_ing → (X, referenced_id) ∈ fd_pairs result) := by
  have hmem : ∀ X Z, (X, referencing_id) ∈ FD_ing → (referenced_id, Z) ∈ FD_ed →
      (X, Z) ∈ combined_pairs FD_ing referencing_id FD_ed referenced_id true join_type
        fk_dir := fun X Z hX hZ =>
    mem_combined_pairs.mpr (Or.inr ⟨rfl, hself, Or.inr (mem_transitive_pairs.mpr ⟨hX, hZ⟩)⟩)
  refine ⟨_, update_functional_dependencies_pairs _ _ _ _ _ _ _, ?_, ?_⟩
  · rw [fd_pairs_flat]
    exact hmem
  · rw [fd_pairs_flat]
    exact fun X hX => hmem X referenced_id hX hself

/-- Claim C27 at `FD_ing = [(5, 1), (1, 1)]`, `FD_ed = [(2, 2), (2, 3)]`, the referencing
relation being 1 and the referenced relation 2: the pair `(5, 3)` is in the result. -/
theorem transitive_pairs_added_witness :
    ∃ result,
      update_functional_dependencies [5, 1, 1, 1] 1 [2, 2, 2, 3] 2 true .JOIN_INNER
        .FKDIR_FROM = .ok result ∧
      (5, 3) ∈ fd_pairs result :=
  (fun ⟨result, h, h1, _⟩ => ⟨result, h, h1 5 3 (by decide) (by decide)⟩)
    (transitive_pairs_added [(5, 1), (1, 1)] 1 [(2, 2), (2, 3)] 2 .JOIN_INNER .FKDIR_FROM
      (by decide))

/-- Claim C28. If `fk_cols_not_null` is true and `FD_ed` holds the self-pair of the
referenced relation, then, for every join type and direction and for every `det` with
`(det, referencing_id)` in `FD_ing`, every pair of `FD_ing` whose determinant is `det` is
among the pairs of the result of `update_functional_dependencies`: it is contributed by
the outer-join rule when the referencing side is preserved and by the carry-forward step
when it is not. -/
theorem determinants_carried_forward (FD_ing : List (RTEId × RTEId)) (referencing_id : RTEId)
    (FD_ed : List (RTEId × RTEId)) (referenced_id : RTEId)
    (join_type : JoinType) (fk_dir : ForeignKeyDirection)
    (hself : (referenced_id, referenced_id) ∈ FD_ed) :
    ∃ result,
      update_functional_dependencies (fd_flat FD_ing) referencing_id (fd_flat FD_ed)
        referenced_id true join_type fk_dir = .ok result ∧
      ∀ det dep, (det, referencing_id) ∈ FD_ing → (det, dep) ∈ FD_ing →
        (det, dep) ∈ fd_pairs result ∧
        (ReferencingPreserved fk_dir join_type →
          (det, dep) ∈ outer_join_pairs FD_ing FD_ed join_type fk_dir) ∧
        (¬ ReferencingPreserved fk_dir join_type →
          (det, dep) ∈ carried_pairs FD_ing referencing_id) := by
  refine ⟨_, update_functional_dependencies_pairs _ _ _ _ _ _ _, fun det dep hdet hp => ?_⟩
  have hout : ReferencingPreserved fk_dir join_type →
      (det, dep) ∈ outer_join_pairs FD_ing FD_ed join_type fk_dir := fun h =>
    mem_outer_join_pairs.mpr (Or.inl ⟨h, hp⟩)
  have hcar : (det, dep) ∈ carried_pairs FD_ing referencing_id :=
    mem_carried_pairs.mpr ⟨hp, hdet⟩
  refine ⟨?_, hout, fun _ => hcar⟩
  rw [fd_pairs_flat]
  by_cases h1 : ReferencingPreserved fk_dir join_type
  · exact mem_combined_pairs.mpr (Or.inl (hout h1))
  · exact mem_combined_pairs.mpr (Or.inr ⟨rfl, hself, Or.inl ⟨h1, hcar⟩⟩)

/-- Claim C28 at `FD_ing = [(5, 1), (5, 7)]`, `FD_ed = [(2, 2)]`, an INNER join: the pair
`(5, 7)` is in the result. -/
theorem determinants_carried_forward_witness :
    ∃ result,
      update_functional_dependencies [5, 1, 5, 7] 1 [2, 2] 2 true .JOIN_INNER .FKDIR_FROM =
        .ok result ∧
      (5, 7) ∈ fd_pairs result :=
  (fun ⟨result, h, h1⟩ => ⟨result, h, (h1 5 7 (by decide) (by decide)).1⟩)
    (determinants_carried_forward [(5, 1), (5, 7)] 1 [(2, 2)] 2 .JOIN_INNER .FKDIR_FROM
      (by decide))

/-! ## Self-pairs of determinants -/

section OksLemmas

variable {α β : Type} {P : β → Prop}

theorem oks_error (e : Fault) : Oks P (.error e : Except Fault β) := by
  intro a h
  cases h

theorem oks_ok {b : β} (h : P b) : Oks P (.ok b : Except Fault β) := by
  intro a ha
  cases ha
  exact h

theorem oks_pure {b : β} (h : P b) : Oks P (pure b : Except Fault β) := oks_ok h

theorem oks_any (x : Except Fault α) : Oks (fun _ => True) x := fun _ _ => trivial

theorem oks_bind {x : Except Fault α} {g : α → Except Fault β} (Q : α → Prop)
    (hx : Oks Q x) (hg : ∀ a, Q a → Oks P (g a)) : Oks P (x >>= g) := by
  intro b h
  cases x with
  | error e => cases h
  | ok a => exact hg a (hx a rfl) b h

theorem oks_ite {c : Prop} [Decidable c] {a b : Except Fault β}
    (ha : Oks P a) (hb : Oks P b) : Oks P (if c then a else b) := by
  split
  · exact ha
  · exact hb

end OksLemmas

theorem fd_self_paired_nil : FdSelfPaired [] := ⟨[], rfl, fun _ h => by cases h⟩

theorem fd_self_paired_leaf (id : RTEId) : FdSelfPaired [id, id] :=
  ⟨[(id, id)], rfl, fun p hp => by
    rw [List.mem_singleton] at hp
    rw [hp]
    exact List.mem_singleton.mpr rfl⟩

theorem combined_pairs_self_paired {FD_ing FD_ed : List (RTEId × RTEId)}
    (hing : SelfPaired FD_ing) (hed : SelfPaired FD_ed) (referencing_id referenced_id : RTEId)
    (fk_cols_not_null : Bool) (join_type : JoinType) (fk_dir : ForeignKeyDirection) :
    SelfPaired (combined_pairs FD_ing referencing_id FD_ed referenced_id fk_cols_not_null
      join_type fk_dir) := by
  intro p hp
  rcases mem_combined_pairs.mp hp with hout | ⟨hnn, hself, hin⟩
  · refine mem_combined_pairs.mpr (Or.inl ?_)
    rcases mem_outer_join_pairs.mp hout with ⟨h, hm⟩ | ⟨h, hm⟩
    · exact mem_outer_join_pairs.mpr (Or.inl ⟨h, hing p hm⟩)
    · exact mem_outer_join_pairs.mpr (Or.inr ⟨h, hed p hm⟩)
  · have hdet : (p.1, referencing_id) ∈ FD_ing := by
      rcases hin with ⟨_, hc⟩ | ht
      · exact (mem_carried_pairs.mp hc).2
      · exact (mem_transitive_pairs.mp ht).1
    have hpp : (p.1, p.1) ∈ FD_ing := hing (p.1, referencing_id) hdet
    by_cases h1 : ReferencingPreserved fk_dir join_type
    · exact mem_combined_pairs.mpr (Or.inl (mem_outer_join_pairs.mpr (Or.inl ⟨h1, hpp⟩)))
    · exact mem_combined_pairs.mpr
        (Or.inr ⟨hnn, hself, Or.inl ⟨h1, mem_carried_pairs.mpr ⟨hpp, hdet⟩⟩⟩)

theorem update_functional_dependencies_self_paired {referencing_fds referenced_fds : List RTEId}
    (hing : FdSelfPaired referencing_fds) (hed : FdSelfPaired referenced_fds)
    (referencing_id referenced_id : RTEId) (fk_cols_not_null : Bool) (join_type : JoinType)
    (fk_dir : ForeignKeyDirection) :
    Oks FdSelfPaired (update_functional_dependencies referencing_fds referencing_id
      referenced_fds referenced_id fk_cols_not_null join_type fk_dir) := by
  obtain ⟨ps, rfl, hps⟩ := hing
  obtain ⟨qs, rfl, hqs⟩ := hed
  rw [update_functional_dependencies_pairs]
  exact oks_ok ⟨_, rfl, combined_pairs_self_paired hps hqs _ _ _ _ _⟩

theorem after_inner_query_fds (cat : Catalog) (q : Query) (out : AnalyzeOut) :
    Oks (fun r => r.functional_dependencies = out.functional_dependencies)
      (after_inner_query cat q out) := by
  unfold after_inner_query
  refine oks_ite (oks_bind (fun _ => True) (oks_any _) fun p _ => ?_) (oks_pure rfl)
  exact oks_ite (oks_pure rfl) (oks_pure rfl)

theorem analyze_join_tree_body_self_paired (cat : Catalog) (pstate : ParseState)
    {analyze : JoinTree → Option Query → RTEId → AnalyzeOut → Int → QueryStack →
      Except Fault AnalyzeOut}
    {drill : RangeTblEntry → List Int → Int → QueryStack →
      Except Fault (RangeTblEntry × List Int)}
    (hanalyze : ∀ n query rte_id out location query_stack,
      FdSelfPaired out.functional_dependencies →
      Oks (fun r => FdSelfPaired r.functional_dependencies)
        (analyze n query rte_id out location query_stack))
    (n : JoinTree) (query : Option Query) (rte_id : RTEId) (out : AnalyzeOut)
    (location : Int) (query_stack : QueryStack)
    (hout : FdSelfPaired out.functional_dependencies) :
    Oks (fun r => FdSelfPaired r.functional_dependencies)
      (analyze_join_tree_body cat pstate analyze drill n query rte_id out location
        query_stack) := by
  unfold analyze_join_tree_body
  split
  · split
    · dsimp only
      refine oks_bind (fun _ => True) (oks_any _) fun ing_rte _ => ?_
      refine oks_bind (fun _ => True) (oks_any _) fun ed_rte _ => ?_
      refine oks_bind (fun r => FdSelfPaired r.functional_dependencies)
        (hanalyze _ _ _ _ _ _ fd_self_paired_nil) fun ing hing => ?_
      refine oks_ite (oks_pure hing) ?_
      refine oks_bind (fun r => FdSelfPaired r.functional_dependencies)
        (hanalyze _ _ _ _ _ _ fd_self_paired_nil) fun ed hed => ?_
      refine oks_ite (oks_pure hed) ?_
      refine oks_bind (fun _ => True) (oks_any _) fun p1 _ => ?_
      obtain ⟨b1, a1⟩ := p1
      dsimp only
      refine oks_bind (fun _ => True) (oks_any _) fun p2 _ => ?_
      obtain ⟨b2, a2⟩ := p2
      dsimp only
      refine oks_bind (fun _ => True) (oks_any _) fun _ _ => ?_
      refine oks_bind (fun _ => True) (oks_any _) fun _ _ => ?_
      exact oks_bind FdSelfPaired
        (update_functional_dependencies_self_paired hing hed _ _ _ _ _)
        fun fds hfds => oks_pure hfds
    · exact oks_error _
  · dsimp only
    refine oks_bind (fun _ => True) (oks_any _) fun rte _ => ?_
    refine oks_bind (fun p => FdSelfPaired p.2.functional_dependencies) ?_ ?_
    · split
      · refine oks_bind (fun _ => True) (oks_any _) fun rel _ => ?_
        refine oks_ite (oks_bind (fun _ => True) (oks_any _) fun _ _ => oks_pure hout) ?_
        refine oks_ite ?_ (oks_pure hout)
        exact oks_bind (fun _ => True) (oks_any _) fun _ _ =>
          oks_ite (oks_pure (fd_self_paired_leaf _)) (oks_pure hout)
      · exact oks_pure hout
      · exact oks_bind (fun _ => True) (oks_any _) fun _ _ =>
          oks_ite (oks_pure hout) (oks_pure hout)
      · exact oks_error _
    · intro p hp
      obtain ⟨inner, out2⟩ := p
      dsimp only at hp ⊢
      split
      · exact oks_pure hp
      · split
        · exact oks_pure hp
        · split
          · refine oks_bind (fun r => FdSelfPaired r.functional_dependencies)
              (hanalyze _ _ _ _ _ _ hp) fun r hr => ?_
            intro r2 h2
            have := after_inner_query_fds _ _ _ r2 h2
            dsimp only at this ⊢
            rw [this]
            exact hr
          · exact oks_pure hp
  · exact oks_error _

/-- Every FD set `analyze_join_tree` returns, when started from one, is the flat list of a
set of pairs in which each determinant has its self-pair; the empty list, from which the
validator and every join node start, is one. -/
theorem analyze_join_tree_self_paired (cat : Catalog) (pstate : ParseState) :
    ∀ (fuel : Nat) (n : JoinTree) (query : Option Query) (rte_id : RTEId) (out : AnalyzeOut)
      (location : Int) (query_stack : QueryStack),
      FdSelfPaired out.functional_dependencies →
      Oks (fun r => FdSelfPaired r.functional_dependencies)
        (analyze_join_tree cat pstate fuel n query rte_id out location query_stack)
  | 0, _, _, _, _, _, _, _ => oks_error _
  | fuel + 1, n, query, rte_id, out, location, query_stack, hout => by
      rw [analyze_join_tree_succ]
      exact analyze_join_tree_body_self_paired cat pstate
        (analyze_join_tree_self_paired cat pstate fuel) _ _ _ _ _ _ hout

/-- Claim C29. Let `FD_ing` be an FD set in which every determinant has its self-pair, as
every FD set is that `analyze_join_tree` builds (second part: the sets it returns when
started from the empty set, as the validator and the join nodes start it, and these are
the sets `update_functional_dependencies` is called with).  If `fk_cols_not_null` is true
and `FD_ed` holds the self-pair of the referenced relation, then
`update_functional_dependencies` returns, and for every relation `X` with
`(X, referencing_id)` in `FD_ing` its result holds the row-preservation pair `(X, X)`,
for every join type and direction. -/
theorem self_pair_of_determinant_kept (FD_ing : List (RTEId × RTEId)) (referencing_id : RTEId)
    (FD_ed : List (RTEId × RTEId)) (referenced_id : RTEId)
    (join_type : JoinType) (fk_dir : ForeignKeyDirection)
    (hpaired : SelfPaired FD_ing)
    (hself : (referenced_id, referenced_id) ∈ FD_ed) :
    (∃ result,
      update_functional_dependencies (fd_flat FD_ing) referencing_id (fd_flat FD_ed)
        referenced_id true join_type fk_dir = .ok result ∧
      ∀ X, (X, referencing_id) ∈ FD_ing → (X, X) ∈ fd_pairs result) ∧
    (∀ (cat : Catalog) (pstate : ParseState) (fuel : Nat) (n : JoinTree)
      (query : Option Query) (rte_id : RTEId) (r : AnalyzeOut) (location : Int)
      (query_stack : QueryStack),
      analyze_join_tree cat pstate fuel n query rte_id {} location query_stack = .ok r →
      ∃ ps, r.functional_dependencies = fd_flat ps ∧ SelfPaired ps) := by
  refine ⟨⟨_, update_functional_dependencies_pairs _ _ _ _ _ _ _, ?_⟩, ?_⟩
  · rw [fd_pairs_flat]
    intro X hX
    have hXX : (X, X) ∈ FD_ing := hpaired (X, referencing_id) hX
    rw [mem_combined_pairs, mem_outer_join_pairs, mem_carried_pairs]
    by_cases hp : ReferencingPreserved fk_dir join_type
    · exact Or.inl (Or.inl ⟨hp, hXX⟩)
    · exact Or.inr ⟨rfl, hself, Or.inl ⟨hp, hXX, hX⟩⟩
  · intro cat pstate fuel n query rte_id r location query_stack hr
    exact analyze_join_tree_self_paired cat pstate fuel n query rte_id {} location
      query_stack fd_self_paired_nil r hr

/-- Claim C29 at the FD set `[(311, 311), (311, 312)]` that the analysis returns for the
join `t2 JOIN t1 KEY (c1) <- t2 (c3)` of a subquery: with `t1` (identity 312) as the
referencing relation of an INNER join to a relation 2 with `FD_ed = [(2, 2)]`, the
self-pair `(311, 311)` of `t2` is in the result. -/
theorem self_pair_of_determinant_kept_witness :
    analyze_join_tree Demo.cat (Demo.pstate_of Demo.rte_gj) 3 Demo.join_tree_t2_t1
        (some Demo.group_over_join_query) 31 {} 7 [Demo.group_over_join_query] =
      .ok { uniqueness_preservation := [311, 312],
            functional_dependencies := fd_flat [(311, 311), (311, 312)] } ∧
    SelfPaired [((311 : RTEId), (311 : RTEId)), (311, 312)] ∧
    ∃ result,
      update_functional_dependencies (fd_flat [(311, 311), (311, 312)]) 312
        (fd_flat [(2, 2)]) 2 true .JOIN_INNER .FKDIR_FROM = .ok result ∧
      (311, 311) ∈ fd_pairs result :=
  ⟨rfl, by unfold SelfPaired; decide,
    (fun ⟨result, h, h2⟩ => ⟨result, h, h2 311 (by decide)⟩)
      (self_pair_of_determinant_kept [(311, 311), (311, 312)] 312 [(2, 2)] 2 .JOIN_INNER
        .FKDIR_FROM (by unfold SelfPaired; decide) (by decide)).1⟩

/-! ## The carry-forward step over outer joins -/

theorem update_functional_dependencies_always_carry_pairs (FD_ing : List (RTEId × RTEId))
    (referencing_id : RTEId) (FD_ed : List (RTEId × RTEId)) (referenced_id : RTEId)
    (fk_cols_not_null : Bool) (join_type : JoinType) (fk_dir : ForeignKeyDirection) :
    update_functional_dependencies_always_carry (fd_flat FD_ing) referencing_id
        (fd_flat FD_ed) referenced_id fk_cols_not_null join_type fk_dir =
      .ok (fd_flat (outer_join_pairs FD_ing FD_ed join_type fk_dir ++
        (if fk_cols_not_null = true ∧ (referenced_id, referenced_id) ∈ FD_ed then
          carried_pairs FD_ing referencing_id ++
            transitive_pairs FD_ing referencing_id FD_ed referenced_id
        else []))) := by
  have houter : (if ((fk_dir = .FKDIR_TO ∧ join_type = .JOIN_LEFT) ∨
        (fk_dir = .FKDIR_FROM ∧ join_type = .JOIN_RIGHT) ∨ join_type = .JOIN_FULL)
      then (if ((fk_dir = .FKDIR_FROM ∧ join_type = .JOIN_LEFT) ∨
          (fk_dir = .FKDIR_TO ∧ join_type = .JOIN_RIGHT) ∨ join_type = .JOIN_FULL)
        then ([] : List RTEId) ++ fd_flat FD_ing else []) ++ fd_flat FD_ed
      else (if ((fk_dir = .FKDIR_FROM ∧ join_type = .JOIN_LEFT) ∨
          (fk_dir = .FKDIR_TO ∧ join_type = .JOIN_RIGHT) ∨ join_type = .JOIN_FULL)
        then ([] : List RTEId) ++ fd_flat FD_ing else [])) =
      fd_flat (outer_join_pairs FD_ing FD_ed join_type fk_dir) := by
    unfold outer_join_pairs
    rw [fd_flat_append]
    by_cases h1 : ReferencingPreserved fk_dir join_type <;>
      by_cases h2 : ReferencedPreserved fk_dir join_type
    · have h1b := h1
      have h2b := h2
      unfold ReferencingPreserved at h1b
      unfold ReferencedPreserved at h2b
      simp only [h1, h2, h1b, h2b, if_true, List.nil_append]
    · have h1b := h1
      have h2b := h2
      unfold ReferencingPreserved at h1b
      unfold ReferencedPreserved at h2b
      simp only [h1, h2, h1b, h2b, if_true, if_false, List.nil_append]
      exact (List.append_nil _).symm
    · have h1b := h1
      have h2b := h2
      unfold ReferencingPreserved at h1b
      unfold ReferencedPreserved at h2b
      simp only [h1, h2, h1b, h2b, if_true, if_false, List.nil_append]
      rfl
    · have h1b := h1
      have h2b := h2
      unfold ReferencingPreserved at h1b
      unfold ReferencedPreserved at h2b
      simp only [h1, h2, h1b, h2b, if_false]
      rfl
  unfold update_functional_dependencies_always_carry
  simp only [houter]
  cases fk_cols_not_null with
  | false => simp
  | true =>
      simp only [Bool.not_true, Bool.false_eq_true, if_false, fds_has_self_dep_flat, ok_bind,
        true_and]
      by_cases hself : (referenced_id, referenced_id) ∈ FD_ed
      · simp only [hself, decide_True, Bool.not_true, Bool.false_eq_true, if_false, if_true,
          fds_carry_forward_flat, ok_bind, fds_transitive_flat, List.append_assoc]
        rfl
      · simp only [hself, decide_False, Bool.not_false, if_true, if_false, pure_eq_ok,
          List.append_nil]

/-- Claim C30. Every pair the carry-forward step adds is a pair of `FD_ing`.  So, for all
inputs, whenever the outer-join rule for the referencing side applies,
`update_functional_dependencies` and the variant that runs the carry-forward step
unconditionally both return, and their results have the same pairs; when the rule does
not apply the two return the same list. -/
theorem carry_forward_skip_loses_nothing (FD_ing : List (RTEId × RTEId))
    (referencing_id : RTEId) (FD_ed : List (RTEId × RTEId)) (referenced_id : RTEId)
    (fk_cols_not_null : Bool) (join_type : JoinType) (fk_dir : ForeignKeyDirection) :
    (∀ (so_far : List (RTEId × RTEId)),
      ∃ carried,
        fds_carry_forward referencing_id (fd_flat FD_ing) (fd_flat FD_ing) (fd_flat so_far) =
          .ok (fd_flat (so_far ++ carried)) ∧
        ∀ p ∈ carried, p ∈ FD_ing) ∧
    (∃ result variant,
      update_functional_dependencies (fd_flat FD_ing) referencing_id (fd_flat FD_ed)
        referenced_id fk_cols_not_null join_type fk_dir = .ok result ∧
      update_functional_dependencies_always_carry (fd_flat FD_ing) referencing_id
        (fd_flat FD_ed) referenced_id fk_cols_not_null join_type fk_dir = .ok variant ∧
      (((fk_dir = .FKDIR_FROM ∧ join_type = .JOIN_LEFT) ∨
          (fk_dir = .FKDIR_TO ∧ join_type = .JOIN_RIGHT) ∨ join_type = .JOIN_FULL) →
        ∀ p, p ∈ fd_pairs result ↔ p ∈ fd_pairs variant) ∧
      (¬ ((fk_dir = .FKDIR_FROM ∧ join_type = .JOIN_LEFT) ∨
          (fk_dir = .FKDIR_TO ∧ join_type = .JOIN_RIGHT) ∨ join_type = .JOIN_FULL) →
        result = variant)) := by
  refine ⟨fun so_far => ⟨carried_pairs FD_ing referencing_id,
      fds_carry_forward_flat referencing_id FD_ing FD_ing so_far,
      fun p hp => (mem_carried_pairs.mp hp).1⟩,
    _, _, update_functional_dependencies_pairs _ _ _ _ _ _ _,
    update_functional_dependencies_always_carry_pairs _ _ _ _ _ _ _, fun h p => ?_, fun h => ?_⟩
  · have hp : ReferencingPreserved fk_dir join_type := h
    rw [fd_pairs_flat, fd_pairs_flat, mem_combined_pairs, List.mem_append]
    by_cases hc : fk_cols_not_null = true ∧ (referenced_id, referenced_id) ∈ FD_ed
    · rw [if_pos hc, List.mem_append]
      constructor
      · rintro (h1 | ⟨_, _, ⟨hn, _⟩ | ht⟩)
        · exact Or.inl h1
        · exact absurd hp hn
        · exact Or.inr (Or.inr ht)
      · rintro (h1 | hcar | ht)
        · exact Or.inl h1
        · exact Or.inl (mem_outer_join_pairs.mpr
            (Or.inl ⟨hp, (mem_carried_pairs.mp hcar).1⟩))
        · exact Or.inr ⟨hc.1, hc.2, Or.inr ht⟩
    · rw [if_neg hc]
      constructor
      · rintro (h1 | ⟨h2, h3, _⟩)
        · exact Or.inl h1
        · exact absurd ⟨h2, h3⟩ hc
      · rintro (h1 | h2)
        · exact Or.inl h1
        · cases h2
  · have hp : ¬ ReferencingPreserved fk_dir join_type := h
    unfold combined_pairs
    rw [if_neg hp]

/-- Claim C30 at a LEFT join in direction FROM with `FD_ing = [(1, 1), (1, 7)]`,
`FD_ed = [(2, 2)]`: the code returns the pairs `(1, 1), (1, 7), (1, 2)` and the variant
the pairs `(1, 1), (1, 7), (1, 1), (1, 7), (1, 2)`. -/
theorem carry_forward_skip_loses_nothing_witness :
    update_functional_dependencies [1, 1, 1, 7] 1 [2, 2] 2 true .JOIN_LEFT .FKDIR_FROM =
      .ok [1, 1, 1, 7, 1, 2] ∧
    update_functional_dependencies_always_carry [1, 1, 1, 7] 1 [2, 2] 2 true .JOIN_LEFT
        .FKDIR_FROM =
      .ok [1, 1, 1, 7, 1, 1, 1, 7, 1, 2] ∧
    (∃ result variant,
      update_functional_dependencies [1, 1, 1, 7] 1 [2, 2] 2 true .JOIN_LEFT .FKDIR_FROM =
        .ok result ∧
      update_functional_dependencies_always_carry [1, 1, 1, 7] 1 [2, 2] 2 true .JOIN_LEFT
        .FKDIR_FROM = .ok variant ∧
      ∀ p, p ∈ fd_pairs result ↔ p ∈ fd_pairs variant) :=
  ⟨rfl, rfl,
   (fun ⟨result, variant, h1, h2, h3, _⟩ =>
      ⟨result, variant, h1, h2, h3 (Or.inl ⟨rfl, rfl⟩)⟩)
    (carry_forward_skip_loses_nothing [(1, 1), (1, 7)] 1 [(2, 2)] 2 true .JOIN_LEFT
      .FKDIR_FROM).2⟩

/-! ## What a successful validation has established -/

/-- Claim C34. Whenever `transformAndValidateForeignKeyJoin` succeeds, the drill-down of
the referenced side has returned a base entry, the analysis of the referenced child has
returned its two sets, the identity of that base entry is a member of the UniquenessSet,
and the flat FDSet holds that identity at an even position `2 * k` and again at the
position after it: the self-pair. -/
theorem success_implies_referenced_guarantees (cat : Catalog) (pstate : ParseState)
    (fuel : Nat) (join : JoinExpr) (r_nsitem : ParseNamespaceItem)
    (l_namespace : List ParseNamespaceItem) (j : JoinExpr)
    (hok : transformAndValidateForeignKeyJoin cat pstate fuel join r_nsitem l_namespace =
      .ok j) :
    ∃ fkjn other_rel referenced_rte referenced_attnums base_referenced_rte
      referenced_base_attnums ed,
      join.fkJoin = some (.clause fkjn) ∧
      find_other_rel fkjn.refAlias l_namespace = some other_rel ∧
      rt_fetch (orient_sides fkjn join other_rel r_nsitem).referenced_rel.p_rtindex
        pstate.p_rtable = .ok referenced_rte ∧
      drill_down_to_base_rel cat pstate fuel referenced_rte referenced_attnums
        fkjn.location [] = .ok (base_referenced_rte, referenced_base_attnums) ∧
      analyze_join_tree cat pstate fuel
        (orient_sides fkjn join other_rel r_nsitem).referenced_arg none
        referenced_rte.rteid {} fkjn.location [] = .ok ed ∧
      base_referenced_rte.rteid ∈ ed.uniqueness_preservation ∧
      ∃ k, ed.functional_dependencies[2 * k]? = some base_referenced_rte.rteid ∧
        ed.functional_dependencies[2 * k + 1]? = some base_referenced_rte.rteid := by
  obtain ⟨fkjn, other_rel, hfk, hother, _, hv⟩ := validate_inv hok
  obtain ⟨r, ing, ed, hr, _, _, hed, he⟩ := validate_oriented_inv hv
  obtain ⟨hu, hfd, _⟩ := enforce_and_rewrite_inv he
  obtain ⟨_, hfetch, _, _, _, hdrill, _, _⟩ := resolve_sides_inv hr
  exact ⟨fkjn, other_rel, r.referenced_rte, r.referenced_attnums, r.base_referenced_rte,
    r.referenced_base_attnums, ed, hfk, hother, hfetch, hdrill, hed, hu,
    fds_has_self_dep_true hfd⟩

/-- Claim C34 at `(SELECT * FROM t1) AS s JOIN t2 KEY (c3) -> s (c1)`: the referenced side
drills down to the entry of `t1` with identity 31, and the referenced child's sets are
`[31]` and `[31, 31]`. -/
theorem success_implies_referenced_guarantees_witness :
    ∃ fkjn other_rel referenced_rte referenced_attnums base_referenced_rte
      referenced_base_attnums ed,
      (Demo.join_to "s").fkJoin = some (.clause fkjn) ∧
      find_other_rel fkjn.refAlias [Demo.ns_derived "s" 1] = some other_rel ∧
      rt_fetch
        (orient_sides fkjn (Demo.join_to "s") other_rel (Demo.ns_t2 2)).referenced_rel.p_rtindex
        (Demo.pstate_of Demo.rte_s).p_rtable = .ok referenced_rte ∧
      drill_down_to_base_rel Demo.cat (Demo.pstate_of Demo.rte_s) 4 referenced_rte
        referenced_attnums fkjn.location [] =
          .ok (base_referenced_rte, referenced_base_attnums) ∧
      analyze_join_tree Demo.cat (Demo.pstate_of Demo.rte_s) 4
        (orient_sides fkjn (Demo.join_to "s") other_rel (Demo.ns_t2 2)).referenced_arg none
        referenced_rte.rteid {} fkjn.location [] = .ok ed ∧
      base_referenced_rte.rteid ∈ ed.uniqueness_preservation ∧
      ∃ k, ed.functional_dependencies[2 * k]? = some base_referenced_rte.rteid ∧
        ed.functional_dependencies[2 * k + 1]? = some base_referenced_rte.rteid :=
  success_implies_referenced_guarantees Demo.cat (Demo.pstate_of Demo.rte_s) 4
    (Demo.join_to "s") (Demo.ns_t2 2) [Demo.ns_derived "s" 1] (Demo.join_to_resolved "s") rfl

/-! ## Invariants of the FD sets -/

/-- An invariant of flat FD lists that holds of the empty list and of a leaf's single
self-pair, and that `update_functional_dependencies` hands on from its two inputs to its
result, holds of every FD list `analyze_join_tree` returns when it holds on entry. -/
theorem analyze_join_tree_body_fds_invariant (cat : Catalog) (pstate : ParseState)
    (P : List RTEId → Prop) (hnil : P []) (hleaf : ∀ id, P [id, id])
    (hupdate : ∀ a b referencing_id referenced_id fk_cols_not_null join_type fk_dir,
      P a → P b → Oks P (update_functional_dependencies a referencing_id b referenced_id
        fk_cols_not_null join_type fk_dir))
    {analyze : JoinTree → Option Query → RTEId → AnalyzeOut → Int → QueryStack →
      Except Fault AnalyzeOut}
    {drill : RangeTblEntry → List Int → Int → QueryStack →
      Except Fault (RangeTblEntry × List Int)}
    (hanalyze : ∀ n query rte_id out location query_stack,
      P out.functional_dependencies →
      Oks (fun r => P r.functional_dependencies)
        (analyze n query rte_id out location query_stack))
    (n : JoinTree) (query : Option Query) (rte_id : RTEId) (out : AnalyzeOut)
    (location : Int) (query_stack : QueryStack)
    (hout : P out.functional_dependencies) :
    Oks (fun r => P r.functional_dependencies)
      (analyze_join_tree_body cat pstate analyze drill n query rte_id out location
        query_stack) := by
  unfold analyze_join_tree_body
  split
  · split
    · dsimp only
      refine oks_bind (fun _ => True) (oks_any _) fun ing_rte _ => ?_
      refine oks_bind (fun _ => True) (oks_any _) fun ed_rte _ => ?_
      refine oks_bind (fun r => P r.functional_dependencies)
        (hanalyze _ _ _ _ _ _ hnil) fun ing hing => ?_
      refine oks_ite (oks_pure hing) ?_
      refine oks_bind (fun r => P r.functional_dependencies)
        (hanalyze _ _ _ _ _ _ hnil) fun ed hed => ?_
      refine oks_ite (oks_pure hed) ?_
      refine oks_bind (fun _ => True) (oks_any _) fun p1 _ => ?_
      obtain ⟨b1, a1⟩ := p1
      dsimp only
      refine oks_bind (fun _ => True) (oks_any _) fun p2 _ => ?_
      obtain ⟨b2, a2⟩ := p2
      dsimp only
      refine oks_bind (fun _ => True) (oks_any _) fun _ _ => ?_
      refine oks_bind (fun _ => True) (oks_any _) fun _ _ => ?_
      exact oks_bind P (hupdate _ _ _ _ _ _ _ hing hed) fun fds hfds => oks_pure hfds
    · exact oks_error _
  · dsimp only
    refine oks_bind (fun _ => True) (oks_any _) fun rte _ => ?_
    refine oks_bind (fun p => P p.2.functional_dependencies) ?_ ?_
    · split
      · refine oks_bind (fun _ => True) (oks_any _) fun rel _ => ?_
        refine oks_ite (oks_bind (fun _ => True) (oks_any _) fun _ _ => oks_pure hout) ?_
        refine oks_ite ?_ (oks_pure hout)
        exact oks_bind (fun _ => True) (oks_any _) fun _ _ =>
          oks_ite (oks_pure (hleaf _)) (oks_pure hout)
      · exact oks_pure hout
      · exact oks_bind (fun _ => True) (oks_any _) fun _ _ =>
          oks_ite (oks_pure hout) (oks_pure hout)
      · exact oks_error _
    · intro p hp
      obtain ⟨inner, out2⟩ := p
      dsimp only at hp ⊢
      split
      · exact oks_pure hp
      · split
        · exact oks_pure hp
        · split
          · refine oks_bind (fun r => P r.functional_dependencies)
              (hanalyze _ _ _ _ _ _ hp) fun r hr => ?_
            intro r2 h2
            have := after_inner_query_fds _ _ _ r2 h2
            dsimp only at this ⊢
            rw [this]
            exact hr
          · exact oks_pure hp
  · exact oks_error _

theorem analyze_join_tree_fds_invariant (cat : Catalog) (pstate : ParseState)
    (P : List RTEId → Prop) (hnil : P []) (hleaf : ∀ id, P [id, id])
    (hupdate : ∀ a b referencing_id referenced_id fk_cols_not_null join_type fk_dir,
      P a → P b → Oks P (update_functional_dependencies a referencing_id b referenced_id
        fk_cols_not_null join_type fk_dir)) :
    ∀ (fuel : Nat) (n : JoinTree) (query : Option Query) (rte_id : RTEId) (out : AnalyzeOut)
      (location : Int) (query_stack : QueryStack),
      P out.functional_dependencies →
      Oks (fun r => P r.functional_dependencies)
        (analyze_join_tree cat pstate fuel n query rte_id out location query_stack)
  | 0, _, _, _, _, _, _, _ => oks_error _
  | fuel + 1, n, query, rte_id, out, location, query_stack, hout => by
      rw [analyze_join_tree_succ]
      exact analyze_join_tree_body_fds_invariant cat pstate P hnil hleaf hupdate
        (analyze_join_tree_fds_invariant cat pstate P hnil hleaf hupdate fuel) _ _ _ _ _ _ hout

theorem fd_flat_length_even : ∀ (ps : List (RTEId × RTEId)), (fd_flat ps).length % 2 = 0
  | [] => rfl
  | (a, b) :: rest => by
      rw [fd_flat_cons]
      simp only [List.length_cons]
      have := fd_flat_length_even rest
      omega

theorem even_length_iff_flat (l : List RTEId) :
    l.length % 2 = 0 ↔ ∃ ps, l = fd_flat ps :=
  ⟨fun h => ⟨fd_pairs l, (fd_flat_pairs l h).symm⟩, fun ⟨ps, h⟩ => by
    rw [h]
    exact fd_flat_length_even ps⟩

/-- Claim C35. If in `FD_ing` and in `FD_ed` every pair `(X, Y)` comes with the self-pair
`(X, X)` in the same list, then `update_functional_dependencies` returns and the same
holds of the pairs of its result, for every join type, direction and value of
`fk_cols_not_null`.  A base-table leaf yields the entry value or the single self-pair
`[(id, id)]`, so every FDSet `analyze_join_tree` returns, when it is started from a list
with this property (the empty list at every call), is the flat list of pairs with this
property. -/
theorem determinant_closure_preserved :
    (∀ (FD_ing : List (RTEId × RTEId)) (referencing_id : RTEId)
      (FD_ed : List (RTEId × RTEId)) (referenced_id : RTEId) (fk_cols_not_null : Bool)
      (join_type : JoinType) (fk_dir : ForeignKeyDirection),
      (∀ p ∈ FD_ing, (p.1, p.1) ∈ FD_ing) → (∀ p ∈ FD_ed, (p.1, p.1) ∈ FD_ed) →
      ∃ result,
        update_functional_dependencies (fd_flat FD_ing) referencing_id (fd_flat FD_ed)
          referenced_id fk_cols_not_null join_type fk_dir = .ok result ∧
        result.length % 2 = 0 ∧
        ∀ p ∈ fd_pairs result, (p.1, p.1) ∈ fd_pairs result) ∧
    (∀ (cat : Catalog) (pstate : ParseState) (fuel : Nat) (n : JoinTree)
      (query : Option Query) (rte_id : RTEId) (out r : AnalyzeOut) (location : Int)
      (query_stack : QueryStack),
      (out.functional_dependencies.length % 2 = 0 ∧
        ∀ p ∈ fd_pairs out.functional_dependencies,
          (p.1, p.1) ∈ fd_pairs out.functional_dependencies) →
      analyze_join_tree cat pstate fuel n query rte_id out location query_stack = .ok r →
      r.functional_dependencies.length % 2 = 0 ∧
        ∀ p ∈ fd_pairs r.functional_dependencies,
          (p.1, p.1) ∈ fd_pairs r.functional_dependencies) := by
  constructor
  · intro FD_ing referencing_id FD_ed referenced_id fk_cols_not_null join_type fk_dir hing hed
    refine ⟨_, update_functional_dependencies_pairs _ _ _ _ _ _ _, fd_flat_length_even _, ?_⟩
    rw [fd_pairs_flat]
    exact combined_pairs_self_paired hing hed _ _ _ _ _
  · intro cat pstate fuel n query rte_id out r location query_stack hout hr
    have hsp : FdSelfPaired out.functional_dependencies := by
      refine ⟨fd_pairs out.functional_dependencies, (fd_flat_pairs _ hout.1).symm, hout.2⟩
    obtain ⟨ps, hps, hself⟩ := analyze_join_tree_self_paired cat pstate fuel n query rte_id
      out location query_stack hsp r hr
    rw [hps, fd_pairs_flat]
    exact ⟨fd_flat_length_even ps, hself⟩

/-- Claim C35 at `FD_ing = [(5, 5), (5, 1), (1, 1)]`, `FD_ed = [(2, 2)]`, an INNER join
from relation 1 to relation 2, and at the analysis of `t1 JOIN t2 KEY (c3) -> t1 (c1)`
started from the empty sets. -/
theorem determinant_closure_preserved_witness :
    (∃ result,
      update_functional_dependencies [5, 5, 5, 1, 1, 1] 1 [2, 2] 2 true .JOIN_INNER
        .FKDIR_FROM = .ok result ∧
      result.length % 2 = 0 ∧
      ∀ p ∈ fd_pairs result, (p.1, p.1) ∈ fd_pairs result) ∧
    (∀ p ∈ fd_pairs ([12, 12, 12, 11] : List RTEId),
      (p.1, p.1) ∈ fd_pairs ([12, 12, 12, 11] : List RTEId)) :=
  ⟨determinant_closure_preserved.1 [(5, 5), (5, 1), (1, 1)] 1 [(2, 2)] 2 true .JOIN_INNER
      .FKDIR_FROM (by decide) (by decide),
   (determinant_closure_preserved.2 Demo.cat (Demo.pstate_of Demo.rte_t1) 3
      Demo.join_tree_t1_t2 none 99 {}
      { uniqueness_preservation := [12, 11], functional_dependencies := [12, 12, 12, 11],
        found := false } 7 []
      ⟨rfl, fun _ h => by cases h⟩ rfl).2⟩

/-- Claim C36. For a join that is neither LEFT nor RIGHT nor FULL,
`update_functional_dependencies` returns and every pair `(X, Y)` of its result has
`(X, referencing_id)` in `FD_ing`.  In particular the self-pair of the referenced
relation is in the result only if `(referenced_id, referencing_id)` was in `FD_ing`:
when it was not, the self-pair is absent even if `FD_ed` held it. -/
theorem inner_join_pairs_determine_referencing (FD_ing : List (RTEId × RTEId))
    (referencing_id : RTEId) (FD_ed : List (RTEId × RTEId)) (referenced_id : RTEId)
    (fk_cols_not_null : Bool) (join_type : JoinType) (fk_dir : ForeignKeyDirection)
    (hleft : join_type ≠ .JOIN_LEFT) (hright : join_type ≠ .JOIN_RIGHT)
    (hfull : join_type ≠ .JOIN_FULL) :
    ∃ result,
      update_functional_dependencies (fd_flat FD_ing) referencing_id (fd_flat FD_ed)
        referenced_id fk_cols_not_null join_type fk_dir = .ok result ∧
      (∀ X Y, (X, Y) ∈ fd_pairs result → (X, referencing_id) ∈ FD_ing) ∧
      ((referenced_id, referenced_id) ∈ fd_pairs result →
        (referenced_id, referencing_id) ∈ FD_ing) ∧
      ((referenced_id, referencing_id) ∉ FD_ing →
        (referenced_id, referenced_id) ∉ fd_pairs result) := by
  have hn1 : ¬ ReferencingPreserved fk_dir join_type := by
    rintro (⟨_, h⟩ | ⟨_, h⟩ | h)
    · exact hleft h
    · exact hright h
    · exact hfull h
  have hn2 : ¬ ReferencedPreserved fk_dir join_type := by
    rintro (⟨_, h⟩ | ⟨_, h⟩ | h)
    · exact hleft h
    · exact hright h
    · exact hfull h
  have hall : ∀ p, p ∈ combined_pairs FD_ing referencing_id FD_ed referenced_id
      fk_cols_not_null join_type fk_dir → (p.1, referencing_id) ∈ FD_ing := by
    intro p hp
    rcases mem_combined_pairs.mp hp with hout | ⟨_, _, ⟨_, hc⟩ | ht⟩
    · rcases mem_outer_join_pairs.mp hout with ⟨h, _⟩ | ⟨h, _⟩
      · exact absurd h hn1
      · exact absurd h hn2
    · exact (mem_carried_pairs.mp hc).2
    · exact (mem_transitive_pairs.mp ht).1
  refine ⟨_, update_functional_dependencies_pairs _ _ _ _ _ _ _, ?_, ?_, ?_⟩
  · rw [fd_pairs_flat]
    exact fun X Y h => hall (X, Y) h
  · rw [fd_pairs_flat]
    exact fun h => hall _ h
  · rw [fd_pairs_flat]
    exact fun hn h => hn (hall _ h)

/-- Claim C36 at the INNER join of the leaves `t2` (identity 12, referencing) and `t1`
(identity 11, referenced): the result is `[(12, 12), (12, 11)]`, without the self-pair of
`t1` that `FD_ed` held. -/
theorem inner_join_pairs_determine_referencing_witness :
    update_functional_dependencies [12, 12] 12 [11, 11] 11 true .JOIN_INNER .FKDIR_TO =
      .ok [12, 12, 12, 11] ∧
    (∃ result,
      update_functional_dependencies [12, 12] 12 [11, 11] 11 true .JOIN_INNER .FKDIR_TO =
        .ok result ∧
      (11, 11) ∉ fd_pairs result) :=
  ⟨rfl,
   (fun ⟨result, h, _, _, h3⟩ => ⟨result, h, h3 (by decide)⟩)
    (inner_join_pairs_determine_referencing [(12, 12)] 12 [(11, 11)] 11 true .JOIN_INNER
      .FKDIR_TO (by decide) (by decide) (by decide))⟩

/-- Claim C38. If `FD_ing` and `FD_ed` are flat lists of even length,
`update_functional_dependencies` returns a list, which is to say that none of its reads
at the positions `i` and `i + 1` falls outside a list, and the list returned has even
length.  The scan of the validator for the self-pair returns an answer on every list of
even length.  Every FDSet `analyze_join_tree` returns, when started from a list of even
length (the empty list at every call), has even length. -/
theorem even_length_encoding_invariant :
    (∀ (referencing_fds : List RTEId) (referencing_id : RTEId) (referenced_fds : List RTEId)
      (referenced_id : RTEId) (fk_cols_not_null : Bool) (join_type : JoinType)
      (fk_dir : ForeignKeyDirection),
      referencing_fds.length % 2 = 0 → referenced_fds.length % 2 = 0 →
      ∃ result,
        update_functional_dependencies referencing_fds referencing_id referenced_fds
          referenced_id fk_cols_not_null join_type fk_dir = .ok result ∧
        result.length % 2 = 0) ∧
    (∀ (id : RTEId) (fds : List RTEId), fds.length % 2 = 0 →
      ∃ answer, fds_has_self_dep id fds = .ok answer) ∧
    (∀ (cat : Catalog) (pstate : ParseState) (fuel : Nat) (n : JoinTree)
      (query : Option Query) (rte_id : RTEId) (out r : AnalyzeOut) (location : Int)
      (query_stack : QueryStack),
      out.functional_dependencies.length % 2 = 0 →
      analyze_join_tree cat pstate fuel n query rte_id out location query_stack = .ok r →
      r.functional_dependencies.length % 2 = 0) := by
  have hupd : ∀ (a b : List RTEId) (referencing_id referenced_id : RTEId)
      (fk_cols_not_null : Bool) (join_type : JoinType) (fk_dir : ForeignKeyDirection),
      a.length % 2 = 0 → b.length % 2 = 0 →
      ∃ result, update_functional_dependencies a referencing_id b referenced_id
          fk_cols_not_null join_type fk_dir = .ok result ∧ result.length % 2 = 0 := by
    intro a b referencing_id referenced_id fk_cols_not_null join_type fk_dir ha hb
    obtain ⟨ps, rfl⟩ := (even_length_iff_flat a).mp ha
    obtain ⟨qs, rfl⟩ := (even_length_iff_flat b).mp hb
    exact ⟨_, update_functional_dependencies_pairs _ _ _ _ _ _ _, fd_flat_length_even _⟩
  refine ⟨fun a ia b ib nn jt dir ha hb => hupd a b ia ib nn jt dir ha hb,
    fun id fds hfds => ?_, ?_⟩
  · obtain ⟨ps, rfl⟩ := (even_length_iff_flat fds).mp hfds
    exact ⟨_, fds_has_self_dep_flat id ps⟩
  · intro cat pstate fuel n query rte_id out r location query_stack hout hr
    refine analyze_join_tree_fds_invariant cat pstate (fun l => l.length % 2 = 0) rfl
      (fun _ => by simp) ?_ fuel n query rte_id out location query_stack hout r hr
    intro a b referencing_id referenced_id fk_cols_not_null join_type fk_dir ha hb res hres
    obtain ⟨result, h1, h2⟩ := hupd a b referencing_id referenced_id fk_cols_not_null
      join_type fk_dir ha hb
    rw [h1] at hres
    cases hres
    exact h2

/-- Claim C38 at the lists `[5, 1, 1, 1]` and `[2, 2, 2, 3]`. -/
theorem even_length_encoding_invariant_witness :
    (∃ result,
      update_functional_dependencies [5, 1, 1, 1] 1 [2, 2, 2, 3] 2 true .JOIN_INNER
        .FKDIR_FROM = .ok result ∧
      result.length % 2 = 0) ∧
    (∃ answer, fds_has_self_dep 2 [2, 2, 2, 3] = .ok answer) :=
  ⟨even_length_encoding_invariant.1 [5, 1, 1, 1] 1 [2, 2, 2, 3] 2 true .JOIN_INNER
      .FKDIR_FROM rfl rfl,
   even_length_encoding_invariant.2.1 2 [2, 2, 2, 3] rfl⟩

/-! ## Inner queries that are not traversed -/

/-- Claim C32. A leaf that is a view, a subquery or a reference to a non-recursive CTE,
and whose inner query has a from-list of a length other than one (or no `jointree`):
whatever the recursive calls would compute and whatever the `groupClause` of the inner
query is, `analyze_join_tree` returns its three outputs as they were on entry; from the
empty sets and found = false, with which every call starts, it returns an empty
UniquenessSet, an empty FDSet and found = false. -/
theorem multi_from_query_not_traversed (cat : Catalog) (pstate : ParseState)
    (analyze : JoinTree → Option Query → RTEId → AnalyzeOut → Int → QueryStack →
      Except Fault AnalyzeOut)
    (drill : RangeTblEntry → List Int → Int → QueryStack →
      Except Fault (RangeTblEntry × List Int))
    (rtindex : Int) (query : Option Query) (rte : RangeTblEntry) (q : Query)
    (rte_id : RTEId) (out : AnalyzeOut) (location : Int) (query_stack : QueryStack)
    (hfetch : rt_fetch rtindex (enclosing_rtable pstate query) = .ok rte)
    (hinner : LeafInnerQuery cat pstate query_stack rte q)
    (hfrom : ∀ jointree, q.fields.jointree = some jointree → jointree.fromlist.length ≠ 1) :
    analyze_join_tree_body cat pstate analyze drill (.RangeTblRef rtindex) query rte_id out
        location query_stack = .ok out ∧
    (out = {} →
      ∃ r, analyze_join_tree_body cat pstate analyze drill (.RangeTblRef rtindex) query
          rte_id out location query_stack = .ok r ∧
        r.uniqueness_preservation = [] ∧ r.functional_dependencies = [] ∧
        r.found = false) := by
  have hmain : analyze_join_tree_body cat pstate analyze drill (.RangeTblRef rtindex) query
      rte_id out location query_stack = .ok out := by
    unfold enclosing_rtable at hfetch
    have htail : (match q.fields.jointree with
        | none => (pure out : Except Fault AnalyzeOut)
        | some jointree =>
            match jointree.fromlist with
            | [item] => do
                let out ← analyze item (some q) rte_id out location (q :: query_stack)
                after_inner_query cat q out
            | _ => pure out) = .ok out := by
      cases hj : q.fields.jointree with
      | none => rfl
      | some jointree =>
          have hlen := hfrom jointree hj
          dsimp only
          split
          · rename_i item hfl
            rw [hfl] at hlen
            exact absurd rfl hlen
          · rfl
    unfold analyze_join_tree_body
    rcases hinner with (⟨hk, hs⟩ | ⟨hk, rel, hrel, hv, hq⟩) | ⟨hk, cte, hcte, hrec, hq⟩
    · simp only [hfetch, ok_bind, hk, hs, pure_eq_ok]
      exact htail
    · simp only [hfetch, ok_bind, hk, table_open, hrel, hv, if_true, get_view_query, hq,
        pure_eq_ok]
      exact htail
    · simp only [hfetch, ok_bind, hk, hcte, hrec, Bool.not_false, if_true, hq, pure_eq_ok]
      exact htail
  refine ⟨hmain, fun hout => ⟨out, hmain, ?_⟩⟩
  rw [hout]
  exact ⟨rfl, rfl, rfl⟩

/-- Claim C32 at the leaf `(SELECT a.c1, b.c2 FROM t1 a, t1 b) AS s`, whose from-list has
two items. -/
theorem multi_from_query_not_traversed_witness :
    analyze_join_tree Demo.cat (Demo.pstate_of Demo.rte_two_tables) 1 (.RangeTblRef 1) none
        22 {} 7 [] = .ok {} :=
  (multi_from_query_not_traversed Demo.cat (Demo.pstate_of Demo.rte_two_tables)
    (analyze_join_tree Demo.cat (Demo.pstate_of Demo.rte_two_tables) 0)
    (drill_down_to_base_rel Demo.cat (Demo.pstate_of Demo.rte_two_tables) 0)
    1 none Demo.rte_two_tables
    (.mk { jointree := some { fromlist := [.RangeTblRef 1, .RangeTblRef 2] },
           targetList := [{ expr := .Var { varno := 1, varattno := 1, location := 21 } },
                          { expr := .Var { varno := 2, varattno := 2, location := 27 } }] }
      [Demo.rte_t1_as 221, Demo.rte_t1_as 222] [])
    22 {} 7 [] rfl (Or.inl (Or.inl ⟨rfl, rfl⟩))
    (fun jointree hj => by cases hj; decide)).1

/-! ## GROUP BY after the descent -/

/-- Claim C31 does not hold of the code. The leaf
`(SELECT t1.c1 FROM t2 JOIN t1 KEY (c1) <- t2 (c3) GROUP BY t1.c1) AS g` has a single
from-item, the join, for which the analysis computes the UniquenessSet `[311, 312]` (the
identities of `t2` and `t1`) and the FDSet `[(311, 311), (311, 312)]`.  The GROUP BY test
succeeds, the grouped base table being `t1`.  The UniquenessSet returned for the leaf is
`[312]`: the member 311 that was present is not kept, where the claim, and the comments
of the code ("add the base table's rteid to the list"), have the identity added to the
set.  The FDSet is returned unchanged. -/
theorem group_by_success_drops_members :
    Demo.rte_gj.subquery = some Demo.group_over_join_query ∧
    SingleFromItem Demo.group_over_join_query Demo.join_tree_t2_t1 ∧
    analyze_join_tree Demo.cat (Demo.pstate_of Demo.rte_gj) 3 Demo.join_tree_t2_t1
        (some Demo.group_over_join_query) 31 {} 7 [Demo.group_over_join_query] =
      .ok { uniqueness_preservation := [311, 312],
            functional_dependencies := [311, 311, 311, 312] } ∧
    check_group_by_preserves_uniqueness Demo.cat Demo.group_over_join_query [311, 312] =
      .ok (true, [312]) ∧
    analyze_join_tree Demo.cat (Demo.pstate_of Demo.rte_gj) 4 (.RangeTblRef 1) none 31 {} 7
        [] =
      .ok { uniqueness_preservation := [312],
            functional_dependencies := [311, 311, 311, 312] } ∧
    (311 : RTEId) ∈ ([311, 312] : List RTEId) ∧ (311 : RTEId) ∉ ([312] : List RTEId) := by
  refine ⟨rfl, ⟨_, rfl, rfl⟩, rfl, rfl, rfl, by decide, by decide⟩

theorem check_group_by_preserves_uniqueness_inv {cat : Catalog} {query : Query}
    {uniqueness_preservation u : List RTEId} {preserved : Bool}
    (h : check_group_by_preserves_uniqueness cat query uniqueness_preservation =
      .ok (preserved, u)) :
    (preserved = true ∧ ∃ base cols, group_by_base query = .ok (some (base, cols)) ∧
      u = [base.rteid]) ∨
    (preserved = false ∧ u = uniqueness_preservation) := by
  unfold check_group_by_preserves_uniqueness at h
  cases hb : group_by_base query with
  | error e =>
      rw [hb] at h
      cases h
  | ok base =>
      rw [hb] at h
      simp only [ok_bind] at h
      cases base with
      | none =>
          have hh := Except.ok.inj h
          simp only [Prod.mk.injEq] at hh
          exact Or.inr ⟨hh.1.symm, hh.2.symm⟩
      | some p =>
          obtain ⟨base_rte, group_cols⟩ := p
          dsimp only at h
          cases hrel : table_open cat base_rte.relid with
          | error e =>
              rw [hrel] at h
              cases h
          | ok rel =>
              rw [hrel] at h
              simp only [ok_bind] at h
              by_cases hres : check_unique_index_covers_columns rel group_cols = true
              · rw [if_pos hres] at h
                have hh := Except.ok.inj h
                simp only [Prod.mk.injEq] at hh
                exact Or.inl ⟨hh.1.symm, base_rte, group_cols, rfl, hh.2.symm⟩
              · rw [if_neg hres] at h
                have hh := Except.ok.inj h
                simp only [Prod.mk.injEq] at hh
                exact Or.inr ⟨hh.1.symm, hh.2.symm⟩

/-- The leaf rule of the analyzer at an entry that leads to the inner query `q` with the
single from-item `item`: the analysis of `item`, followed by the GROUP BY step. -/
theorem analyze_leaf_inner_query {cat : Catalog} {pstate : ParseState}
    {analyze : JoinTree → Option Query → RTEId → AnalyzeOut → Int → QueryStack →
      Except Fault AnalyzeOut}
    {drill : RangeTblEntry → List Int → Int → QueryStack →
      Except Fault (RangeTblEntry × List Int)}
    {rtindex : Int} {query : Option Query} {rte : RangeTblEntry} {q : Query}
    {item : JoinTree} (rte_id : RTEId) (out : AnalyzeOut) (location : Int)
    {query_stack : QueryStack}
    (hfetch : rt_fetch rtindex (enclosing_rtable pstate query) = .ok rte)
    (hinner : LeafInnerQuery cat pstate query_stack rte q)
    (hitem : SingleFromItem q item) :
    analyze_join_tree_body cat pstate analyze drill (.RangeTblRef rtindex) query rte_id out
        location query_stack =
      analyze item (some q) rte_id out location (q :: query_stack) >>=
        after_inner_query cat q := by
  obtain ⟨jointree, hjt, hfl⟩ := hitem
  unfold enclosing_rtable at hfetch
  unfold analyze_join_tree_body
  rcases hinner with (⟨hk, hs⟩ | ⟨hk, rel, hrel, hv, hq⟩) | ⟨hk, cte, hcte, hrec, hq⟩
  · simp only [hfetch, ok_bind, hk, hs, pure_eq_ok, hjt, hfl]
  · simp only [hfetch, ok_bind, hk, table_open, hrel, hv, if_true, get_view_query, hq,
      pure_eq_ok, hjt, hfl]
  · simp only [hfetch, ok_bind, hk, hcte, hrec, Bool.not_false, if_true, hq, pure_eq_ok,
      hjt, hfl]

/-- The GROUP BY step as the code has it.  The analyzer at a leaf that leads to an inner query
with a single from-item and a GROUP BY clause, the analysis of the from-item having
returned `inner` and the GROUP BY test having returned its answer: when the test
succeeds the UniquenessSet returned is the single identity of the grouped base entry,
whatever the set of the from-item held; when it fails the UniquenessSet returned is
empty.  The FDSet and `found` of the from-item are returned unchanged in both cases. -/
theorem group_by_resets_uniqueness (cat : Catalog) (pstate : ParseState) (fuel : Nat)
    (rtindex : Int) (query : Option Query) (rte : RangeTblEntry) (q : Query)
    (item : JoinTree) (rte_id : RTEId) (out inner : AnalyzeOut) (location : Int)
    (query_stack : QueryStack) (preserved : Bool) (u : List RTEId)
    (hfetch : rt_fetch rtindex (enclosing_rtable pstate query) = .ok rte)
    (hinner : LeafInnerQuery cat pstate query_stack rte q)
    (hitem : SingleFromItem q item)
    (hgroup : q.fields.groupClause ≠ [])
    (hanalyze : analyze_join_tree cat pstate fuel item (some q) rte_id out location
      (q :: query_stack) = .ok inner)
    (htest : check_group_by_preserves_uniqueness cat q inner.uniqueness_preservation =
      .ok (preserved, u)) :
    (preserved = true →
      ∃ base cols, group_by_base q = .ok (some (base, cols)) ∧
        analyze_join_tree cat pstate (fuel + 1) (.RangeTblRef rtindex) query rte_id out
            location query_stack =
          .ok { uniqueness_preservation := [base.rteid],
                functional_dependencies := inner.functional_dependencies,
                found := inner.found }) ∧
    (preserved = false →
      analyze_join_tree cat pstate (fuel + 1) (.RangeTblRef rtindex) query rte_id out
          location query_stack =
        .ok { uniqueness_preservation := [],
              functional_dependencies := inner.functional_dependencies,
              found := inner.found }) := by
  have hleaf : analyze_join_tree cat pstate (fuel + 1) (.RangeTblRef rtindex) query rte_id
      out location query_stack = after_inner_query cat q inner := by
    rw [analyze_join_tree_succ, analyze_leaf_inner_query rte_id out location hfetch hinner
      hitem, hanalyze]
    rfl
  refine ⟨fun hp => ?_, fun hp => ?_⟩
  · subst hp
    rcases check_group_by_preserves_uniqueness_inv htest with ⟨_, base, cols, hb, hu⟩ | ⟨hc, _⟩
    · refine ⟨base, cols, hb, ?_⟩
      rw [hleaf]
      unfold after_inner_query
      rw [if_pos hgroup, htest, hu]
      rfl
    · cases hc
  · subst hp
    rw [hleaf]
    unfold after_inner_query
    rw [if_pos hgroup, htest]
    rfl

/-- The GROUP BY step at `(SELECT c1, max(c2) FROM t1 GROUP BY c1) AS g`, where the test succeeds
and the set is `[81]`, and at the same query grouped by `c2`, where the test fails and the
set is empty. -/
theorem group_by_resets_uniqueness_witness :
    (∃ base cols, group_by_base (Demo.group_by_query (Demo.rte_t1_as 81) 82 1) =
        .ok (some (base, cols)) ∧
      analyze_join_tree Demo.cat (Demo.pstate_of Demo.rte_g1) 2 (.RangeTblRef 1) none 18 {} 7
          [] =
        .ok { uniqueness_preservation := [base.rteid], functional_dependencies := [81, 81],
              found := false }) ∧
    analyze_join_tree Demo.cat (Demo.pstate_of Demo.rte_g2) 2 (.RangeTblRef 1) none 19 {} 7
        [] =
      .ok { uniqueness_preservation := [], functional_dependencies := [91, 91],
            found := false } :=
  ⟨(group_by_resets_uniqueness Demo.cat (Demo.pstate_of Demo.rte_g1) 1 1 none Demo.rte_g1
      (Demo.group_by_query (Demo.rte_t1_as 81) 82 1) (.RangeTblRef 1) 18 {}
      { uniqueness_preservation := [81], functional_dependencies := [81, 81] } 7 [] true
      [81] rfl (Or.inl (Or.inl ⟨rfl, rfl⟩)) ⟨_, rfl, rfl⟩ (List.cons_ne_nil _ _) rfl rfl).1
      rfl,
   (group_by_resets_uniqueness Demo.cat (Demo.pstate_of Demo.rte_g2) 1 1 none Demo.rte_g2
      (Demo.group_by_query (Demo.rte_t1_as 91) 92 2) (.RangeTblRef 1) 19 {}
      { uniqueness_preservation := [91], functional_dependencies := [91, 91] } 7 [] false
      [91] rfl (Or.inl (Or.inl ⟨rfl, rfl⟩)) ⟨_, rfl, rfl⟩ (List.cons_ne_nil _ _) rfl rfl).2
      rfl⟩

/-! ## The target entry of a grouping clause -/

/-- Claim C40 against the code. In `SELECT max(c2), c1 FROM t1 GROUP BY c1` the grouping
clause has `tleSortGroupRef` 1 and the target entry with `ressortgroupref` 1 is the second
one, `c1`.  The entry `check_group_by_preserves_uniqueness` reads for the clause is the
one at position `tleSortGroupRef`, the first, `max(c2)`, which is not a column reference:
no grouped column is collected and the test answers false, although the query is grouped
by the primary key of `t1`.  So
`(SELECT max(c2), c1 FROM t1 GROUP BY c1) AS g JOIN t2 KEY (c3) -> g (c1)` is rejected
with "does not preserve uniqueness of keys", while the same join over
`SELECT c1, max(c2) FROM t1 GROUP BY c1` is accepted. -/
theorem grouping_clause_reads_position :
    Demo.max_first_query.fields.groupClause = [{ tleSortGroupRef := 1 }] ∧
    (Demo.max_first_query.fields.targetList.filter
        (fun tle => tle.ressortgroupref = 1)).map (fun tle => tle.resname) = [some "c1"] ∧
    (list_nth Demo.max_first_query.fields.targetList ((1 : Int) - 1)).map
        (fun tle => (tle.resname, tle.ressortgroupref)) = .ok (some "max", 0) ∧
    group_by_collect Demo.max_first_query.fields.targetList
        Demo.max_first_query.fields.groupClause 0 [] = .ok (some (0, [])) ∧
    check_group_by_preserves_uniqueness Demo.cat Demo.max_first_query [401] =
      .ok (false, [401]) ∧
    analyze_join_tree Demo.cat (Demo.pstate_of Demo.rte_gm) 6 (.RangeTblRef 1) none 40 {} 7
        [] =
      .ok { uniqueness_preservation := [], functional_dependencies := [401, 401] } ∧
    transformAndValidateForeignKeyJoin Demo.cat (Demo.pstate_of Demo.rte_gm) 6
        (Demo.join_to "g") (Demo.ns_t2 2) [Demo.ns_gm 1] = .error (err_not_unique 7) ∧
    transformAndValidateForeignKeyJoin Demo.cat (Demo.pstate_of Demo.rte_g1) 6
        (Demo.join_to "g") (Demo.ns_t2 2) [Demo.ns_derived "g" 1] =
      .ok (Demo.join_to_resolved "g") :=
  ⟨rfl, rfl, rfl, rfl, rfl, rfl, rfl, rfl⟩

/-! ## One step of the drill-down -/

theorem at_clause_of_silent {location : Int} {f : Fault} (h : InternalOrSilent f) :
    AtClausePosition location f :=
  fun e he => Or.inr (h e he)

theorem at_clause_at {location : Int} {e : ErrorData} (h : e.cursorpos = some location) :
    AtClausePosition location (.ereport e) := by
  intro e2 he2
  cases he2
  exact Or.inl h

theorem find_cte_for_rte_walk_fueled (pstate : ParseState) (rte : RangeTblEntry) :
    ∀ (query_stack : QueryStack) (levelsup : Nat),
      Errs (fun f => f ≠ .out_of_fuel) (find_cte_for_rte_walk pstate rte levelsup query_stack)
  | [], levelsup => by
      simp only [find_cte_for_rte_walk]
      unfold GetCTEForRTE
      dsimp only
      split
      · exact errs_error (by simp)
      · split
        · exact errs_ok _
        · exact errs_error (by simp)
  | qs :: parent, 0 => by
      simp only [find_cte_for_rte_walk]
      split
      · exact errs_ok _
      · exact errs_error (by simp)
  | qs :: parent, levelsup + 1 => by
      simp only [find_cte_for_rte_walk]
      exact find_cte_for_rte_walk_fueled pstate rte parent levelsup

theorem find_cte_for_rte_fueled (pstate : ParseState) (query_stack : QueryStack)
    (rte : RangeTblEntry) :
    Errs (fun f => f ≠ .out_of_fuel) (find_cte_for_rte pstate query_stack rte) :=
  find_cte_for_rte_walk_fueled pstate rte query_stack _

theorem drill_loop_ok_vars {look : Int → Except Fault (Var × Fault)} :
    ∀ (attnums : List Int) (g : Int) (acc : List Int) (k : Int) (next : List Int),
      drill_loop look attnums g acc = .ok (k, next) →
      ∃ vars, MapsToVars look attnums vars ∧
        next = acc ++ vars.map (fun v => v.varattno) ∧
        (∀ v ∈ vars, v.varno ≠ 0 → v.varno = k) ∧ (g ≠ 0 → k = g) ∧
        (k = g ∨ ∃ v ∈ vars, v.varno = k)
  | [], g, acc, k, next, h => by
      unfold drill_loop at h
      have hh := Except.ok.inj h
      simp only [Prod.mk.injEq] at hh
      exact ⟨[], .nil, by simp [hh.2], fun _ hv => (by cases hv), fun _ => hh.1.symm,
        Or.inl hh.1.symm⟩
  | a :: rest, g, acc, k, next, h => by
      unfold drill_loop at h
      cases hl : look a with
      | error f =>
          rw [hl] at h
          cases h
      | ok p =>
          obtain ⟨v, m⟩ := p
          rw [hl] at h
          dsimp only at h
          by_cases hg : g = 0
          · rw [if_pos hg] at h
            obtain ⟨vars, hm, hnext, hall, hgk, hex⟩ :=
              drill_loop_ok_vars rest v.varno (acc ++ [v.varattno]) k next h
            refine ⟨v :: vars, .cons ⟨m, hl⟩ hm, by simp [hnext], ?_, ?_, Or.inr ?_⟩
            · intro w hw hw0
              rcases List.mem_cons.mp hw with rfl | hw
              · exact (hgk hw0).symm
              · exact hall w hw hw0
            · intro hg0
              exact absurd hg hg0
            · rcases hex with hkv | ⟨w, hw, hwk⟩
              · exact ⟨v, List.mem_cons_self _ _, hkv.symm⟩
              · exact ⟨w, List.mem_cons_of_mem _ hw, hwk⟩
          · rw [if_neg hg] at h
            by_cases hne : g ≠ v.varno
            · rw [if_pos hne] at h
              cases h
            · rw [if_neg hne] at h
              have hgv : g = v.varno := not_not.mp hne
              obtain ⟨vars, hm, hnext, hall, hgk, _⟩ :=
                drill_loop_ok_vars rest g (acc ++ [v.varattno]) k next h
              have hkg : k = g := hgk hg
              refine ⟨v :: vars, .cons ⟨m, hl⟩ hm, by simp [hnext], ?_, fun _ => hkg,
                Or.inl hkg⟩
              intro w hw hw0
              rcases List.mem_cons.mp hw with rfl | hw
              · rw [hkg, hgv]
              · exact hall w hw hw0

theorem drill_body_join_case {cat : Catalog} {pstate : ParseState}
    {drill : RangeTblEntry → List Int → Int → QueryStack →
      Except Fault (RangeTblEntry × List Int)}
    {rte : RangeTblEntry} (hk : rte.rtekind = .RTE_JOIN) (attnums : List Int)
    (location : Int) (query_stack : QueryStack) :
    drill_down_to_base_rel_body cat pstate drill rte attnums location query_stack =
      (drill_loop (look_join_alias rte.fields.joinaliasvars location) attnums 0 []) >>=
        fun p =>
          if p.1 = 0 then .error .undefined_behaviour
          else rt_fetch p.1 (stack_rtable pstate query_stack) >>= fun inner =>
            drill inner p.2 location query_stack := by
  unfold drill_down_to_base_rel_body
  simp only [hk, drill_join_alias_vars_eq]
  cases drill_loop (look_join_alias rte.fields.joinaliasvars location) attnums 0 [] with
  | error f => rfl
  | ok p =>
      obtain ⟨k, next⟩ := p
      simp only [ok_bind]
      by_cases hk0 : k = 0
      · simp only [hk0, if_true]
        rfl
      · simp only [hk0, if_false]
        rfl

theorem drill_body_group_case {cat : Catalog} {pstate : ParseState}
    {drill : RangeTblEntry → List Int → Int → QueryStack →
      Except Fault (RangeTblEntry × List Int)}
    {rte : RangeTblEntry} (hk : rte.rtekind = .RTE_GROUP) (attnums : List Int)
    (location : Int) (query_stack : QueryStack) :
    drill_down_to_base_rel_body cat pstate drill rte attnums location query_stack =
      (drill_loop (look_group_expr rte.fields.groupexprs location) attnums 0 []) >>=
        fun p =>
          if p.1 = 0 then .error (err_group_no_columns location)
          else rt_fetch p.1 (stack_rtable pstate query_stack) >>= fun inner =>
            drill inner p.2 location query_stack := by
  unfold drill_down_to_base_rel_body
  simp only [hk, drill_group_exprs_eq]
  cases drill_loop (look_group_expr rte.fields.groupexprs location) attnums 0 [] with
  | error f => rfl
  | ok p =>
      obtain ⟨k, next⟩ := p
      simp only [ok_bind]
      by_cases hk0 : k = 0
      · simp only [hk0, if_true]
        rfl
      · simp only [hk0, if_false]
        rfl

/-- The drill-down at an entry that is neither a join nor a GROUP entry: the base table
itself, an error, or the drill-down of the inner query, whatever the recursive call is. -/
theorem drill_body_query_case (cat : Catalog) (pstate : ParseState)
    (rte : RangeTblEntry) (attnums : List Int) (location : Int) (query_stack : QueryStack)
    (hj : rte.rtekind ≠ .RTE_JOIN) (hg : rte.rtekind ≠ .RTE_GROUP) :
    (∃ rel, rte.rtekind = .RTE_RELATION ∧ cat.relations rte.relid = some rel ∧
      IsBaseTableKind rel.relkind ∧
      ∀ drill, drill_down_to_base_rel_body cat pstate drill rte attnums location
        query_stack = .ok (rte, attnums)) ∨
    (∃ f, f ≠ .out_of_fuel ∧ AtClausePosition location f ∧
      ∀ drill, drill_down_to_base_rel_body cat pstate drill rte attnums location
        query_stack = .error f) ∨
    (∃ q, LeafInnerQuery cat pstate query_stack rte q ∧
      ∀ drill, drill_down_to_base_rel_body cat pstate drill rte attnums location
        query_stack = drill_down_to_base_rel_query_body drill q attnums location
          query_stack) := by
  unfold drill_down_to_base_rel_body
  cases hk : rte.rtekind with
  | RTE_JOIN => exact absurd hk hj
  | RTE_GROUP => exact absurd hk hg
  | RTE_RELATION =>
      dsimp only
      unfold table_open
      cases hrel : cat.relations rte.relid with
      | none =>
          exact Or.inr (Or.inl ⟨_, by simp [elog_error],
            fun e he => (by cases he; exact Or.inr ⟨rfl, rfl⟩), fun _ => rfl⟩)
      | some rel =>
          simp only [ok_bind]
          cases hrk : rel.relkind with
          | RELKIND_VIEW =>
              dsimp only
              unfold get_view_query
              cases hq : rel.viewQuery with
              | none =>
                  exact Or.inr (Or.inl ⟨_, by simp [elog_error],
                    fun e he => (by cases he; exact Or.inr ⟨rfl, rfl⟩), fun _ => rfl⟩)
              | some q =>
                  exact Or.inr (Or.inr ⟨q, Or.inl (Or.inr ⟨hk, rel, hrel, hrk, hq⟩),
                    fun _ => rfl⟩)
          | RELKIND_RELATION => exact Or.inl ⟨rel, trivial, rfl, Or.inl hrk, fun _ => rfl⟩
          | RELKIND_PARTITIONED_TABLE =>
              exact Or.inl ⟨rel, trivial, rfl, Or.inr hrk, fun _ => rfl⟩
          | _ =>
              exact Or.inr (Or.inl ⟨_, by simp [err_relation_not_supported],
                at_clause_at rfl, fun _ => rfl⟩)
  | RTE_SUBQUERY =>
      dsimp only
      cases hs : rte.subquery with
      | none =>
          exact Or.inr (Or.inl ⟨_, by simp, fun e he => (by cases he), fun _ => rfl⟩)
      | some q => exact Or.inr (Or.inr ⟨q, Or.inl (Or.inl ⟨hk, hs⟩), fun _ => rfl⟩)
  | RTE_CTE =>
      dsimp only
      cases hc : find_cte_for_rte pstate query_stack rte with
      | error e =>
          exact Or.inr (Or.inl ⟨e, find_cte_for_rte_fueled pstate query_stack rte e hc,
            at_clause_of_silent (find_cte_for_rte_silent pstate query_stack rte e hc),
            fun _ => rfl⟩)
      | ok cte =>
          simp only [ok_bind]
          by_cases hr : cte.cterecursive = true
          · simp only [hr, if_true]
            exact Or.inr (Or.inl ⟨_, by simp [err_relation_not_supported],
              at_clause_at rfl, fun _ => rfl⟩)
          · simp only [hr]
            cases hq : cte.ctequery with
            | none =>
                exact Or.inr (Or.inl ⟨_, by simp, fun e he => (by cases he), fun _ => rfl⟩)
            | some q =>
                exact Or.inr (Or.inr ⟨q, Or.inr ⟨hk, cte, hc, by simpa using hr, hq⟩,
                  fun _ => rfl⟩)
  | _ =>
      exact Or.inr (Or.inl ⟨_, by simp [err_relation_not_supported], at_clause_at rfl,
        fun _ => rfl⟩)

/-! ## The result of the drill-down -/

theorem maps_mem_right {look : Int → Except Fault (Var × Fault)} :
    ∀ (l : List Int) (vs : List Var), MapsToVars look l vs →
      ∀ v ∈ vs, ∃ a ∈ l, ∃ m, look a = .ok (v, m)
  | _, [], _, v, hv => by simp at hv
  | _, w :: vs, h, v, hv => by
      cases h with
      | cons hw hvs =>
          rcases List.mem_cons.mp hv with rfl | hin
          · obtain ⟨m, hw⟩ := hw
            exact ⟨_, List.mem_cons_self _ _, m, hw⟩
          · obtain ⟨a, ha, m, hl⟩ := maps_mem_right _ vs hvs v hin
            exact ⟨a, List.mem_cons_of_mem _ ha, m, hl⟩

theorem forall₂_same {T : Int → Int → Prop} :
    ∀ (l : List Int), (∀ a, T a a) → List.Forall₂ T l l
  | [], _ => .nil
  | a :: l, h => .cons (h a) (forall₂_same l h)

theorem demo_leaf_inner_sub {pstate : ParseState} {query_stack : QueryStack} {id : RTEId}
    {aliasname : String} {q0 q : Query}
    (h : LeafInnerQuery Demo.cat pstate query_stack (Demo.rte_sub id aliasname q0) q) :
    q = q0 := by
  rcases h with (⟨_, hs⟩ | ⟨hk, _⟩) | ⟨hk, _⟩
  · exact (Option.some.inj hs).symm
  · cases hk
  · cases hk

theorem demo_leaf_inner_t1 {pstate : ParseState} {query_stack : QueryStack} {id : RTEId}
    {q : Query} : ¬ LeafInnerQuery Demo.cat pstate query_stack (Demo.rte_t1_as id) q := by
  intro h
  rcases h with (⟨hk, _⟩ | ⟨_, rel, hrel, hrk, _⟩) | ⟨hk, _⟩
  · cases hk
  · have hr : rel = Demo.t1_rel := (Option.some.inj hrel).symm
    rw [hr] at hrk
    cases hrk
  · cases hk

theorem list_nth_fueled {α : Type} (l : List α) (n : Int) :
    Errs (fun f => f ≠ .out_of_fuel) (list_nth l n) := by
  unfold list_nth
  split
  · exact errs_error (by simp)
  · split
    · exact errs_ok _
    · exact errs_error (by simp)

theorem look_join_alias_fueled (joinaliasvars : List Node) (location a : Int) :
    Errs (fun f => f ≠ .out_of_fuel) (look_join_alias joinaliasvars location a) := by
  unfold look_join_alias
  refine errs_bind (list_nth_fueled _ _) fun node => ?_
  cases node <;> first | exact errs_ok _ | exact errs_error (by simp [err_join_alias_not_var])

theorem look_group_expr_fueled (groupexprs : List Node) (location a : Int) :
    Errs (fun f => f ≠ .out_of_fuel) (look_group_expr groupexprs location a) := by
  unfold look_group_expr
  split
  · split
    · exact errs_ok _
    · exact errs_error (by simp [err_group_not_var])
  · exact errs_error (by simp [err_group_not_var])

theorem look_target_entry_fueled (targetList : List TargetEntry) (location a : Int) :
    Errs (fun f => f ≠ .out_of_fuel) (look_target_entry targetList location a) := by
  unfold look_target_entry
  refine errs_bind (list_nth_fueled _ _) fun tle => ?_
  split
  · exact errs_ok _
  · exact errs_error (by simp [err_target_not_var])

/-- One step `drill_loop look attnums 0 [] >>= continue` either ends by itself, with the
same outcome whatever the continuation, or is the continuation on an entry fetched at the
index of one of the column references. -/
theorem drill_step_tail {look : Int → Except Fault (Var × Fault)} (attnums : List Int)
    (z : Fault) (rtable : List RangeTblEntry)
    (hlook : ∀ a, Errs (fun f => f ≠ .out_of_fuel) (look a))
    (hmis : ∀ a v m, look a = .ok (v, m) → m ≠ .out_of_fuel) (hz : z ≠ .out_of_fuel) :
    (∃ c : Except Fault (RangeTblEntry × List Int), c ≠ .error .out_of_fuel ∧
      ∀ next : RangeTblEntry → List Int → Except Fault (RangeTblEntry × List Int),
        ((drill_loop look attnums 0 []) >>= fun p =>
          if p.1 = 0 then .error z
          else rt_fetch p.1 rtable >>= fun inner => next inner p.2) = c) ∨
    (∃ vars k inner, StepVars look attnums vars k ∧ rt_fetch k rtable = .ok inner ∧
      ∀ next : RangeTblEntry → List Int → Except Fault (RangeTblEntry × List Int),
        ((drill_loop look attnums 0 []) >>= fun p =>
          if p.1 = 0 then .error z
          else rt_fetch p.1 rtable >>= fun inner => next inner p.2) =
        next inner (vars.map (fun v => v.varattno))) := by
  cases hloop : drill_loop look attnums 0 [] with
  | error f =>
      refine Or.inl ⟨.error f, ?_, fun _ => rfl⟩
      obtain ⟨a, _, ha | ⟨v, ha⟩⟩ := drill_loop_error_cases attnums 0 [] f hloop
      · intro hc
        exact hlook a f ha (Except.error.inj hc)
      · intro hc
        exact hmis a v f ha (Except.error.inj hc)
  | ok p =>
      obtain ⟨k, nxt⟩ := p
      simp only [ok_bind]
      by_cases hk0 : k = 0
      · refine Or.inl ⟨.error z, ?_, fun _ => by rw [if_pos hk0]⟩
        intro hc
        exact hz (Except.error.inj hc)
      · cases hf : rt_fetch k rtable with
        | error e =>
            refine Or.inl ⟨.error e, ?_, fun _ => by rw [if_neg hk0]; rfl⟩
            intro hc
            exact list_nth_fueled rtable (k - 1) e hf (Except.error.inj hc)
        | ok inner =>
            obtain ⟨vars, hm, hnext, hall, _, hex⟩ := drill_loop_ok_vars attnums 0 [] k nxt hloop
            have hex2 : ∃ v ∈ vars, v.varno = k := by
              rcases hex with hk | hex
              · exact absurd hk hk0
              · exact hex
            have hn : nxt = vars.map (fun v => v.varattno) := by simpa using hnext
            refine Or.inr ⟨vars, k, inner, ⟨hm, hk0, hex2, hall⟩, hf, fun _ => ?_⟩
            rw [if_neg hk0, hn]
            rfl

theorem look_join_alias_mismatch_fueled (joinaliasvars : List Node) (location a : Int)
    (v : Var) (m : Fault) (h : look_join_alias joinaliasvars location a = .ok (v, m)) :
    m ≠ .out_of_fuel := by
  rw [(look_join_alias_ok h).2]
  simp [err_not_same_table]

theorem look_group_expr_mismatch_fueled (groupexprs : List Node) (location a : Int)
    (v : Var) (m : Fault) (h : look_group_expr groupexprs location a = .ok (v, m)) :
    m ≠ .out_of_fuel := by
  rw [(look_group_expr_ok h).2]
  simp [err_not_same_table]

theorem look_target_entry_mismatch_fueled (targetList : List TargetEntry)
    (location a : Int) (v : Var) (m : Fault)
    (h : look_target_entry targetList location a = .ok (v, m)) : m ≠ .out_of_fuel := by
  rw [(look_target_entry_ok h).2]
  simp [err_not_same_table]

/-- The drill-down of a query either ends by itself or is the recursive call on an entry
of the range table of the query, under the stack extended by the query. -/
theorem drill_query_body_tail (query : Query) (attnums : List Int) (location : Int)
    (query_stack : QueryStack) :
    (∃ c : Except Fault (RangeTblEntry × List Int), c ≠ .error .out_of_fuel ∧
      ∀ drill, drill_down_to_base_rel_query_body drill query attnums location
        query_stack = c) ∨
    (∃ inner inner_attnums, inner ∈ query.rtable ∧
      ∀ drill, drill_down_to_base_rel_query_body drill query attnums location
        query_stack = drill inner inner_attnums location (query :: query_stack)) := by
  by_cases hq : QueryDrillable query
  · rcases drill_step_tail attnums .undefined_behaviour query.rtable
        (look_target_entry_fueled query.fields.targetList location)
        (look_target_entry_mismatch_fueled query.fields.targetList location)
        (by simp) with ⟨c, hc, heq⟩ | ⟨vars, k, inner, _, hf, heq⟩
    · refine Or.inl ⟨c, hc, fun drill => ?_⟩
      rw [drill_query_body_case hq]
      exact heq fun inner l => drill inner l location (query :: query_stack)
    · refine Or.inr ⟨inner, vars.map (fun v => v.varattno), rt_fetch_mem hf, fun drill => ?_⟩
      rw [drill_query_body_case hq]
      exact heq fun inner l => drill inner l location (query :: query_stack)
  · refine Or.inl ⟨_, ?_, fun drill => drill_query_body_gate hq attnums location
      query_stack⟩
    split <;> simp [err_set_operations, err_query_not_supported]

/-- One level of `drill_down_to_base_rel` either ends by itself, with the same outcome
whatever the recursive call, or is the recursive call on the entry of one step. -/
theorem drill_body_tail (cat : Catalog) (pstate : ParseState) (rte : RangeTblEntry)
    (attnums : List Int) (location : Int) (query_stack : QueryStack) :
    (∃ c : Except Fault (RangeTblEntry × List Int), c ≠ .error .out_of_fuel ∧
      ∀ drill, drill_down_to_base_rel_body cat pstate drill rte attnums location
        query_stack = c) ∨
    (∃ next_rte next_attnums next_stack,
      DrillStep cat pstate rte query_stack next_rte next_stack ∧
      ∀ drill, drill_down_to_base_rel_body cat pstate drill rte attnums location
        query_stack = drill next_rte next_attnums location next_stack) := by
  by_cases hj : rte.rtekind = .RTE_JOIN
  · rcases drill_step_tail attnums .undefined_behaviour (stack_rtable pstate query_stack)
        (look_join_alias_fueled rte.fields.joinaliasvars location)
        (look_join_alias_mismatch_fueled rte.fields.joinaliasvars location)
        (by simp) with ⟨c, hc, heq⟩ | ⟨vars, k, inner, ⟨hm, _, ⟨w, hw, hwk⟩, _⟩, hf, heq⟩
    · refine Or.inl ⟨c, hc, fun drill => ?_⟩
      rw [drill_body_join_case hj]
      exact heq fun inner l => drill inner l location query_stack
    · refine Or.inr ⟨inner, vars.map (fun v => v.varattno), query_stack, ?_, fun drill => ?_⟩
      · obtain ⟨a, _, m, hl⟩ := maps_mem_right _ _ hm w hw
        exact Or.inr ⟨rfl, w, Or.inl ⟨hj, (look_join_alias_ok hl).1⟩, by rw [hwk]; exact hf⟩
      · rw [drill_body_join_case hj]
        exact heq fun inner l => drill inner l location query_stack
  · by_cases hg : rte.rtekind = .RTE_GROUP
    · rcases drill_step_tail attnums (err_group_no_columns location)
          (stack_rtable pstate query_stack)
          (look_group_expr_fueled rte.fields.groupexprs location)
          (look_group_expr_mismatch_fueled rte.fields.groupexprs location)
          (by simp [err_group_no_columns])
        with ⟨c, hc, heq⟩ | ⟨vars, k, inner, ⟨hm, _, ⟨w, hw, hwk⟩, _⟩, hf, heq⟩
      · refine Or.inl ⟨c, hc, fun drill => ?_⟩
        rw [drill_body_group_case hg]
        exact heq fun inner l => drill inner l location query_stack
      · refine Or.inr ⟨inner, vars.map (fun v => v.varattno), query_stack, ?_, fun drill => ?_⟩
        · obtain ⟨a, _, m, hl⟩ := maps_mem_right _ _ hm w hw
          exact Or.inr ⟨rfl, w, Or.inr ⟨hg, (look_group_expr_ok hl).1⟩,
            by rw [hwk]; exact hf⟩
        · rw [drill_body_group_case hg]
          exact heq fun inner l => drill inner l location query_stack
    · rcases drill_body_query_case cat pstate rte attnums location query_stack hj hg
        with ⟨rel, _, _, _, heq⟩ | ⟨f, hf, _, heq⟩ | ⟨q, hinner, heq⟩
      · exact Or.inl ⟨_, by simp, heq⟩
      · exact Or.inl ⟨_, fun hc => hf (Except.error.inj hc), heq⟩
      · rcases drill_query_body_tail q attnums location query_stack
          with ⟨c, hc, hq⟩ | ⟨inner, inner_attnums, hin, hq⟩
        · exact Or.inl ⟨c, hc, fun drill => (heq drill).trans (hq drill)⟩
        · exact Or.inr ⟨inner, inner_attnums, q :: query_stack,
            Or.inl ⟨q, hinner, hin, rfl⟩, fun drill => (heq drill).trans (hq drill)⟩

theorem drill_terminates_mono {cat : Catalog} {pstate : ParseState} {fuel more : Nat}
    {rte : RangeTblEntry} {query_stack : QueryStack} (hle : fuel ≤ more)
    (h : DrillTerminates cat pstate fuel rte query_stack) :
    DrillTerminates cat pstate more rte query_stack := by
  intro attnums location
  obtain ⟨result, hr, hall⟩ := h attnums location
  exact ⟨result, hr, fun n hn => hall n (le_trans hle hn)⟩

/-- If every entry one step away terminates within `fuel` levels, the entry terminates
within `fuel + 1` levels. -/
theorem drill_terminates_step {cat : Catalog} {pstate : ParseState} {fuel : Nat}
    {rte : RangeTblEntry} {query_stack : QueryStack}
    (hnext : ∀ next_rte next_stack, DrillStep cat pstate rte query_stack next_rte next_stack →
      DrillTerminates cat pstate fuel next_rte next_stack) :
    DrillTerminates cat pstate (fuel + 1) rte query_stack := by
  intro attnums location
  rcases drill_body_tail cat pstate rte attnums location query_stack
    with ⟨c, hc, heq⟩ | ⟨next_rte, next_attnums, next_stack, hstep, heq⟩
  · refine ⟨c, hc, fun n hn => ?_⟩
    obtain ⟨m, rfl⟩ : ∃ m, n = m + 1 := ⟨n - 1, by omega⟩
    rw [drill_down_to_base_rel_succ]
    exact heq _
  · obtain ⟨result, hr, hall⟩ := hnext next_rte next_stack hstep next_attnums location
    refine ⟨result, hr, fun n hn => ?_⟩
    obtain ⟨m, rfl⟩ : ∃ m, n = m + 1 := ⟨n - 1, by omega⟩
    rw [drill_down_to_base_rel_succ, heq]
    exact hall m (by omega)

theorem leaf_inner_query_unique {cat : Catalog} {pstate : ParseState}
    {query_stack : QueryStack} {rte : RangeTblEntry} {q1 q2 : Query}
    (h1 : LeafInnerQuery cat pstate query_stack rte q1)
    (h2 : LeafInnerQuery cat pstate query_stack rte q2) : q1 = q2 := by
  rcases h1 with (⟨hk1, hs1⟩ | ⟨hk1, rel1, hrel1, _, hq1⟩) | ⟨hk1, cte1, hc1, _, hq1⟩ <;>
    rcases h2 with (⟨hk2, hs2⟩ | ⟨hk2, rel2, hrel2, _, hq2⟩) | ⟨hk2, cte2, hc2, _, hq2⟩
  · rw [hs1] at hs2
    exact Option.some.inj hs2
  · rw [hk1] at hk2
    cases hk2
  · rw [hk1] at hk2
    cases hk2
  · rw [hk1] at hk2
    cases hk2
  · rw [hrel1] at hrel2
    cases Option.some.inj hrel2
    rw [hq1] at hq2
    exact Option.some.inj hq2
  · rw [hk1] at hk2
    cases hk2
  · rw [hk1] at hk2
    cases hk2
  · rw [hk1] at hk2
    cases hk2
  · rw [hc1] at hc2
    cases Except.ok.inj hc2
    rw [hq1] at hq2
    exact Option.some.inj hq2

theorem rt_fetch_index {k : Int} {rtable : List RangeTblEntry} {rte : RangeTblEntry}
    (h : rt_fetch k rtable = .ok rte) : 1 ≤ k ∧ rtable[(k - 1).toNat]? = some rte := by
  unfold rt_fetch list_nth at h
  by_cases hneg : k - 1 < 0
  · rw [if_pos hneg] at h
    cases h
  · rw [if_neg hneg] at h
    cases hn : rtable[(k - 1).toNat]? with
    | none =>
        rw [hn] at h
        cases h
    | some a =>
        rw [hn] at h
        exact ⟨by omega, by rw [Except.ok.inj h]⟩

/-- The entries of one range table terminate, the entry at position `j` within
`fuel + j + 1` levels, when the range table is ordered and the entries of the range tables
of its inner queries terminate within `fuel` levels. -/
theorem drill_level_terminates {cat : Catalog} {pstate : ParseState}
    {query_stack : QueryStack} {fuel : Nat}
    (hord : RtableOrdered (stack_rtable pstate query_stack))
    (hinner : ∀ rte ∈ stack_rtable pstate query_stack, ∀ q,
      LeafInnerQuery cat pstate query_stack rte q →
        ∀ inner ∈ q.rtable, DrillTerminates cat pstate fuel inner (q :: query_stack)) :
    ∀ (j : Nat) (rte : RangeTblEntry), (stack_rtable pstate query_stack)[j]? = some rte →
      DrillTerminates cat pstate (fuel + j + 1) rte query_stack := by
  intro j
  induction j using Nat.strong_induction_on with
  | _ j ih =>
      intro rte hj
      apply drill_terminates_step
      intro next_rte next_stack hstep
      have hsmaller : ∀ v : Var, v.varno < (j : Int) + 1 →
          rt_fetch v.varno (stack_rtable pstate query_stack) = .ok next_rte →
          DrillTerminates cat pstate (fuel + j) next_rte query_stack := by
        intro v hv hf
        obtain ⟨h1, hidx⟩ := rt_fetch_index hf
        have hi : (v.varno - 1).toNat < j := by omega
        exact drill_terminates_mono (by omega) (ih _ hi next_rte hidx)
      rcases hstep with ⟨q, hq, hin, rfl⟩ | ⟨rfl, v, ⟨hk, hv⟩ | ⟨hk, hv⟩, hf⟩
      · exact drill_terminates_mono (by omega)
          (hinner rte (List.getElem?_mem hj) q hq next_rte hin)
      · exact hsmaller v ((hord j rte hj).1 hk v hv) hf
      · exact hsmaller v ((hord j rte hj).2 hk v hv) hf

theorem exists_uniform_bound {α β : Type} (R : α → β → Prop) (Φ : β → Nat → Prop)
    (hmono : ∀ b m n, m ≤ n → Φ b m → Φ b n)
    (huniq : ∀ a b1 b2, R a b1 → R a b2 → b1 = b2) :
    ∀ l : List α, (∀ a ∈ l, ∀ b, R a b → ∃ N, Φ b N) →
      ∃ G, ∀ a ∈ l, ∀ b, R a b → Φ b G
  | [], _ => ⟨0, fun _ ha => by cases ha⟩
  | a :: l, h => by
      obtain ⟨G, hG⟩ := exists_uniform_bound R Φ hmono huniq l
        fun x hx => h x (List.mem_cons_of_mem _ hx)
      by_cases hex : ∃ b, R a b
      · obtain ⟨b0, hb0⟩ := hex
        obtain ⟨N, hN⟩ := h a (List.mem_cons_self _ _) b0 hb0
        refine ⟨max G N, fun x hx b hb => ?_⟩
        rcases List.mem_cons.mp hx with rfl | hx
        · rw [huniq _ b b0 hb hb0]
          exact hmono _ _ _ (le_max_right _ _) hN
        · exact hmono _ _ _ (le_max_left _ _) (hG x hx b hb)
      · refine ⟨G, fun x hx b hb => ?_⟩
        rcases List.mem_cons.mp hx with rfl | hx
        · exact absurd ⟨b, hb⟩ hex
        · exact hG x hx b hb

theorem drill_nested_terminates (cat : Catalog) (pstate : ParseState) :
    ∀ (depth : Nat) (query_stack : QueryStack), NestedWithin cat pstate depth query_stack →
      ∃ fuel, ∀ rte ∈ stack_rtable pstate query_stack,
        DrillTerminates cat pstate fuel rte query_stack
  | 0, query_stack, ⟨hord, hno⟩ => by
      refine ⟨0 + (stack_rtable pstate query_stack).length + 1, fun rte hrte => ?_⟩
      obtain ⟨j, hlt, hj⟩ := List.getElem_of_mem hrte
      have hj2 : (stack_rtable pstate query_stack)[j]? = some rte := by
        rw [List.getElem?_eq_getElem hlt, hj]
      have hlevel : DrillTerminates cat pstate (0 + j + 1) rte query_stack :=
        drill_level_terminates hord (fun r hr q hq => absurd hq (hno r hr q)) j rte hj2
      exact drill_terminates_mono (by omega) hlevel
  | depth + 1, query_stack, ⟨hord, hnest⟩ => by
      obtain ⟨G, hG⟩ := exists_uniform_bound
        (fun rte q => LeafInnerQuery cat pstate query_stack rte q)
        (fun q N => ∀ inner ∈ q.rtable,
          DrillTerminates cat pstate N inner (q :: query_stack))
        (fun q m n hmn h inner hin => drill_terminates_mono hmn (h inner hin))
        (fun _ _ _ h1 h2 => leaf_inner_query_unique h1 h2)
        (stack_rtable pstate query_stack)
        (fun rte hrte q hq =>
          drill_nested_terminates cat pstate depth (q :: query_stack) (hnest rte hrte q hq))
      refine ⟨G + (stack_rtable pstate query_stack).length + 1, fun rte hrte => ?_⟩
      obtain ⟨j, hlt, hj⟩ := List.getElem_of_mem hrte
      have hj2 : (stack_rtable pstate query_stack)[j]? = some rte := by
        rw [List.getElem?_eq_getElem hlt, hj]
      have hlevel := drill_level_terminates hord hG j rte hj2
      exact drill_terminates_mono (by omega) hlevel

theorem rtable_ordered_pair {a b : RangeTblEntry}
    (ha : a.rtekind ≠ .RTE_JOIN ∧ a.rtekind ≠ .RTE_GROUP)
    (hb : (b.rtekind = .RTE_JOIN → ∀ v, Node.Var v ∈ b.fields.joinaliasvars → v.varno < 2) ∧
      (b.rtekind = .RTE_GROUP → ∀ v, Node.Var v ∈ b.fields.groupexprs → v.varno < 2)) :
    RtableOrdered [a, b] := by
  intro j rte hj
  rcases j with _ | _ | j
  · have h : a = rte := Option.some.inj hj
    subst h
    exact ⟨fun hk => absurd hk ha.1, fun hk => absurd hk ha.2⟩
  · have h : b = rte := Option.some.inj hj
    subst h
    exact hb
  · cases hj

theorem demo_leaf_inner_t2 {pstate : ParseState} {query_stack : QueryStack} {q : Query} :
    ¬ LeafInnerQuery Demo.cat pstate query_stack Demo.rte_t2 q := by
  intro h
  rcases h with (⟨hk, _⟩ | ⟨_, rel, hrel, hrk, _⟩) | ⟨hk, _⟩
  · cases hk
  · have hr : rel = Demo.t2_rel := (Option.some.inj hrel).symm
    rw [hr] at hrk
    cases hrk
  · cases hk

theorem demo_leaf_inner_group {pstate : ParseState} {query_stack : QueryStack}
    {id : RTEId} {exprs : List Node} {q : Query} :
    ¬ LeafInnerQuery Demo.cat pstate query_stack (Demo.rte_group id exprs) q := by
  intro h
  rcases h with (⟨hk, _⟩ | ⟨hk, _⟩) | ⟨hk, _⟩ <;> cases hk

/-- The range table of `FROM (SELECT c1, max(c2) FROM t1 GROUP BY c1) AS g JOIN t2 ...` is
ordered and nested one level deep. -/
theorem demo_group_nested :
    NestedWithin Demo.cat (Demo.pstate_of Demo.rte_g1) 1 [] := by
  refine ⟨rtable_ordered_pair (a := Demo.rte_g1) (b := Demo.rte_t2)
    ⟨fun h => (by cases h), fun h => (by cases h)⟩
    ⟨fun h => (by cases h), fun h => (by cases h)⟩, ?_⟩
  intro rte hrte q hq
  have hmem : rte = Demo.rte_g1 ∨ rte = Demo.rte_t2 := by
    simpa [stack_rtable, Demo.pstate_of] using hrte
  rcases hmem with rfl | rfl
  · have hq0 := demo_leaf_inner_sub hq
    subst hq0
    refine ⟨rtable_ordered_pair (a := Demo.rte_t1_as 81)
      (b := Demo.rte_group 82 [.Var { varno := 1, varattno := 1 }])
      ⟨fun h => (by cases h), fun h => (by cases h)⟩
      ⟨fun h => (by cases h), fun _ v hv => ?_⟩, ?_⟩
    · have hv1 : Node.Var v = .Var { varno := 1, varattno := 1 } := by
        simpa [Demo.rte_group, RangeTblEntry.fields] using hv
      cases hv1
      decide
    · intro inner hinner q2 hq2
      have hmem2 : inner = Demo.rte_t1_as 81 ∨
          inner = Demo.rte_group 82 [.Var { varno := 1, varattno := 1 }] := by
        simpa [stack_rtable, Demo.group_by_query, Query.rtable] using hinner
      rcases hmem2 with rfl | rfl
      · exact demo_leaf_inner_t1 hq2
      · exact demo_leaf_inner_group hq2
  · exact absurd hq demo_leaf_inner_t2

/-! ## Claim C39 -/

/-- Claim C39. On a range table whose views, subqueries and CTEs are nested at most
`depth` deep, every join and GROUP entry on the way referring only to entries with a
strictly smaller index of its own range table (`NestedWithin`), `drill_down_to_base_rel`
terminates on every entry: some bound of the recursion is enough, and with that bound or
any larger one the call ends with one and the same result or error, which is not the
exhaustion of the bound.  The same holds for `drill_down_to_base_rel_query` on a query
whose range table is so nested.  The proof is by induction on the nesting depth and, within
one range table, on the index of the entry. -/
theorem drill_down_terminates (cat : Catalog) (pstate : ParseState) (depth : Nat)
    (query_stack : QueryStack) :
    (NestedWithin cat pstate depth query_stack →
      ∃ fuel, ∀ rte ∈ stack_rtable pstate query_stack,
        ∀ (attnums : List Int) (location : Int), ∃ result,
          result ≠ .error .out_of_fuel ∧
          ∀ n, fuel ≤ n →
            drill_down_to_base_rel cat pstate n rte attnums location query_stack =
              result) ∧
    (∀ query : Query, NestedWithin cat pstate depth (query :: query_stack) →
      ∃ fuel, ∀ (attnums : List Int) (location : Int), ∃ result,
        result ≠ .error .out_of_fuel ∧
        ∀ n, fuel ≤ n →
          drill_down_to_base_rel_query cat pstate n query attnums location query_stack =
            result) := by
  refine ⟨fun h => drill_nested_terminates cat pstate depth query_stack h, ?_⟩
  intro query hnested
  obtain ⟨fuel, hfuel⟩ := drill_nested_terminates cat pstate depth (query :: query_stack)
    hnested
  refine ⟨fuel, fun attnums location => ?_⟩
  rcases drill_query_body_tail query attnums location query_stack
    with ⟨c, hc, heq⟩ | ⟨inner, inner_attnums, hin, heq⟩
  · exact ⟨c, hc, fun n _ => heq _⟩
  · obtain ⟨result, hr, hall⟩ := hfuel inner hin inner_attnums location
    refine ⟨result, hr, fun n hn => ?_⟩
    unfold drill_down_to_base_rel_query
    rw [heq]
    exact hall n hn

/-- Witness for C39: the range table of
`FROM (SELECT c1, max(c2) FROM t1 GROUP BY c1) AS g JOIN t2 ...`, nested one level deep,
whose GROUP entry (index 2) refers to the `t1` entry (index 1); the drill-down of `g.c1`
ends at `t1.c1` within three levels. -/
theorem drill_down_terminates_witness :
    NestedWithin Demo.cat (Demo.pstate_of Demo.rte_g1) 1 [] ∧
    (∃ fuel, ∀ rte ∈ stack_rtable (Demo.pstate_of Demo.rte_g1) [],
      ∀ (attnums : List Int) (location : Int), ∃ result,
        result ≠ .error .out_of_fuel ∧
        ∀ n, fuel ≤ n →
          drill_down_to_base_rel Demo.cat (Demo.pstate_of Demo.rte_g1) n rte attnums
            location [] = result) ∧
    drill_down_to_base_rel Demo.cat (Demo.pstate_of Demo.rte_g1) 3 Demo.rte_g1 [1] 7 [] =
      .ok (Demo.rte_t1_as 81, [1]) :=
  ⟨demo_group_nested,
    (drill_down_terminates Demo.cat (Demo.pstate_of Demo.rte_g1) 1 []).1 demo_group_nested,
    rfl⟩

/-! ## The members of the property sets -/

/-- A tree the drill-down does not let through. The subquery
`(SELECT c1, max(c2) FROM mv GROUP BY c1) AS g` groups the materialized view `mv` by the
column of its unique index.  The drill-down of `g.c1` ends at `mv` and rejects the
relation kind, and so does the validator, which drills down before it analyses.  Were the
analyzer run on this tree all the same, the leaf rule would pass over the entry of `mv`
and the GROUP BY test, which looks at the entry kind and the indexes only, would put the
identity 331 of that entry into the UniquenessSet. -/
theorem grouped_matview_in_uniqueness_set :
    analyze_join_tree Demo.cat_mv (Demo.pstate_of Demo.rte_gmv) 6 (.RangeTblRef 1) none 33
        {} 7 [] = .ok { uniqueness_preservation := [331], functional_dependencies := [] } ∧
    (([Demo.rte_gmv, Demo.rte_t2, Demo.rte_mv_as 331,
        Demo.rte_group 332 [.Var { varno := 1, varattno := 1 }]].filter
          (fun rte => rte.rteid = 331)).map
        (fun rte => (rte.rtekind, (Demo.cat_mv.relations rte.relid).map
          (fun rel => rel.relkind)))) = [(.RTE_RELATION, some .RELKIND_MATVIEW)] ∧
    drill_down_to_base_rel Demo.cat_mv (Demo.pstate_of Demo.rte_gmv) 6 Demo.rte_gmv [1] 7
        [] = .error (err_relation_not_supported (some "relkind not supported") 7) ∧
    transformAndValidateForeignKeyJoin Demo.cat_mv (Demo.pstate_of Demo.rte_gmv) 6
        (Demo.join_to "g") (Demo.ns_t2 2) [Demo.ns_derived "g" 1] =
      .error (err_relation_not_supported (some "relkind not supported") 7) := by
  refine ⟨rfl, rfl, ?_, ?_⟩
  · rfl
  · rfl

end FkJoin
